import Mathlib

/-!
# goldmarkSamples: the script-building renderer (rendererV3)

A shallow embedding of `rendererV3/md2jsV3.go`.

* Byte strings that the code inspects byte by byte (URL destinations) are
  lists of naturals below 256 (`Bytes`).
* Text that is only concatenated into the output is a `String`.
* The output sink is the sequence of writes made on it (`List String`); the
  emitted script is their concatenation.
* Library functions the renderer calls are either modelled after their Go
  implementation (`bytes.ToLower`, `bytes.Map`, `utf8.DecodeRune`,
  `utf8.AppendRune`) or kept as parameters (`Ext`).
-/

namespace Md2Js

/-! ## Go standard library: `unicode/utf8`, `unicode`, `bytes` -/

/-- A byte string: every element is meant to be below 256. -/
abbrev Bytes := List Nat

/-- The bytes of an ASCII literal of the source. -/
def lit (s : String) : Bytes := s.data.map Char.toNat

/-- The value `utf8.RuneError`. -/
def RuneError : Int := 0xFFFD

/-- The value `utf8.RuneSelf`. -/
def RuneSelf : Nat := 0x80

/-- The value `utf8.MaxRune`. -/
def MaxRune : Int := 0x10FFFF

/-- Entry of the table `utf8.first` for a lead byte that starts a multi-byte
sequence: the sequence size and the accepted range of the second byte.
`none` is the entry `xx` (illegal lead byte). -/
def firstInfo (p0 : Nat) : Option (Nat × Nat × Nat) :=
  if p0 < 0xC2 then none
  else if p0 < 0xE0 then some (2, 0x80, 0xBF)
  else if p0 = 0xE0 then some (3, 0xA0, 0xBF)
  else if p0 < 0xED then some (3, 0x80, 0xBF)
  else if p0 = 0xED then some (3, 0x80, 0x9F)
  else if p0 < 0xF0 then some (3, 0x80, 0xBF)
  else if p0 = 0xF0 then some (4, 0x90, 0xBF)
  else if p0 < 0xF4 then some (4, 0x80, 0xBF)
  else if p0 = 0xF4 then some (4, 0x80, 0x8F)
  else none

/-- Go `utf8.DecodeRune`: the first rune of `p` and its width in bytes.
The masks `p0&mask2`, `b&maskx` are written as remainders and the shifts as
products. -/
def decodeRune (p : Bytes) : Int × Nat :=
  match p with
  | [] => (RuneError, 0)
  | p0 :: t =>
    if p0 < RuneSelf then ((p0 : Int), 1)
    else
      match firstInfo p0 with
      | none => (RuneError, 1)
      | some (sz, lo, hi) =>
        if t.length + 1 < sz then (RuneError, 1)
        else
          match t with
          | [] => (RuneError, 1)
          | b1 :: t1 =>
            if b1 < lo ∨ hi < b1 then (RuneError, 1)
            else if sz ≤ 2 then (((p0 % 32 * 64 + b1 % 64 : Nat) : Int), 2)
            else
              match t1 with
              | [] => (RuneError, 1)
              | b2 :: t2 =>
                if b2 < 0x80 ∨ 0xBF < b2 then (RuneError, 1)
                else if sz ≤ 3 then
                  (((p0 % 16 * 4096 + b1 % 64 * 64 + b2 % 64 : Nat) : Int), 3)
                else
                  match t2 with
                  | [] => (RuneError, 1)
                  | b3 :: _ =>
                    if b3 < 0x80 ∨ 0xBF < b3 then (RuneError, 1)
                    else
                      (((p0 % 8 * 262144 + b1 % 64 * 4096 + b2 % 64 * 64 + b3 % 64 : Nat) : Int), 4)

/-- Go `utf8.AppendRune` applied to the empty slice, for a rune `r ≥ 0`. -/
def appendRune (r : Int) : Bytes :=
  let i := r.toNat
  if i ≤ 0x7F then [i]
  else if i ≤ 0x7FF then [0xC0 + i / 64, 0x80 + i % 64]
  else if i > 0x10FFFF ∨ (0xD800 ≤ i ∧ i ≤ 0xDFFF) then [0xEF, 0xBF, 0xBD]
  else if i ≤ 0xFFFF then [0xE0 + i / 4096, 0x80 + i / 64 % 64, 0x80 + i % 64]
  else [0xF0 + i / 262144, 0x80 + i / 4096 % 64, 0x80 + i / 64 % 64, 0x80 + i % 64]

/-- The loop of Go `bytes.Map`; `skip` counts the bytes of the current rune
that are still to be stepped over (`i += wid`). -/
def bytesMapFrom (mapping : Int → Int) : Nat → Bytes → Bytes
  | _, [] => []
  | skip + 1, _ :: rest => bytesMapFrom mapping skip rest
  | 0, c :: rest =>
    let rw : Int × Nat := if c ≥ RuneSelf then decodeRune (c :: rest) else ((c : Int), 1)
    let r := mapping rw.1
    (if r ≥ 0 then appendRune r else []) ++ bytesMapFrom mapping (rw.2 - 1) rest

/-- Go `bytes.Map`. -/
def bytesMap (mapping : Int → Int) (s : Bytes) : Bytes := bytesMapFrom mapping 0 s

/-- Go `unicode.ToLower`. ASCII is handled in the function itself; `tbl`
stands for `unicode.To(unicode.LowerCase, r)`, the lookup in the Unicode
case tables used above ASCII. -/
def unicodeToLower (tbl : Int → Int) (r : Int) : Int :=
  if r ≤ 0x7F then (if 65 ≤ r ∧ r ≤ 90 then r + 32 else r) else tbl r

/-- The ASCII branch of Go `bytes.ToLower` on one byte. -/
def lowerByte (c : Nat) : Nat := if 65 ≤ c ∧ c ≤ 90 then c + 32 else c

/-- Go `bytes.ToLower`. -/
def bytesToLower (tbl : Int → Int) (s : Bytes) : Bytes :=
  if s.all (fun c => decide (c < RuneSelf)) then
    if !(s.any (fun c => decide (65 ≤ c ∧ c ≤ 90))) then s
    else s.map lowerByte
  else bytesMap (unicodeToLower tbl) s

/-! ## The dangerous-URL guard -/

/-- Source `bDataImage`. -/
def bDataImage : Bytes := lit "data:image/"
/-- Source `bPng`. -/
def bPng : Bytes := lit "png;"
/-- Source `bGif`. -/
def bGif : Bytes := lit "gif;"
/-- Source `bJpeg`. -/
def bJpeg : Bytes := lit "jpeg;"
/-- Source `bWebp`. -/
def bWebp : Bytes := lit "webp;"
/-- Source `bSvg`. -/
def bSvg : Bytes := lit "svg+xml;"
/-- Source `bJs`. -/
def bJs : Bytes := lit "javascript:"
/-- Source `bVb`. -/
def bVb : Bytes := lit "vbscript:"
/-- Source `bFile`. -/
def bFile : Bytes := lit "file:"
/-- Source `bData`. -/
def bData : Bytes := lit "data:"

/-- Source `hasPrefix`. -/
def hasPrefix (tbl : Int → Int) (s pfx : Bytes) : Bool :=
  decide (s.length ≥ pfx.length) &&
    (bytesToLower tbl (s.take pfx.length) == bytesToLower tbl pfx)

/-- Source `IsDangerousURL`. -/
def IsDangerousURL (tbl : Int → Int) (url : Bytes) : Bool :=
  if hasPrefix tbl url bDataImage && decide (url.length ≥ 11) then
    let v := url.drop 11
    if hasPrefix tbl v bPng || hasPrefix tbl v bGif ||
        hasPrefix tbl v bJpeg || hasPrefix tbl v bWebp ||
        hasPrefix tbl v bSvg then
      false
    else true
  else
    hasPrefix tbl url bJs || hasPrefix tbl url bVb ||
      hasPrefix tbl url bFile || hasPrefix tbl url bData

/-- Two bytes are the same up to the case of an ASCII letter. -/
def foldEq (a b : Nat) : Bool :=
  a == b || (decide (65 ≤ a ∧ a ≤ 90) && b == a + 32) ||
    (decide (65 ≤ b ∧ b ≤ 90) && a == b + 32)

/-- The byte string `s` begins with `p`, comparing ASCII letters without
regard to case. -/
def beginsWithFold : Bytes → Bytes → Bool
  | _, [] => true
  | [], _ :: _ => false
  | a :: s, b :: p => foldEq a b && beginsWithFold s p

/-- The exceptions as the specification names them, without the closing `;`
that the source constants carry: `data:image/{png,gif,jpeg,webp,svg+xml}`. -/
def specImageException (url : Bytes) : Bool :=
  beginsWithFold url (lit "data:image/png") || beginsWithFold url (lit "data:image/gif") ||
    beginsWithFold url (lit "data:image/jpeg") || beginsWithFold url (lit "data:image/webp") ||
    beginsWithFold url (lit "data:image/svg+xml")

/-- The exceptions as the source spells them: the media type is followed by
`;`. -/
def sourceImageException (url : Bytes) : Bool :=
  beginsWithFold url (lit "data:image/png;") || beginsWithFold url (lit "data:image/gif;") ||
    beginsWithFold url (lit "data:image/jpeg;") || beginsWithFold url (lit "data:image/webp;") ||
    beginsWithFold url (lit "data:image/svg+xml;")

/-- A case table that leaves every rune as it is; it agrees with the Unicode
tables on `U+FFFD`. Used where a concrete table is needed. -/
def plainTable : Int → Int := fun r => r

/-! ## The document tree (goldmark `ast`) -/

/-- Value of an attribute, an `interface{}` in the source: a byte slice, a
string, an `int`, or a value of any other dynamic type. -/
inductive AttrValue where
  | bytes (b : String)
  | str (s : String)
  | int (i : Int)
  | other
  deriving DecidableEq

/-- Go `ast.Attribute`. -/
structure Attribute where
  Name : String
  Value : AttrValue
  deriving DecidableEq

/-- Go `ast.AutoLinkType`. -/
inductive AutoLinkType where
  | AutoLinkEmail
  | AutoLinkURL
  deriving DecidableEq

/-- The kind of a node with the fields of that kind the renderer reads. Text
taken from the source buffer (`segment.Value(source)`, `line.Value(source)`)
is stored in the node. `Other` is a kind outside the vocabulary of the
renderer (an extension node). `ListNode` and `StringNode` are the kinds
`List` and `String`. -/
inductive Payload where
  | Document
  | Heading (Level : Int)
  | Blockquote
  | CodeBlock (lines : List String)
  | FencedCodeBlock (language : Option String) (lines : List String)
  | HTMLBlock (lines : List String) (closure : Option String)
  | ListNode (Marker : Nat) (Start : Int)
  | ListItem
  | Paragraph
  | TextBlock
  | ThematicBreak
  | AutoLink (typ : AutoLinkType) (url : Bytes)
  | CodeSpan
  | Emphasis (Level : Int)
  | Image (Destination : Bytes) (Title : Option String)
  | Link (Destination : Bytes) (Title : Option String)
  | RawHTML (segments : List String)
  | Text (value : String) (raw softLineBreak hardLineBreak : Bool)
  | StringNode (Value : String) (raw code : Bool)
  | Other (kind : String)

/-- A node of the tree: its kind and fields, its attribute slice (`nil` is
the empty list) and its children in order. The parent and the next sibling of
a node are passed to the handlers that read them. -/
inductive Node where
  | mk (payload : Payload) (attrs : List Attribute) (children : List Node)

/-- The kind and fields of a node. -/
def Node.payload : Node → Payload
  | .mk p _ _ => p

/-- Go `Attributes()`. -/
def Node.attrs : Node → List Attribute
  | .mk _ a _ => a

/-- The children of a node, first child first. -/
def Node.children : Node → List Node
  | .mk _ _ c => c

/-- Go `Kind().String()`. -/
def Payload.kindName : Payload → String
  | .Document => "Document"
  | .Heading _ => "Heading"
  | .Blockquote => "Blockquote"
  | .CodeBlock _ => "CodeBlock"
  | .FencedCodeBlock _ _ => "FencedCodeBlock"
  | .HTMLBlock _ _ => "HTMLBlock"
  | .ListNode _ _ => "List"
  | .ListItem => "ListItem"
  | .Paragraph => "Paragraph"
  | .TextBlock => "TextBlock"
  | .ThematicBreak => "ThematicBreak"
  | .AutoLink _ _ => "AutoLink"
  | .CodeSpan => "CodeSpan"
  | .Emphasis _ => "Emphasis"
  | .Image _ _ => "Image"
  | .Link _ _ => "Link"
  | .RawHTML _ => "RawHTML"
  | .Text _ _ _ _ => "Text"
  | .StringNode _ _ _ => "String"
  | .Other k => k

/-- Go `BaseNode.SetAttribute`: the first attribute of that name is
overwritten in place, otherwise the attribute is appended. -/
def SetAttribute : List Attribute → String → AttrValue → List Attribute
  | [], name, v => [⟨name, v⟩]
  | a :: rest, name, v =>
    if a.Name = name then ⟨name, v⟩ :: rest else a :: SetAttribute rest name v

/-- Go `BaseNode.SetAttributeString` with a string value. -/
def SetAttributeString (attrs : List Attribute) (name value : String) : List Attribute :=
  SetAttribute attrs name (.str value)

/-- Go `BaseNode.AttributeString`: the value of the first attribute of that
name. -/
def AttributeString : List Attribute → String → Option AttrValue
  | [], _ => none
  | a :: rest, name => if a.Name = name then some a.Value else AttributeString rest name

/-- The node with its attribute slice replaced. -/
def Node.setAttrs : Node → List Attribute → Node
  | .mk p _ c, a => .mk p a c

/-! ## Attribute filters (goldmark `util.BytesFilter`) -/

/-- Go `util.BytesFilter`, a set of names. -/
structure BytesFilter where
  elems : List String

/-- Go `BytesFilter.Contains`. -/
def BytesFilter.Contains (f : BytesFilter) (name : String) : Bool := decide (name ∈ f.elems)

/-- Go `BytesFilter.Extend`. -/
def BytesFilter.Extend (f : BytesFilter) (more : List String) : BytesFilter :=
  ⟨f.elems ++ more⟩

/-- Source `GlobalAttributeFilter`. -/
def GlobalAttributeFilter : BytesFilter :=
  ⟨["accesskey", "autocapitalize", "autofocus", "class", "contenteditable", "dir",
    "draggable", "enterkeyhint", "hidden", "id", "inert", "inputmode", "is", "itemid",
    "itemprop", "itemref", "itemscope", "itemtype", "lang", "part", "role", "slot",
    "spellcheck", "style", "tabindex", "title", "translate"]⟩

/-- Source `HeadingAttributeFilter`. -/
def HeadingAttributeFilter : BytesFilter := GlobalAttributeFilter

/-- Source `BlockquoteAttributeFilter`. -/
def BlockquoteAttributeFilter : BytesFilter := GlobalAttributeFilter.Extend ["cite"]

/-- Source `ListAttributeFilter`. -/
def ListAttributeFilter : BytesFilter :=
  GlobalAttributeFilter.Extend ["start", "reversed", "type"]

/-- Source `ListItemAttributeFilter`. -/
def ListItemAttributeFilter : BytesFilter := GlobalAttributeFilter.Extend ["value"]

/-- Source `ParagraphAttributeFilter`. -/
def ParagraphAttributeFilter : BytesFilter := GlobalAttributeFilter

/-- Source `ThematicAttributeFilter`. -/
def ThematicAttributeFilter : BytesFilter :=
  GlobalAttributeFilter.Extend ["align", "color", "noshade", "size", "width"]

/-- Source `LinkAttributeFilter`. -/
def LinkAttributeFilter : BytesFilter :=
  GlobalAttributeFilter.Extend
    ["download", "hreflang", "media", "ping", "referrerpolicy", "rel", "shape", "target"]

/-- Source `CodeAttributeFilter`. -/
def CodeAttributeFilter : BytesFilter := GlobalAttributeFilter

/-- Source `EmphasisAttributeFilter`. -/
def EmphasisAttributeFilter : BytesFilter := GlobalAttributeFilter

/-- Source `ImageAttributeFilter`. -/
def ImageAttributeFilter : BytesFilter :=
  GlobalAttributeFilter.Extend
    ["align", "border", "crossorigin", "decoding", "height", "importance", "intrinsicsize",
      "ismap", "loading", "referrerpolicy", "sizes", "srcset", "usemap", "width"]

/-! ## Attribute rendering -/

/-- Go `fmt.Sprintf("%d", i)`: the decimal digits of `i`, after a minus sign
when `i` is negative. -/
def fmtD (i : Int) : String := toString i

/-- Source `dataPrefix`. -/
def dataPrefix : String := "data-"

/-- Go `bytes.HasPrefix` on text. -/
def HasPrefix (s pfx : String) : Bool := pfx.data.isPrefixOf s.data

/-- The type switch of `RenderElAttributes`: the text written for a value. A
value of another type leaves `value` empty. -/
def attrValueText : AttrValue → String
  | .bytes typed => typed
  | .str typed => typed
  | .int typed => fmtD typed
  | .other => ""

/-- The statement `RenderElAttributes` writes for one attribute. -/
def attrStmt (elNam : String) (attr : Attribute) : String :=
  elNam ++ "." ++ attr.Name ++ "='" ++ attrValueText attr.Value ++ "';\n"

/-- Source `RenderElAttributes`: the writes it makes, in order. `filter` is
`none` for a nil filter. The handlers call it under the test
`Attributes() != nil`, which holds at every call: `SetAttributeString` has
stored `el` on the node before. -/
def RenderElAttributes (attrs : List Attribute) (filter : Option BytesFilter)
    (elNam : String) : List String :=
  match attrs with
  | [] => []
  | attr :: rest =>
    if (match filter with
        | some f => !f.Contains attr.Name
        | none => false) && !HasPrefix attr.Name dataPrefix then
      RenderElAttributes rest filter elNam
    else
      attrStmt elNam attr :: RenderElAttributes rest filter elNam

/-- The attributes the specification keeps: with a filter, those whose name
is in the filter or begins with `data-`; without a filter, all. -/
def retained (filter : Option BytesFilter) (attr : Attribute) : Prop :=
  match filter with
  | some f => attr.Name ∈ f.elems ∨ "data-".data <+: attr.Name.data
  | none => True

instance (filter : Option BytesFilter) (attr : Attribute) : Decidable (retained filter attr) := by
  unfold retained
  cases filter <;> infer_instance

/-- The number a string of decimal digits denotes. -/
def decimalValue (ds : List Char) : Nat :=
  ds.foldl (fun acc c => 10 * acc + (c.toNat - 48)) 0

/-! ## The renderer -/

/-- Go `EastAsianLineBreaks`. -/
inductive EastAsianLineBreaks where
  | EastAsianLineBreaksNone
  | EastAsianLineBreaksSimple
  | EastAsianLineBreaksCSS3Draft
  deriving DecidableEq

/-- Source `Renderer` with the fields of its embedded `Config` (the `Writer`
is not used by the handlers modelled here). `count` is a Go `int`; it is not
wrapped at 64 bits, a conversion makes far fewer than `2^63` allocations. -/
structure Renderer where
  count : Int
  dbg : Bool
  name : String
  HardWraps : Bool
  EastAsianLineBreaks : EastAsianLineBreaks
  XHTML : Bool
  Unsafe : Bool

/-- Source `NewConfig` and `NewRenderer` without options. -/
def NewRenderer (nam : String) (dbg : Bool) : Renderer :=
  { count := 0, dbg := dbg, name := nam, HardWraps := false,
    EastAsianLineBreaks := .EastAsianLineBreaksNone, XHTML := false, Unsafe := false }

/-- Functions of other packages that the handlers call and that are not
modelled: `caseTable` is the Unicode lower-case table above ASCII
(see `unicodeToLower`), `escapeURL u b` is
`string(util.EscapeHTML(util.URLEscape(u, b)))`, and `softLineBreak` is
`EastAsianLineBreaks.softLineBreak` applied to the last rune of its first
text and the first rune of its second text. -/
structure Ext where
  caseTable : Int → Int
  escapeURL : Bytes → Bool → String
  softLineBreak : EastAsianLineBreaks → String → String → Bool

/-- Go `ast.WalkStatus`. -/
inductive WalkStatus where
  | WalkStop
  | WalkSkipChildren
  | WalkContinue
  deriving DecidableEq

/-- The three checks whose failure makes a handler return an error: the
node has no parent, the node has no `el` attribute, the parent has no `el`
attribute. The text of the error message is not modelled. -/
inductive RenderError where
  | noParent
  | noSelfBinding
  | noParentBinding
  deriving DecidableEq

/-- How a handler call ends: it returns a status and a nil error, it returns
a status and an error, or it panics (a failed type assertion or a nil
dereference). -/
inductive Ret where
  | ok (status : WalkStatus)
  | fail (status : WalkStatus) (err : RenderError)
  | panic
  deriving DecidableEq

/-- The effect of a handler call: the renderer and the node after the call,
the writes made on the sink in order, and how the call ended. After a panic
only `ret` is meaningful. -/
structure HResult where
  r : Renderer
  node : Node
  out : List String
  ret : Ret

/-- Go `fmt.Sprintf("el%d", count)`. -/
def elName (count : Int) : String := "el" ++ fmtD count

/-- The statement that appends `elNam` to `parElNam`. -/
def appendStmt (parElNam elNam : String) : String :=
  parElNam ++ ".appendChild(" ++ elNam ++ ");\n"

/-- The debug line of the exit phases. -/
def dbgLine (elNam parElNam kind : String) : String :=
  "// dbg -- el: " ++ elNam ++ " parent:" ++ parElNam ++ " kind:" ++ kind ++ "\n"

/-- The exit phase shared by the handlers that attach on exit: the parent,
the node's `el` and the parent's `el` are looked up in this order, the debug
line is written when `dbg` holds, and the append statement is written. The
type assertions `.(string)` on the two `el` values panic on another type.
`status` is the status returned on success. -/
def exitAttach (r : Renderer) (par : Option Node) (node : Node) (dbg : Bool)
    (status : WalkStatus) : HResult :=
  match par with
  | none => ⟨r, node, [], .fail .WalkStop .noParent⟩
  | some pnode =>
    match AttributeString node.attrs "el" with
    | none => ⟨r, node, [], .fail .WalkStop .noSelfBinding⟩
    | some elv =>
      match AttributeString pnode.attrs "el" with
      | none => ⟨r, node, [], .fail .WalkStop .noParentBinding⟩
      | some parv =>
        match elv, parv with
        | .str elNam, .str parElNam =>
          ⟨r, node,
            (if dbg then [dbgLine elNam parElNam pnode.payload.kindName] else []) ++
              [appendStmt parElNam elNam],
            .ok status⟩
        | _, _ => ⟨r, node, [], .panic⟩

/-- Source `renderHeading`. -/
def renderHeading (r : Renderer) (par : Option Node) (node : Node) (entering : Bool) :
    HResult :=
  match node with
  | .mk (.Heading Level) attrs children =>
    if entering then
      let count := r.count + 1
      let elNam := elName count
      let attrs1 := SetAttributeString attrs "el" elNam
      let hdTyp := "h" ++ fmtD Level
      let hdStr := "let " ++ elNam ++ "= document.createElement('" ++ hdTyp ++ "');\n"
      let hd2Str := "Object.assign(" ++ elNam ++ ".style, mdStyle." ++ hdTyp ++ ");\n"
      ⟨{ r with count := count }, .mk (.Heading Level) attrs1 children,
        [hdStr, hd2Str] ++ RenderElAttributes attrs1 (some HeadingAttributeFilter) elNam,
        .ok .WalkContinue⟩
    else exitAttach r par node r.dbg .WalkContinue
  | _ => ⟨r, node, [], .panic⟩

/-- Source `renderBlockquote`. -/
def renderBlockquote (r : Renderer) (par : Option Node) (node : Node) (entering : Bool) :
    HResult :=
  if entering then
    let count := r.count + 1
    let elNam := elName count
    let attrs1 := SetAttributeString node.attrs "el" elNam
    let pStr := "let " ++ elNam ++ "= document.createElement('blockquote');\n"
    let p2Str := "Object.assign(" ++ elNam ++ ".style, mdStyle.block);\n"
    ⟨{ r with count := count }, node.setAttrs attrs1,
      [pStr, p2Str] ++ RenderElAttributes attrs1 (some BlockquoteAttributeFilter) elNam,
      .ok .WalkContinue⟩
  else exitAttach r par node r.dbg .WalkContinue

/-- Go `List.IsOrdered`: the marker is `.` or `)`. -/
def IsOrdered (Marker : Nat) : Bool := Marker == 46 || Marker == 41

/-- Source `renderList`. -/
def renderList (r : Renderer) (par : Option Node) (node : Node) (entering : Bool) :
    HResult :=
  match node with
  | .mk (.ListNode Marker Start) attrs children =>
    let tag := if IsOrdered Marker then "ol" else "ul"
    if entering then
      let count := r.count + 1
      let elNam := elName count
      let attrs1 := SetAttributeString attrs "el" elNam
      let elStr := "let " ++ elNam ++ "= document.createElement('" ++ tag ++ "');\n"
      let startOut :=
        if IsOrdered Marker && decide (Start ≠ 1) then
          [elNam ++ (".start='" ++ fmtD Start ++ "';\n")]
        else []
      let cssStr :=
        if IsOrdered Marker then "Object.assign(" ++ elNam ++ ".style, mdStyle.ol);\n"
        else "Object.assign(" ++ elNam ++ ".style, mdStyle.ul);\n"
      ⟨{ r with count := count }, .mk (.ListNode Marker Start) attrs1 children,
        [elStr] ++ startOut ++ RenderElAttributes attrs1 (some ListAttributeFilter) elNam ++
          [cssStr],
        .ok .WalkContinue⟩
    else exitAttach r par node r.dbg .WalkContinue
  | _ => ⟨r, node, [], .panic⟩

/-- Source `renderListItem`. -/
def renderListItem (r : Renderer) (par : Option Node) (node : Node) (entering : Bool) :
    HResult :=
  if entering then
    let count := r.count + 1
    let elNam := elName count
    let attrs1 := SetAttributeString node.attrs "el" elNam
    let elStr := "let " ++ elNam ++ "= document.createElement('li');\n"
    let p2Str := "Object.assign(" ++ elNam ++ ".style, mdStyle.li);\n"
    ⟨{ r with count := count }, node.setAttrs attrs1,
      [elStr, p2Str] ++ RenderElAttributes attrs1 (some ListItemAttributeFilter) elNam,
      .ok .WalkContinue⟩
  else exitAttach r par node r.dbg .WalkContinue

/-- Source `renderThematicBreak`. -/
def renderThematicBreak (r : Renderer) (par : Option Node) (node : Node)
    (entering : Bool) : HResult :=
  if !entering then exitAttach r par node r.dbg .WalkContinue
  else
    let count := r.count + 1
    let elNam := elName count
    let elStr := "let " ++ elNam ++ "=document.createElement('hr');\n"
    let attrs1 := SetAttributeString node.attrs "el" elNam
    ⟨{ r with count := count }, node.setAttrs attrs1,
      [elStr] ++ RenderElAttributes attrs1 (some ThematicAttributeFilter) elNam,
      .ok .WalkContinue⟩

/-- The text of a code block: the lines one after the other, each after
`sep`. -/
def joinLines (sep : String) : List String → String
  | [] => ""
  | line :: rest => sep ++ line ++ joinLines sep rest

/-- Source `renderCodeBlock`. -/
def renderCodeBlock (r : Renderer) (par : Option Node) (node : Node) (entering : Bool) :
    HResult :=
  match node with
  | .mk (.CodeBlock lines) attrs children =>
    if entering then
      let elNam := elName (r.count + 1)
      let attrs1 := SetAttributeString attrs "el" elNam
      let elStr := "let " ++ elNam ++ "= document.createElement('pre');\n"
      let el2Nam := elName (r.count + 2)
      let el2Str := "let " ++ el2Nam ++ "= document.createElement('code');\n"
      let data := joinLines "" lines
      let el5Str := "const codeStr=`" ++ data ++ "`\n;"
      let el3Nam := elName (r.count + 3)
      let el4Str := "const " ++ el3Nam ++ "= document.createTextNode(codeStr);\n"
      let el6Str := el2Nam ++ ".appendChild(" ++ el3Nam ++ ");\n"
      let el7Str := elNam ++ ".appendChild(" ++ el2Nam ++ ");\n"
      ⟨{ r with count := r.count + 3 }, .mk (.CodeBlock lines) attrs1 children,
        [elStr, el2Str, el5Str, el4Str, el6Str, el7Str], .ok .WalkContinue⟩
    else exitAttach r par node r.dbg .WalkContinue
  | _ => ⟨r, node, [], .panic⟩

/-- Source `renderFencedCodeBlock`. Its exit phase writes the debug line
whether or not `dbg` is set. -/
def renderFencedCodeBlock (r : Renderer) (par : Option Node) (node : Node)
    (entering : Bool) : HResult :=
  match node with
  | .mk (.FencedCodeBlock language lines) attrs children =>
    if entering then
      let elNam := elName (r.count + 1)
      let attrs1 := SetAttributeString attrs "el" elNam
      let elStr := "let " ++ elNam ++ "= document.createElement('pre');\n"
      let el2Nam := elName (r.count + 2)
      let el2Str := "let " ++ el2Nam ++ "= document.createElement('code');\n"
      let classOut :=
        match language with
        | some lang => [el2Nam ++ ".class=\"language-" ++ lang ++ "\";\n"]
        | none => []
      let data := joinLines ">" lines
      let el5Str := "const codeStr=`" ++ data ++ "`\n;"
      let el3Nam := elName (r.count + 3)
      let el4Str := "const " ++ el3Nam ++ "= document.createTextNode(codeStr);\n"
      let el6Str := el2Nam ++ ".appendChild(" ++ el3Nam ++ ");\n"
      let el7Str := elNam ++ ".appendChild(" ++ el2Nam ++ ");\n"
      ⟨{ r with count := r.count + 3 }, .mk (.FencedCodeBlock language lines) attrs1 children,
        [elStr, el2Str] ++ classOut ++ [el5Str, el4Str, el6Str, el7Str], .ok .WalkContinue⟩
    else exitAttach r par node true .WalkContinue
  | _ => ⟨r, node, [], .panic⟩

/-- Source `renderAutoLink`. The URL is written with no test of
`IsDangerousURL` and of `Unsafe`. -/
def renderAutoLink (x : Ext) (r : Renderer) (par : Option Node) (node : Node)
    (entering : Bool) : HResult :=
  match node with
  | .mk (.AutoLink typ url) attrs children =>
    if !entering then exitAttach r par node r.dbg .WalkContinue
    else
      let count := r.count + 1
      let elNam := elName count
      let elStr := "let " ++ elNam ++ "=document.createElement('a');\n"
      let attrs1 := SetAttributeString attrs "el" elNam
      let el2Str := elNam ++ ".href=\""
      let mailto :=
        if typ = .AutoLinkEmail &&
            !(lit "mailto:").isPrefixOf (bytesToLower x.caseTable url) then
          ["mailto:"]
        else []
      ⟨{ r with count := count }, .mk (.AutoLink typ url) attrs1 children,
        [elStr, el2Str] ++ mailto ++ [x.escapeURL url false, "\"\n;"] ++
          RenderElAttributes attrs1 (some LinkAttributeFilter) elNam,
        .ok .WalkContinue⟩
  | _ => ⟨r, node, [], .panic⟩

/-- The text of a `Text` child of a code span: a final newline becomes a
space. -/
def codeSpanText (value : String) : String :=
  if value.data.getLast? = some '\n' then String.mk value.data.dropLast ++ " " else value

/-- The loop of `renderCodeSpan` over the children, from the child number
`spanCount + 1` on: the writes, or `none` when a child is not a `Text` (the
type assertion panics). -/
def codeSpanChildren (dbg : Bool) (elNam : String) : Nat → List Node → Option (List String)
  | _, [] => some []
  | spanCount, .mk (.Text value _ _ _) _ _ :: rest =>
    let spanTxtEl := elNam ++ "Span" ++ fmtD ((spanCount + 1 : Nat) : Int)
    let dbgOut :=
      if dbg then
        ["//dbg -- child[" ++ fmtD (value.utf8ByteSize : Nat) ++ "]: " ++ value ++ "\n"]
      else []
    let txtEl :=
      "const " ++ spanTxtEl ++ "=document.createTextNode('" ++ codeSpanText value ++ "');\n"
    let elStr := elNam ++ ".appendChild(" ++ spanTxtEl ++ ");\n"
    (codeSpanChildren dbg elNam (spanCount + 1) rest).map
      (fun more => dbgOut ++ [txtEl, elStr] ++ more)
  | _, _ :: _ => none

/-- The end of the entry phases that attach at once (`renderCodeSpan`,
`renderLink`, `renderParagraph`): the parent and its `el` are looked up, the
debug line is written when `dbg` is set, and the append statement is written
after the writes `out` made so far. -/
def attachNow (r : Renderer) (par : Option Node) (node : Node) (out : List String)
    (elNam : String) (dbgText : String → String → String) : HResult :=
  match par with
  | none => ⟨r, node, out, .fail .WalkStop .noParent⟩
  | some pnode =>
    match AttributeString pnode.attrs "el" with
    | none => ⟨r, node, out, .fail .WalkStop .noParentBinding⟩
    | some (.str parElNam) =>
      ⟨r, node,
        out ++ (if r.dbg then [dbgText parElNam pnode.payload.kindName] else []) ++
          [appendStmt parElNam elNam],
        .ok .WalkSkipChildren⟩
    | some _ => ⟨r, node, [], .panic⟩

/-- Source `renderCodeSpan`. -/
def renderCodeSpan (r : Renderer) (par : Option Node) (node : Node) (entering : Bool) :
    HResult :=
  if entering then
    let count := r.count + 1
    let elNam := elName count
    let attrs1 := SetAttributeString node.attrs "el" elNam
    let pStr := "let " ++ elNam ++ "=document.createElement(\"code\");\n"
    let attrOut := RenderElAttributes attrs1 (some CodeAttributeFilter) elNam
    let dbgOut :=
      if r.dbg then
        ["//dbg -- codespan: children " ++ fmtD (node.children.length : Nat) ++ "\n"]
      else []
    match codeSpanChildren r.dbg elNam 0 node.children with
    | none => ⟨{ r with count := count }, node.setAttrs attrs1, [], .panic⟩
    | some spans =>
      attachNow { r with count := count } par (node.setAttrs attrs1)
        ([pStr] ++ attrOut ++ dbgOut ++ spans) elNam
        (fun parElNam kind =>
          "// dbg -- codespan el: " ++ elNam ++ " kind: " ++ node.payload.kindName ++
            " parent:" ++ parElNam ++ " kind:" ++ kind ++ "\n")
  else ⟨r, node, [], .ok .WalkSkipChildren⟩

/-- Source `renderEmphasis`. -/
def renderEmphasis (r : Renderer) (par : Option Node) (node : Node) (entering : Bool) :
    HResult :=
  match node with
  | .mk (.Emphasis Level) attrs children =>
    let tag := if Level = 2 then "strong" else "em"
    if entering then
      let count := r.count + 1
      let elNam := elName count
      let attrs1 := SetAttributeString attrs "el" elNam
      let elStr := "let " ++ elNam ++ "=document.createElement('" ++ tag ++ "');\n"
      let chOut :=
        match children with
        | .mk (.Text value _ _ _) _ _ :: _ => [elNam ++ ".textContent=`" ++ value ++ "`\n"]
        | _ => []
      ⟨{ r with count := count }, .mk (.Emphasis Level) attrs1 children,
        [elStr] ++ RenderElAttributes attrs1 (some EmphasisAttributeFilter) elNam ++ chOut,
        .ok .WalkSkipChildren⟩
    else exitAttach r par node r.dbg .WalkContinue
  | _ => ⟨r, node, [], .panic⟩

/-- Source `renderLink`. -/
def renderLink (x : Ext) (r : Renderer) (par : Option Node) (node : Node)
    (entering : Bool) : HResult :=
  match node with
  | .mk (.Link Destination Title) attrs children =>
    if entering then
      let count := r.count + 1
      let elNam := elName count
      let elStr := "let " ++ elNam ++ "=document.createElement(\"a\");\n"
      let attrs1 := SetAttributeString attrs "el" elNam
      let hrefOut :=
        if r.Unsafe || !IsDangerousURL x.caseTable Destination then
          [elNam ++ ".href='" ++ x.escapeURL Destination true ++ "';\n"]
        else []
      let titleOut :=
        match Title with
        | some title => [elNam ++ ".title='" ++ title ++ "';\n"]
        | none => []
      let cssStr := "Object.assign(" ++ elNam ++ ".style, mdStyle.a);\n"
      let txtOut :=
        match children with
        | .mk (.Text value _ _ _) _ _ :: _ => [elNam ++ ".textContent=`" ++ value ++ "`;\n"]
        | _ => []
      attachNow { r with count := count } par (.mk (.Link Destination Title) attrs1 children)
        ([elStr] ++ hrefOut ++ titleOut ++
          RenderElAttributes attrs1 (some LinkAttributeFilter) elNam ++ [cssStr] ++ txtOut)
        elNam (fun parElNam kind => dbgLine elNam parElNam kind)
    else ⟨r, node, [], .ok .WalkSkipChildren⟩
  | _ => ⟨r, node, [], .panic⟩

/-- The text `renderText` puts in the text node: the value of the segment,
followed by a newline for a hard line break, for a soft line break under
`HardWraps`, and for a soft line break that the East Asian rule keeps. `next`
is the next sibling of the node. -/
def textValue (x : Ext) (r : Renderer) (next : Option Node) (value : String)
    (raw softLineBreak hardLineBreak : Bool) : String :=
  if raw then value
  else if hardLineBreak || (softLineBreak && r.HardWraps) then value ++ "\n"
  else if softLineBreak then
    if r.EastAsianLineBreaks ≠ .EastAsianLineBreaksNone ∧ value ≠ "" then
      match next with
      | some (.mk (.Text siblingText _ _ _) _ _) =>
        if siblingText ≠ "" ∧ x.softLineBreak r.EastAsianLineBreaks value siblingText then
          value ++ "\n"
        else value
      | _ => value
    else value ++ "\n"
  else value

/-- Source `renderText`. -/
def renderText (x : Ext) (r : Renderer) (par next : Option Node) (node : Node)
    (entering : Bool) : HResult :=
  if !entering then exitAttach r par node r.dbg .WalkContinue
  else
    match node with
    | .mk (.Text value raw soft hard) attrs children =>
      let count := r.count + 1
      let elNam := elName count
      let attrs1 := SetAttributeString attrs "el" elNam
      let valStr := textValue x r next value raw soft hard
      let DatEl := elNam ++ "Txt"
      let datStr := "const " ++ DatEl ++ "= `" ++ valStr ++ "`;\n"
      let txtStr := "const " ++ elNam ++ "=document.createTextNode(" ++ DatEl ++ ");\n"
      ⟨{ r with count := count }, .mk (.Text value raw soft hard) attrs1 children,
        [datStr, txtStr], .ok .WalkContinue⟩
    | _ => ⟨r, node, [], .panic⟩

/-- Source `renderString`. The line it prints on the standard output under
`dbg` is not a write on the sink. -/
def renderString (r : Renderer) (par : Option Node) (node : Node) (entering : Bool) :
    HResult :=
  if !entering then exitAttach r par node r.dbg .WalkContinue
  else
    let count := r.count + 1
    let elNam := elName count
    let attrs1 := SetAttributeString node.attrs "el" elNam
    match node with
    | .mk (.StringNode Value raw code) _ children =>
      let valStr := Value
      let datEl := elNam ++ "txt"
      let datStr := "const " ++ datEl ++ "= `" ++ valStr ++ "`;\n"
      let txtStr := "let " ++ elNam ++ "=document.createTextNode(" ++ datEl ++ ");\n"
      ⟨{ r with count := count }, .mk (.StringNode Value raw code) attrs1 children,
        [datStr, txtStr], .ok .WalkContinue⟩
    | _ => ⟨{ r with count := count }, node.setAttrs attrs1, [], .panic⟩

mutual
/-- Source `renderTexts`: the entry phases of `renderString` and `renderText`
are run on the `String` and `Text` descendants of the node, in document
order; what they return is ignored. The result is the renderer, the node with
its descendants as the calls left them, and the writes. -/
def renderTexts (x : Ext) (r : Renderer) : Node → Renderer × Node × List String
  | .mk p a cs =>
    let res := renderTextsLoop x r (.mk p a cs) cs
    (res.1, .mk p a res.2.1, res.2.2)
/-- The loop of `renderTexts` over the children `cs` of `pnode`. -/
def renderTextsLoop (x : Ext) (r : Renderer) (pnode : Node) :
    List Node → Renderer × List Node × List String
  | [] => (r, [], [])
  | .mk (.StringNode Value raw code) a cs :: rest =>
    let h := renderString r (some pnode) (.mk (.StringNode Value raw code) a cs) true
    let res := renderTextsLoop x h.r pnode rest
    (res.1, h.node :: res.2.1, h.out ++ res.2.2)
  | .mk (.Text value raw soft hard) a cs :: rest =>
    let h := renderText x r (some pnode) rest.head? (.mk (.Text value raw soft hard) a cs) true
    let res := renderTextsLoop x h.r pnode rest
    (res.1, h.node :: res.2.1, h.out ++ res.2.2)
  | .mk p a cs :: rest =>
    let h := renderTexts x r (.mk p a cs)
    let res := renderTextsLoop x h.1 pnode rest
    (res.1, h.2.1 :: res.2.1, h.2.2 ++ res.2.2)
end

/-- Source `renderImage`. -/
def renderImage (x : Ext) (r : Renderer) (par : Option Node) (node : Node)
    (entering : Bool) : HResult :=
  if !entering then exitAttach r par node r.dbg .WalkContinue
  else
    match node with
    | .mk (.Image Destination Title) attrs children =>
      let count := r.count + 1
      let elNam := elName count
      let elStr := "let " ++ elNam ++ "=document.createElement('img');\n"
      let attrs1 := SetAttributeString attrs "el" elNam
      let srcOut :=
        if r.Unsafe || !IsDangerousURL x.caseTable Destination then
          [elNam ++ ".src=" ++ x.escapeURL Destination true]
        else []
      let el3Str := elNam ++ ".alt=\""
      let texts := renderTexts x { r with count := count }
        (.mk (.Image Destination Title) attrs1 children)
      let titleOut :=
        match Title with
        | some title => [elNam ++ ".title='" ++ title ++ "'\n"]
        | none => []
      ⟨texts.1, texts.2.1,
        [elStr] ++ srcOut ++ [el3Str] ++ texts.2.2 ++ ["\"\n"] ++ titleOut ++
          RenderElAttributes attrs1 (some ImageAttributeFilter) elNam,
        .ok .WalkSkipChildren⟩
    | _ => ⟨r, node, [], .panic⟩

/-- Source `renderDocument`. -/
def renderDocument (r : Renderer) (node : Node) (entering : Bool) : HResult :=
  let attrs1 := SetAttributeString node.attrs "el" "mdDiv"
  if entering then
    let docStr := "let mdDivObj = \x7b\n\ttyp:'div',\n\tid: 'mdDiv',\n\tstyle: \x7b\n\t\tmargin: '10px',\n\t\tborder: '1px dashed blue',\n\t\tposition: 'relative',\n\t\tminHeight: '200px',\n\t\x7d,\n\x7d;\nlet mdDiv = azul.addElement(mdDivObj);\n"
    ⟨{ r with count := 1 }, node.setAttrs attrs1, [docStr], .ok .WalkContinue⟩
  else
    let endDocStr := "return mdDiv;\n\x7d;\n"
    ⟨r, node.setAttrs attrs1, [endDocStr], .ok .WalkContinue⟩

/-- Source `renderHTMLBlock`. The identifier is formatted from the counter
as it stands, the counter is not incremented. `closure` is `none` when the
block has no closure line; taking the value of that segment panics. -/
def renderHTMLBlock (r : Renderer) (par : Option Node) (node : Node) (entering : Bool) :
    HResult :=
  match node with
  | .mk (.HTMLBlock lines closure) attrs children =>
    if entering then
      let elNam := elName r.count
      let attrs1 := SetAttributeString attrs "el" elNam
      let elStr := "let " ++ elNam ++ "= document.createElement('div');\n"
      if r.Unsafe then
        match closure with
        | none => ⟨r, .mk (.HTMLBlock lines closure) attrs1 children, [], .panic⟩
        | some closureLine =>
          let dataStr := joinLines "" lines ++ closureLine
          let dat2Str := "let data='" ++ dataStr ++ "'"
          let el2Str := elNam ++ ".innerhtml=" ++ dat2Str
          ⟨r, .mk (.HTMLBlock lines closure) attrs1 children, [elStr, el2Str],
            .ok .WalkContinue⟩
      else
        ⟨r, .mk (.HTMLBlock lines closure) attrs1 children,
          [elStr, "//<!-- raw HTML omitted -->\n"], .ok .WalkContinue⟩
    else if closure.isSome then exitAttach r par node r.dbg .WalkContinue
    else ⟨r, node, [], .ok .WalkContinue⟩
  | _ => ⟨r, node, [], .panic⟩

/-- Source `renderRawHTML`. -/
def renderRawHTML (r : Renderer) (par : Option Node) (node : Node) (entering : Bool) :
    HResult :=
  if !entering then exitAttach r par node r.dbg .WalkSkipChildren
  else
    let count := r.count + 1
    let elNam := elName count
    let elStr := "let " ++ elNam ++ "=document.createElement('div');\n"
    let attrs1 := SetAttributeString node.attrs "el" elNam
    if r.Unsafe then
      match node with
      | .mk (.RawHTML segments) _ children =>
        ⟨{ r with count := count }, .mk (.RawHTML segments) attrs1 children,
          [elStr, elNam ++ ".innerhtml = `\n"] ++ segments ++ ["`\n"], .ok .WalkSkipChildren⟩
      | _ => ⟨{ r with count := count }, node.setAttrs attrs1, [], .panic⟩
    else
      ⟨{ r with count := count }, node.setAttrs attrs1,
        [elStr, "<!-- raw HTML omitted -->"], .ok .WalkSkipChildren⟩

/-! ## The inline run aggregator -/

/-- State of the loop of `renderTextChildren`: the renderer, `istate`, the
buffer `text` (`none` is nil), the writes made so far and the children
visited so far as the loop left them. -/
structure Agg where
  r : Renderer
  istate : Nat
  text : Option String
  out : List String
  seen : List Node

/-- The flush of the buffer in `renderTextChildren`: a text node is created
under a new identifier and appended to the parent; the state goes back to 0
with a nil buffer. The result is the new state and the new identifier. -/
def Agg.flush (s : Agg) (parElNam : String) : Agg × String :=
  let count := s.r.count + 1
  let elNam := elName count
  let txtEl := "const " ++ elNam ++ "=document.createTextNode(`" ++ s.text.getD "" ++ "`);\n"
  let apStr := parElNam ++ ".appendChild(" ++ elNam ++ ");\n"
  ({ s with r := { s.r with count := count }, istate := 0, text := none,
            out := s.out ++ [txtEl, apStr] }, elNam)

/-- The flush made before a non-text child when `istate` is 1. -/
def Agg.flushIfText (s : Agg) (parElNam : String) : Agg :=
  if s.istate = 1 then (s.flush parElNam).1 else s

/-- The state after a handler was called on a child; `none` when it
panicked. What the handler returned otherwise is ignored. -/
def Agg.afterCall (s : Agg) (h : HResult) : Option Agg :=
  if h.ret = .panic then none
  else some { s with r := h.r, out := s.out ++ h.out, seen := s.seen ++ [h.node] }

/-- One turn of the loop of `renderTextChildren` on the child `c`; `pnode`
is the node whose children are rendered and `parElNam` its identifier.
`none` is a panic. -/
def aggStep (x : Ext) (pnode : Node) (parElNam : String) (s : Agg) (c : Node) : Option Agg :=
  match c with
  | .mk (.Text value _ _ _) _ _ =>
    if s.istate = 0 then some { s with text := some value, istate := 1, seen := s.seen ++ [c] }
    else if s.istate = 1 then
      some { s with text := some (s.text.getD "" ++ value), seen := s.seen ++ [c] }
    else some { s with seen := s.seen ++ [c] }
  | .mk (.Emphasis Level) attrs children =>
    match children with
    | .mk (.Text value _ _ _) _ _ :: _ =>
      let tag := if Level = 2 then "strong" else "em"
      let s1c : Agg × Node :=
        if s.istate = 1 then
          let f := s.flush parElNam
          (f.1, .mk (.Emphasis Level) (SetAttributeString attrs "el" f.2) children)
        else (s, c)
      let s1 := s1c.1
      let count := s1.r.count + 1
      let elNam := elName count
      let elStr := "let " ++ elNam ++ "=document.createElement('" ++ tag ++ "');\n"
      let eltxt := elNam ++ ".textContent=`" ++ value ++ "`;\n"
      let apStr := parElNam ++ ".appendChild(" ++ elNam ++ ");\n"
      some { s1 with r := { s1.r with count := count }, out := s1.out ++ [elStr, eltxt, apStr],
                     seen := s1.seen ++ [s1c.2] }
    | _ => none
  | .mk .CodeSpan _ _ =>
    let s1 := s.flushIfText parElNam
    s1.afterCall (renderCodeSpan s1.r (some pnode) c true)
  | .mk (.Image _ _) _ _ => none
  | .mk (.Link _ _) _ _ =>
    let s1 := s.flushIfText parElNam
    s1.afterCall (renderLink x s1.r (some pnode) c true)
  | .mk (.RawHTML _) _ _ =>
    let s1 := s.flushIfText parElNam
    s1.afterCall (renderRawHTML s1.r (some pnode) c true)
  | .mk (.StringNode _ _ _) _ _ =>
    let s1 := s.flushIfText parElNam
    s1.afterCall (renderString s1.r (some pnode) c true)
  | .mk p _ _ =>
    some { s with out := s.out ++ (if s.r.dbg then ["//dbg -- other type: " ++ p.kindName ++ "\n"]
                                    else []),
                  seen := s.seen ++ [c] }

/-- The loop of `renderTextChildren` over the children still to visit. -/
def aggLoop (x : Ext) (pnode : Node) (parElNam : String) : Agg → List Node → Option Agg
  | s, [] => some s
  | s, c :: rest =>
    match aggStep x pnode parElNam s c with
    | none => none
    | some s1 => aggLoop x pnode parElNam s1 rest

/-- Source `renderTextChildren`. In the `Image` case the child is asserted
to be a `*ast.CodeSpan`, which panics. After the loop a non-nil buffer is
flushed, and the new identifier is stored in the `el` attribute of `node`. -/
def renderTextChildren (x : Ext) (r : Renderer) (node : Node) (entering : Bool) : HResult :=
  if !entering then ⟨r, node, [], .ok .WalkContinue⟩
  else
    match AttributeString node.attrs "el" with
    | none => ⟨r, node, [], .fail .WalkStop .noSelfBinding⟩
    | some (.str parElNam) =>
      let dbgOut :=
        if r.dbg then
          ["// dbg -- pelNam: " ++ parElNam ++ " children: " ++
            fmtD (node.children.length : Nat) ++ "\n"]
        else []
      match node.children with
      | [.mk (.Text value _ _ _) _ _] =>
        ⟨r, node, dbgOut ++ [parElNam ++ ".textContent=`" ++ value ++ "`;\n"],
          .ok .WalkSkipChildren⟩
      | children =>
        match aggLoop x node parElNam ⟨r, 0, none, dbgOut, []⟩ children with
        | none => ⟨r, node, [], .panic⟩
        | some s =>
          match s.text with
          | some _ =>
            let f := s.flush parElNam
            ⟨f.1.r, .mk node.payload (SetAttributeString node.attrs "el" f.2) f.1.seen,
              f.1.out, .ok .WalkSkipChildren⟩
          | none => ⟨s.r, .mk node.payload node.attrs s.seen, s.out, .ok .WalkSkipChildren⟩
    | some _ => ⟨r, node, [], .panic⟩

/-- Source `renderParagraph`. What `renderTextChildren` returns is ignored. -/
def renderParagraph (x : Ext) (r : Renderer) (par : Option Node) (node : Node)
    (entering : Bool) : HResult :=
  if entering then
    let count := r.count + 1
    let elNam := elName count
    let attrs1 := SetAttributeString node.attrs "el" elNam
    let pStr := "let " ++ elNam ++ "=document.createElement('p');\n"
    let p2Str := "Object.assign(" ++ elNam ++ ".style, mdStyle.p);\n"
    let attrOut := RenderElAttributes attrs1 (some ParagraphAttributeFilter) elNam
    let h := renderTextChildren x { r with count := count } (node.setAttrs attrs1) true
    if h.ret = .panic then ⟨h.r, h.node, [], .panic⟩
    else
      attachNow h.r par h.node ([pStr, p2Str] ++ attrOut ++ h.out) elNam
        (fun parElNam kind =>
          "// dbg -- par el: " ++ elNam ++ " kind: " ++ node.payload.kindName ++
            " parent:" ++ parElNam ++ " kind:" ++ kind ++ "\n")
  else ⟨r, node, [], .ok .WalkSkipChildren⟩

/-- Source `renderTextBlock`. A text block without a parent is a nil
dereference. The `el` value of the parent is stored on the text block as it
is. -/
def renderTextBlock (x : Ext) (r : Renderer) (par : Option Node) (node : Node)
    (entering : Bool) : HResult :=
  if entering then
    match par with
    | none => ⟨r, node, [], .panic⟩
    | some pnode =>
      match AttributeString pnode.attrs "el" with
      | none => ⟨r, node, [], .fail .WalkStop .noParentBinding⟩
      | some parElNam =>
        let h := renderTextChildren x r (node.setAttrs (SetAttribute node.attrs "el" parElNam))
          true
        if h.ret = .panic then h else { h with ret := .ok .WalkSkipChildren }
  else ⟨r, node, [], .ok .WalkSkipChildren⟩

/-- Source `RegisterFuncs` with the lookup of the handler by the kind of the
node: the handler registered for the kind is called; a kind without a
handler is skipped with `WalkContinue`. `next` is the next sibling. -/
def dispatch (x : Ext) (r : Renderer) (par next : Option Node) (node : Node)
    (entering : Bool) : HResult :=
  match node.payload with
  | .Document => renderDocument r node entering
  | .Heading _ => renderHeading r par node entering
  | .Blockquote => renderBlockquote r par node entering
  | .CodeBlock _ => renderCodeBlock r par node entering
  | .FencedCodeBlock _ _ => renderFencedCodeBlock r par node entering
  | .HTMLBlock _ _ => renderHTMLBlock r par node entering
  | .ListNode _ _ => renderList r par node entering
  | .ListItem => renderListItem r par node entering
  | .Paragraph => renderParagraph x r par node entering
  | .TextBlock => renderTextBlock x r par node entering
  | .ThematicBreak => renderThematicBreak r par node entering
  | .AutoLink _ _ => renderAutoLink x r par node entering
  | .CodeSpan => renderCodeSpan r par node entering
  | .Emphasis _ => renderEmphasis r par node entering
  | .Image _ _ => renderImage x r par node entering
  | .Link _ _ => renderLink x r par node entering
  | .RawHTML _ => renderRawHTML r par node entering
  | .Text _ _ _ _ => renderText x r par next node entering
  | .StringNode _ _ _ => renderString r par node entering
  | .Other _ => ⟨r, node, [], .ok .WalkContinue⟩

/-- The allow-list that the entry phase of the handler of a kind passes to
`RenderElAttributes`; `none` for the kinds whose handler does not call it. -/
def kindFilter : Payload → Option BytesFilter
  | .Heading _ => some HeadingAttributeFilter
  | .Blockquote => some BlockquoteAttributeFilter
  | .ListNode _ _ => some ListAttributeFilter
  | .ListItem => some ListItemAttributeFilter
  | .Paragraph => some ParagraphAttributeFilter
  | .ThematicBreak => some ThematicAttributeFilter
  | .AutoLink _ _ => some LinkAttributeFilter
  | .CodeSpan => some CodeAttributeFilter
  | .Emphasis _ => some EmphasisAttributeFilter
  | .Image _ _ => some ImageAttributeFilter
  | .Link _ _ => some LinkAttributeFilter
  | _ => none

/-- An `Ext` for concrete evaluation: no case mapping above ASCII, and an
escaping that keeps ASCII bytes as they are. -/
def plainExt : Ext :=
  { caseTable := plainTable
    escapeURL := fun u _ => String.mk (u.map Char.ofNat)
    softLineBreak := fun _ _ _ => false }

/-! ## Sample inputs -/

/-- A renderer in the middle of a conversion: two identifiers allocated,
debug off, the default options (`Unsafe` off). -/
def sampleRenderer : Renderer := { NewRenderer "md" false with count := 2 }

/-- A paragraph that has been given the identifier `el2`. -/
def sampleParagraph : Node := .mk .Paragraph [⟨"el", .str "el2"⟩] []

/-- The link `[here](javascript:alert(1))` with a `rel` attribute. -/
def sampleDangerousLink : Node :=
  .mk (.Link (lit "javascript:alert(1)") none) [⟨"rel", .bytes "nofollow"⟩]
    [.mk (.Text "here" false false false) [] []]

/-- The link `[here](https://x)`. -/
def sampleSafeLink : Node :=
  .mk (.Link (lit "https://x") none) [] [.mk (.Text "here" false false false) [] []]

/-- The autolink `<javascript:alert(1)>`. -/
def sampleDangerousAutoLink : Node :=
  .mk (.AutoLink .AutoLinkURL (lit "javascript:alert(1)")) [] []

/-- The image `![alt](javascript:alert(1))` with a `width` and a `src`
attribute. -/
def sampleDangerousImage : Node :=
  .mk (.Image (lit "javascript:alert(1)") (some "T"))
    [⟨"width", .bytes "3"⟩, ⟨"src", .bytes "x.png"⟩]
    [.mk (.Text "alt" false false false) [] []]

/-- A document root that has been given its identifier `mdDiv`. -/
def sampleDocument : Node := .mk .Document [⟨"el", .str "mdDiv"⟩] []

/-- A fenced code block with the attributes `data-line` and `id`. -/
def sampleFencedCodeBlock : Node :=
  .mk (.FencedCodeBlock (some "go") ["x := 1\n"])
    [⟨"data-line", .bytes "1"⟩, ⟨"id", .bytes "code1"⟩] []

/-- A paragraph `see [here](https://x) now` with the attributes `id`,
`onclick` and `data-k`. -/
def sampleAttrParagraph : Node :=
  .mk .Paragraph [⟨"id", .bytes "p1"⟩, ⟨"onclick", .bytes "f()"⟩, ⟨"data-k", .str "v"⟩]
    [.mk (.Text "see " false false false) [] [], sampleSafeLink,
      .mk (.Text " now" false false false) [] []]

/-- A paragraph whose only child is an emphasis with an `id` attribute. -/
def sampleEmphasisParagraph : Node :=
  .mk .Paragraph []
    [.mk (.Emphasis 2) [⟨"id", .bytes "e1"⟩] [.mk (.Text "bold" false false false) [] []]]

/-! ## The traversal (goldmark `ast.Walk` and `renderer.Render`) -/

/-- How a walk ends: `ast.Walk` returns nil, it returns after a handler
returned an error or `WalkStop` (`err` is the error, `none` for nil), or a
handler panicked. -/
inductive WalkRet where
  | ok
  | stop (err : Option RenderError)
  | panic
  deriving DecidableEq

/-- The effect of a walk: the renderer and the node after it, the writes in
order, and how it ended. -/
structure WResult where
  r : Renderer
  node : Node
  out : List String
  ret : WalkRet

/-- The effect of the walk over a list of siblings. -/
structure WListResult where
  r : Renderer
  nodes : List Node
  out : List String
  ret : WalkRet

/-- The exit step of `walkHelper`: the handler is called with
`entering = false`; an error or `WalkStop` stops the walk. `out` holds the
writes made before. -/
def walkExit (x : Ext) (r : Renderer) (par next : Option Node) (node : Node)
    (out : List String) : WResult :=
  let h := dispatch x r par next node false
  match h.ret with
  | .panic => ⟨h.r, h.node, out ++ h.out, .panic⟩
  | .fail _ e => ⟨h.r, h.node, out ++ h.out, .stop (some e)⟩
  | .ok .WalkStop => ⟨h.r, h.node, out ++ h.out, .stop none⟩
  | .ok _ => ⟨h.r, h.node, out ++ h.out, .ok⟩

mutual
/-- Go `ast.walkHelper` with the walker of `renderer.Render`: the handler
of the node is called on entry, then the children are walked in order unless
the handler returned `WalkSkipChildren`, then the handler is called on exit.
`par` is the parent of the node and `next` its next sibling. -/
def walkHelper (x : Ext) (r : Renderer) (par next : Option Node) : Node → WResult
  | .mk p a cs =>
    let h := dispatch x r par next (.mk p a cs) true
    match h.ret with
    | .panic => ⟨h.r, h.node, h.out, .panic⟩
    | .fail _ e => ⟨h.r, h.node, h.out, .stop (some e)⟩
    | .ok .WalkStop => ⟨h.r, h.node, h.out, .stop none⟩
    | .ok .WalkSkipChildren => walkExit x h.r par next h.node h.out
    | .ok .WalkContinue =>
      let w := walkChildren x h.r (.mk h.node.payload h.node.attrs cs) cs
      match w.ret with
      | .ok =>
        walkExit x w.r par next (.mk h.node.payload h.node.attrs w.nodes) (h.out ++ w.out)
      | e => ⟨w.r, .mk h.node.payload h.node.attrs w.nodes, h.out ++ w.out, e⟩
/-- The loop of `walkHelper` over the children `cs` of `pnode`; it stops at
the first child whose walk does not end with nil. -/
def walkChildren (x : Ext) (r : Renderer) (pnode : Node) : List Node → WListResult
  | [] => ⟨r, [], [], .ok⟩
  | c :: rest =>
    let w := walkHelper x r (some pnode) rest.head? c
    match w.ret with
    | .ok =>
      let ws := walkChildren x w.r pnode rest
      ⟨ws.r, w.node :: ws.nodes, w.out ++ ws.out, ws.ret⟩
    | e => ⟨w.r, w.node :: rest, w.out, e⟩
end

/-- Go `renderer.Render` on the root of a tree: the walk from the root, which
has no parent and no sibling. -/
def Render (x : Ext) (r : Renderer) (root : Node) : WResult :=
  walkHelper x r none none root

/-- An HTML block without a closure line that has been given the identifier
`el3`. -/
def sampleOpenHTMLBlock : Node :=
  .mk (.HTMLBlock ["<div>\n", "x\n", "</div>\n"] none) [⟨"el", .str "el3"⟩] []

/-- A paragraph `el2` with the children of `a ***b***`: a text and an
emphasis whose first child is an emphasis. -/
def sampleNestedEmphasisParagraph : Node :=
  .mk .Paragraph [⟨"el", .str "el2"⟩]
    [.mk (.Text "a " false false false) [] [],
      .mk (.Emphasis 1) [] [.mk (.Emphasis 2) [] [.mk (.Text "b" false false false) [] []]]]

/-- A paragraph `el2` with the children of `a ![alt](x.png)`: a text and an
image. -/
def sampleImageParagraph : Node :=
  .mk .Paragraph [⟨"el", .str "el2"⟩]
    [.mk (.Text "a " false false false) [] [],
      .mk (.Image (lit "x.png") none) [] [.mk (.Text "alt" false false false) [] []]]

/-- A paragraph `el2` whose children are a `String` node and a raw HTML
node. -/
def sampleStringParagraph : Node :=
  .mk .Paragraph [⟨"el", .str "el2"⟩]
    [.mk (.StringNode "s" false false) [] [], .mk (.RawHTML ["<b>"]) [] []]

/-! ## Runs of text and segments, after the specification -/

/-- Whether a node is a `Text`. -/
def Node.isText : Node → Bool
  | .mk (.Text _ _ _ _) _ _ => true
  | _ => false

/-- The segment value of a `Text` node; the empty text for another node. -/
def textOf : Node → String
  | .mk (.Text value _ _ _) _ _ => value
  | _ => ""

/-- The values of the `Text` nodes of a list, one after the other. -/
def runText : List Node → String
  | [] => ""
  | c :: rest => textOf c ++ runText rest

/-- A unit of inline content under a parent: a merged run of adjacent `Text`
children with the concatenation of their values, or one non-text child. -/
inductive Seg where
  | text (content : String)
  | child (c : Node)

/-- A text put in front of a list of segments: it joins a text run that
starts the list, otherwise it is a run of its own. -/
def prependText (t : String) : List Seg → List Seg
  | .text u :: rest => .text (t ++ u) :: rest
  | segs => .text t :: segs

/-- The children of a node as segments, left to right: adjacent `Text`
children are merged into one run, every other child is a segment. -/
def groupRuns : List Node → List Seg
  | [] => []
  | c :: rest => if c.isText then prependText (textOf c) (groupRuns rest)
                 else .child c :: groupRuns rest

/-- The statement that creates the element of a segment under the
identifier `elNam`: a text node for a run, an `em` or `strong` element for
an emphasis, a `code` element for a code span, an `a` element for a link. -/
def segCreate (elNam : String) : Seg → String
  | .text content => "const " ++ elNam ++ "=document.createTextNode(`" ++ content ++ "`);\n"
  | .child (.mk (.Emphasis Level) _ _) =>
    "let " ++ elNam ++ "=document.createElement('" ++ (if Level = 2 then "strong" else "em") ++
      "');\n"
  | .child (.mk .CodeSpan _ _) => "let " ++ elNam ++ "=document.createElement(\"code\");\n"
  | .child (.mk (.Link _ _) _ _) => "let " ++ elNam ++ "=document.createElement(\"a\");\n"
  | .child _ => ""

/-- The blocks of statements `blocks` belong, one to one and in the same
order, to the segments `segs`: the block of the `i`-th segment begins with the
statement that creates its element under the `i`-th identifier after
`el<count>` and ends with the statement that appends that identifier to the
parent `P`. -/
def BlocksFor (P : String) : Int → List Seg → List (List String) → Prop
  | _, [], [] => True
  | count, seg :: segs, b :: bs =>
    (∃ mid, b = segCreate (elName (count + 1)) seg :: mid ++
      [appendStmt P (elName (count + 1))]) ∧ BlocksFor P (count + 1) segs bs
  | _, _, _ => False

/-- The children the aggregator is specified for in the ordering property: a
`Text`, an emphasis whose first child is a `Text`, a code span, a link. -/
def aggChildOK : Node → Bool
  | .mk (.Text _ _ _ _) _ _ => true
  | .mk (.Emphasis _) _ (.mk (.Text _ _ _ _) _ _ :: _) => true
  | .mk .CodeSpan _ _ => true
  | .mk (.Link _ _) _ _ => true
  | _ => false

/-- The statement is a text-node creation of the aggregator: `const`, an
identifier of the counter, `=document.createTextNode(` and a template
literal. -/
def IsTextNodeCreation (s : String) : Prop :=
  ∃ (k : Int) (body : String),
    s = "const " ++ elName k ++ "=document.createTextNode(`" ++ body ++ "`);\n"

/-- The debug line `renderTextChildren` writes first when `dbg` is set. -/
def aggDbgOut (r : Renderer) (parElNam : String) (children : List Node) : List String :=
  if r.dbg then
    ["// dbg -- pelNam: " ++ parElNam ++ " children: " ++ fmtD (children.length : Nat) ++ "\n"]
  else []

/-- A code span as the parser builds it: its children are `Text` nodes.
Holds of every node that is not a code span. -/
def spanOK : Node → Bool
  | .mk .CodeSpan _ children => children.all Node.isText
  | _ => true

/-- The paragraph `a *b* cd [here](https://x) ` followed by the code span
`x`, bound to `el2`; the text `cd` comes as two `Text` nodes. -/
def sampleMixedParagraph : Node :=
  .mk .Paragraph [⟨"el", .str "el2"⟩]
    [.mk (.Text "a " false false false) [] [],
      .mk (.Emphasis 1) [] [.mk (.Text "b" false false false) [] []],
      .mk (.Text " c" false false false) [] [],
      .mk (.Text "d " false false false) [] [],
      sampleSafeLink,
      .mk .CodeSpan [] [.mk (.Text "x" false false false) [] []]]

/-- Three adjacent `Text` nodes with the values `a`, `b` and `c`. -/
def sampleTexts : List Node :=
  [.mk (.Text "a" false false false) [] [], .mk (.Text "b" false false false) [] [],
    .mk (.Text "c" false false false) [] []]

/-- The paragraph of scenario B: `see `, a link to `javascript:alert(1)`,
` here`. -/
def sampleScenarioB : Node :=
  .mk .Paragraph []
    [.mk (.Text "see " false false false) [] [],
      .mk (.Link (lit "javascript:alert(1)") none) [] [],
      .mk (.Text " here" false false false) [] []]

/-- The paragraph of scenario C: `see `, a link to `https://x`, ` here`. -/
def sampleScenarioC : Node :=
  .mk .Paragraph []
    [.mk (.Text "see " false false false) [] [],
      .mk (.Link (lit "https://x") none) [] [],
      .mk (.Text " here" false false false) [] []]

/-- The heading of scenario A: level 2, one `Text` child `Title`. -/
def sampleHeading : Node :=
  .mk (.Heading 2) [] [.mk (.Text "Title" false false false) [] []]

/-- The list of scenario E with the marker `.` and the given start: one
item whose only child is a text block with the text `item`. -/
def sampleList (Marker : Nat) (Start : Int) : Node :=
  .mk (.ListNode Marker Start) []
    [.mk .ListItem [] [.mk .TextBlock [] [.mk (.Text "item" false false false) [] []]]]

/-! ## Sample documents for the conversion of whole trees -/


/-! ## Sample documents -/

/-- The document of `---` followed by the HTML block `<div>`, `x`, `</div>`
(no closure line). -/
def sampleBreakThenHTML : Node :=
  .mk .Document []
    [.mk .ThematicBreak [] [], .mk (.HTMLBlock ["<div>\n", "x\n", "</div>\n"] none) [] []]

/-- The document of a block quote that holds an HTML comment of two lines,
`> <!--` and `> c -->`: the HTML block has a closure line. -/
def sampleQuotedComment : Node :=
  .mk .Document [] [.mk .Blockquote [] [.mk (.HTMLBlock ["<!--\n"] (some "c -->\n")) [] []]]

/-- The document of a paragraph that holds the code span `x`. -/
def sampleCodeSpanDocument : Node :=
  .mk .Document []
    [.mk .Paragraph [] [.mk .CodeSpan [] [.mk (.Text "x" false false false) [] []]]]

/-- A code span whose child is not a `Text`. -/
def sampleBadCodeSpan : Node :=
  .mk .CodeSpan [] [.mk (.Emphasis 1) [] [.mk (.Text "x" false false false) [] []]]

/-! ## Identifiers declared by the writes -/


/-! ## Creation statements and the identifiers they declare -/

/-- Whether the text that follows an identifier is the rest of a creation
statement: `=` or `= `, then `document.createElement(` or
`document.createTextNode(`. -/
def isCreateTail (cs : List Char) : Bool :=
  "=document.createElement(".data.isPrefixOf cs ||
    "= document.createElement(".data.isPrefixOf cs ||
    "=document.createTextNode(".data.isPrefixOf cs ||
    "= document.createTextNode(".data.isPrefixOf cs

/-- A character of the decimal form of the counter: a digit or the minus
sign. -/
def isCounterChar (c : Char) : Bool := c.isDigit || c == '-'

/-- The identifier at the start of `cs` when `cs` is an identifier of the
counter, `el` and the decimal form of a number, followed by the rest of a
creation statement. -/
def declaredAfterKw : List Char → Option String
  | 'e' :: 'l' :: rest =>
    if !(rest.takeWhile isCounterChar).isEmpty && isCreateTail (rest.dropWhile isCounterChar)
    then some (String.mk ('e' :: 'l' :: rest.takeWhile isCounterChar))
    else none
  | _ => none

/-- The identifier that a write declares when the write is a creation
statement on an identifier of the counter: `let ` or `const `, the identifier
`el<n>`, `=` or `= `, and `document.createElement(` or
`document.createTextNode(`; `none` for every other write. A statement that
creates a node under another name, such as `el3Span1` or `codeStr`, is not
one of them. -/
def declaredId (s : String) : Option String :=
  match s.data with
  | 'l' :: 'e' :: 't' :: ' ' :: rest => declaredAfterKw rest
  | 'c' :: 'o' :: 'n' :: 's' :: 't' :: ' ' :: rest => declaredAfterKw rest
  | _ => none

/-- The identifiers of the counter declared by the creation statements of an
output, in the order of the output. -/
def declared (out : List String) : List String := out.filterMap declaredId

/-- The `n` identifiers that follow `el<count>`: `el<count+1>`, …,
`el<count+n>`. -/
def idsFrom (count : Int) (n : Nat) : List String :=
  (List.range n).map (fun (i : Nat) => elName (count + 1 + Int.ofNat i))

/-- The writes `out` made while the renderer went from `r` to `r1` account
for the counter: the counter did not decrease, the creation statements of
`out` declare, in order, exactly the identifiers allocated in between, and the
`Unsafe` option is as it was. -/
def Counted (r : Renderer) (out : List String) (r1 : Renderer) : Prop :=
  r.count ≤ r1.count ∧ declared out = idsFrom r.count (r1.count - r.count).toNat ∧
    r1.Unsafe = r.Unsafe

/-- The name of an element that a handler can have recorded: `mdDiv` for the
document root or an identifier of the counter. -/
def GoodName (P : String) : Prop := P = "mdDiv" ∨ ∃ k : Int, P = elName k


/-- The parent, if there is one and it has a string `el`, has the name of an
element recorded by a handler. -/
def ParentOK (par : Option Node) : Prop :=
  ∀ pnode, par = some pnode → ∀ P, AttributeString pnode.attrs "el" = some (.str P) → GoodName P

/-- The kinds of a subtree whose creation statements are read off the
output: the kinds with a handler except `Document` (it is the root) and
`HTMLBlock` (it takes no identifier from the counter); the free text that a
handler copies into the output as a write of its own, the escaped URL of an
autolink and, with `Unsafe` on, the segments of a raw HTML node, is not itself
a creation statement. `u` is the `Unsafe` option. -/
def plainPayload (x : Ext) (u : Bool) : Payload → Bool
  | .Document => false
  | .HTMLBlock _ _ => false
  | .Other _ => false
  | .RawHTML segments => !u || segments.all (fun s => (declaredId s).isNone)
  | .AutoLink _ url => (declaredId (x.escapeURL url false)).isNone
  | _ => true

mutual
/-- Every node of the subtree is of a kind accepted by `plainPayload`. -/
def plainNode (x : Ext) (u : Bool) : Node → Bool
  | .mk p _ cs => plainPayload x u p && plainNodes x u cs
/-- Every node of the subtrees is of a kind accepted by `plainPayload`. -/
def plainNodes (x : Ext) (u : Bool) : List Node → Bool
  | [] => true
  | c :: rest => plainNode x u c && plainNodes x u rest
end

/-! ## Creation statements, after the specification -/

/-- Whether the text `pat` occurs in the text `s`. -/
def hasSubstr (pat s : List Char) : Bool := s.tails.any (fun t => pat.isPrefixOf t)

/-- A creation statement, after the specification: a write in which
`document.createElement(` or `document.createTextNode(` occurs. -/
def isCreationStmt (s : String) : Bool :=
  hasSubstr "document.createElement(".data s.data ||
    hasSubstr "document.createTextNode(".data s.data

/-! ## Attachment statements among the writes -/

/-- Whether a text is the name of a parent element as the conversion writes
it: `mdDiv`, or `el` followed by the digits of a counter value. -/
def isParentName (P : List Char) : Bool :=
  P == "mdDiv".data ||
    match P with
    | 'e' :: 'l' :: ds => !ds.isEmpty && ds.all isCounterChar
    | _ => false

/-- The attachment statement a write is, if it is one: a write
`P.appendChild(E);` followed by a newline, where `P` is the name of a parent
element, gives the pair of `P` and `E`. -/
def attachOf (s : String) : Option (String × String) :=
  let P := s.data.takeWhile (fun c => c != '.')
  let rest := s.data.dropWhile (fun c => c != '.')
  if isParentName P && ".appendChild(".data.isPrefixOf rest &&
      "\n;)".data.isPrefixOf rest.reverse then
    some (String.mk P, String.mk ((rest.drop 13).reverse.drop 3).reverse)
  else none

/-- The identifiers that the attachment statements among the writes append
to a parent, in order. -/
def attachedIds (out : List String) : List String :=
  out.filterMap (fun s => (attachOf s).map Prod.snd)

/-- The counter identifier an identifier begins with: `el3` for `el3` and
for `el3Span1`. -/
def elKey (E : String) : String :=
  String.mk (E.data.takeWhile (fun c => c == 'e' || c == 'l' || isCounterChar c))

/-- The attachment statements among the writes append pairwise different
identifiers, each made from a counter value above `lo` and up to `hi`. -/
def Att (lo hi : Int) (out : List String) : Prop :=
  (attachedIds out).Nodup ∧
    ∀ E ∈ attachedIds out, ∃ k : Int, lo < k ∧ k ≤ hi ∧ elKey E = elName k

/-- The free text a handler writes as a write of its own is not an
attachment statement: the segments of a raw HTML node when `Unsafe` is set,
and the escaped URL of an autolink. -/
def quietPayload (x : Ext) (u : Bool) : Payload → Bool
  | .RawHTML segments => !u || segments.all (fun s => (attachOf s).isNone)
  | .AutoLink _ url => (attachOf (x.escapeURL url false)).isNone
  | _ => true

mutual
/-- The node and its descendants are quiet. -/
def quietNode (x : Ext) (u : Bool) : Node → Bool
  | .mk p _ cs => quietPayload x u p && quietNodes x u cs
/-- The nodes of a list and their descendants are quiet. -/
def quietNodes (x : Ext) (u : Bool) : List Node → Bool
  | [] => true
  | c :: rest => quietNode x u c && quietNodes x u rest
end

/-! ## Trees that agree up to the identifiers stored on the nodes -/

/-- Two attribute slices that differ at most in the attribute `el`: storing
a value under `el` makes them equal. -/
def ElSame (a b : List Attribute) : Prop :=
  ∀ v : AttrValue, SetAttribute a "el" v = SetAttribute b "el" v

/-- The attributes of two nodes of the kind `p` agree up to `el`; for a kind
without a handler they are the same. -/
def AttrRel (p : Payload) (a b : List Attribute) : Prop :=
  match p with
  | .Other _ => a = b
  | _ => ElSame a b

mutual
/-- Two trees that agree up to the `el` attributes of the nodes that have a
handler. -/
def Rel : Node → Node → Prop
  | .mk p1 a1 cs1, .mk p2 a2 cs2 => p1 = p2 ∧ AttrRel p1 a1 a2 ∧ RelList cs1 cs2
/-- Two lists of trees that agree, tree by tree, up to the `el` attributes. -/
def RelList : List Node → List Node → Prop
  | [], [] => True
  | c1 :: r1, c2 :: r2 => Rel c1 c2 ∧ RelList r1 r2
  | [], _ :: _ => False
  | _ :: _, [] => False
end

/-- Two parents that a handler cannot tell apart: both absent, or of the
same kind and with the same value of `el`. -/
def ParRel : Option Node → Option Node → Prop
  | none, none => True
  | some p1, some p2 =>
    p1.payload = p2.payload ∧ AttributeString p1.attrs "el" = AttributeString p2.attrs "el"
  | _, _ => False

/-- Two next siblings that a handler cannot tell apart: both absent, or with
the same fields. -/
def NextRel : Option Node → Option Node → Prop
  | none, none => True
  | some n1, some n2 => n1.payload = n2.payload
  | _, _ => False

/-- Two results of a handler with the same renderer, writes and return
value, and the same value of `el` on the node. -/
def HSame (h1 h2 : HResult) : Prop :=
  h1.out = h2.out ∧ h1.ret = h2.ret ∧ h1.r = h2.r ∧
    AttributeString h1.node.attrs "el" = AttributeString h2.node.attrs "el"

/-- Two states of the loop of the aggregator that agree in all but the
children visited. -/
def AggSame (s1 s2 : Agg) : Prop :=
  s1.r = s2.r ∧ s1.istate = s2.istate ∧ s1.text = s2.text ∧ s1.out = s2.out

/-! ## Splitting an input into its sections (`GetMetaSum`, `GetYaml`) -/

/-- What a Go function returns that can fail: its result, an error with its
message, or a run-time panic. -/
inductive GoResult (α : Type) where
  | ok (v : α)
  | err (msg : String)
  | panic
  deriving DecidableEq

/-- The search of `bytes.Index` from the offset `i` on. -/
def indexFrom (sep : Bytes) : Bytes → Nat → Int
  | [], i => if sep = [] then (i : Int) else -1
  | c :: rest, i =>
    if sep.isPrefixOf (c :: rest) then (i : Int) else indexFrom sep rest (i + 1)

/-- Go `bytes.Index(s, sep)`: the index of the first instance of `sep` in
`s`, or -1 if `sep` is not present in `s`. -/
def Index (s sep : Bytes) : Int := indexFrom sep s 0

/-- The Go slice expression `s[lo:hi]` on a slice that is not nil: it panics
(`none`) unless `0 <= lo <= hi <= len(s)`. The capacity of `s` is not
modelled, the high bound is checked against the length. -/
def slice (s : Bytes) (lo hi : Int) : Option Bytes :=
  if 0 ≤ lo ∧ lo ≤ hi ∧ hi ≤ (s.length : Int) then
    some ((s.drop lo.toNat).take (hi - lo).toNat)
  else none

/-- The Go slice expression `s[lo:]`. -/
def sliceFrom (s : Bytes) (lo : Int) : Option Bytes := slice s lo (s.length : Int)

/-- Source `compInp`. A field is `none` when the slice is nil. -/
structure compInp where
  Meta : Option Bytes
  Summary : Option Bytes
  Main : Option Bytes
  deriving DecidableEq

/-- The block of `GetMetaSum` that looks for the YAML header: the value of
`metaidxend` and of `comp.Meta` after it. -/
def metaPart (inp : Bytes) : GoResult (Int × Option Bytes) :=
  let metaidxst := Index inp (lit "---\n")
  if metaidxst > -1 then
    match sliceFrom inp (metaidxst + 4) with
    | none => .panic
    | some rest =>
      let metaidxend := Index rest (lit "---\n")
      if metaidxend = -1 then .err "no meta end!"
      else
        match slice inp metaidxst (metaidxend + metaidxst + 8) with
        | none => .panic
        | some m => .ok (metaidxend + metaidxst + 8, some m)
  else .ok (-2, none)

/-- The block of `GetMetaSum` that looks for the summary: the value of
`sumidxend` and of `comp.Summary` after it. -/
def sumPart (inp : Bytes) : GoResult (Int × Option Bytes) :=
  let sumidxst := Index inp (lit "# Summary")
  if sumidxst > -1 then
    match sliceFrom inp (sumidxst + 9) with
    | none => .panic
    | some rest =>
      let sumidxend := Index rest (lit "#")
      if sumidxend > -1 then
        match slice inp sumidxst (sumidxst + sumidxend + 9) with
        | none => .panic
        | some s => .ok (sumidxst + sumidxend + 9, some s)
      else .ok (sumidxend, none)
  else .ok (-2, none)

/-- The end of `GetMetaSum`: `comp.Main` is cut from the input. -/
def mainPart (inp : Bytes) (metaidxend sumidxend : Int) (Meta Summary : Option Bytes) :
    GoResult compInp :=
  if Meta.isSome then
    if Summary.isSome then
      match sliceFrom inp sumidxend with
      | none => .panic
      | some main => .ok ⟨Meta, Summary, some main⟩
    else
      match sliceFrom inp metaidxend with
      | none => .panic
      | some main => .ok ⟨Meta, Summary, some main⟩
  else if Summary.isSome then
    match sliceFrom inp sumidxend with
    | none => .panic
    | some main => .ok ⟨Meta, Summary, some main⟩
  else .ok ⟨Meta, Summary, some inp⟩

/-- Source `GetMetaSum`. The input is `none` when the slice is nil. -/
def GetMetaSum (inp : Option Bytes) : GoResult compInp :=
  match inp with
  | none => .err "no input!"
  | some inp =>
    match metaPart inp with
    | .panic => .panic
    | .err msg => .err msg
    | .ok (metaidxend, Meta) =>
      match sumPart inp with
      | .panic => .panic
      | .err msg => .err msg
      | .ok (sumidxend, Summary) => mainPart inp metaidxend sumidxend Meta Summary

/-- Source `GetYaml` of `rendererV2`: the result is the pair of `mdBuf` and
`yamlBuf`. -/
def GetYaml (buf : Option Bytes) : GoResult (Option Bytes × Option Bytes) :=
  if Index (buf.getD []) (lit "---\n") ≠ 0 then .ok (buf, none)
  else
    match sliceFrom (buf.getD []) 4 with
    | none => .panic
    | some rest =>
      let idx := Index rest (lit "---\n")
      if idx = -1 then .err "no end of yaml section!"
      else
        match sliceFrom (buf.getD []) (idx + 5), slice (buf.getD []) 0 (idx + 5) with
        | some md, some yaml => .ok (some md, some yaml)
        | _, _ => .panic

/-- After the specification: `sep` occurs in `s` at the offset `pre.length`,
followed by `post`, and at no smaller offset (its first occurrence). -/
def FirstAt (sep s pre post : Bytes) : Prop :=
  s = pre ++ sep ++ post ∧ ∀ k, k < pre.length → ¬ sep <+: s.drop k

instance (sep s pre post : Bytes) : Decidable (FirstAt sep s pre post) := by
  unfold FirstAt
  infer_instance

/-! ## The `default` case of the aggregator -/

/-- The kinds that reach the `default` case of the switch on the kind of the
child in `renderTextChildren`: all but `Text`, `Emphasis`, `CodeSpan`,
`Image`, `Link`, `RawHTML` and `String`. -/
def aggDefaultCase : Payload → Bool
  | .Text _ _ _ _ => false
  | .Emphasis _ => false
  | .CodeSpan => false
  | .Image _ _ => false
  | .Link _ _ => false
  | .RawHTML _ => false
  | .StringNode _ _ _ => false
  | _ => true

/-! ## The transformer of the image attributes (`imgAttr.go`)

The transformer holds pointers to the nodes of the tree and changes the tree
in place. Here a node carries a number that stands for its address, and the
methods of goldmark the transformer calls on a pointer are functions of the
tree and of that number. -/

/-- Source `KindImgAttr`, the kind made by `ast.NewNodeKind("ImgAttr")`:
the test `Kind() == KindImgAttr`. -/
def isKindImgAttr : Payload → Bool
  | .Other kind => kind == "ImgAttr"
  | _ => false

/-- The test `Kind() == ast.KindImage`. -/
def isKindImage : Payload → Bool
  | .Image _ _ => true
  | _ => false

/-- A node of the tree with its address `id`: two nodes of a tree are the
same node when they have the same `id`. -/
inductive INode where
  | mk (id : Nat) (payload : Payload) (attrs : List Attribute) (children : List INode)

/-- The address of a node. -/
def INode.id : INode → Nat
  | .mk i _ _ _ => i

/-- The kind and fields of a node. -/
def INode.payload : INode → Payload
  | .mk _ p _ _ => p

/-- Go `Attributes()`. -/
def INode.attrs : INode → List Attribute
  | .mk _ _ a _ => a

/-- The children of a node, first child first. -/
def INode.children : INode → List INode
  | .mk _ _ _ c => c

mutual
/-- The tree with its nodes numbered from `n` on in document order; the
second component is the first number not used. -/
def labelNode : Node → Nat → INode × Nat
  | .mk p a cs, n =>
    let res := labelList cs (n + 1)
    (.mk n p a res.1, res.2)
/-- The trees of a list numbered from `n` on. -/
def labelList : List Node → Nat → List INode × Nat
  | [], n => ([], n)
  | c :: rest, n =>
    let r1 := labelNode c n
    let r2 := labelList rest r1.2
    (r1.1 :: r2.1, r2.2)
end

mutual
/-- The tree without the addresses. -/
def eraseNode : INode → Node
  | .mk _ p a cs => .mk p a (eraseList cs)
/-- The trees of a list without the addresses. -/
def eraseList : List INode → List Node
  | [] => []
  | c :: rest => eraseNode c :: eraseList rest
end

mutual
/-- The nodes of a tree in document order: of each its address, its kind
and its attributes. -/
def cellsNode : INode → List (Nat × Payload × List Attribute)
  | .mk i p a cs => (i, p, a) :: cellsList cs
/-- The nodes of the trees of a list in document order. -/
def cellsList : List INode → List (Nat × Payload × List Attribute)
  | [] => []
  | c :: rest => cellsNode c ++ cellsList rest
end

mutual
/-- The kinds of the nodes of a tree in document order. -/
def kindsNode : Node → List Payload
  | .mk p _ cs => p :: kindsList cs
/-- The kinds of the nodes of the trees of a list in document order. -/
def kindsList : List Node → List Payload
  | [] => []
  | c :: rest => kindsNode c ++ kindsList rest
end

mutual
/-- The first loop of `Transform`, the walk that collects the nodes of the
kind `ImgAttr`: such a node is appended to `attributes` when it is entered
and its children are skipped; the children of any other node are walked in
order. The result is the addresses collected below and at the node. -/
def collectNode : INode → List Nat
  | .mk i p _ cs => if isKindImgAttr p then [i] else collectList cs
/-- The walk of `collectNode` over the children of a node. -/
def collectList : List INode → List Nat
  | [] => []
  | c :: rest => collectNode c ++ collectList rest
end

mutual
/-- The node at the address `target` below the root of the tree, with what
`PreviousSibling()` returns on it: `none` when no node below the root has
that address. -/
def locateNode (target : Nat) : INode → Option (Option INode × INode)
  | .mk _ _ _ cs => locateList target none cs
/-- The search of `locateNode` in the children of a node; `prev` is the
sibling before the first of `cs`. -/
def locateList (target : Nat) : Option INode → List INode → Option (Option INode × INode)
  | _, [] => none
  | prev, c :: rest =>
    if c.id = target then some (prev, c)
    else
      match locateNode target c with
      | some res => some res
      | none => locateList target (some c) rest
end

mutual
/-- Go `SetAttribute` calls on the node at `target` that leave it with the
attributes `attrs`. -/
def setAttrsNode (target : Nat) (attrs : List Attribute) : INode → INode
  | .mk i p a cs =>
    .mk i p (if i = target then attrs else a) (setAttrsList target attrs cs)
/-- The change of `setAttrsNode` in the trees of a list. -/
def setAttrsList (target : Nat) (attrs : List Attribute) : List INode → List INode
  | [] => []
  | c :: rest => setAttrsNode target attrs c :: setAttrsList target attrs rest
end

mutual
/-- Go `RemoveChild` on the parent of the node at `target` and that node:
the node is taken out of the children of its parent, with its subtree. -/
def removeNode (target : Nat) : INode → INode
  | .mk i p a cs => .mk i p a (removeList target cs)
/-- The removal of `removeNode` in the trees of a list. -/
def removeList (target : Nat) : List INode → List INode
  | [] => []
  | c :: rest =>
    if c.id = target then removeList target rest
    else removeNode target c :: removeList target rest
end

/-- The inner loop of `Transform` over the attributes of the `ImgAttr` node:
an attribute whose name `prev.Attribute` does not find on the previous
sibling is set on it with `prev.SetAttribute`. `prev` is the attributes of
the previous sibling. -/
def mergeAttrs (prev : List Attribute) : List Attribute → List Attribute
  | [] => prev
  | attr :: rest =>
    match AttributeString prev attr.Name with
    | some _ => mergeAttrs prev rest
    | none => mergeAttrs (SetAttribute prev attr.Name attr.Value) rest

/-- The body of the second loop of `Transform` for the collected node at
the address `j`: when its previous sibling is an `Image`, its attributes are
merged into those of the image; then the node is removed from its parent. -/
def processAttr (t : INode) (j : Nat) : INode :=
  match locateNode j t with
  | none => t
  | some (prev, attr) =>
    let t1 :=
      match prev with
      | some prev =>
        if isKindImage prev.payload then
          setAttrsNode prev.id (mergeAttrs prev.attrs attr.attrs) t
        else t
      | none => t
    removeNode j t1

/-- The tree after the first `k` of the collected nodes were processed. -/
def stateAt (t : INode) (k : Nat) : INode :=
  ((collectNode t).take k).foldl processAttr t

/-- Source `Transform` on the tree with addresses: the nodes of the kind
`ImgAttr` are collected, then processed in the order of the collection. -/
def TransformI (t : INode) : INode :=
  (collectNode t).foldl processAttr t

/-- Source `transformer.Transform`: the result is the document the source
leaves behind. -/
def Transform (doc : Node) : Node :=
  eraseNode (TransformI (labelNode doc 0).1)

/-- A document for the transformer: a paragraph with an image that has the
attribute `x`, followed by two `ImgAttr` nodes, a text and a third `ImgAttr`
node. -/
def sampleImgDocument : Node :=
  .mk .Document []
    [.mk .Paragraph []
      [.mk (.Image (lit "a.png") none) [⟨"x", .bytes "1"⟩] [],
        .mk (.Other "ImgAttr") [⟨"x", .bytes "2"⟩, ⟨"y", .bytes "3"⟩] [],
        .mk (.Other "ImgAttr") [⟨"y", .bytes "4"⟩, ⟨"z", .bytes "5"⟩] [],
        .mk (.Text "t" false false false) [] [],
        .mk (.Other "ImgAttr") [⟨"w", .bytes "6"⟩] []]]
/-- The change `setAttrsNode` makes to one node of the listing. -/
def updCell (i : Nat) (attrs : List Attribute) (c : Nat × Payload × List Attribute) :
    Nat × Payload × List Attribute :=
  if c.1 = i then (c.1, c.2.1, attrs) else c

/-! ## The writes of scenario E -/

/-- The writes of the walk over a list with one item whose only child is a
text block with a single `Text` child of the value `v`, in order: `count` is
the counter before the walk, `P` the identifier of the parent and `kind` the
name of its kind, `la` and `ia` the attributes of the list and of the item as
the entry phases left them. -/
def listItemWrites (count : Int) (dbg : Bool) (P kind : String) (Marker : Nat) (Start : Int)
    (la ia : List Attribute) (v : String) : List String :=
  ["let " ++ elName (count + 1) ++ "= document.createElement('" ++
      (if IsOrdered Marker then "ol" else "ul") ++ "');\n"] ++
  (if IsOrdered Marker && decide (Start ≠ 1) then
    [elName (count + 1) ++ (".start='" ++ fmtD Start ++ "';\n")] else []) ++
  RenderElAttributes la (some ListAttributeFilter) (elName (count + 1)) ++
  [if IsOrdered Marker then "Object.assign(" ++ elName (count + 1) ++ ".style, mdStyle.ol);\n"
    else "Object.assign(" ++ elName (count + 1) ++ ".style, mdStyle.ul);\n",
    "let " ++ elName (count + 2) ++ "= document.createElement('li');\n",
    "Object.assign(" ++ elName (count + 2) ++ ".style, mdStyle.li);\n"] ++
  RenderElAttributes ia (some ListItemAttributeFilter) (elName (count + 2)) ++
  (if dbg then
    ["// dbg -- pelNam: " ++ elName (count + 2) ++ " children: " ++ fmtD 1 ++ "\n"]
    else []) ++
  [elName (count + 2) ++ ".textContent=`" ++ v ++ "`;\n"] ++
  (if dbg then [dbgLine (elName (count + 2)) (elName (count + 1)) "List"] else []) ++
  [elName (count + 1) ++ ".appendChild(" ++ elName (count + 2) ++ ");\n"] ++
  (if dbg then [dbgLine (elName (count + 1)) P kind] else []) ++
  [P ++ ".appendChild(" ++ elName (count + 1) ++ ");\n"]

/-! ### Facts about the library model -/

theorem firstInfo_lo (p0 sz lo hi : Nat) (h : firstInfo p0 = some (sz, lo, hi)) :
    0x80 ≤ lo := by
  unfold firstInfo at h
  split_ifs at h <;> simp at h <;> omega

/-- What `decodeRune` can return on a non-empty input: one byte taken (an
ASCII byte itself, or `RuneError`), or at least two bytes taken, the second
of which is a continuation byte. -/
theorem decodeRune_cases (c : Nat) (rest : Bytes) :
    ((decodeRune (c :: rest)).2 = 1 ∧
        (c < RuneSelf ∨ (decodeRune (c :: rest)).1 = RuneError)) ∨
      (2 ≤ (decodeRune (c :: rest)).2 ∧ ∃ b1 t1, rest = b1 :: t1 ∧ 0x80 ≤ b1) := by
  by_cases h1 : c < RuneSelf
  · left; simp [decodeRune, h1]
  · cases hf : firstInfo c with
    | none => left; simp [decodeRune, h1, hf]
    | some v =>
      obtain ⟨sz, lo, hi⟩ := v
      have hlo := firstInfo_lo c sz lo hi hf
      rcases rest with _ | ⟨b1, _ | ⟨b2, _ | ⟨b3, t3⟩⟩⟩ <;>
        simp only [decodeRune, h1, hf, if_false] <;> split_ifs <;>
        first
          | (left; simp; done)
          | (right; exact ⟨by simp, _, _, rfl, by omega⟩)

theorem appendRune_ascii (r : Int) (h : ∀ b ∈ appendRune r, b < 0x80) :
    (appendRune r).length = 1 ∧ r.toNat ≤ 0x7F := by
  unfold appendRune at h ⊢
  simp only at h ⊢
  split_ifs at h ⊢ with h1 h2 h3
  · simp [h1]
  · have := h (0xC0 + r.toNat / 64) (by simp); omega
  · have := h 0xEF (by simp); omega
  · have := h (0xE0 + r.toNat / 4096) (by simp); omega
  · have := h (0xF0 + r.toNat / 262144) (by simp); omega

theorem unicodeToLower_runeError (tbl : Int → Int) (hT : tbl 0xFFFD = 0xFFFD) :
    unicodeToLower tbl RuneError = 0xFFFD := by
  simp [unicodeToLower, RuneError, hT]

/-- When `bytes.Map unicode.ToLower` yields only ASCII bytes, it yields at most
as many bytes as it read, and exactly as many only if it read ASCII bytes
only. -/
theorem bytesMapFrom_ascii_len (tbl : Int → Int) (hT : tbl 0xFFFD = 0xFFFD) :
    ∀ (s : Bytes) (k : Nat),
      (∀ b ∈ bytesMapFrom (unicodeToLower tbl) k s, b < 0x80) →
      (bytesMapFrom (unicodeToLower tbl) k s).length ≤ s.length ∧
        ((bytesMapFrom (unicodeToLower tbl) k s).length = s.length →
          ∀ b ∈ s, b < RuneSelf) := by
  intro s
  induction s with
  | nil => intro k _; simp [bytesMapFrom]
  | cons c rest ih =>
    intro k h
    cases k with
    | succ k =>
      simp only [bytesMapFrom] at h ⊢
      have := (ih k h).1
      simp only [List.length_cons]
      exact ⟨by omega, fun he => by omega⟩
    | zero =>
      simp only [bytesMapFrom] at h ⊢
      generalize hrw : (if c ≥ RuneSelf then decodeRune (c :: rest) else ((c : Int), 1)) = rw
        at h ⊢
      have htail : ∀ b ∈ bytesMapFrom (unicodeToLower tbl) (rw.2 - 1) rest, b < 0x80 :=
        fun b hb => h b (List.mem_append_right _ hb)
      have hhead : ∀ b ∈ (if unicodeToLower tbl rw.1 ≥ 0 then
          appendRune (unicodeToLower tbl rw.1) else []), b < 0x80 :=
        fun b hb => h b (List.mem_append_left _ hb)
      obtain ⟨ihle, iheq⟩ := ih (rw.2 - 1) htail
      have hlen1 : (if unicodeToLower tbl rw.1 ≥ 0 then
          appendRune (unicodeToLower tbl rw.1) else []).length ≤ 1 := by
        split_ifs with hr
        · rw [if_pos hr] at hhead
          exact le_of_eq (appendRune_ascii _ hhead).1
        · simp
      simp only [List.length_append, List.length_cons]
      refine ⟨by omega, fun he => ?_⟩
      have hrest := iheq (by omega)
      intro b hb
      rcases List.mem_cons.1 hb with rfl | hb
      · by_contra hc
        have hc' : b ≥ RuneSelf := by omega
        rw [if_pos hc'] at hrw
        rcases decodeRune_cases b rest with ⟨_, hA | hE⟩ | ⟨_, b1, t1, hr, hb1⟩
        · exact hc hA
        · rw [hrw] at hE
          rw [hE, unicodeToLower_runeError tbl hT] at hhead
          have := hhead 0xEF (by decide)
          omega
        · have := hrest b1 (by rw [hr]; simp)
          simp only [RuneSelf] at this
          omega
      · exact hrest b hb

theorem lowerByte_of_not_upper (s : Bytes)
    (h : (s.any (fun c => decide (65 ≤ c ∧ c ≤ 90))) = false) : s.map lowerByte = s := by
  induction s with
  | nil => rfl
  | cons c rest ih =>
    simp only [List.any_cons, Bool.or_eq_false_iff, decide_eq_false_iff_not] at h
    simp only [List.map_cons, ih h.2, lowerByte, if_neg h.1]

/-- On ASCII input `bytes.ToLower` lowers every byte on its own. -/
theorem bytesToLower_ascii (tbl : Int → Int) (s : Bytes) (h : ∀ b ∈ s, b < RuneSelf) :
    bytesToLower tbl s = s.map lowerByte := by
  have hall : s.all (fun c => decide (c < RuneSelf)) = true := by
    simpa [List.all_eq_true] using h
  unfold bytesToLower
  rw [if_pos hall]
  split_ifs with hu
  · exact (lowerByte_of_not_upper s (by simpa using hu)).symm
  · rfl

/-- If `bytes.ToLower s` is an ASCII string as long as `s`, then `s` is ASCII. -/
theorem ascii_of_bytesToLower (tbl : Int → Int) (hT : tbl 0xFFFD = 0xFFFD) (s q : Bytes)
    (hq : ∀ b ∈ q, b < 0x80) (hlen : q.length = s.length) (h : bytesToLower tbl s = q) :
    ∀ b ∈ s, b < RuneSelf := by
  by_cases hall : s.all (fun c => decide (c < RuneSelf)) = true
  · simpa [List.all_eq_true] using hall
  · unfold bytesToLower at h
    rw [if_neg hall] at h
    unfold bytesMap at h
    have := bytesMapFrom_ascii_len tbl hT s 0 (by rw [h]; exact hq)
    exact this.2 (by rw [h]; exact hlen)

theorem foldEq_iff_lowerByte (a b : Nat) : foldEq a b = true ↔ lowerByte a = lowerByte b := by
  unfold foldEq lowerByte
  simp only [Bool.or_eq_true, Bool.and_eq_true, beq_iff_eq, decide_eq_true_eq]
  split_ifs <;> omega

theorem lt_of_lowerByte_lt (c : Nat) (h : lowerByte c < 0x80) : c < RuneSelf := by
  unfold lowerByte at h
  unfold RuneSelf
  split_ifs at h <;> omega

theorem lowerByte_lt (c : Nat) (h : c < RuneSelf) : lowerByte c < 0x80 := by
  unfold lowerByte
  unfold RuneSelf at h
  split_ifs <;> omega

theorem beginsWithFold_nil (s : Bytes) : beginsWithFold s [] = true := by
  cases s <;> rfl

/-- The positional reading of `beginsWithFold`. -/
theorem beginsWithFold_iff_take (p : Bytes) : ∀ s : Bytes,
    beginsWithFold s p = true ↔
      p.length ≤ s.length ∧ (s.take p.length).map lowerByte = p.map lowerByte := by
  induction p with
  | nil => intro s; simp [beginsWithFold_nil]
  | cons b p ih =>
    intro s
    cases s with
    | nil => simp [beginsWithFold]
    | cons a s =>
      simp only [beginsWithFold, Bool.and_eq_true, ih s, foldEq_iff_lowerByte,
        List.length_cons, List.take_succ_cons, List.map_cons, List.cons.injEq]
      constructor
      · rintro ⟨h1, h2, h3⟩; exact ⟨by omega, h1, h3⟩
      · rintro ⟨h1, h2, h3⟩; exact ⟨h2, by omega, h3⟩

theorem hasPrefix_iff (tbl : Int → Int) (s p : Bytes) :
    hasPrefix tbl s p = true ↔
      p.length ≤ s.length ∧ bytesToLower tbl (s.take p.length) = bytesToLower tbl p := by
  simp [hasPrefix]

/-- Completeness of `hasPrefix` for an ASCII prefix: a case-insensitive match
is found. -/
theorem hasPrefix_of_beginsWithFold (tbl : Int → Int) (s p : Bytes)
    (hp : ∀ b ∈ p, b < RuneSelf) (h : beginsWithFold s p = true) :
    hasPrefix tbl s p = true := by
  obtain ⟨hlen, hmap⟩ := (beginsWithFold_iff_take p s).1 h
  refine (hasPrefix_iff tbl s p).2 ⟨hlen, ?_⟩
  have htake : ∀ b ∈ s.take p.length, b < RuneSelf := by
    intro b hb
    apply lt_of_lowerByte_lt
    have hm : lowerByte b ∈ p.map lowerByte := by
      rw [← hmap]; exact List.mem_map_of_mem _ hb
    obtain ⟨c, hc, hcb⟩ := List.mem_map.1 hm
    rw [← hcb]
    exact lowerByte_lt c (hp c hc)
  rw [bytesToLower_ascii tbl _ htake, bytesToLower_ascii tbl _ hp, hmap]

/-- Soundness of `hasPrefix` for an ASCII prefix: it accepts only a
case-insensitive match. Bytes outside ASCII never lower to an ASCII string of
the same length, since `U+FFFD` has no lower case. -/
theorem beginsWithFold_of_hasPrefix (tbl : Int → Int) (hT : tbl 0xFFFD = 0xFFFD)
    (s p : Bytes) (hp : ∀ b ∈ p, b < RuneSelf) (h : hasPrefix tbl s p = true) :
    beginsWithFold s p = true := by
  obtain ⟨hlen, hlow⟩ := (hasPrefix_iff tbl s p).1 h
  rw [bytesToLower_ascii tbl _ hp] at hlow
  have hq : ∀ b ∈ p.map lowerByte, b < 0x80 := by
    intro b hb
    obtain ⟨c, hc, hcb⟩ := List.mem_map.1 hb
    rw [← hcb]; exact lowerByte_lt c (hp c hc)
  have htake := ascii_of_bytesToLower tbl hT (s.take p.length) (p.map lowerByte) hq
    (by simp [List.length_take]; omega) hlow
  rw [bytesToLower_ascii tbl _ htake] at hlow
  exact (beginsWithFold_iff_take p s).2 ⟨hlen, hlow⟩

theorem hasPrefix_eq_beginsWithFold (tbl : Int → Int) (hT : tbl 0xFFFD = 0xFFFD)
    (s p : Bytes) (hp : ∀ b ∈ p, b < RuneSelf) :
    hasPrefix tbl s p = beginsWithFold s p := by
  rw [Bool.eq_iff_iff]
  exact ⟨beginsWithFold_of_hasPrefix tbl hT s p hp, hasPrefix_of_beginsWithFold tbl s p hp⟩

/-- Matching a concatenation is matching its parts one after the other. -/
theorem beginsWithFold_append (p q : Bytes) : ∀ s : Bytes,
    beginsWithFold s (p ++ q) = (beginsWithFold s p && beginsWithFold (s.drop p.length) q) := by
  induction p with
  | nil => intro s; simp [beginsWithFold_nil]
  | cons b p ih =>
    intro s
    cases s with
    | nil => cases q <;> simp [beginsWithFold]
    | cons a s => simp [beginsWithFold, ih s, Bool.and_assoc]

theorem length_le_of_beginsWithFold (p s : Bytes) (h : beginsWithFold s p = true) :
    p.length ≤ s.length :=
  ((beginsWithFold_iff_take p s).1 h).1

/-- Two prefixes whose first bytes differ by more than case exclude each
other. -/
theorem beginsWithFold_conflict (a b : Nat) (p q s : Bytes) (hab : foldEq a b = false)
    (h : beginsWithFold s (a :: p) = true) : beginsWithFold s (b :: q) = false := by
  cases s with
  | nil => simp [beginsWithFold] at h
  | cons c s =>
    simp only [beginsWithFold, Bool.and_eq_true] at h
    have hcb : foldEq c b = false := by
      rw [Bool.eq_false_iff]
      intro hcb
      have h1 := (foldEq_iff_lowerByte c a).1 h.1
      have h2 := (foldEq_iff_lowerByte c b).1 hcb
      have h3 := (foldEq_iff_lowerByte a b).2 (h1.symm.trans h2)
      rw [hab] at h3
      exact Bool.false_ne_true h3
    simp [beginsWithFold, hcb]

theorem ascii_bDataImage : ∀ b ∈ bDataImage, b < RuneSelf := by decide
theorem ascii_bPng : ∀ b ∈ bPng, b < RuneSelf := by decide
theorem ascii_bGif : ∀ b ∈ bGif, b < RuneSelf := by decide
theorem ascii_bJpeg : ∀ b ∈ bJpeg, b < RuneSelf := by decide
theorem ascii_bWebp : ∀ b ∈ bWebp, b < RuneSelf := by decide
theorem ascii_bSvg : ∀ b ∈ bSvg, b < RuneSelf := by decide
theorem ascii_bJs : ∀ b ∈ bJs, b < RuneSelf := by decide
theorem ascii_bVb : ∀ b ∈ bVb, b < RuneSelf := by decide
theorem ascii_bFile : ∀ b ∈ bFile, b < RuneSelf := by decide
theorem ascii_bData : ∀ b ∈ bData, b < RuneSelf := by decide

/-- The guard in terms of case-insensitive prefixes. -/
theorem IsDangerousURL_eq (tbl : Int → Int) (hT : tbl 0xFFFD = 0xFFFD) (url : Bytes) :
    IsDangerousURL tbl url =
      if beginsWithFold url bDataImage && decide (url.length ≥ 11) then
        !(beginsWithFold (url.drop 11) bPng || beginsWithFold (url.drop 11) bGif ||
          beginsWithFold (url.drop 11) bJpeg || beginsWithFold (url.drop 11) bWebp ||
          beginsWithFold (url.drop 11) bSvg)
      else
        beginsWithFold url bJs || beginsWithFold url bVb ||
          beginsWithFold url bFile || beginsWithFold url bData := by
  unfold IsDangerousURL
  simp only [hasPrefix_eq_beginsWithFold tbl hT _ _ ascii_bDataImage,
    hasPrefix_eq_beginsWithFold tbl hT _ _ ascii_bPng,
    hasPrefix_eq_beginsWithFold tbl hT _ _ ascii_bGif,
    hasPrefix_eq_beginsWithFold tbl hT _ _ ascii_bJpeg,
    hasPrefix_eq_beginsWithFold tbl hT _ _ ascii_bWebp,
    hasPrefix_eq_beginsWithFold tbl hT _ _ ascii_bSvg,
    hasPrefix_eq_beginsWithFold tbl hT _ _ ascii_bJs,
    hasPrefix_eq_beginsWithFold tbl hT _ _ ascii_bVb,
    hasPrefix_eq_beginsWithFold tbl hT _ _ ascii_bFile,
    hasPrefix_eq_beginsWithFold tbl hT _ _ ascii_bData]
  generalize (beginsWithFold (url.drop 11) bPng || beginsWithFold (url.drop 11) bGif ||
    beginsWithFold (url.drop 11) bJpeg || beginsWithFold (url.drop 11) bWebp ||
    beginsWithFold (url.drop 11) bSvg) = c
  cases c <;> rfl

/-- A match of `data:image/` followed by a match of `<type>;` is a match of
`data:image/<type>`. -/
theorem spec_exception_of_source (url t : Bytes)
    (h1 : beginsWithFold url bDataImage = true)
    (h2 : beginsWithFold (url.drop 11) (t ++ [59]) = true) :
    beginsWithFold url (bDataImage ++ t) = true := by
  rw [beginsWithFold_append] at h2 ⊢
  simp only [Bool.and_eq_true] at h2 ⊢
  exact ⟨h1, h2.1⟩

theorem not_source_of_not_spec (url : Bytes) (h1 : beginsWithFold url bDataImage = true)
    (hex : specImageException url = false) :
    (beginsWithFold (url.drop 11) bPng || beginsWithFold (url.drop 11) bGif ||
      beginsWithFold (url.drop 11) bJpeg || beginsWithFold (url.drop 11) bWebp ||
      beginsWithFold (url.drop 11) bSvg) = false := by
  simp only [specImageException, Bool.or_eq_false_iff] at hex ⊢
  obtain ⟨⟨⟨⟨e1, e2⟩, e3⟩, e4⟩, e5⟩ := hex
  refine ⟨⟨⟨⟨?_, ?_⟩, ?_⟩, ?_⟩, ?_⟩ <;> rw [Bool.eq_false_iff] <;> intro h
  · have hh : beginsWithFold url (lit "data:image/png") = true :=
      spec_exception_of_source url (lit "png") h1 h
    rw [e1] at hh; exact Bool.false_ne_true hh
  · have hh : beginsWithFold url (lit "data:image/gif") = true :=
      spec_exception_of_source url (lit "gif") h1 h
    rw [e2] at hh; exact Bool.false_ne_true hh
  · have hh : beginsWithFold url (lit "data:image/jpeg") = true :=
      spec_exception_of_source url (lit "jpeg") h1 h
    rw [e3] at hh; exact Bool.false_ne_true hh
  · have hh : beginsWithFold url (lit "data:image/webp") = true :=
      spec_exception_of_source url (lit "webp") h1 h
    rw [e4] at hh; exact Bool.false_ne_true hh
  · have hh : beginsWithFold url (lit "data:image/svg+xml") = true :=
      spec_exception_of_source url (lit "svg+xml") h1 h
    rw [e5] at hh; exact Bool.false_ne_true hh

/-- C3. A URL that begins, ASCII letters compared without regard to case, with
`javascript:`, `vbscript:`, `file:`, or with `data:` outside the
`data:image/{png,gif,jpeg,webp,svg+xml}` exceptions, is classified dangerous by
`IsDangerousURL`. -/
theorem IsDangerousURL_of_dangerous_scheme (tbl : Int → Int) (hT : tbl 0xFFFD = 0xFFFD)
    (url : Bytes)
    (h : beginsWithFold url (lit "javascript:") = true ∨
      beginsWithFold url (lit "vbscript:") = true ∨
      beginsWithFold url (lit "file:") = true ∨
      (beginsWithFold url (lit "data:") = true ∧ specImageException url = false)) :
    IsDangerousURL tbl url = true := by
  rw [IsDangerousURL_eq tbl hT]
  rcases h with h | h | h | ⟨h, hex⟩
  · have hd : beginsWithFold url bDataImage = false :=
      beginsWithFold_conflict 106 100 _ _ url (by decide) h
    have h' : beginsWithFold url bJs = true := h
    simp [hd, h']
  · have hd : beginsWithFold url bDataImage = false :=
      beginsWithFold_conflict 118 100 _ _ url (by decide) h
    have h' : beginsWithFold url bVb = true := h
    simp [hd, h']
  · have hd : beginsWithFold url bDataImage = false :=
      beginsWithFold_conflict 102 100 _ _ url (by decide) h
    have h' : beginsWithFold url bFile = true := h
    simp [hd, h']
  · have h' : beginsWithFold url bData = true := h
    split_ifs with hc
    · simp only [Bool.and_eq_true] at hc
      rw [not_source_of_not_spec url hc.1 hex]
      rfl
    · simp [h']

/-- C3, at `JaVaScRiPt:alert(1)` and at `data:text/html,x`. -/
theorem IsDangerousURL_of_dangerous_scheme_witness :
    (beginsWithFold (lit "JaVaScRiPt:alert(1)") (lit "javascript:") = true ∧
      IsDangerousURL plainTable (lit "JaVaScRiPt:alert(1)") = true) ∧
    ((beginsWithFold (lit "data:text/html,x") (lit "data:") = true ∧
        specImageException (lit "data:text/html,x") = false) ∧
      IsDangerousURL plainTable (lit "data:text/html,x") = true) :=
  ⟨⟨by decide, IsDangerousURL_of_dangerous_scheme plainTable rfl _ (Or.inl (by decide))⟩,
    ⟨by decide, IsDangerousURL_of_dangerous_scheme plainTable rfl _
      (Or.inr (Or.inr (Or.inr (by decide))))⟩⟩

/-- C4 as stated fails: `data:image/png` begins with an exception of the
specification, yet the guard classifies it dangerous, because the source looks
for `png;`. -/
theorem IsDangerousURL_image_without_semicolon :
    specImageException (lit "data:image/png") = true ∧
      IsDangerousURL plainTable (lit "data:image/png") = true := by
  decide

/-- C4, amended. A URL that begins, without regard to case, with
`data:image/png;`, `data:image/gif;`, `data:image/jpeg;`, `data:image/webp;` or
`data:image/svg+xml;` is classified safe. -/
theorem IsDangerousURL_image_exception (tbl : Int → Int) (url : Bytes)
    (h : sourceImageException url = true) : IsDangerousURL tbl url = false := by
  have key : ∀ t : Bytes, (∀ b ∈ t, b < RuneSelf) →
      beginsWithFold url (bDataImage ++ t) = true →
      hasPrefix tbl url bDataImage = true ∧ url.length ≥ 11 ∧
        hasPrefix tbl (url.drop 11) t = true := by
    intro t ht hb
    rw [beginsWithFold_append] at hb
    simp only [Bool.and_eq_true] at hb
    exact ⟨hasPrefix_of_beginsWithFold tbl _ _ ascii_bDataImage hb.1,
      length_le_of_beginsWithFold _ _ hb.1,
      hasPrefix_of_beginsWithFold tbl _ _ ht hb.2⟩
  simp only [sourceImageException, Bool.or_eq_true] at h
  unfold IsDangerousURL
  rcases h with (((h | h) | h) | h) | h
  · obtain ⟨k1, k2, k3⟩ := key bPng ascii_bPng h
    simp [k1, k2, k3]
  · obtain ⟨k1, k2, k3⟩ := key bGif ascii_bGif h
    simp [k1, k2, k3]
  · obtain ⟨k1, k2, k3⟩ := key bJpeg ascii_bJpeg h
    simp [k1, k2, k3]
  · obtain ⟨k1, k2, k3⟩ := key bWebp ascii_bWebp h
    simp [k1, k2, k3]
  · obtain ⟨k1, k2, k3⟩ := key bSvg ascii_bSvg h
    simp [k1, k2, k3]

/-- C4 amended, at `DATA:image/PNG;base64,AAAA`. -/
theorem IsDangerousURL_image_exception_witness :
    sourceImageException (lit "DATA:image/PNG;base64,AAAA") = true ∧
      IsDangerousURL plainTable (lit "DATA:image/PNG;base64,AAAA") = false :=
  ⟨by decide, IsDangerousURL_image_exception plainTable _ (by decide)⟩

/-- C5. A URL that does not begin, without regard to case, with `javascript:`,
`vbscript:`, `file:` or `data:` is classified safe; the empty URL and URLs
shorter than every scheme are among them. -/
theorem IsDangerousURL_other_scheme (tbl : Int → Int) (hT : tbl 0xFFFD = 0xFFFD)
    (url : Bytes)
    (hjs : beginsWithFold url (lit "javascript:") = false)
    (hvb : beginsWithFold url (lit "vbscript:") = false)
    (hfile : beginsWithFold url (lit "file:") = false)
    (hdata : beginsWithFold url (lit "data:") = false) :
    IsDangerousURL tbl url = false := by
  rw [IsDangerousURL_eq tbl hT]
  have h1 : beginsWithFold url bJs = false := hjs
  have h2 : beginsWithFold url bVb = false := hvb
  have h3 : beginsWithFold url bFile = false := hfile
  have h4 : beginsWithFold url bData = false := hdata
  have hd : beginsWithFold url bDataImage = false := by
    have : bDataImage = bData ++ lit "image/" := by decide
    rw [this, beginsWithFold_append, h4]
    rfl
  simp [h1, h2, h3, h4, hd]

/-- C5, at the empty URL, at `fil`, at `https://x` and at a URL whose second
rune is `U+0130`, which Unicode lowers to `i`. -/
theorem IsDangerousURL_other_scheme_witness :
    IsDangerousURL plainTable [] = false ∧
      IsDangerousURL plainTable (lit "fil") = false ∧
      IsDangerousURL plainTable (lit "https://x") = false ∧
      IsDangerousURL (fun r => if r = 0x130 then 0x69 else r)
        [0x66, 0xC4, 0xB0, 0x6C, 0x65, 0x3A, 0x78] = false :=
  ⟨IsDangerousURL_other_scheme plainTable rfl [] (by decide) (by decide) (by decide)
      (by decide),
    IsDangerousURL_other_scheme plainTable rfl (lit "fil") (by decide) (by decide)
      (by decide) (by decide),
    IsDangerousURL_other_scheme plainTable rfl (lit "https://x") (by decide) (by decide)
      (by decide) (by decide),
    IsDangerousURL_other_scheme (fun r => if r = 0x130 then 0x69 else r) (by decide) _
      (by decide) (by decide) (by decide) (by decide)⟩

/-! ### Attribute rendering -/

theorem HasPrefix_iff (s pfx : String) : HasPrefix s pfx = true ↔ pfx.data <+: s.data := by
  unfold HasPrefix
  exact List.isPrefixOf_iff_prefix

/-- The test that makes `RenderElAttributes` skip an attribute is the negation
of `retained`. -/
theorem skip_iff_not_retained (filter : Option BytesFilter) (attr : Attribute) :
    ((match filter with
      | some f => !f.Contains attr.Name
      | none => false) && !HasPrefix attr.Name dataPrefix) = true ↔ ¬ retained filter attr := by
  cases filter with
  | none => simp [retained]
  | some f =>
    simp only [retained, BytesFilter.Contains, Bool.and_eq_true, Bool.not_eq_true',
      decide_eq_false_iff_not, not_or]
    rw [← Bool.not_eq_true, HasPrefix_iff]
    rfl

theorem RenderElAttributes_cons (filter : Option BytesFilter) (elNam : String)
    (attr : Attribute) (rest : List Attribute) :
    RenderElAttributes (attr :: rest) filter elNam =
      (if retained filter attr then [attrStmt elNam attr] else []) ++
        RenderElAttributes rest filter elNam := by
  by_cases h : retained filter attr
  · have hs := (skip_iff_not_retained filter attr).not.2 (not_not.2 h)
    rw [RenderElAttributes.eq_def]
    simp only
    rw [if_neg hs, if_pos h]
    rfl
  · have hs := (skip_iff_not_retained filter attr).2 h
    rw [RenderElAttributes.eq_def]
    simp only
    rw [if_pos hs, if_neg h]
    rfl

theorem RenderElAttributes_append (filter : Option BytesFilter) (elNam : String)
    (xs ys : List Attribute) :
    RenderElAttributes (xs ++ ys) filter elNam =
      RenderElAttributes xs filter elNam ++ RenderElAttributes ys filter elNam := by
  induction xs with
  | nil => simp [RenderElAttributes]
  | cons a xs ih => simp only [List.cons_append, RenderElAttributes_cons, ih, List.append_assoc]

/-- The writes of `RenderElAttributes` as a filter followed by a map. -/
theorem RenderElAttributes_filter_map (attrs : List Attribute)
    (filter : Option BytesFilter) (elNam : String) :
    RenderElAttributes attrs filter elNam =
      (attrs.filter (fun a => decide (retained filter a))).map (attrStmt elNam) := by
  induction attrs with
  | nil => simp [RenderElAttributes]
  | cons a rest ih =>
    rw [RenderElAttributes_cons, ih]
    by_cases h : retained filter a <;> simp [h]

/-- C9. The writes of `RenderElAttributes` are the statements of the retained
attributes in the order of the attribute list: the output is the
order-preserving filter of the attribute list, so it is a subsequence of the
statements of all the attributes. -/
theorem RenderElAttributes_eq_filter_map (attrs : List Attribute)
    (filter : Option BytesFilter) (elNam : String) :
    RenderElAttributes attrs filter elNam =
        (attrs.filter (fun a => decide (retained filter a))).map (attrStmt elNam) ∧
      (RenderElAttributes attrs filter elNam).Sublist (attrs.map (attrStmt elNam)) := by
  have h := RenderElAttributes_filter_map attrs filter elNam
  refine ⟨h, ?_⟩
  rw [h]
  exact (List.filter_sublist attrs).map (attrStmt elNam)

/-- C7. With a non-nil filter, an attribute contributes its assignment
statement, at its place in the output, exactly when its name is in the filter
or begins with `data-`; otherwise it contributes nothing. -/
theorem RenderElAttributes_emits_iff (f : BytesFilter) (elNam : String)
    (before after : List Attribute) (a : Attribute) :
    RenderElAttributes (before ++ a :: after) (some f) elNam =
        RenderElAttributes before (some f) elNam ++ RenderElAttributes [a] (some f) elNam ++
          RenderElAttributes after (some f) elNam ∧
      (RenderElAttributes [a] (some f) elNam = [attrStmt elNam a] ↔
        (a.Name ∈ f.elems ∨ "data-".data <+: a.Name.data)) ∧
      (RenderElAttributes [a] (some f) elNam = [] ↔
        ¬ (a.Name ∈ f.elems ∨ "data-".data <+: a.Name.data)) := by
  have hr : retained (some f) a ↔ (a.Name ∈ f.elems ∨ "data-".data <+: a.Name.data) :=
    Iff.rfl
  refine ⟨?_, ?_, ?_⟩
  · rw [RenderElAttributes_append, List.append_assoc,
      show a :: after = [a] ++ after from rfl, RenderElAttributes_append]
  · rw [RenderElAttributes_cons, ← hr]
    by_cases h : retained (some f) a <;> simp [h, RenderElAttributes]
  · rw [RenderElAttributes_cons, ← hr]
    by_cases h : retained (some f) a <;> simp [h, RenderElAttributes]

/-! ### Decimal formatting -/

theorem digitChar_decimal (k : Nat) (hk : k < 10) :
    (Nat.digitChar k).isDigit = true ∧ (Nat.digitChar k).toNat - 48 = k := by
  interval_cases k <;> decide

theorem decimalValue_append_singleton (ds : List Char) (c : Char) :
    decimalValue (ds ++ [c]) = 10 * decimalValue ds + (c.toNat - 48) := by
  simp [decimalValue, List.foldl_append]

/-- The digits `Nat.toDigitsCore` puts in front of its accumulator denote the
number it was given. -/
theorem toDigitsCore_decimal : ∀ (fuel n : Nat) (acc : List Char), n < fuel →
    ∃ ds, Nat.toDigitsCore 10 fuel n acc = ds ++ acc ∧ ds ≠ [] ∧
      (∀ c ∈ ds, c.isDigit = true) ∧ decimalValue ds = n := by
  intro fuel
  induction fuel with
  | zero => intro n acc h; omega
  | succ fuel ih =>
    intro n acc h
    have hd := digitChar_decimal (n % 10) (Nat.mod_lt _ (by decide))
    by_cases h0 : n / 10 = 0
    · refine ⟨[Nat.digitChar (n % 10)], ?_, by simp, ?_, ?_⟩
      · simp [Nat.toDigitsCore, h0]
      · intro c hc
        rw [List.mem_singleton.1 hc]; exact hd.1
      · simp only [decimalValue, List.foldl_cons, List.foldl_nil, hd.2]
        omega
    · obtain ⟨ds, h1, _, h3, h4⟩ := ih (n / 10) (Nat.digitChar (n % 10) :: acc) (by omega)
      refine ⟨ds ++ [Nat.digitChar (n % 10)], ?_, by simp, ?_, ?_⟩
      · simp [Nat.toDigitsCore, h0, h1]
      · intro c hc
        rcases List.mem_append.1 hc with hc | hc
        · exact h3 c hc
        · rw [List.mem_singleton.1 hc]; exact hd.1
      · rw [decimalValue_append_singleton, h4, hd.2]
        omega

/-- The function `fmtD` writes a minus sign for a negative number and then the decimal
digits of its absolute value. -/
theorem fmtD_decimal (i : Int) :
    ∃ ds, (fmtD i).data = (if i < 0 then ['-'] else []) ++ ds ∧ ds ≠ [] ∧
      (∀ c ∈ ds, c.isDigit = true) ∧ decimalValue ds = i.natAbs := by
  cases i with
  | ofNat m =>
    obtain ⟨ds, h1, h2, h3, h4⟩ := toDigitsCore_decimal (m + 1) m [] (by omega)
    refine ⟨ds, ?_, h2, h3, by simpa using h4⟩
    have : (fmtD (Int.ofNat m)).data = Nat.toDigits 10 m := rfl
    rw [this, Nat.toDigits, h1]
    simp
  | negSucc m =>
    obtain ⟨ds, h1, h2, h3, h4⟩ := toDigitsCore_decimal (m + 1 + 1) (m + 1) [] (by omega)
    refine ⟨ds, ?_, h2, h3, by simpa using h4⟩
    have : (fmtD (Int.negSucc m)).data = '-' :: Nat.toDigits 10 (m + 1) := rfl
    rw [this, Nat.toDigits, h1]
    simp [Int.negSucc_lt_zero]

/-- C10. A retained attribute produces one statement, at its place in the
output, of the form `<identifier>.<name>='<value>';` and a newline. The value
is the byte sequence or the string as it is; for an integer it is a minus
sign when the integer is negative and then decimal digits that denote its
absolute value. -/
theorem RenderElAttributes_statement (filter : Option BytesFilter) (elNam : String)
    (before after : List Attribute) (a : Attribute) (h : retained filter a) :
    ∃ value : String,
      RenderElAttributes (before ++ a :: after) filter elNam =
          RenderElAttributes before filter elNam ++
            (elNam ++ "." ++ a.Name ++ "='" ++ value ++ "';\n") ::
              RenderElAttributes after filter elNam ∧
        (∀ b, a.Value = .bytes b → value = b) ∧
        (∀ s, a.Value = .str s → value = s) ∧
        (∀ i, a.Value = .int i →
          ∃ ds, value.data = (if i < 0 then ['-'] else []) ++ ds ∧ ds ≠ [] ∧
            (∀ c ∈ ds, c.isDigit = true) ∧ decimalValue ds = i.natAbs) := by
  refine ⟨attrValueText a.Value, ?_, ?_, ?_, ?_⟩
  · rw [RenderElAttributes_append, RenderElAttributes_cons, if_pos h]
    rfl
  · intro b hb; rw [hb]; rfl
  · intro s hs; rw [hs]; rfl
  · intro i hi; rw [hi]; exact fmtD_decimal i

/-- C10, at the attribute `start` with the integer value `-12` on a list
element `el7`. -/
theorem RenderElAttributes_statement_witness :
    retained (some ListAttributeFilter) ⟨"start", .int (-12)⟩ ∧
      ∃ value : String,
        RenderElAttributes ([⟨"el", .str "el7"⟩] ++ ⟨"start", .int (-12)⟩ :: [])
            (some ListAttributeFilter) "el7" =
          RenderElAttributes [⟨"el", .str "el7"⟩] (some ListAttributeFilter) "el7" ++
            ("el7" ++ "." ++ "start" ++ "='" ++ value ++ "';\n") ::
              RenderElAttributes [] (some ListAttributeFilter) "el7" ∧
        (∀ b, AttrValue.int (-12) = .bytes b → value = b) ∧
        (∀ s, AttrValue.int (-12) = .str s → value = s) ∧
        (∀ i, AttrValue.int (-12) = .int i →
          ∃ ds, value.data = (if i < 0 then ['-'] else []) ++ ds ∧ ds ≠ [] ∧
            (∀ c ∈ ds, c.isDigit = true) ∧ decimalValue ds = i.natAbs) :=
  ⟨by decide, RenderElAttributes_statement (some ListAttributeFilter) "el7"
    [⟨"el", .str "el7"⟩] [] ⟨"start", .int (-12)⟩ (by decide)⟩

/-- The writes for a heading `el2` that carries `el`, `id`, `onclick`,
`data-k` and `tabindex`, in that order. -/
theorem RenderElAttributes_example :
    RenderElAttributes
        [⟨"el", .str "el2"⟩, ⟨"id", .bytes "top"⟩, ⟨"onclick", .bytes "f()"⟩,
          ⟨"data-k", .str "v"⟩, ⟨"tabindex", .int (-1)⟩]
        (some HeadingAttributeFilter) "el2" =
      ["el2.id='top';\n", "el2.data-k='v';\n", "el2.tabindex='-1';\n"] := by
  decide

/-! ### Statements as text -/

/-- If `name=…` and `p=…` are the same text and `p` has no `=`, then `name`
is `p` or begins with `p=`. -/
theorem name_of_assign_prefix (p : List Char) (hp : '=' ∉ p) :
    ∀ (name r1 r2 : List Char), name ++ '=' :: r1 = p ++ '=' :: r2 →
      name = p ∨ (p ++ ['=']) <+: name := by
  induction p with
  | nil =>
    intro name r1 r2 h
    cases name with
    | nil => exact Or.inl rfl
    | cons c n =>
      simp only [List.cons_append, List.nil_append, List.cons.injEq] at h
      right
      rw [h.1]
      exact ⟨n, rfl⟩
  | cons a p ih =>
    intro name r1 r2 h
    cases name with
    | nil =>
      simp only [List.nil_append, List.cons_append, List.cons.injEq] at h
      exact absurd (h.1 ▸ List.mem_cons_self _ _) hp
    | cons c n =>
      simp only [List.cons_append, List.cons.injEq] at h
      rcases ih (fun hh => hp (List.mem_cons_of_mem _ hh)) n r1 r2 h.2 with h1 | ⟨t, ht⟩
      · left; rw [h.1, h1]
      · right; exact ⟨t, by rw [h.1, ← ht]; rfl⟩

/-- An attribute statement on `elNam` that begins like an assignment to the
property `p` is the statement of an attribute named `p` or `p=…`. -/
theorem attrStmt_begins (elNam p : String) (a : Attribute) (hp : '=' ∉ p.data)
    (h : (elNam ++ "." ++ p ++ "=").data <+: (attrStmt elNam a).data) :
    a.Name.data = p.data ∨ (p.data ++ ['=']) <+: a.Name.data := by
  obtain ⟨t, ht⟩ := h
  simp only [attrStmt, String.data_append, List.append_assoc] at ht
  have h1 := List.append_cancel_left ht
  simp only [List.cons_append, List.nil_append, List.cons.injEq, true_and] at h1
  exact name_of_assign_prefix p.data hp _ _ _ h1.symm

theorem mem_RenderElAttributes (attrs : List Attribute) (filter : Option BytesFilter)
    (elNam s : String) :
    s ∈ RenderElAttributes attrs filter elNam ↔
      ∃ a ∈ attrs, retained filter a ∧ attrStmt elNam a = s := by
  rw [RenderElAttributes_filter_map]
  simp [List.mem_map, List.mem_filter, and_assoc]

/-- No attribute that the link filter keeps is named `href` or `href=…`. -/
theorem link_filter_no_href (a : Attribute) (h : retained (some LinkAttributeFilter) a) :
    ¬ (a.Name.data = "href".data ∨ ("href".data ++ ['=']) <+: a.Name.data) := by
  rcases h with hmem | ⟨t, ht⟩
  · have key : ∀ n ∈ LinkAttributeFilter.elems,
        ¬ (n.data = "href".data ∨ ("href".data ++ ['=']) <+: n.data) := by decide
    exact key a.Name hmem
  · rw [← ht]
    rintro (h | ⟨u, hu⟩)
    · simp at h
    · simp at hu

/-- No attribute that the image filter keeps is named `src` or `src=…`. -/
theorem image_filter_no_src (a : Attribute) (h : retained (some ImageAttributeFilter) a) :
    ¬ (a.Name.data = "src".data ∨ ("src".data ++ ['=']) <+: a.Name.data) := by
  rcases h with hmem | ⟨t, ht⟩
  · have key : ∀ n ∈ ImageAttributeFilter.elems,
        ¬ (n.data = "src".data ∨ ("src".data ++ ['=']) <+: n.data) := by decide
    exact key a.Name hmem
  · rw [← ht]
    rintro (h | ⟨u, hu⟩)
    · simp at h
    · simp at hu

theorem elName_data (count : Int) : (elName count).data = 'e' :: 'l' :: (fmtD count).data := rfl

theorem AttributeString_SetAttribute (attrs : List Attribute) (name : String) (v : AttrValue) :
    AttributeString (SetAttribute attrs name v) name = some v := by
  induction attrs with
  | nil => simp [SetAttribute, AttributeString]
  | cons a rest ih =>
    by_cases h : a.Name = name
    · simp [SetAttribute, AttributeString, h]
    · simp [SetAttribute, AttributeString, h, ih]

/-- The href statement of a link is none of the other statements the entry
phase writes on the link. -/
theorem href_not_among_rest (elNam esc parElNam : String) (Title : Option String)
    (attrs : List Attribute) (children : List Node) (dbg : Bool) (kind : String)
    (hel : ∃ d, elNam = elName d)
    (h : elNam ++ ".href='" ++ esc ++ "';\n" ∈
      ["let " ++ elNam ++ "=document.createElement(\"a\");\n"] ++
        (match Title with
          | some title => [elNam ++ ".title='" ++ title ++ "';\n"]
          | none => []) ++
        RenderElAttributes attrs (some LinkAttributeFilter) elNam ++
        ["Object.assign(" ++ elNam ++ ".style, mdStyle.a);\n"] ++
        (match children with
          | .mk (.Text value _ _ _) _ _ :: _ => [elNam ++ ".textContent=`" ++ value ++ "`;\n"]
          | _ => []) ++
        (if dbg then [dbgLine elNam parElNam kind] else []) ++
        [appendStmt parElNam elNam]) : False := by
  obtain ⟨d, rfl⟩ := hel
  simp only [List.mem_append, List.mem_singleton] at h
  rcases h with (((((h | h) | h) | h) | h) | h) | h
  · rw [String.ext_iff] at h
    simp [elName_data] at h
  · cases Title with
    | none => simp at h
    | some title =>
      simp only [List.mem_singleton] at h
      rw [String.ext_iff] at h
      simp at h
  · obtain ⟨a, _, hret, ha⟩ := (mem_RenderElAttributes _ _ _ _).1 h
    refine link_filter_no_href a hret (attrStmt_begins (elName d) "href" a (by decide) ?_)
    rw [ha]
    exact ⟨'\'' :: (esc.data ++ "';\n".data), by simp [String.data_append]⟩
  · rw [String.ext_iff] at h
    simp [elName_data] at h
  · split at h
    · simp only [List.mem_singleton] at h
      rw [String.ext_iff] at h
      simp at h
    · simp at h
  · cases dbg with
    | false => simp at h
    | true =>
      simp only [if_true, List.mem_singleton, dbgLine] at h
      rw [String.ext_iff] at h
      simp [elName_data] at h
  · simp only [appendStmt] at h
    rw [String.ext_iff] at h
    simp only [String.data_append, ← List.append_assoc] at h
    have := List.append_inj_right' h (by rfl)
    simp at this

/-- The writes of the entry phase for the two sample links. -/
theorem renderLink_example :
    (renderLink plainExt sampleRenderer (some sampleParagraph) sampleDangerousLink true).out =
        ["let el3=document.createElement(\"a\");\n", "el3.rel='nofollow';\n",
          "Object.assign(el3.style, mdStyle.a);\n", "el3.textContent=`here`;\n",
          "el2.appendChild(el3);\n"] ∧
      (renderLink plainExt sampleRenderer (some sampleParagraph) sampleSafeLink true).out =
        ["let el3=document.createElement(\"a\");\n", "el3.href='https://x';\n",
          "Object.assign(el3.style, mdStyle.a);\n", "el3.textContent=`here`;\n",
          "el2.appendChild(el3);\n"] := by
  decide

/-- The entry phase of `renderAutoLink` writes the opening of the href
assignment and the escaped URL for every autolink, whatever the URL and the
`Unsafe` flag are. -/
theorem renderAutoLink_always_href (x : Ext) (r : Renderer) (par : Option Node)
    (typ : AutoLinkType) (url : Bytes) (attrs : List Attribute) (children : List Node) :
    elName (r.count + 1) ++ ".href=\"" ∈
        (renderAutoLink x r par (.mk (.AutoLink typ url) attrs children) true).out ∧
      x.escapeURL url false ∈
        (renderAutoLink x r par (.mk (.AutoLink typ url) attrs children) true).out := by
  simp [renderAutoLink]

/-- C2 fails on the code: for the autolink `<javascript:alert(1)>` and
`Unsafe` off, the URL is dangerous and the entry phase still writes the href
assignment with the URL. -/
theorem renderAutoLink_dangerous_href :
    IsDangerousURL plainExt.caseTable (lit "javascript:alert(1)") = true ∧
      sampleRenderer.Unsafe = false ∧
      (renderAutoLink plainExt sampleRenderer (some sampleParagraph) sampleDangerousAutoLink
          true).out =
        ["let el3=document.createElement('a');\n", "el3.href=\"", "javascript:alert(1)",
          "\"\n;"] := by
  decide

/-! ### Images -/

mutual
/-- Every write of `renderTexts` begins with `c` (of `const`) or `l` (of
`let`). -/
theorem renderTexts_head (x : Ext) : ∀ (n : Node) (r : Renderer),
    ∀ s ∈ (renderTexts x r n).2.2, s.data.head? = some 'c' ∨ s.data.head? = some 'l'
  | .mk p a cs, r => by
    intro s hs
    simp only [renderTexts] at hs
    exact renderTextsLoop_head x (.mk p a cs) cs r s hs
/-- Every write of the loop of `renderTexts` begins with `c` or `l`. -/
theorem renderTextsLoop_head (x : Ext) (pnode : Node) : ∀ (cs : List Node) (r : Renderer),
    ∀ s ∈ (renderTextsLoop x r pnode cs).2.2, s.data.head? = some 'c' ∨ s.data.head? = some 'l'
  | [], r => by
    intro s hs
    simp [renderTextsLoop] at hs
  | .mk p a cs :: rest, r => by
    intro s hs
    cases p
    case StringNode Value raw code =>
      simp only [renderTextsLoop, List.mem_append] at hs
      rcases hs with hs | hs
      · simp only [renderString, Bool.not_true, Bool.false_eq_true, if_false,
          List.mem_cons, List.mem_singleton, List.not_mem_nil, or_false] at hs
        rcases hs with rfl | rfl
        · left; rfl
        · right; rfl
      · exact renderTextsLoop_head x pnode rest _ s hs
    case Text value raw soft hard =>
      simp only [renderTextsLoop, List.mem_append] at hs
      rcases hs with hs | hs
      · simp only [renderText, Bool.not_true, Bool.false_eq_true, if_false,
          List.mem_cons, List.mem_singleton, List.not_mem_nil, or_false] at hs
        rcases hs with rfl | rfl
        · left; rfl
        · left; rfl
      · exact renderTextsLoop_head x pnode rest _ s hs
    all_goals
      simp only [renderTextsLoop, List.mem_append] at hs
      rcases hs with hs | hs
      · exact renderTexts_head x _ r s hs
      · exact renderTextsLoop_head x pnode rest _ s hs
end

theorem prefix_of_elName_head (d : Int) (t s : String)
    (h : (elName d ++ t).data <+: s.data) : s.data.head? = some 'e' := by
  obtain ⟨u, hu⟩ := h
  rw [← hu]
  simp [elName_data]

theorem exitAttach_ok (r : Renderer) (pnode node : Node) (dbg : Bool) (status : WalkStatus)
    (elNam parElNam : String)
    (hel : AttributeString node.attrs "el" = some (.str elNam))
    (hpar : AttributeString pnode.attrs "el" = some (.str parElNam)) :
    exitAttach r (some pnode) node dbg status =
      ⟨r, node,
        (if dbg then [dbgLine elNam parElNam pnode.payload.kindName] else []) ++
          [appendStmt parElNam elNam],
        .ok status⟩ := by
  simp only [exitAttach, hel, hpar]

theorem renderTexts_attrs (x : Ext) (r : Renderer) (n : Node) :
    (renderTexts x r n).2.1.attrs = n.attrs := by
  cases n
  simp [renderTexts, Node.attrs]

theorem renderImage_exit (x : Ext) (r : Renderer) (par : Option Node) (node : Node) :
    renderImage x r par node false = exitAttach r par node r.dbg .WalkContinue := by
  simp [renderImage]

/-- The entry phase of `renderImage` records the new identifier on the
image. -/
theorem renderImage_entry_el (x : Ext) (r : Renderer) (par : Option Node)
    (Destination : Bytes) (Title : Option String) (attrs : List Attribute)
    (children : List Node) :
    AttributeString
        (renderImage x r par (.mk (.Image Destination Title) attrs children) true).node.attrs
        "el" = some (.str (elName (r.count + 1))) := by
  simp only [renderImage, Bool.not_true, Bool.false_eq_true, if_false, renderTexts_attrs]
  simp [Node.attrs, SetAttributeString, AttributeString_SetAttribute]

/-- C6. For an image rendered by `renderImage` under a parent with a recorded
identifier: with `Unsafe` off and a dangerous destination, no write of the
entry phase begins an assignment to `.src` of the image's identifier; the
`createElement('img')` statement is written on entry; the exit phase, run on
the node as the entry phase left it, writes the statement appending the
image's identifier to the parent's; and with `Unsafe` on the `.src`
assignment is written. -/
theorem renderImage_src (x : Ext) (r : Renderer) (pnode : Node) (parElNam : String)
    (Destination : Bytes) (Title : Option String) (attrs : List Attribute)
    (children : List Node)
    (hpar : AttributeString pnode.attrs "el" = some (.str parElNam)) :
    (r.Unsafe = false → IsDangerousURL x.caseTable Destination = true →
        ∀ s ∈ (renderImage x r (some pnode)
            (.mk (.Image Destination Title) attrs children) true).out,
          ¬ (elName (r.count + 1) ++ ".src=").data <+: s.data) ∧
      "let " ++ elName (r.count + 1) ++ "=document.createElement('img');\n" ∈
        (renderImage x r (some pnode) (.mk (.Image Destination Title) attrs children) true).out ∧
      parElNam ++ ".appendChild(" ++ elName (r.count + 1) ++ ");\n" ∈
        (renderImage x
          (renderImage x r (some pnode) (.mk (.Image Destination Title) attrs children) true).r
          (some pnode)
          (renderImage x r (some pnode) (.mk (.Image Destination Title) attrs children) true).node
          false).out ∧
      (r.Unsafe = true →
        elName (r.count + 1) ++ ".src=" ++ x.escapeURL Destination true ∈
          (renderImage x r (some pnode)
            (.mk (.Image Destination Title) attrs children) true).out) := by
  refine ⟨?_, ?_, ?_, ?_⟩
  · intro hU hD s hs hpre
    have hif : (r.Unsafe || !IsDangerousURL x.caseTable Destination) = false := by
      simp [hU, hD]
    simp only [renderImage, Bool.not_true, Bool.false_eq_true, if_false, hif,
      List.append_nil, List.mem_append, List.mem_singleton] at hs
    have hhead := prefix_of_elName_head _ _ _ hpre
    rcases hs with ((((hs | hs) | hs) | hs) | hs) | hs
    · rw [hs] at hhead; simp at hhead
    · rw [hs] at hpre
      simp only [String.data_append] at hpre
      have := (List.prefix_append_right_inj _).1 hpre
      simp at this
    · rcases renderTexts_head x _ _ s hs with h | h <;> rw [h] at hhead <;> simp at hhead
    · rw [hs] at hhead; simp at hhead
    · cases Title with
      | none => simp at hs
      | some title =>
        simp only [List.mem_singleton] at hs
        rw [hs] at hpre
        simp only [String.data_append, List.append_assoc] at hpre
        have := (List.prefix_append_right_inj _).1 hpre
        simp at this
    · obtain ⟨a, _, hret, ha⟩ := (mem_RenderElAttributes _ _ _ _).1 hs
      refine image_filter_no_src a hret
        (attrStmt_begins (elName (r.count + 1)) "src" a (by decide) ?_)
      rw [ha]
      simpa [String.data_append] using hpre
  · simp [renderImage]
  · rw [renderImage_exit,
      exitAttach_ok _ _ _ _ _ _ _ (renderImage_entry_el x r (some pnode) _ _ _ _) hpar]
    simp [appendStmt]
  · intro hU
    simp [renderImage, hU]

/-- C6, at the image `![alt](javascript:alert(1))` under the paragraph `el2`
with `Unsafe` off. -/
theorem renderImage_src_witness :
    AttributeString sampleParagraph.attrs "el" = some (.str "el2") ∧
      sampleRenderer.Unsafe = false ∧
      IsDangerousURL plainExt.caseTable (lit "javascript:alert(1)") = true ∧
      (∀ s ∈ (renderImage plainExt sampleRenderer (some sampleParagraph)
          sampleDangerousImage true).out, ¬ (elName (2 + 1) ++ ".src=").data <+: s.data) ∧
      "el2.appendChild(el3);\n" ∈
        (renderImage plainExt
          (renderImage plainExt sampleRenderer (some sampleParagraph) sampleDangerousImage true).r
          (some sampleParagraph)
          (renderImage plainExt sampleRenderer (some sampleParagraph)
            sampleDangerousImage true).node
          false).out :=
  ⟨by decide, by decide, by decide,
    (renderImage_src plainExt sampleRenderer sampleParagraph "el2" (lit "javascript:alert(1)")
      (some "T") [⟨"width", .bytes "3"⟩, ⟨"src", .bytes "x.png"⟩]
      [.mk (.Text "alt" false false false) [] []] (by decide)).1 (by decide) (by decide),
    (renderImage_src plainExt sampleRenderer sampleParagraph "el2" (lit "javascript:alert(1)")
      (some "T") [⟨"width", .bytes "3"⟩, ⟨"src", .bytes "x.png"⟩]
      [.mk (.Text "alt" false false false) [] []] (by decide)).2.2.1⟩

/-- The writes of the two phases for the sample image. -/
theorem renderImage_example :
    (renderImage plainExt sampleRenderer (some sampleParagraph) sampleDangerousImage true).out =
        ["let el3=document.createElement('img');\n", "el3.alt=\"", "const el4Txt= `alt`;\n",
          "const el4=document.createTextNode(el4Txt);\n", "\"\n", "el3.title='T'\n",
          "el3.width='3';\n"] ∧
      (renderImage plainExt
          (renderImage plainExt sampleRenderer (some sampleParagraph) sampleDangerousImage true).r
          (some sampleParagraph)
          (renderImage plainExt sampleRenderer (some sampleParagraph)
            sampleDangerousImage true).node
          false).out = ["el2.appendChild(el3);\n"] := by
  decide

/-! ### Attribute statements of the entry phases -/

theorem not_retained_el (F : BytesFilter) (hF : "el" ∉ F.elems) (a : Attribute)
    (ha : a.Name = "el") : ¬ retained (some F) a := by
  rintro (h | ⟨t, ht⟩)
  · rw [ha] at h; exact hF h
  · rw [ha] at ht; simp at ht

/-- Recording the identifier in the `el` attribute does not change what
`RenderElAttributes` writes: no allow-list holds `el`. -/
theorem RenderElAttributes_set_el (F : BytesFilter) (hF : "el" ∉ F.elems) (v elNam : String) :
    ∀ attrs : List Attribute,
      RenderElAttributes (SetAttributeString attrs "el" v) (some F) elNam =
        (attrs.filter (fun a => decide (retained (some F) a))).map (attrStmt elNam) := by
  intro attrs
  induction attrs with
  | nil =>
    have h := not_retained_el F hF ⟨"el", .str v⟩ rfl
    show RenderElAttributes [⟨"el", .str v⟩] (some F) elNam = _
    rw [RenderElAttributes_cons, if_neg h]
    rfl
  | cons a rest ih =>
    by_cases ha : a.Name = "el"
    · have h1 := not_retained_el F hF ⟨"el", .str v⟩ rfl
      have h2 := not_retained_el F hF a ha
      have hs : SetAttributeString (a :: rest) "el" v = ⟨"el", .str v⟩ :: rest := by
        simp [SetAttributeString, SetAttribute, ha]
      rw [hs, RenderElAttributes_cons, if_neg h1, RenderElAttributes_filter_map,
        List.filter_cons, if_neg (by simpa using h2)]
      rfl
    · have hs : SetAttributeString (a :: rest) "el" v = a :: SetAttributeString rest "el" v := by
        simp [SetAttributeString, SetAttribute, ha]
      rw [hs, RenderElAttributes_cons, ih]
      by_cases hr : retained (some F) a <;> simp [List.filter_cons, hr]

theorem el_not_in_filters :
    "el" ∉ HeadingAttributeFilter.elems ∧ "el" ∉ BlockquoteAttributeFilter.elems ∧
      "el" ∉ ListAttributeFilter.elems ∧ "el" ∉ ListItemAttributeFilter.elems ∧
      "el" ∉ ParagraphAttributeFilter.elems ∧ "el" ∉ ThematicAttributeFilter.elems ∧
      "el" ∉ LinkAttributeFilter.elems ∧ "el" ∉ CodeAttributeFilter.elems ∧
      "el" ∉ EmphasisAttributeFilter.elems ∧ "el" ∉ ImageAttributeFilter.elems := by
  decide

/-- The end of an attaching entry phase reads only the kind and the `el`
attribute of the parent. -/
theorem attachNow_congr (r : Renderer) (p : Payload) (a a' : List Attribute)
    (cs cs' : List Node) (node : Node) (out : List String) (elNam : String)
    (dbgText : String → String → String)
    (h : AttributeString a "el" = AttributeString a' "el") :
    attachNow r (some (.mk p a cs)) node out elNam dbgText =
      attachNow r (some (.mk p a' cs')) node out elNam dbgText := by
  simp only [attachNow, Node.attrs, Node.payload, h]

theorem renderCodeSpan_congr (r : Renderer) (p : Payload) (a a' : List Attribute)
    (cs cs' : List Node) (c : Node)
    (h : AttributeString a "el" = AttributeString a' "el") :
    renderCodeSpan r (some (.mk p a cs)) c true = renderCodeSpan r (some (.mk p a' cs')) c true := by
  simp only [renderCodeSpan, if_true]
  split
  · rfl
  · exact attachNow_congr _ p a a' cs cs' _ _ _ _ h

theorem renderLink_congr (x : Ext) (r : Renderer) (p : Payload) (a a' : List Attribute)
    (cs cs' : List Node) (c : Node)
    (h : AttributeString a "el" = AttributeString a' "el") :
    renderLink x r (some (.mk p a cs)) c true = renderLink x r (some (.mk p a' cs')) c true := by
  unfold renderLink
  split
  · simp only [if_true]
    exact attachNow_congr _ p a a' cs cs' _ _ _ _ h
  · rfl

theorem renderRawHTML_entry_par (r : Renderer) (par par' : Option Node) (c : Node) :
    renderRawHTML r par c true = renderRawHTML r par' c true := by
  simp [renderRawHTML]

theorem renderString_entry_par (r : Renderer) (par par' : Option Node) (c : Node) :
    renderString r par c true = renderString r par' c true := by
  simp [renderString]

theorem renderText_entry_par (x : Ext) (r : Renderer) (par par' next : Option Node)
    (c : Node) : renderText x r par next c true = renderText x r par' next c true := by
  simp [renderText]

theorem aggStep_congr (x : Ext) (p : Payload) (a a' : List Attribute) (cs cs' : List Node)
    (parElNam : String) (s : Agg) (c : Node)
    (h : AttributeString a "el" = AttributeString a' "el") :
    aggStep x (.mk p a cs) parElNam s c = aggStep x (.mk p a' cs') parElNam s c := by
  obtain ⟨pc, ac, cc⟩ := c
  cases pc <;> simp only [aggStep]
  case CodeSpan => rw [renderCodeSpan_congr _ p a a' cs cs' _ h]
  case Link => rw [renderLink_congr x _ p a a' cs cs' _ h]
  case RawHTML => rw [renderRawHTML_entry_par _ _ (some (.mk p a' cs'))]
  case StringNode => rw [renderString_entry_par _ _ (some (.mk p a' cs'))]

theorem aggLoop_congr (x : Ext) (p : Payload) (a a' : List Attribute) (cs cs' : List Node)
    (parElNam : String) (h : AttributeString a "el" = AttributeString a' "el") :
    ∀ (rest : List Node) (s : Agg),
      aggLoop x (.mk p a cs) parElNam s rest = aggLoop x (.mk p a' cs') parElNam s rest := by
  intro rest
  induction rest with
  | nil => intro s; rfl
  | cons c rest ih =>
    intro s
    simp only [aggLoop, aggStep_congr x p a a' cs cs' parElNam s c h]
    split
    · rfl
    · exact ih _

/-- The aggregator reads of the attributes of its node only `el`: the
renderer, the writes and the way the call ends are the same for two nodes
that differ in their other attributes. -/
theorem renderTextChildren_congr (x : Ext) (r : Renderer) (p : Payload)
    (a a' : List Attribute) (cs : List Node)
    (h : AttributeString a "el" = AttributeString a' "el") :
    (renderTextChildren x r (.mk p a cs) true).r = (renderTextChildren x r (.mk p a' cs) true).r ∧
      (renderTextChildren x r (.mk p a cs) true).out =
        (renderTextChildren x r (.mk p a' cs) true).out ∧
      (renderTextChildren x r (.mk p a cs) true).ret =
        (renderTextChildren x r (.mk p a' cs) true).ret := by
  simp only [renderTextChildren, Bool.not_true, Bool.false_eq_true, if_false, Node.attrs,
    Node.children, ← h]
  cases hel : AttributeString a "el" with
  | none => simp
  | some v =>
    cases v with
    | str parElNam =>
      simp only
      split
      · simp
      · rw [aggLoop_congr x p a a' cs cs parElNam h]
        split
        · simp
        · split <;> simp
    | bytes _ => simp
    | int _ => simp
    | other => simp

/-- The loop of `renderTexts` does not read the node whose children it
visits. -/
theorem renderTextsLoop_congr (x : Ext) (pnode pnode' : Node) :
    ∀ (cs : List Node) (r : Renderer),
      renderTextsLoop x r pnode cs = renderTextsLoop x r pnode' cs := by
  intro cs
  induction cs with
  | nil => intro r; simp [renderTextsLoop]
  | cons c rest ih =>
    intro r
    obtain ⟨pc, ac, cc⟩ := c
    cases pc <;> simp only [renderTextsLoop, ih]
    case StringNode => rw [renderString_entry_par _ _ (some pnode')]
    case Text => rw [renderText_entry_par _ _ _ (some pnode')]

theorem renderTexts_congr (x : Ext) (r : Renderer) (p : Payload) (a a' : List Attribute)
    (cs : List Node) :
    (renderTexts x r (.mk p a cs)).1 = (renderTexts x r (.mk p a' cs)).1 ∧
      (renderTexts x r (.mk p a cs)).2.2 = (renderTexts x r (.mk p a' cs)).2.2 := by
  simp [renderTexts, renderTextsLoop_congr x (.mk p a cs) (.mk p a' cs)]

theorem attachNow_out (r : Renderer) (par : Option Node) (node : Node) (out : List String)
    (elNam : String) (dbgText : String → String → String)
    (hnp : (attachNow r par node out elNam dbgText).ret ≠ .panic) :
    ∃ post, ∀ (out' : List String) (node' : Node),
      (attachNow r par node' out' elNam dbgText).out = out' ++ post := by
  unfold attachNow at hnp ⊢
  cases par with
  | none => exact ⟨[], fun _ _ => by simp⟩
  | some pnode =>
    simp only at hnp ⊢
    cases hel : AttributeString pnode.attrs "el" with
    | none => exact ⟨[], fun _ _ => by simp⟩
    | some v =>
      rw [hel] at hnp
      cases v with
      | str parElNam =>
        exact ⟨(if r.dbg then [dbgText parElNam pnode.payload.kindName] else []) ++
          [appendStmt parElNam elNam], fun _ _ => by simp⟩
      | bytes _ => simp at hnp
      | int _ => simp at hnp
      | other => simp at hnp

/-- C8, amended. For a node of a kind with an allow-list (Heading,
Blockquote, List, ListItem, Paragraph, ThematicBreak, AutoLink, CodeSpan,
Emphasis, Image, Link) whose handler runs its entry phase without a panic: the
writes are those made for the same node without attributes, the first of
which declares the identifier `el<count+1>`, with one assignment statement on
that identifier inserted at one place for each attribute whose name is in the
allow-list or begins with `data-`, in the order of the attributes, and with
nothing for the other attributes. -/
theorem entry_attribute_statements (x : Ext) (r : Renderer) (par next : Option Node)
    (node : Node) (F : BytesFilter) (hF : kindFilter node.payload = some F)
    (hnp : (dispatch x r par next node true).ret ≠ .panic) :
    ∃ before after : List String,
      (dispatch x r par next (node.setAttrs []) true).out = before ++ after ∧
        (dispatch x r par next node true).out =
          before ++
            (node.attrs.filter (fun a => decide (retained (some F) a))).map
              (attrStmt (elName (r.count + 1))) ++
            after ∧
        ∃ c, before.head? = some ("let " ++ elName (r.count + 1) ++ c) := by
  obtain ⟨hHd, hBq, hLs, hLi, hPa, hTh, hLk, hCo, hEm, hIm⟩ := el_not_in_filters
  obtain ⟨p, attrs, children⟩ := node
  cases p <;> simp only [Node.payload, kindFilter, Option.some.injEq, reduceCtorEq] at hF
  case Heading Level =>
    subst hF
    refine ⟨["let " ++ elName (r.count + 1) ++ "= document.createElement('" ++
        ("h" ++ fmtD Level) ++ "');\n",
      "Object.assign(" ++ elName (r.count + 1) ++ ".style, mdStyle." ++ ("h" ++ fmtD Level) ++
        ");\n"], [], ?_, ?_, ⟨"= document.createElement('" ++ ("h" ++ fmtD Level) ++ "');\n", ?_⟩⟩
    · simp only [dispatch, Node.payload, Node.setAttrs, renderHeading, if_true,
        RenderElAttributes_set_el _ hHd, List.filter_nil, List.map_nil, List.append_nil]
    · simp only [dispatch, Node.payload, Node.setAttrs, renderHeading, if_true,
        RenderElAttributes_set_el _ hHd, List.append_nil, Node.attrs]
    · simp only [List.head?_cons, String.append_assoc]
  case Blockquote =>
    subst hF
    refine ⟨["let " ++ elName (r.count + 1) ++ "= document.createElement('blockquote');\n",
      "Object.assign(" ++ elName (r.count + 1) ++ ".style, mdStyle.block);\n"], [], ?_, ?_,
      ⟨"= document.createElement('blockquote');\n", ?_⟩⟩
    · simp only [dispatch, Node.payload, Node.setAttrs, renderBlockquote, if_true, Node.attrs,
        RenderElAttributes_set_el _ hBq, List.filter_nil, List.map_nil, List.append_nil]
    · simp only [dispatch, Node.payload, Node.setAttrs, renderBlockquote, if_true, Node.attrs,
        RenderElAttributes_set_el _ hBq, List.append_nil]
    · simp only [List.head?_cons]
  case ListNode Marker Start =>
    subst hF
    refine ⟨["let " ++ elName (r.count + 1) ++ "= document.createElement('" ++
        (if IsOrdered Marker then "ol" else "ul") ++ "');\n"] ++
        (if IsOrdered Marker && decide (Start ≠ 1) then
          [elName (r.count + 1) ++ (".start='" ++ fmtD Start ++ "';\n")]
        else []),
      [if IsOrdered Marker then "Object.assign(" ++ elName (r.count + 1) ++ ".style, mdStyle.ol);\n"
        else "Object.assign(" ++ elName (r.count + 1) ++ ".style, mdStyle.ul);\n"], ?_, ?_,
      ⟨"= document.createElement('" ++ (if IsOrdered Marker then "ol" else "ul") ++ "');\n", ?_⟩⟩
    · simp only [dispatch, Node.payload, Node.setAttrs, renderList, if_true, Node.attrs,
        RenderElAttributes_set_el _ hLs, List.filter_nil, List.map_nil, List.append_nil]
    · simp only [dispatch, Node.payload, Node.setAttrs, renderList, if_true, Node.attrs,
        RenderElAttributes_set_el _ hLs]
    · simp only [List.singleton_append, List.head?_cons, String.append_assoc]
  case ListItem =>
    subst hF
    refine ⟨["let " ++ elName (r.count + 1) ++ "= document.createElement('li');\n",
      "Object.assign(" ++ elName (r.count + 1) ++ ".style, mdStyle.li);\n"], [], ?_, ?_,
      ⟨"= document.createElement('li');\n", ?_⟩⟩
    · simp only [dispatch, Node.payload, Node.setAttrs, renderListItem, if_true, Node.attrs,
        RenderElAttributes_set_el _ hLi, List.filter_nil, List.map_nil, List.append_nil]
    · simp only [dispatch, Node.payload, Node.setAttrs, renderListItem, if_true, Node.attrs,
        RenderElAttributes_set_el _ hLi, List.append_nil]
    · simp only [List.head?_cons]
  case ThematicBreak =>
    subst hF
    refine ⟨["let " ++ elName (r.count + 1) ++ "=document.createElement('hr');\n"], [], ?_, ?_,
      ⟨"=document.createElement('hr');\n", ?_⟩⟩
    · simp only [dispatch, Node.payload, Node.setAttrs, renderThematicBreak, Bool.not_true,
        Bool.false_eq_true, if_false, Node.attrs,
        RenderElAttributes_set_el _ hTh, List.filter_nil, List.map_nil, List.append_nil]
    · simp only [dispatch, Node.payload, Node.setAttrs, renderThematicBreak, Bool.not_true,
        Bool.false_eq_true, if_false, Node.attrs,
        RenderElAttributes_set_el _ hTh, List.append_nil]
    · simp only [List.head?_cons]
  case AutoLink typ url =>
    subst hF
    refine ⟨["let " ++ elName (r.count + 1) ++ "=document.createElement('a');\n",
        elName (r.count + 1) ++ ".href=\""] ++
        (if typ = .AutoLinkEmail &&
            !(lit "mailto:").isPrefixOf (bytesToLower x.caseTable url) then ["mailto:"]
          else []) ++ [x.escapeURL url false, "\"\n;"], [], ?_, ?_,
      ⟨"=document.createElement('a');\n", ?_⟩⟩
    · simp only [dispatch, Node.payload, Node.setAttrs, renderAutoLink, Bool.not_true,
        Bool.false_eq_true, if_false, Node.attrs,
        RenderElAttributes_set_el _ hLk, List.filter_nil, List.map_nil, List.append_nil]
    · simp only [dispatch, Node.payload, Node.setAttrs, renderAutoLink, Bool.not_true,
        Bool.false_eq_true, if_false, Node.attrs,
        RenderElAttributes_set_el _ hLk, List.append_nil]
    · simp only [List.cons_append, List.head?_cons]
  case Emphasis Level =>
    subst hF
    clear hnp
    refine ⟨["let " ++ elName (r.count + 1) ++ "=document.createElement('" ++
        (if Level = 2 then "strong" else "em") ++ "');\n"],
      (match children with
        | .mk (.Text value _ _ _) _ _ :: _ =>
          [elName (r.count + 1) ++ ".textContent=`" ++ value ++ "`\n"]
        | _ => []), ?_, ?_,
      ⟨"=document.createElement('" ++ (if Level = 2 then "strong" else "em") ++ "');\n", ?_⟩⟩
    · simp only [dispatch, Node.payload, Node.setAttrs, renderEmphasis, if_true, Node.attrs,
        RenderElAttributes_set_el _ hEm, List.filter_nil, List.map_nil, List.append_nil]
    · simp only [dispatch, Node.payload, Node.setAttrs, renderEmphasis, if_true, Node.attrs,
        RenderElAttributes_set_el _ hEm]
    · simp only [List.head?_cons, String.append_assoc]
  case Link Destination Title =>
    subst hF
    simp only [dispatch, Node.payload, renderLink, if_true] at hnp
    obtain ⟨post, hpost⟩ := attachNow_out _ _ _ _ _ _ hnp
    clear hnp
    refine ⟨["let " ++ elName (r.count + 1) ++ "=document.createElement(\"a\");\n"] ++
        (if r.Unsafe || !IsDangerousURL x.caseTable Destination then
          [elName (r.count + 1) ++ ".href='" ++ x.escapeURL Destination true ++ "';\n"]
        else []) ++
        (match Title with
          | some title => [elName (r.count + 1) ++ ".title='" ++ title ++ "';\n"]
          | none => []),
      ["Object.assign(" ++ elName (r.count + 1) ++ ".style, mdStyle.a);\n"] ++
        (match children with
          | .mk (.Text value _ _ _) _ _ :: _ =>
            [elName (r.count + 1) ++ ".textContent=`" ++ value ++ "`;\n"]
          | _ => []) ++ post, ?_, ?_, ⟨"=document.createElement(\"a\");\n", ?_⟩⟩
    · simp only [dispatch, Node.payload, Node.setAttrs, renderLink, if_true, hpost,
        RenderElAttributes_set_el _ hLk, List.filter_nil, List.map_nil, List.append_nil,
        List.append_assoc]
    · simp only [dispatch, Node.payload, Node.setAttrs, renderLink, if_true, hpost,
        RenderElAttributes_set_el _ hLk, List.append_assoc, Node.attrs]
    · simp only [List.cons_append, List.nil_append, List.head?_cons]
  case Image Destination Title =>
    subst hF
    clear hnp
    refine ⟨["let " ++ elName (r.count + 1) ++ "=document.createElement('img');\n"] ++
        (if r.Unsafe || !IsDangerousURL x.caseTable Destination then
          [elName (r.count + 1) ++ ".src=" ++ x.escapeURL Destination true]
        else []) ++ [elName (r.count + 1) ++ ".alt=\""] ++
        (renderTexts x { r with count := r.count + 1 }
          (.mk (.Image Destination Title) [] children)).2.2 ++ ["\"\n"] ++
        (match Title with
          | some title => [elName (r.count + 1) ++ ".title='" ++ title ++ "'\n"]
          | none => []), [], ?_, ?_, ⟨"=document.createElement('img');\n", ?_⟩⟩
    · simp only [dispatch, Node.payload, Node.setAttrs, renderImage, Bool.not_true,
        Bool.false_eq_true, if_false, RenderElAttributes_set_el _ hIm, List.filter_nil,
        List.map_nil, List.append_nil,
        (renderTexts_congr x _ (.Image Destination Title) (SetAttributeString [] "el" _) []
          children).2]
    · simp only [dispatch, Node.payload, Node.setAttrs, renderImage, Bool.not_true,
        Bool.false_eq_true, if_false, RenderElAttributes_set_el _ hIm, List.append_nil,
        Node.attrs,
        (renderTexts_congr x _ (.Image Destination Title) (SetAttributeString attrs "el" _) []
          children).2]
    · simp only [List.cons_append, List.nil_append, List.head?_cons]
  case CodeSpan =>
    subst hF
    simp only [dispatch, Node.payload, renderCodeSpan, if_true, Node.children] at hnp
    cases hsp : codeSpanChildren r.dbg (elName (r.count + 1)) 0 children with
    | none => rw [hsp] at hnp; simp at hnp
    | some spans =>
      rw [hsp] at hnp
      simp only at hnp
      obtain ⟨post, hpost⟩ := attachNow_out _ _ _ _ _ _ hnp
      refine ⟨["let " ++ elName (r.count + 1) ++ "=document.createElement(\"code\");\n"],
        (if r.dbg then
          ["//dbg -- codespan: children " ++ fmtD (children.length : Nat) ++ "\n"]
        else []) ++ spans ++ post, ?_, ?_, ⟨"=document.createElement(\"code\");\n", ?_⟩⟩
      · simp only [dispatch, Node.payload, Node.setAttrs, renderCodeSpan, if_true, hpost,
          Node.children, hsp, Node.attrs,
          RenderElAttributes_set_el _ hCo, List.filter_nil, List.map_nil, List.append_nil,
          List.append_assoc]
      · simp only [dispatch, Node.payload, Node.setAttrs, renderCodeSpan, if_true, hpost,
          Node.children, hsp, Node.attrs,
          RenderElAttributes_set_el _ hCo, List.append_assoc]
      · simp only [List.head?_cons]
  case Paragraph =>
    subst hF
    have hel : AttributeString (SetAttributeString attrs "el" (elName (r.count + 1))) "el" =
        AttributeString (SetAttributeString [] "el" (elName (r.count + 1))) "el" := by
      simp only [SetAttributeString, AttributeString_SetAttribute]
    obtain ⟨hr, ho, hret⟩ := renderTextChildren_congr x { r with count := r.count + 1 }
      .Paragraph _ _ children hel
    simp only [dispatch, Node.payload, renderParagraph, if_true, Node.setAttrs,
      Node.attrs] at hnp
    by_cases hp : (renderTextChildren x { r with count := r.count + 1 }
        (.mk .Paragraph (SetAttributeString attrs "el" (elName (r.count + 1))) children)
        true).ret = .panic
    · rw [if_pos hp] at hnp; simp at hnp
    · rw [if_neg hp] at hnp
      obtain ⟨post, hpost⟩ := attachNow_out _ _ _ _ _ _ hnp
      refine ⟨["let " ++ elName (r.count + 1) ++ "=document.createElement('p');\n",
          "Object.assign(" ++ elName (r.count + 1) ++ ".style, mdStyle.p);\n"],
        (renderTextChildren x { r with count := r.count + 1 }
          (.mk .Paragraph (SetAttributeString attrs "el" (elName (r.count + 1))) children)
          true).out ++ post, ?_, ?_, ⟨"=document.createElement('p');\n", ?_⟩⟩
      · simp only [dispatch, Node.payload, Node.setAttrs, renderParagraph, if_true,
          Node.attrs, ← hret, ← hr, ← ho, if_neg hp, hpost,
          RenderElAttributes_set_el _ hPa, List.filter_nil, List.map_nil, List.append_nil,
          List.append_assoc]
      · simp only [dispatch, Node.payload, Node.setAttrs, renderParagraph, if_true,
          Node.attrs, if_neg hp, hpost,
          RenderElAttributes_set_el _ hPa, List.append_assoc]
      · simp only [List.head?_cons]

/-- C8, at the paragraph `see [here](https://x) now` with the attributes
`id`, `onclick` and `data-k`, under the document root. -/
theorem entry_attribute_statements_witness :
    kindFilter sampleAttrParagraph.payload = some ParagraphAttributeFilter ∧
      (dispatch plainExt sampleRenderer (some sampleDocument) none sampleAttrParagraph true).ret ≠
        .panic ∧
      ∃ before after : List String,
        (dispatch plainExt sampleRenderer (some sampleDocument) none
            (sampleAttrParagraph.setAttrs []) true).out = before ++ after ∧
          (dispatch plainExt sampleRenderer (some sampleDocument) none sampleAttrParagraph
              true).out =
            before ++
              (sampleAttrParagraph.attrs.filter
                (fun a => decide (retained (some ParagraphAttributeFilter) a))).map
                (attrStmt (elName (sampleRenderer.count + 1))) ++
              after ∧
          ∃ c, before.head? = some ("let " ++ elName (sampleRenderer.count + 1) ++ c) :=
  ⟨rfl, by decide,
    entry_attribute_statements plainExt sampleRenderer (some sampleDocument) none
      sampleAttrParagraph ParagraphAttributeFilter rfl (by decide)⟩

/-- The writes of the entry phase for the sample paragraph. -/
theorem entry_attribute_statements_example :
    (dispatch plainExt sampleRenderer (some sampleDocument) none sampleAttrParagraph true).out =
      ["let el3=document.createElement('p');\n", "Object.assign(el3.style, mdStyle.p);\n",
        "el3.id='p1';\n", "el3.data-k='v';\n",
        "const el4=document.createTextNode(`see `);\n", "el3.appendChild(el4);\n",
        "let el5=document.createElement(\"a\");\n", "el5.href='https://x';\n",
        "Object.assign(el5.style, mdStyle.a);\n", "el5.textContent=`here`;\n",
        "el3.appendChild(el5);\n", "const el6=document.createTextNode(` now`);\n",
        "el3.appendChild(el6);\n", "mdDiv.appendChild(el3);\n"] := by
  decide

/-- C8 as stated fails: a fenced code block with the attributes `data-line`
and `id` is rendered as `el3`, and no write of its entry phase or of its exit
phase begins an assignment to `el3.data-line` or to `el3.id`. -/
theorem fencedCodeBlock_attributes_not_emitted :
    "data-".data <+: "data-line".data ∧
      AttributeString
          (dispatch plainExt sampleRenderer (some sampleDocument) none sampleFencedCodeBlock
            true).node.attrs "el" = some (.str "el3") ∧
      ∀ s ∈
          (dispatch plainExt sampleRenderer (some sampleDocument) none sampleFencedCodeBlock
              true).out ++
            (dispatch plainExt
              (dispatch plainExt sampleRenderer (some sampleDocument) none
                sampleFencedCodeBlock true).r
              (some sampleDocument) none
              (dispatch plainExt sampleRenderer (some sampleDocument) none
                sampleFencedCodeBlock true).node
              false).out,
        ¬ "el3.data-line".data <+: s.data ∧ ¬ "el3.id".data <+: s.data := by
  decide

/-- An emphasis inside a paragraph is rendered by the aggregator, which
writes no statement for its `id` attribute, while `renderEmphasis` writes
one. -/
theorem aggregator_emphasis_attribute_not_emitted :
    (dispatch plainExt sampleRenderer (some sampleDocument) none sampleEmphasisParagraph
        true).out =
        ["let el3=document.createElement('p');\n", "Object.assign(el3.style, mdStyle.p);\n",
          "let el4=document.createElement('strong');\n", "el4.textContent=`bold`;\n",
          "el3.appendChild(el4);\n", "mdDiv.appendChild(el3);\n"] ∧
      (renderEmphasis sampleRenderer (some sampleParagraph)
          (.mk (.Emphasis 2) [⟨"id", .bytes "e1"⟩]
            [.mk (.Text "bold" false false false) [] []]) true).out =
        ["let el3=document.createElement('strong');\n", "el3.id='e1';\n",
          "el3.textContent=`bold`\n"] := by
  decide

/-! ### The aggregator: fast path -/

/-- C11. For a node with the recorded identifier `P` whose only child is a
`Text` with value `v`, `renderTextChildren` with debug off writes exactly one
statement, the text-content assignment on `P` that carries `v` unchanged,
leaves the renderer (and so the counter) as it was, and returns
`WalkSkipChildren`. -/
theorem renderTextChildren_fast_path (x : Ext) (r : Renderer) (p : Payload)
    (attrs : List Attribute) (P v : String) (raw soft hard : Bool)
    (ta : List Attribute) (tc : List Node)
    (hel : AttributeString attrs "el" = some (.str P)) (hdbg : r.dbg = false) :
    (renderTextChildren x r (.mk p attrs [.mk (.Text v raw soft hard) ta tc]) true).out =
        [P ++ ".textContent=`" ++ v ++ "`;\n"] ∧
      (renderTextChildren x r (.mk p attrs [.mk (.Text v raw soft hard) ta tc]) true).r = r ∧
      (renderTextChildren x r (.mk p attrs [.mk (.Text v raw soft hard) ta tc]) true).ret =
        .ok .WalkSkipChildren := by
  simp [renderTextChildren, Node.attrs, Node.children, hel, hdbg]

/-- C11, at a list item text block `el2` with the text `item`. -/
theorem renderTextChildren_fast_path_witness :
    AttributeString [⟨"el", .str "el2"⟩] "el" = some (.str "el2") ∧
      sampleRenderer.dbg = false ∧
      (renderTextChildren plainExt sampleRenderer
          (.mk .TextBlock [⟨"el", .str "el2"⟩] [.mk (.Text "item" false false false) [] []])
          true).out = ["el2" ++ ".textContent=`" ++ "item" ++ "`;\n"] ∧
      (renderTextChildren plainExt sampleRenderer
          (.mk .TextBlock [⟨"el", .str "el2"⟩] [.mk (.Text "item" false false false) [] []])
          true).r.count = 2 :=
  ⟨by decide, by decide,
    (renderTextChildren_fast_path plainExt sampleRenderer .TextBlock [⟨"el", .str "el2"⟩]
      "el2" "item" false false false [] [] (by decide) (by decide)).1,
    by rw [(renderTextChildren_fast_path plainExt sampleRenderer .TextBlock
      [⟨"el", .str "el2"⟩] "el2" "item" false false false [] [] (by decide) (by decide)).2.1]
       decide⟩

/-! ### The document root -/

/-- C19. The conversion of a document without children ends without error
and its output is the preamble written on entry followed by the trailer
written on exit, and nothing else. -/
theorem Render_empty_document (x : Ext) (r : Renderer) (attrs : List Attribute) :
    (Render x r (.mk .Document attrs [])).ret = .ok ∧
      (Render x r (.mk .Document attrs [])).out =
        ["let mdDivObj = \x7b\n\ttyp:'div',\n\tid: 'mdDiv',\n\tstyle: \x7b\n\t\tmargin: '10px',\n\t\tborder: '1px dashed blue',\n\t\tposition: 'relative',\n\t\tminHeight: '200px',\n\t\x7d,\n\x7d;\nlet mdDiv = azul.addElement(mdDivObj);\n",
          "return mdDiv;\n\x7d;\n"] := by
  simp [Render, walkHelper, walkChildren, walkExit, dispatch, renderDocument, Node.payload,
    Node.attrs, Node.setAttrs]

/-! ### Exit phases -/

/-- For a heading, a blockquote, a list, a list item, a code block, a
fenced code block, a thematic break, and an HTML block that has a closure
line: when the node and its parent have recorded identifiers, the exit phase
writes the statement appending the node to its parent. -/
theorem exit_appends (x : Ext) (r : Renderer) (pnode : Node) (next : Option Node)
    (p : Payload) (attrs : List Attribute) (children : List Node) (elNam parElNam : String)
    (hel : AttributeString attrs "el" = some (.str elNam))
    (hpar : AttributeString pnode.attrs "el" = some (.str parElNam))
    (hk : (∃ l, p = .Heading l) ∨ p = .Blockquote ∨ (∃ m s, p = .ListNode m s) ∨
      p = .ListItem ∨ (∃ ls, p = .CodeBlock ls) ∨ (∃ lg ls, p = .FencedCodeBlock lg ls) ∨
      p = .ThematicBreak ∨ (∃ ls cl, p = .HTMLBlock ls (some cl))) :
    appendStmt parElNam elNam ∈
      (dispatch x r (some pnode) next (.mk p attrs children) false).out := by
  have hnode : AttributeString (Node.mk p attrs children).attrs "el" = some (.str elNam) := hel
  rcases hk with ⟨l, rfl⟩ | rfl | ⟨m, s, rfl⟩ | rfl | ⟨ls, rfl⟩ | ⟨lg, ls, rfl⟩ | rfl |
    ⟨ls, cl, rfl⟩ <;>
    simp [dispatch, Node.payload, renderHeading, renderBlockquote, renderList, renderListItem,
      renderCodeBlock, renderFencedCodeBlock, renderThematicBreak, renderHTMLBlock,
      exitAttach_ok _ _ _ _ _ _ _ hnode hpar]

/-- C20 fails on the code: an HTML block without a closure line whose own
identifier `el3` and whose parent's identifier `mdDiv` are recorded gets no
attachment statement on exit; the exit phase writes nothing and returns
`WalkContinue`. -/
theorem renderHTMLBlock_exit_without_closure :
    AttributeString sampleOpenHTMLBlock.attrs "el" = some (.str "el3") ∧
      AttributeString sampleDocument.attrs "el" = some (.str "mdDiv") ∧
      (dispatch plainExt sampleRenderer (some sampleDocument) none sampleOpenHTMLBlock
          false).out = [] ∧
      (dispatch plainExt sampleRenderer (some sampleDocument) none sampleOpenHTMLBlock
          false).ret = .ok .WalkContinue := by
  decide

/-! ### The aggregator: children it fails on -/

/-- C14 fails on the code: the aggregator panics on an image child (the
child is asserted to be a code span), so the conversion of a document with the
paragraph `a ![alt](x.png)` panics; and for a `String` child and a raw HTML
child it writes the creation statements and no statement that appends them to
the parent. -/
theorem renderTextChildren_image_panics :
    (renderTextChildren plainExt sampleRenderer sampleImageParagraph true).ret = .panic ∧
      (Render plainExt (NewRenderer "md" false)
        (.mk .Document [] [sampleImageParagraph])).ret = .panic ∧
      (renderTextChildren plainExt sampleRenderer sampleStringParagraph true).ret =
        .ok .WalkSkipChildren ∧
      (renderTextChildren plainExt sampleRenderer sampleStringParagraph true).out =
        ["const el3txt= `s`;\n", "let el3=document.createTextNode(el3txt);\n",
          "let el4=document.createElement('div');\n", "<!-- raw HTML omitted -->"] := by
  decide

/-- C12 fails on the code: on `a ***b***` the aggregator is in the
accumulating state when it meets the emphasis, whose first child is not a
`Text`; the type assertion panics before the buffered text is flushed, and
the conversion of a document with this paragraph panics. -/
theorem renderTextChildren_nested_emphasis_panics :
    aggStep plainExt sampleNestedEmphasisParagraph "el2" ⟨sampleRenderer, 0, none, [], []⟩
        (.mk (.Text "a " false false false) [] []) =
      some ⟨sampleRenderer, 1, some "a ", [], [.mk (.Text "a " false false false) [] []]⟩ ∧
    aggStep plainExt sampleNestedEmphasisParagraph "el2"
        ⟨sampleRenderer, 1, some "a ", [], [.mk (.Text "a " false false false) [] []]⟩
        (.mk (.Emphasis 1) [] [.mk (.Emphasis 2) [] [.mk (.Text "b" false false false) [] []]]) =
      none ∧
    (renderTextChildren plainExt sampleRenderer sampleNestedEmphasisParagraph true).ret =
      .panic ∧
    (Render plainExt (NewRenderer "md" false)
      (.mk .Document [] [sampleNestedEmphasisParagraph])).ret = .panic := by
  refine ⟨rfl, rfl, by decide, by decide⟩

/-! ### The loop of the aggregator -/

theorem prependText_prependText (t v : String) (segs : List Seg) :
    prependText t (prependText v segs) = prependText (t ++ v) segs := by
  cases segs with
  | nil => simp [prependText]
  | cons s rest => cases s <;> simp [prependText, String.append_assoc]

/-- A run of `Text` children met in the accumulating state extends the
buffer by their values and writes nothing. -/
theorem aggLoop_texts (x : Ext) (pnode : Node) (P : String) :
    ∀ (cs : List Node) (s : Agg) (t : String), (∀ c ∈ cs, c.isText = true) →
      s.istate = 1 → s.text = some t →
      aggLoop x pnode P s cs =
        some { s with text := some (t ++ runText cs), seen := s.seen ++ cs } := by
  intro cs
  induction cs with
  | nil =>
    intro s t _ _ ht
    cases s
    simp_all [aggLoop, runText]
  | cons c rest ih =>
    intro s t hcs hi ht
    have hc := hcs c (List.mem_cons_self _ _)
    have hrest : ∀ c ∈ rest, c.isText = true := fun d hd => hcs d (List.mem_cons_of_mem _ hd)
    obtain ⟨p, a, ch⟩ := c
    cases p <;> simp [Node.isText] at hc
    rename_i value raw soft hard
    rw [aggLoop]
    simp only [aggStep, hi, ht]
    simp only [Option.getD_some, one_ne_zero, if_false, if_true]
    rw [ih _ (t ++ value) hrest rfl rfl]
    simp [runText, textOf, String.append_assoc]

/-- A run of `Text` children met in the idle state fills the buffer with
their values and writes nothing. -/
theorem aggLoop_texts_idle (x : Ext) (pnode : Node) (P : String)
    (c : Node) (cs : List Node) (s : Agg) (hcs : ∀ d ∈ c :: cs, d.isText = true)
    (hi : s.istate = 0) :
    aggLoop x pnode P s (c :: cs) =
      some { s with istate := 1, text := some (runText (c :: cs)), seen := s.seen ++ c :: cs } := by
  have hc := hcs c (List.mem_cons_self _ _)
  have hrest : ∀ d ∈ cs, d.isText = true := fun d hd => hcs d (List.mem_cons_of_mem _ hd)
  obtain ⟨p, a, ch⟩ := c
  cases p <;> simp [Node.isText] at hc
  rename_i value raw soft hard
  rw [aggLoop]
  simp only [aggStep, hi, if_true]
  rw [aggLoop_texts x pnode P cs _ value hrest rfl rfl]
  simp [runText, textOf]

/-- The entry phase of `renderCodeSpan` under a parent bound to `P` panics,
or it takes one identifier and its writes begin with the creation of the
`code` element and end with its append to `P`. -/
theorem renderCodeSpan_block (r : Renderer) (pnode : Node) (P : String)
    (hP : AttributeString pnode.attrs "el" = some (.str P)) (attrs : List Attribute)
    (children : List Node) :
    (renderCodeSpan r (some pnode) (.mk .CodeSpan attrs children) true).ret = .panic ∨
      ((renderCodeSpan r (some pnode) (.mk .CodeSpan attrs children) true).r =
          { r with count := r.count + 1 } ∧
        ∃ mid, (renderCodeSpan r (some pnode) (.mk .CodeSpan attrs children) true).out =
          segCreate (elName (r.count + 1)) (.child (.mk .CodeSpan attrs children)) :: mid ++
            [appendStmt P (elName (r.count + 1))]) := by
  cases hsp : codeSpanChildren r.dbg (elName (r.count + 1)) 0 children with
  | none => left; simp [renderCodeSpan, Node.children, hsp]
  | some spans =>
    right
    simp only [renderCodeSpan, Node.children, hsp, attachNow, hP, if_true, segCreate]
    refine ⟨trivial,
      RenderElAttributes (SetAttributeString attrs "el" (elName (r.count + 1)))
          (some CodeAttributeFilter) (elName (r.count + 1)) ++
        (if r.dbg then
          ["//dbg -- codespan: children " ++ fmtD (children.length : Nat) ++ "\n"] else []) ++
        spans ++
        (if r.dbg then
          ["// dbg -- codespan el: " ++ elName (r.count + 1) ++ " kind: " ++
            Payload.kindName .CodeSpan ++ " parent:" ++ P ++ " kind:" ++
            pnode.payload.kindName ++ "\n"] else []), ?_⟩
    simp [Node.payload, Node.attrs]

/-- The entry phase of `renderLink` under a parent bound to `P` takes one
identifier, and its writes begin with the creation of the `a` element and end
with its append to `P`. -/
theorem renderLink_block (x : Ext) (r : Renderer) (pnode : Node) (P : String)
    (hP : AttributeString pnode.attrs "el" = some (.str P)) (Destination : Bytes)
    (Title : Option String) (attrs : List Attribute) (children : List Node) :
    (renderLink x r (some pnode) (.mk (.Link Destination Title) attrs children) true).ret ≠
        .panic ∧
      (renderLink x r (some pnode) (.mk (.Link Destination Title) attrs children) true).r =
          { r with count := r.count + 1 } ∧
        ∃ mid,
          (renderLink x r (some pnode) (.mk (.Link Destination Title) attrs children) true).out =
            segCreate (elName (r.count + 1))
              (.child (.mk (.Link Destination Title) attrs children)) :: mid ++
              [appendStmt P (elName (r.count + 1))] := by
  simp only [renderLink, attachNow, hP, if_true, segCreate]
  refine ⟨by simp, trivial,
    (if r.Unsafe || !IsDangerousURL x.caseTable Destination then
        [elName (r.count + 1) ++ ".href='" ++ x.escapeURL Destination true ++ "';\n"]
      else []) ++
      (match Title with
        | some title => [elName (r.count + 1) ++ ".title='" ++ title ++ "';\n"]
        | none => []) ++
      RenderElAttributes (SetAttributeString attrs "el" (elName (r.count + 1)))
        (some LinkAttributeFilter) (elName (r.count + 1)) ++
      ["Object.assign(" ++ elName (r.count + 1) ++ ".style, mdStyle.a);\n"] ++
      (match children with
        | .mk (.Text value _ _ _) _ _ :: _ =>
          [elName (r.count + 1) ++ ".textContent=`" ++ value ++ "`;\n"]
        | _ => []) ++
      (if r.dbg then [dbgLine (elName (r.count + 1)) P pnode.payload.kindName] else []), ?_⟩
  simp

/-- A handler call in the loop after the flush of the buffer: when the
handler panics or writes a block for the child under the next identifier, the
turn panics, or the buffer was flushed first when there was one, the block of
the child follows, and the state is idle. -/
theorem afterCall_blocks (P : String) (c : Node) (f : Renderer → HResult)
    (hf : ∀ r : Renderer, (f r).ret = .panic ∨
      ((f r).r.count = r.count + 1 ∧
        ∃ mid, (f r).out = segCreate (elName (r.count + 1)) (.child c) :: mid ++
          [appendStmt P (elName (r.count + 1))]))
    (s : Agg) (hv : (s.istate = 0 ∧ s.text = none) ∨ (s.istate = 1 ∧ s.text ≠ none)) :
    (s.flushIfText P).afterCall (f (s.flushIfText P).r) = none ∨
      ∃ (s1 : Agg) (pre : List (List String)) (b : List String),
        (s.flushIfText P).afterCall (f (s.flushIfText P).r) = some s1 ∧
        s1.istate = 0 ∧ s1.text = none ∧
        s1.out = s.out ++ pre.flatten ++ b ∧
        (∃ mid, b = segCreate (elName s1.r.count) (.child c) :: mid ++
          [appendStmt P (elName s1.r.count)]) ∧
        ((s.text = none ∧ pre = [] ∧ s1.r.count = s.r.count + 1) ∨
          (∃ t, s.text = some t ∧
            pre = [[segCreate (elName (s.r.count + 1)) (.text t),
                    appendStmt P (elName (s.r.count + 1))]] ∧
            s1.r.count = s.r.count + 1 + 1)) := by
  by_cases hp : (f (s.flushIfText P).r).ret = .panic
  · left; simp [Agg.afterCall, hp]
  · right
    rcases hf (s.flushIfText P).r with hp1 | ⟨hr, mid, ho⟩
    · exact absurd hp1 hp
    · rcases hv with ⟨hi, ht⟩ | ⟨hi, ht⟩
      · have hs : s.flushIfText P = s := by simp [Agg.flushIfText, hi]
        rw [hs] at hr ho hp ⊢
        refine ⟨{ s with r := (f s.r).r, out := s.out ++ (f s.r).out,
                         seen := s.seen ++ [(f s.r).node] }, [], (f s.r).out,
          by simp [Agg.afterCall, hp], hi, ht, by simp, ?_, ?_⟩
        · simp only [hr]; exact ⟨mid, ho⟩
        · left; exact ⟨ht, rfl, hr⟩
      · obtain ⟨t, ht1⟩ := Option.ne_none_iff_exists'.mp ht
        have hs : s.flushIfText P = (s.flush P).1 := by simp [Agg.flushIfText, hi]
        rw [hs] at hr ho hp ⊢
        have hcnt : (s.flush P).1.r.count = s.r.count + 1 := rfl
        rw [hcnt] at hr ho
        refine ⟨⟨(f (s.flush P).1.r).r, 0, none, (s.flush P).1.out ++ (f (s.flush P).1.r).out,
                    (s.flush P).1.seen ++ [(f (s.flush P).1.r).node]⟩,
          [[segCreate (elName (s.r.count + 1)) (.text t),
            appendStmt P (elName (s.r.count + 1))]], (f (s.flush P).1.r).out,
          by rw [Agg.afterCall, if_neg hp]; rfl, rfl, rfl, ?_, ?_, ?_⟩
        · simp [Agg.flush, ht1, segCreate, appendStmt]
        · simp only [hr]; exact ⟨mid, ho⟩
        · right; exact ⟨t, ht1, rfl, hr⟩

/-- One turn of the loop on a child that is not a `Text`: the turn panics,
or the buffer is flushed first when there is one (a text node is created and
appended to the parent), the child is rendered in a block of writes that
begins with its creation statement and ends with its append to the parent,
and the state is idle again. -/
theorem aggStep_blocks (x : Ext) (pnode : Node) (P : String)
    (hP : AttributeString pnode.attrs "el" = some (.str P)) (c : Node)
    (hc : aggChildOK c = true) (hnt : c.isText = false) (s : Agg)
    (hv : (s.istate = 0 ∧ s.text = none) ∨ (s.istate = 1 ∧ s.text ≠ none)) :
    aggStep x pnode P s c = none ∨
      ∃ (s1 : Agg) (pre : List (List String)) (b : List String),
        aggStep x pnode P s c = some s1 ∧ s1.istate = 0 ∧ s1.text = none ∧
        s1.out = s.out ++ pre.flatten ++ b ∧
        (∃ mid, b = segCreate (elName s1.r.count) (.child c) :: mid ++
          [appendStmt P (elName s1.r.count)]) ∧
        ((s.text = none ∧ pre = [] ∧ s1.r.count = s.r.count + 1) ∨
          (∃ t, s.text = some t ∧
            pre = [[segCreate (elName (s.r.count + 1)) (.text t),
                    appendStmt P (elName (s.r.count + 1))]] ∧
            s1.r.count = s.r.count + 1 + 1)) := by
  obtain ⟨p, a, ch⟩ := c
  cases p <;> simp [aggChildOK, Node.isText] at hc hnt
  case CodeSpan =>
    refine afterCall_blocks P (.mk .CodeSpan a ch)
      (fun r => renderCodeSpan r (some pnode) (.mk .CodeSpan a ch) true) ?_ s hv
    intro r
    rcases renderCodeSpan_block r pnode P hP a ch with h | ⟨hr, h⟩
    · exact Or.inl h
    · exact Or.inr ⟨by rw [hr], h⟩
  case Link Destination Title =>
    refine afterCall_blocks P (.mk (.Link Destination Title) a ch)
      (fun r => renderLink x r (some pnode) (.mk (.Link Destination Title) a ch) true) ?_ s hv
    intro r
    obtain ⟨_, hr, h⟩ := renderLink_block x r pnode P hP Destination Title a ch
    exact Or.inr ⟨by rw [hr], h⟩
  case Emphasis Level =>
    right
    cases ch with
    | nil => simp [aggChildOK] at hc
    | cons d rest =>
      obtain ⟨dp, da, dch⟩ := d
      cases dp <;> simp [aggChildOK] at hc
      rename_i value raw soft hard
      rcases hv with ⟨hi, ht⟩ | ⟨hi, ht⟩
      · refine ⟨⟨{ s.r with count := s.r.count + 1 }, s.istate, s.text,
            s.out ++ ["let " ++ elName (s.r.count + 1) ++ "=document.createElement('" ++
                (if Level = 2 then "strong" else "em") ++ "');\n",
              elName (s.r.count + 1) ++ ".textContent=`" ++ value ++ "`;\n",
              P ++ ".appendChild(" ++ elName (s.r.count + 1) ++ ");\n"],
            s.seen ++ [.mk (.Emphasis Level) a (.mk (.Text value raw soft hard) da dch :: rest)]⟩,
          [],
          ["let " ++ elName (s.r.count + 1) ++ "=document.createElement('" ++
                (if Level = 2 then "strong" else "em") ++ "');\n",
              elName (s.r.count + 1) ++ ".textContent=`" ++ value ++ "`;\n",
              P ++ ".appendChild(" ++ elName (s.r.count + 1) ++ ");\n"],
          by simp [aggStep, hi], hi, ht, ?_, ?_, ?_⟩
        · simp only [List.flatten_nil, List.append_nil]
        · exact ⟨[elName (s.r.count + 1) ++ ".textContent=`" ++ value ++ "`;\n"], rfl⟩
        · left; exact ⟨ht, rfl, rfl⟩
      · obtain ⟨t, ht1⟩ := Option.ne_none_iff_exists'.mp ht
        refine ⟨⟨{ s.r with count := s.r.count + 1 + 1 }, 0, none,
            s.out ++ [segCreate (elName (s.r.count + 1)) (.text t),
                appendStmt P (elName (s.r.count + 1))] ++
              ["let " ++ elName (s.r.count + 1 + 1) ++ "=document.createElement('" ++
                (if Level = 2 then "strong" else "em") ++ "');\n",
              elName (s.r.count + 1 + 1) ++ ".textContent=`" ++ value ++ "`;\n",
              P ++ ".appendChild(" ++ elName (s.r.count + 1 + 1) ++ ");\n"],
            s.seen ++ [.mk (.Emphasis Level) (SetAttributeString a "el" (elName (s.r.count + 1)))
              (.mk (.Text value raw soft hard) da dch :: rest)]⟩,
          [[segCreate (elName (s.r.count + 1)) (.text t),
            appendStmt P (elName (s.r.count + 1))]],
          ["let " ++ elName (s.r.count + 1 + 1) ++ "=document.createElement('" ++
                (if Level = 2 then "strong" else "em") ++ "');\n",
              elName (s.r.count + 1 + 1) ++ ".textContent=`" ++ value ++ "`;\n",
              P ++ ".appendChild(" ++ elName (s.r.count + 1 + 1) ++ ");\n"],
          by simp [aggStep, hi, Agg.flush, ht1, segCreate, appendStmt],
          rfl, rfl, ?_, ?_, ?_⟩
        · simp only [List.flatten_cons, List.flatten_nil, List.append_nil]
        · exact ⟨[elName (s.r.count + 1 + 1) ++ ".textContent=`" ++ value ++ "`;\n"], rfl⟩
        · right; exact ⟨t, ht1, rfl, rfl⟩

/-- The loop of the aggregator over children it is specified for, with the
flush that follows it: the loop panics, or what is written after the writes of
the starting state splits into one block for each segment, in the order of the
segments; a buffer held by the starting state joins the first run. -/
theorem aggLoop_blocks (x : Ext) (pnode : Node) (P : String)
    (hP : AttributeString pnode.attrs "el" = some (.str P)) :
    ∀ (cs : List Node) (s : Agg), (∀ c ∈ cs, aggChildOK c = true) →
      ((s.istate = 0 ∧ s.text = none) ∨ (s.istate = 1 ∧ s.text ≠ none)) →
      aggLoop x pnode P s cs = none ∨
        ∃ (s1 : Agg) (blocks : List (List String)),
          aggLoop x pnode P s cs = some s1 ∧
          (match s1.text with
            | some _ => (s1.flush P).1.out
            | none => s1.out) = s.out ++ blocks.flatten ∧
          BlocksFor P s.r.count
            (match s.text with
              | some t => prependText t (groupRuns cs)
              | none => groupRuns cs) blocks := by
  intro cs
  induction cs with
  | nil =>
    intro s _ hv
    right
    rcases hv with ⟨_, ht⟩ | ⟨_, ht⟩
    · exact ⟨s, [], rfl, by simp [ht], by simp [ht, groupRuns, BlocksFor]⟩
    · obtain ⟨t, ht1⟩ := Option.ne_none_iff_exists'.mp ht
      refine ⟨s, [[segCreate (elName (s.r.count + 1)) (.text t),
        appendStmt P (elName (s.r.count + 1))]], rfl, ?_, ?_⟩
      · simp [ht1, Agg.flush, segCreate, appendStmt]
      · simp only [ht1, groupRuns, prependText, BlocksFor, and_true]
        exact ⟨[], rfl⟩
  | cons c rest ih =>
    intro s hcs hv
    have hc := hcs c (List.mem_cons_self _ _)
    have hrest : ∀ d ∈ rest, aggChildOK d = true := fun d hd => hcs d (List.mem_cons_of_mem _ hd)
    by_cases htx : c.isText = true
    · -- a `Text` child joins the buffer
      obtain ⟨p, a, ch⟩ := c
      cases p <;> simp [Node.isText] at htx
      rename_i value raw soft hard
      rcases hv with ⟨hi, ht⟩ | ⟨hi, ht⟩
      · have hstep : aggStep x pnode P s (.mk (.Text value raw soft hard) a ch) =
            some ⟨s.r, 1, some value, s.out,
              s.seen ++ [.mk (.Text value raw soft hard) a ch]⟩ := by
          simp [aggStep, hi]
        rw [aggLoop, hstep]
        rcases ih ⟨s.r, 1, some value, s.out, s.seen ++ [.mk (.Text value raw soft hard) a ch]⟩
          hrest (Or.inr ⟨rfl, by simp⟩) with h | ⟨s1, blocks, h1, h2, h3⟩
        · exact Or.inl h
        · refine Or.inr ⟨s1, blocks, h1, h2, ?_⟩
          simpa [ht, groupRuns, Node.isText, textOf] using h3
      · obtain ⟨t, ht1⟩ := Option.ne_none_iff_exists'.mp ht
        have hstep : aggStep x pnode P s (.mk (.Text value raw soft hard) a ch) =
            some ⟨s.r, 1, some (t ++ value), s.out,
              s.seen ++ [.mk (.Text value raw soft hard) a ch]⟩ := by
          cases s
          simp_all [aggStep]
        rw [aggLoop, hstep]
        rcases ih ⟨s.r, 1, some (t ++ value), s.out,
            s.seen ++ [.mk (.Text value raw soft hard) a ch]⟩
          hrest (Or.inr ⟨rfl, by simp⟩) with h | ⟨s1, blocks, h1, h2, h3⟩
        · exact Or.inl h
        · refine Or.inr ⟨s1, blocks, h1, h2, ?_⟩
          simpa [ht1, groupRuns, Node.isText, textOf, prependText_prependText] using h3
    · -- another child: the buffer is flushed, then the child is rendered
      have hnt : c.isText = false := by simpa using htx
      rw [aggLoop]
      rcases aggStep_blocks x pnode P hP c hc hnt s hv with
        h | ⟨s1, pre, b, hstep, hi1, ht1, hout, hb, hpre⟩
      · left; rw [h]
      · rw [hstep]
        rcases ih s1 hrest (Or.inl ⟨hi1, ht1⟩) with h | ⟨s2, blocks, h1, h2, h3⟩
        · exact Or.inl h
        · right
          refine ⟨s2, pre ++ b :: blocks, h1, ?_, ?_⟩
          · rw [h2, hout]; simp
          · rw [ht1] at h3
            rcases hpre with ⟨hn, hp0, hcount⟩ | ⟨t, hsome, hp1, hcount⟩
            · rw [hn, hp0]
              simp only [groupRuns, hnt, List.nil_append, BlocksFor, Bool.false_eq_true, if_false]
              rw [hcount] at hb h3
              exact ⟨hb, h3⟩
            · rw [hsome, hp1]
              simp only [groupRuns, hnt, prependText, List.cons_append, List.nil_append,
                BlocksFor, Bool.false_eq_true, if_false]
              rw [hcount] at hb h3
              exact ⟨⟨[], rfl⟩, hb, h3⟩

theorem codeSpanChildren_isSome (dbg : Bool) (elNam : String) :
    ∀ (cs : List Node) (n : Nat), cs.all Node.isText = true →
      (codeSpanChildren dbg elNam n cs).isSome = true := by
  intro cs
  induction cs with
  | nil => intro n _; simp [codeSpanChildren]
  | cons c rest ih =>
    intro n h
    simp only [List.all_cons, Bool.and_eq_true] at h
    obtain ⟨h1, h2⟩ := h
    obtain ⟨p, a, ch⟩ := c
    cases p <;> simp [Node.isText] at h1
    have := ih (n + 1) h2
    obtain ⟨more, hm⟩ := Option.isSome_iff_exists.mp this
    simp [codeSpanChildren, hm]

/-- A turn of the loop on a child it is specified for does not panic when
the child is not an ill-formed code span. -/
theorem aggStep_isSome (x : Ext) (pnode : Node) (P : String)
    (hP : AttributeString pnode.attrs "el" = some (.str P)) (c : Node)
    (hc : aggChildOK c = true) (hs : spanOK c = true) (s : Agg) :
    (aggStep x pnode P s c).isSome = true := by
  obtain ⟨p, a, ch⟩ := c
  cases p <;> simp [aggChildOK] at hc
  case Text value raw soft hard =>
    simp only [aggStep]
    split_ifs <;> rfl
  case CodeSpan =>
    obtain ⟨spans, hsp⟩ := Option.isSome_iff_exists.mp
      (codeSpanChildren_isSome (s.flushIfText P).r.dbg
        (elName ((s.flushIfText P).r.count + 1)) ch 0 (by simpa [spanOK] using hs))
    simp [aggStep, Agg.afterCall, renderCodeSpan, Node.children, hsp, attachNow, hP]
  case Link Destination Title =>
    simp [aggStep, Agg.afterCall, renderLink, attachNow, hP]
  case Emphasis Level =>
    cases ch with
    | nil => simp [aggChildOK] at hc
    | cons d rest =>
      obtain ⟨dp, da, dch⟩ := d
      cases dp <;> simp [aggChildOK] at hc
      simp [aggStep]

theorem aggLoop_isSome (x : Ext) (pnode : Node) (P : String)
    (hP : AttributeString pnode.attrs "el" = some (.str P)) :
    ∀ (cs : List Node) (s : Agg), (∀ c ∈ cs, aggChildOK c = true) →
      (∀ c ∈ cs, spanOK c = true) → (aggLoop x pnode P s cs).isSome = true := by
  intro cs
  induction cs with
  | nil => intro s _ _; rfl
  | cons c rest ih =>
    intro s hcs hsp
    obtain ⟨s1, h1⟩ := Option.isSome_iff_exists.mp
      (aggStep_isSome x pnode P hP c (hcs c (List.mem_cons_self _ _))
        (hsp c (List.mem_cons_self _ _)) s)
    rw [aggLoop, h1]
    exact ih s1 (fun d hd => hcs d (List.mem_cons_of_mem _ hd))
      (fun d hd => hsp d (List.mem_cons_of_mem _ hd))

/-! ### The order of the siblings -/

/-- Different values of the counter give different identifiers. -/
theorem elName_injective : Function.Injective elName := by
  intro i j h
  have hd : (fmtD i).data = (fmtD j).data := by
    have h1 := congrArg String.data h
    rw [elName_data, elName_data] at h1
    simpa using h1
  obtain ⟨di, hi1, hi2, hi3, hi4⟩ := fmtD_decimal i
  obtain ⟨dj, hj1, hj2, hj3, hj4⟩ := fmtD_decimal j
  rw [hi1, hj1] at hd
  by_cases hi : i < 0 <;> by_cases hj : j < 0 <;> simp only [hi, hj, if_true, if_false] at hd
  · have : di = dj := by simpa using hd
    rw [this, hj4] at hi4
    omega
  · exfalso
    cases dj with
    | nil => exact hj2 rfl
    | cons c rest =>
      have hc : c = '-' := by
        have := congrArg List.head? hd
        simpa using this.symm
      have := hj3 c (List.mem_cons_self _ _)
      rw [hc] at this
      exact absurd this (by decide)
  · exfalso
    cases di with
    | nil => exact hi2 rfl
    | cons c rest =>
      have hc : c = '-' := by
        have := congrArg List.head? hd
        simpa using this
      have := hi3 c (List.mem_cons_self _ _)
      rw [hc] at this
      exact absurd this (by decide)
  · have : di = dj := by simpa using hd
    rw [this, hj4] at hi4
    omega

/-- C15. The aggregator keeps the order of the siblings. For a parent bound
to the identifier `P` whose children are `Text` nodes, emphases with a `Text`
first child, code spans and links, the call panics, which only happens when
a code span has a child that is not a `Text`, or it takes the fast path of a
single `Text` child, which appends nothing, or what it writes after the debug line is, block after
block, the rendering of the segments of the children from left to right
(merged runs of text and the other children): the block of the `i`-th segment
begins with the statement that creates it under the `i`-th new identifier and
ends with the statement that appends this identifier to `P`. The identifiers
of different segments are different. -/
theorem renderTextChildren_sibling_order (x : Ext) (r : Renderer) (p : Payload)
    (attrs : List Attribute) (children : List Node) (P : String)
    (hel : AttributeString attrs "el" = some (.str P))
    (hok : ∀ c ∈ children, aggChildOK c = true) :
    ((renderTextChildren x r (.mk p attrs children) true).ret = .panic ∧
        ∃ c ∈ children, spanOK c = false) ∨
      (∃ v raw soft hard a ch, children = [.mk (.Text v raw soft hard) a ch] ∧
        (renderTextChildren x r (.mk p attrs children) true).out =
          aggDbgOut r P children ++ [P ++ ".textContent=`" ++ v ++ "`;\n"]) ∨
      (∃ blocks : List (List String),
        (renderTextChildren x r (.mk p attrs children) true).out =
          aggDbgOut r P children ++ blocks.flatten ∧
        BlocksFor P r.count (groupRuns children) blocks ∧
        Function.Injective elName) := by
  by_cases hfast : ∃ v raw soft hard a ch, children = [.mk (.Text v raw soft hard) a ch]
  · right; left
    obtain ⟨v, raw, soft, hard, a, ch, rfl⟩ := hfast
    exact ⟨v, raw, soft, hard, a, ch, rfl,
      by simp [renderTextChildren, Node.attrs, Node.children, hel, aggDbgOut]⟩
  · have hgen : renderTextChildren x r (.mk p attrs children) true =
        match aggLoop x (.mk p attrs children) P ⟨r, 0, none, aggDbgOut r P children, []⟩
            children with
        | none => ⟨r, .mk p attrs children, [], .panic⟩
        | some s =>
          match s.text with
          | some _ =>
            ⟨(s.flush P).1.r, .mk p (SetAttributeString attrs "el" (s.flush P).2)
                (s.flush P).1.seen, (s.flush P).1.out, .ok .WalkSkipChildren⟩
          | none => ⟨s.r, .mk p attrs s.seen, s.out, .ok .WalkSkipChildren⟩ := by
      rcases children with _ | ⟨c, _ | ⟨d, rest⟩⟩
      · simp [renderTextChildren, Node.attrs, Node.children, Node.payload, hel, aggDbgOut]
      · obtain ⟨cp, ca, cch⟩ := c
        cases cp
        case Text value raw soft hard =>
          exact absurd ⟨value, raw, soft, hard, ca, cch, rfl⟩ hfast
        all_goals
          simp [renderTextChildren, Node.attrs, Node.children, Node.payload, hel, aggDbgOut]
      · simp [renderTextChildren, Node.attrs, Node.children, Node.payload, hel, aggDbgOut]
    rcases aggLoop_blocks x (.mk p attrs children) P hel children
        ⟨r, 0, none, aggDbgOut r P children, []⟩ hok (Or.inl ⟨rfl, rfl⟩) with
      h | ⟨s1, blocks, h1, h2, h3⟩
    · left
      refine ⟨by rw [hgen, h], ?_⟩
      by_contra hno
      push_neg at hno
      have hsome := aggLoop_isSome x (.mk p attrs children) P hel children
        ⟨r, 0, none, aggDbgOut r P children, []⟩ hok (fun c hc => by simpa using hno c hc)
      rw [h] at hsome
      simp at hsome
    · right; right
      refine ⟨blocks, ?_, h3, elName_injective⟩
      rw [hgen, h1]
      cases ht : s1.text with
      | none => simpa [ht] using h2
      | some t => simpa [ht] using h2

/-- C15, at the sample paragraph with a text, an emphasis, two adjacent
texts, a link and a code span, where the call does not panic. -/
theorem renderTextChildren_sibling_order_witness :
    AttributeString sampleMixedParagraph.attrs "el" = some (.str "el2") ∧
      (∀ c ∈ sampleMixedParagraph.children, aggChildOK c = true) ∧
      (renderTextChildren plainExt sampleRenderer sampleMixedParagraph true).ret ≠ .panic ∧
      (((renderTextChildren plainExt sampleRenderer sampleMixedParagraph true).ret = .panic ∧
          ∃ c ∈ sampleMixedParagraph.children, spanOK c = false) ∨
        (∃ v raw soft hard a ch,
          sampleMixedParagraph.children = [.mk (.Text v raw soft hard) a ch] ∧
          (renderTextChildren plainExt sampleRenderer sampleMixedParagraph true).out =
            aggDbgOut sampleRenderer "el2" sampleMixedParagraph.children ++
              ["el2" ++ ".textContent=`" ++ v ++ "`;\n"]) ∨
        (∃ blocks : List (List String),
          (renderTextChildren plainExt sampleRenderer sampleMixedParagraph true).out =
            aggDbgOut sampleRenderer "el2" sampleMixedParagraph.children ++ blocks.flatten ∧
          BlocksFor "el2" sampleRenderer.count (groupRuns sampleMixedParagraph.children)
            blocks ∧
          Function.Injective elName)) :=
  ⟨by decide, by decide, by decide,
    renderTextChildren_sibling_order plainExt sampleRenderer .Paragraph
      [⟨"el", .str "el2"⟩] sampleMixedParagraph.children "el2" (by decide) (by decide)⟩

/-- The output of the aggregator on the sample paragraph: the two adjacent
`Text` nodes are one text node, and the appends to `el2` follow the order of
the children. -/
theorem renderTextChildren_mixed_example :
    (renderTextChildren plainExt sampleRenderer sampleMixedParagraph true).out =
      ["const el3=document.createTextNode(`a `);\n", "el2.appendChild(el3);\n",
        "let el4=document.createElement('em');\n", "el4.textContent=`b`;\n",
        "el2.appendChild(el4);\n",
        "const el5=document.createTextNode(` cd `);\n", "el2.appendChild(el5);\n",
        "let el6=document.createElement(\"a\");\n", "el6.href='https://x';\n",
        "Object.assign(el6.style, mdStyle.a);\n", "el6.textContent=`here`;\n",
        "el2.appendChild(el6);\n",
        "let el7=document.createElement(\"code\");\n",
        "const el7Span1=document.createTextNode('x');\n", "el7.appendChild(el7Span1);\n",
        "el2.appendChild(el7);\n"] := by
  decide

/-! ### Paragraphs of plain text -/

/-- The aggregator on two or more children that are all `Text` nodes: one
text node with the values one after the other is created under the next
identifier and appended to the parent, and the `el` of the parent is set to
this identifier. -/
theorem renderTextChildren_texts (x : Ext) (r : Renderer) (p : Payload)
    (attrs : List Attribute) (c d : Node) (rest : List Node) (P : String)
    (hel : AttributeString attrs "el" = some (.str P))
    (hall : ∀ n ∈ c :: d :: rest, n.isText = true) :
    renderTextChildren x r (.mk p attrs (c :: d :: rest)) true =
      ⟨{ r with count := r.count + 1 },
        .mk p (SetAttributeString attrs "el" (elName (r.count + 1))) (c :: d :: rest),
        aggDbgOut r P (c :: d :: rest) ++
          [segCreate (elName (r.count + 1)) (.text (runText (c :: d :: rest))),
            appendStmt P (elName (r.count + 1))],
        .ok .WalkSkipChildren⟩ := by
  simp only [renderTextChildren, Node.attrs, Node.children, Node.payload, hel, aggDbgOut]
  rw [aggLoop_texts_idle x _ P c (d :: rest) _ hall rfl]
  simp [Agg.flush, segCreate, appendStmt]

/-! ### Text-node creations among the statements -/

theorem head_of_IsTextNodeCreation (s : String) (h : IsTextNodeCreation s) :
    s.data.head? = some 'c' := by
  obtain ⟨k, body, rfl⟩ := h
  simp [String.data_append]

/-- An identifier of the counter ends with a digit. -/
theorem elName_reverse (k : Int) :
    ∃ c rest, (elName k).data.reverse = c :: rest ∧ c.isDigit = true := by
  obtain ⟨ds, h1, h2, h3, _⟩ := fmtD_decimal k
  rw [elName_data, h1]
  cases hr : ds.reverse with
  | nil => exact absurd (List.reverse_eq_nil_iff.mp hr) h2
  | cons c rest =>
    have hc : c ∈ ds := by
      have : c ∈ ds.reverse := by rw [hr]; exact List.mem_cons_self _ _
      exact List.mem_reverse.mp this
    refine ⟨c, rest ++ (if k < 0 then ['-'] else []).reverse ++ ['l', 'e'], ?_, h3 c hc⟩
    simp [List.reverse_append, hr]

/-- A statement that appends an identifier of the counter creates no text
node, whatever the parent is called. -/
theorem not_creation_appendStmt (P : String) (k : Int) :
    ¬ IsTextNodeCreation (appendStmt P (elName k)) := by
  rintro ⟨j, body, h⟩
  obtain ⟨c, rest, hr, hd⟩ := elName_reverse k
  have h1 := congrArg (fun s : String => s.data.reverse) h
  simp only [appendStmt, String.data_append, List.reverse_append, hr] at h1
  simp at h1
  rw [h1.1] at hd
  exact absurd hd (by decide)

theorem not_creation_of_head (s : String) (c : Char) (hc : c ≠ 'c')
    (h : s.data.head? = some c) : ¬ IsTextNodeCreation s := by
  intro hs
  rw [head_of_IsTextNodeCreation s hs] at h
  exact hc (Option.some.inj h).symm

/-- An attribute statement on an identifier of the counter creates no text
node. -/
theorem not_creation_attr (attrs : List Attribute) (filter : Option BytesFilter) (k : Int)
    (s : String) (h : s ∈ RenderElAttributes attrs filter (elName k)) :
    ¬ IsTextNodeCreation s := by
  obtain ⟨a, _, _, rfl⟩ := (mem_RenderElAttributes attrs filter (elName k) s).mp h
  refine not_creation_of_head _ 'e' (by decide) ?_
  simp [attrStmt, String.data_append, elName_data]

/-- C13, counterexample. A paragraph with one plain `Text` child takes the
fast path: the text is assigned to the text content of the paragraph and no
statement creates a text node. -/
theorem renderParagraph_single_text_no_creation :
    (renderParagraph plainExt sampleRenderer (some sampleDocument)
        (.mk .Paragraph [] [.mk (.Text "item" false false false) [] []]) true).out =
      ["let el3=document.createElement('p');\n", "Object.assign(el3.style, mdStyle.p);\n",
        "el3.textContent=`item`;\n", "mdDiv.appendChild(el3);\n"] ∧
    ∀ s ∈ (renderParagraph plainExt sampleRenderer (some sampleDocument)
        (.mk .Paragraph [] [.mk (.Text "item" false false false) [] []]) true).out,
      ¬ IsTextNodeCreation s := by
  have hout : (renderParagraph plainExt sampleRenderer (some sampleDocument)
        (.mk .Paragraph [] [.mk (.Text "item" false false false) [] []]) true).out =
      ["let el3=document.createElement('p');\n", "Object.assign(el3.style, mdStyle.p);\n",
        "el3.textContent=`item`;\n", "mdDiv.appendChild(el3);\n"] := by decide
  refine ⟨hout, ?_⟩
  rw [hout]
  intro s hs
  simp only [List.mem_cons, List.mem_singleton, List.not_mem_nil, or_false] at hs
  rcases hs with rfl | rfl | rfl | rfl
  · exact not_creation_of_head _ 'l' (by decide) rfl
  · exact not_creation_of_head _ 'O' (by decide) rfl
  · exact not_creation_of_head _ 'e' (by decide) rfl
  · exact not_creation_of_head _ 'm' (by decide) rfl

/-- C13, amended. For a paragraph under a parent bound to `P` whose children
are all plain `Text` nodes: with two or more children the output holds
exactly one statement that creates a text node, whose content is the values
of the children one after the other, whatever their number; with one child
the paragraph takes the fast path, its text content is assigned and no
statement creates a text node. -/
theorem renderParagraph_texts (x : Ext) (r : Renderer) (pnode : Node) (P : String)
    (attrs : List Attribute) (children : List Node)
    (hpar : AttributeString pnode.attrs "el" = some (.str P))
    (hall : ∀ c ∈ children, c.isText = true) :
    (2 ≤ children.length →
      ∃ before after,
        (renderParagraph x r (some pnode) (.mk .Paragraph attrs children) true).out =
          before ++
            ("const " ++ elName (r.count + 1 + 1) ++ "=document.createTextNode(`" ++
              runText children ++ "`);\n") :: after ∧
        (∀ s ∈ before, ¬ IsTextNodeCreation s) ∧ (∀ s ∈ after, ¬ IsTextNodeCreation s)) ∧
    (children.length = 1 →
      (elName (r.count + 1) ++ ".textContent=`" ++ runText children ++ "`;\n") ∈
          (renderParagraph x r (some pnode) (.mk .Paragraph attrs children) true).out ∧
        ∀ s ∈ (renderParagraph x r (some pnode) (.mk .Paragraph attrs children) true).out,
          ¬ IsTextNodeCreation s) := by
  have hel : AttributeString (SetAttributeString attrs "el" (elName (r.count + 1))) "el" =
      some (.str (elName (r.count + 1))) := AttributeString_SetAttribute _ _ _
  obtain ⟨pp, pa, pch⟩ := pnode
  simp only [Node.attrs] at hpar
  constructor
  · intro hlen
    rcases children with _ | ⟨c, _ | ⟨d, rest⟩⟩
    · simp at hlen
    · simp at hlen
    · refine ⟨["let " ++ elName (r.count + 1) ++ "=document.createElement('p');\n",
          "Object.assign(" ++ elName (r.count + 1) ++ ".style, mdStyle.p);\n"] ++
          RenderElAttributes (SetAttributeString attrs "el" (elName (r.count + 1)))
            (some ParagraphAttributeFilter) (elName (r.count + 1)) ++
          aggDbgOut { r with count := r.count + 1 } (elName (r.count + 1)) (c :: d :: rest),
        [appendStmt (elName (r.count + 1)) (elName (r.count + 1 + 1))] ++
          (if r.dbg then
            ["// dbg -- par el: " ++ elName (r.count + 1) ++ " kind: " ++
              Payload.kindName .Paragraph ++ " parent:" ++ P ++ " kind:" ++
              Payload.kindName pp ++ "\n"] else []) ++
          [appendStmt P (elName (r.count + 1))], ?_, ?_, ?_⟩
      · simp only [renderParagraph, Node.setAttrs, Node.attrs, Node.payload, if_true]
        rw [renderTextChildren_texts x _ .Paragraph _ c d rest _ hel hall]
        simp [attachNow, hpar, segCreate, Node.attrs, Node.payload]
      · intro s hs
        simp only [List.mem_append, List.mem_cons, List.mem_singleton, List.not_mem_nil,
          or_false] at hs
        rcases hs with ((rfl | rfl) | hs) | hs
        · exact not_creation_of_head _ 'l' (by decide) (by simp [String.data_append])
        · exact not_creation_of_head _ 'O' (by decide) (by simp [String.data_append])
        · exact not_creation_attr _ _ _ s hs
        · simp only [aggDbgOut] at hs
          split_ifs at hs
          · rw [List.mem_singleton.mp hs]
            exact not_creation_of_head _ '/' (by decide) (by simp [String.data_append])
          · simp at hs
      · intro s hs
        simp only [List.mem_append, List.mem_cons, List.mem_singleton, List.not_mem_nil,
          or_false] at hs
        rcases hs with (rfl | hs) | rfl
        · exact not_creation_appendStmt _ _
        · split_ifs at hs
          · rw [List.mem_singleton.mp hs]
            exact not_creation_of_head _ '/' (by decide) (by simp [String.data_append])
          · simp at hs
        · exact not_creation_appendStmt _ _
  · intro hlen
    rcases children with _ | ⟨c, _ | ⟨d, rest⟩⟩
    · simp at hlen
    · obtain ⟨cp, ca, cch⟩ := c
      have hc := hall _ (List.mem_singleton_self _)
      cases cp <;> simp [Node.isText] at hc
      rename_i value raw soft hard
      have hout : (renderParagraph x r (some (.mk pp pa pch))
          (.mk .Paragraph attrs [.mk (.Text value raw soft hard) ca cch]) true).out =
          ["let " ++ elName (r.count + 1) ++ "=document.createElement('p');\n",
            "Object.assign(" ++ elName (r.count + 1) ++ ".style, mdStyle.p);\n"] ++
          RenderElAttributes (SetAttributeString attrs "el" (elName (r.count + 1)))
            (some ParagraphAttributeFilter) (elName (r.count + 1)) ++
          aggDbgOut { r with count := r.count + 1 } (elName (r.count + 1))
            [.mk (.Text value raw soft hard) ca cch] ++
          [elName (r.count + 1) ++ ".textContent=`" ++ value ++ "`;\n"] ++
          (if r.dbg then
            ["// dbg -- par el: " ++ elName (r.count + 1) ++ " kind: " ++
              Payload.kindName .Paragraph ++ " parent:" ++ P ++ " kind:" ++
              Payload.kindName pp ++ "\n"] else []) ++
          [appendStmt P (elName (r.count + 1))] := by
        simp [renderParagraph, renderTextChildren, Node.setAttrs, Node.attrs, Node.payload,
          Node.children, hel, attachNow, hpar, aggDbgOut]
      rw [hout]
      clear hout
      refine ⟨by simp [runText, textOf], ?_⟩
      intro s hs
      simp only [List.mem_append, List.mem_cons, List.mem_singleton, List.not_mem_nil,
        or_false] at hs
      rcases hs with (((((rfl | rfl) | hs) | hs) | rfl) | hs) | rfl
      · exact not_creation_of_head _ 'l' (by decide) (by simp [String.data_append])
      · exact not_creation_of_head _ 'O' (by decide) (by simp [String.data_append])
      · exact not_creation_attr _ _ _ s hs
      · simp only [aggDbgOut] at hs
        split_ifs at hs
        · rw [List.mem_singleton.mp hs]
          exact not_creation_of_head _ '/' (by decide) (by simp [String.data_append])
        · simp at hs
      · exact not_creation_of_head _ 'e' (by decide) (by simp [String.data_append, elName_data])
      · split_ifs at hs
        · rw [List.mem_singleton.mp hs]
          exact not_creation_of_head _ '/' (by decide) (by simp [String.data_append])
        · simp at hs
      · exact not_creation_appendStmt _ _
    · simp at hlen

/-- C13 amended, at a paragraph under the document root whose children are
the three `Text` nodes `a`, `b`, `c`. -/
theorem renderParagraph_texts_witness :
    AttributeString sampleDocument.attrs "el" = some (.str "mdDiv") ∧
      (∀ c ∈ sampleTexts, c.isText = true) ∧ 2 ≤ sampleTexts.length ∧
      ∃ before after,
        (renderParagraph plainExt sampleRenderer (some sampleDocument)
            (.mk .Paragraph [] sampleTexts) true).out =
          before ++
            ("const " ++ elName (sampleRenderer.count + 1 + 1) ++ "=document.createTextNode(`" ++
              runText sampleTexts ++ "`);\n") :: after ∧
        (∀ s ∈ before, ¬ IsTextNodeCreation s) ∧ (∀ s ∈ after, ¬ IsTextNodeCreation s) :=
  ⟨by decide, by decide, by decide,
    (renderParagraph_texts plainExt sampleRenderer sampleDocument "mdDiv" [] sampleTexts
      (by decide) (by decide)).1 (by decide)⟩

/-- The output for the paragraph of three `Text` nodes. -/
theorem renderParagraph_texts_example :
    (renderParagraph plainExt sampleRenderer (some sampleDocument)
        (.mk .Paragraph [] sampleTexts) true).out =
      ["let el3=document.createElement('p');\n", "Object.assign(el3.style, mdStyle.p);\n",
        "const el4=document.createTextNode(`abc`);\n", "el3.appendChild(el4);\n",
        "mdDiv.appendChild(el3);\n"] := by
  decide

/-! ### The scenarios of the specification -/

/-- C16. Scenarios B and C. For a paragraph with the children `Text a`, a
link to `dest` and `Text b` under a parent bound to `P`, rendered with
`Unsafe` off, the output is, after the creation of the paragraph: a text node
created with the content `a` and appended to the paragraph, the link element
created and appended to the paragraph, and a text node created with the
content `b` and appended to the paragraph, in this order; then the paragraph
is appended to `P`. The statements of the link hold the `.href` assignment
when `dest` is not dangerous and do not hold it when it is, and nothing else
in the output depends on it. `javascript:alert(1)` is dangerous and
`https://x` is not. -/
theorem renderParagraph_text_link_text (x : Ext) (r : Renderer) (pnode : Node) (P : String)
    (attrs ta la tb : List Attribute) (tch lch tbch : List Node) (a b : String)
    (raw soft hard raw2 soft2 hard2 : Bool) (dest : Bytes) (title : Option String)
    (hpar : AttributeString pnode.attrs "el" = some (.str P)) (hU : r.Unsafe = false) :
    (renderParagraph x r (some pnode)
        (.mk .Paragraph attrs
          [.mk (.Text a raw soft hard) ta tch, .mk (.Link dest title) la lch,
            .mk (.Text b raw2 soft2 hard2) tb tbch]) true).out =
      ["let " ++ elName (r.count + 1) ++ "=document.createElement('p');\n",
        "Object.assign(" ++ elName (r.count + 1) ++ ".style, mdStyle.p);\n"] ++
      RenderElAttributes (SetAttributeString attrs "el" (elName (r.count + 1)))
        (some ParagraphAttributeFilter) (elName (r.count + 1)) ++
      (if r.dbg then
        ["// dbg -- pelNam: " ++ elName (r.count + 1) ++ " children: " ++ fmtD 3 ++ "\n"]
        else []) ++
      ["const " ++ elName (r.count + 2) ++ "=document.createTextNode(`" ++ a ++ "`);\n",
        elName (r.count + 1) ++ ".appendChild(" ++ elName (r.count + 2) ++ ");\n",
        "let " ++ elName (r.count + 3) ++ "=document.createElement(\"a\");\n"] ++
      (if IsDangerousURL x.caseTable dest then []
        else [elName (r.count + 3) ++ ".href='" ++ x.escapeURL dest true ++ "';\n"]) ++
      (match title with
        | some t => [elName (r.count + 3) ++ ".title='" ++ t ++ "';\n"]
        | none => []) ++
      RenderElAttributes (SetAttributeString la "el" (elName (r.count + 3)))
        (some LinkAttributeFilter) (elName (r.count + 3)) ++
      ["Object.assign(" ++ elName (r.count + 3) ++ ".style, mdStyle.a);\n"] ++
      (match lch with
        | .mk (.Text value _ _ _) _ _ :: _ =>
          [elName (r.count + 3) ++ ".textContent=`" ++ value ++ "`;\n"]
        | _ => []) ++
      (if r.dbg then
        [dbgLine (elName (r.count + 3)) (elName (r.count + 1)) (Payload.kindName .Paragraph)]
        else []) ++
      [elName (r.count + 1) ++ ".appendChild(" ++ elName (r.count + 3) ++ ");\n",
        "const " ++ elName (r.count + 4) ++ "=document.createTextNode(`" ++ b ++ "`);\n",
        elName (r.count + 1) ++ ".appendChild(" ++ elName (r.count + 4) ++ ");\n"] ++
      (if r.dbg then
        ["// dbg -- par el: " ++ elName (r.count + 1) ++ " kind: " ++
          Payload.kindName .Paragraph ++ " parent:" ++ P ++ " kind:" ++
          pnode.payload.kindName ++ "\n"] else []) ++
      [P ++ ".appendChild(" ++ elName (r.count + 1) ++ ");\n"] ∧
    IsDangerousURL x.caseTable (lit "javascript:alert(1)") = true ∧
    IsDangerousURL x.caseTable (lit "https://x") = false := by
  have hel : AttributeString (SetAttributeString attrs "el" (elName (r.count + 1))) "el" =
      some (.str (elName (r.count + 1))) := AttributeString_SetAttribute _ _ _
  obtain ⟨pp, pa, pch⟩ := pnode
  simp only [Node.attrs] at hpar
  refine ⟨?_, rfl, rfl⟩
  have e2 : r.count + 1 + 1 = r.count + 2 := by ring
  have e3 : r.count + 2 + 1 = r.count + 3 := by ring
  have e4 : r.count + 3 + 1 = r.count + 4 := by ring
  cases hd : IsDangerousURL x.caseTable dest <;> simp [renderParagraph, renderTextChildren, aggLoop, aggStep, Agg.flushIfText, Agg.flush,
    Agg.afterCall, renderLink, attachNow, Node.setAttrs, Node.attrs, Node.payload,
    Node.children, hel, hpar, hU, appendStmt, e2, e3, e4, hd]

/-- C16, at scenario B under the document root: the output for the paragraph
`see `, link to `javascript:alert(1)`, ` here` with `Unsafe` off. -/
theorem renderParagraph_text_link_text_witness :
    AttributeString sampleDocument.attrs "el" = some (.str "mdDiv") ∧
      sampleRenderer.Unsafe = false ∧
      (renderParagraph plainExt sampleRenderer (some sampleDocument) sampleScenarioB true).out =
        ["let el3=document.createElement('p');\n", "Object.assign(el3.style, mdStyle.p);\n",
          "const el4=document.createTextNode(`see `);\n", "el3.appendChild(el4);\n",
          "let el5=document.createElement(\"a\");\n", "Object.assign(el5.style, mdStyle.a);\n",
          "el3.appendChild(el5);\n",
          "const el6=document.createTextNode(` here`);\n", "el3.appendChild(el6);\n",
          "mdDiv.appendChild(el3);\n"] :=
  ⟨by decide, by decide,
    (renderParagraph_text_link_text plainExt sampleRenderer sampleDocument "mdDiv" [] [] [] []
      [] [] [] "see " " here" false false false false false false (lit "javascript:alert(1)")
      none (by decide) (by decide)).1.trans (by decide)⟩

/-- The output for scenario C: the output of scenario B with the `.href`
assignment after the creation of the link. -/
theorem renderParagraph_scenario_C_example :
    (renderParagraph plainExt sampleRenderer (some sampleDocument) sampleScenarioC true).out =
      ["let el3=document.createElement('p');\n", "Object.assign(el3.style, mdStyle.p);\n",
        "const el4=document.createTextNode(`see `);\n", "el3.appendChild(el4);\n",
        "let el5=document.createElement(\"a\");\n", "el5.href='https://x';\n",
        "Object.assign(el5.style, mdStyle.a);\n", "el3.appendChild(el5);\n",
        "const el6=document.createTextNode(` here`);\n", "el3.appendChild(el6);\n",
        "mdDiv.appendChild(el3);\n"] := by
  decide

/-- C17, counterexample. A level 2 heading with the single `Text` child
`Title` under the document root does not take the fast path: the heading is
not rendered through the aggregator, its `Text` child is rendered by
`renderText`, which creates a text node and appends it to the heading. The
output has no text-content assignment, one `createTextNode` statement and two
`appendChild` statements. -/
theorem heading_single_text_no_fast_path :
    (walkHelper plainExt sampleRenderer (some sampleDocument) none
        (.mk (.Heading 2) [] [.mk (.Text "Title" false false false) [] []])).out =
      ["let el3= document.createElement('h2');\n", "Object.assign(el3.style, mdStyle.h2);\n",
        "const el4Txt= `Title`;\n", "const el4=document.createTextNode(el4Txt);\n",
        "el3.appendChild(el4);\n", "mdDiv.appendChild(el3);\n"] := by
  decide

/-- C17, amended. For a heading of level `Level` with a single `Text` child
under a parent bound to `P`, the walk ends without error and writes: the
`createElement` statement of the `h<Level>` element and its style statement,
the attribute statements of the heading, then for the `Text` child a constant
with its text and a `createTextNode` statement under the next identifier,
the statement appending the text node to the heading, and the statement
appending the heading to `P`. There is no text-content assignment. -/
theorem walkHelper_heading_text (x : Ext) (r : Renderer) (pnode : Node) (next : Option Node)
    (P : String) (Level : Int) (attrs ta : List Attribute) (v : String) (raw soft hard : Bool)
    (hpar : AttributeString pnode.attrs "el" = some (.str P)) :
    (walkHelper x r (some pnode) next
        (.mk (.Heading Level) attrs [.mk (.Text v raw soft hard) ta []])).ret = .ok ∧
    (walkHelper x r (some pnode) next
        (.mk (.Heading Level) attrs [.mk (.Text v raw soft hard) ta []])).out =
      ["let " ++ elName (r.count + 1) ++ "= document.createElement('" ++ ("h" ++ fmtD Level) ++
          "');\n",
        "Object.assign(" ++ elName (r.count + 1) ++ ".style, mdStyle." ++ ("h" ++ fmtD Level) ++
          ");\n"] ++
      RenderElAttributes (SetAttributeString attrs "el" (elName (r.count + 1)))
        (some HeadingAttributeFilter) (elName (r.count + 1)) ++
      ["const " ++ (elName (r.count + 2) ++ "Txt") ++ "= `" ++
          textValue x r none v raw soft hard ++ "`;\n",
        "const " ++ elName (r.count + 2) ++ "=document.createTextNode(" ++
          (elName (r.count + 2) ++ "Txt") ++ ");\n"] ++
      (if r.dbg then
        [dbgLine (elName (r.count + 2)) (elName (r.count + 1)) ("Heading")] else []) ++
      [elName (r.count + 1) ++ ".appendChild(" ++ elName (r.count + 2) ++ ");\n"] ++
      (if r.dbg then [dbgLine (elName (r.count + 1)) P pnode.payload.kindName] else []) ++
      [P ++ ".appendChild(" ++ elName (r.count + 1) ++ ");\n"] := by
  have hel : AttributeString (SetAttributeString attrs "el" (elName (r.count + 1))) "el" =
      some (.str (elName (r.count + 1))) := AttributeString_SetAttribute _ _ _
  have hel2 : AttributeString (SetAttributeString ta "el" (elName (r.count + 2))) "el" =
      some (.str (elName (r.count + 2))) := AttributeString_SetAttribute _ _ _
  obtain ⟨pp, pa, pch⟩ := pnode
  simp only [Node.attrs] at hpar
  have e2 : r.count + 1 + 1 = r.count + 2 := by ring
  constructor <;>
  simp [walkHelper, walkChildren, walkExit, dispatch, renderHeading, renderText, exitAttach,
    Node.payload, Node.attrs, Node.setAttrs, Node.children, hel, hel2, hpar, e2, appendStmt,
    textValue, Payload.kindName]

/-- C17 amended, at the heading `Title` of level 2 under the document
root. -/
theorem walkHelper_heading_text_witness :
    AttributeString sampleDocument.attrs "el" = some (.str "mdDiv") ∧
      (walkHelper plainExt sampleRenderer (some sampleDocument) none sampleHeading).ret = .ok ∧
      (walkHelper plainExt sampleRenderer (some sampleDocument) none sampleHeading).out =
        ["let el3= document.createElement('h2');\n", "Object.assign(el3.style, mdStyle.h2);\n",
          "const el4Txt= `Title`;\n", "const el4=document.createTextNode(el4Txt);\n",
          "el3.appendChild(el4);\n", "mdDiv.appendChild(el3);\n"] :=
  ⟨by decide,
    (walkHelper_heading_text plainExt sampleRenderer sampleDocument none "mdDiv" 2 [] []
      "Title" false false false (by decide)).1,
    (walkHelper_heading_text plainExt sampleRenderer sampleDocument none "mdDiv" 2 [] []
      "Title" false false false (by decide)).2.trans (by decide)⟩

/-- The walk over a list with one item whose only child is a text block
with a single `Text` child, under a parent bound to `P`: it ends without
error, and its writes are given in order, the attribute statements of the
list and of the item as `RenderElAttributes` writes them. -/
theorem walkHelper_list_item_text_out (x : Ext) (r : Renderer) (pnode : Node)
    (next : Option Node) (P : String) (Marker : Nat) (Start : Int)
    (la ia ba ta : List Attribute) (tch : List Node) (v : String) (raw soft hard : Bool)
    (hpar : AttributeString pnode.attrs "el" = some (.str P)) :
    (walkHelper x r (some pnode) next
        (.mk (.ListNode Marker Start) la
          [.mk .ListItem ia [.mk .TextBlock ba [.mk (.Text v raw soft hard) ta tch]]])).ret =
      .ok ∧
    (walkHelper x r (some pnode) next
        (.mk (.ListNode Marker Start) la
          [.mk .ListItem ia [.mk .TextBlock ba [.mk (.Text v raw soft hard) ta tch]]])).out =
      ["let " ++ elName (r.count + 1) ++ "= document.createElement('" ++
          (if IsOrdered Marker then "ol" else "ul") ++ "');\n"] ++
      (if IsOrdered Marker && decide (Start ≠ 1) then
        [elName (r.count + 1) ++ (".start='" ++ fmtD Start ++ "';\n")] else []) ++
      RenderElAttributes (SetAttributeString la "el" (elName (r.count + 1)))
        (some ListAttributeFilter) (elName (r.count + 1)) ++
      [if IsOrdered Marker then "Object.assign(" ++ elName (r.count + 1) ++ ".style, mdStyle.ol);\n"
        else "Object.assign(" ++ elName (r.count + 1) ++ ".style, mdStyle.ul);\n",
        "let " ++ elName (r.count + 2) ++ "= document.createElement('li');\n",
        "Object.assign(" ++ elName (r.count + 2) ++ ".style, mdStyle.li);\n"] ++
      RenderElAttributes (SetAttributeString ia "el" (elName (r.count + 2)))
        (some ListItemAttributeFilter) (elName (r.count + 2)) ++
      (if r.dbg then
        ["// dbg -- pelNam: " ++ elName (r.count + 2) ++ " children: " ++ fmtD 1 ++ "\n"]
        else []) ++
      [elName (r.count + 2) ++ ".textContent=`" ++ v ++ "`;\n"] ++
      (if r.dbg then [dbgLine (elName (r.count + 2)) (elName (r.count + 1)) "List"] else []) ++
      [elName (r.count + 1) ++ ".appendChild(" ++ elName (r.count + 2) ++ ");\n"] ++
      (if r.dbg then [dbgLine (elName (r.count + 1)) P pnode.payload.kindName] else []) ++
      [P ++ ".appendChild(" ++ elName (r.count + 1) ++ ");\n"] := by
  have hel : AttributeString (SetAttributeString la "el" (elName (r.count + 1))) "el" =
      some (.str (elName (r.count + 1))) := AttributeString_SetAttribute _ _ _
  have hel2 : AttributeString (SetAttributeString ia "el" (elName (r.count + 2))) "el" =
      some (.str (elName (r.count + 2))) := AttributeString_SetAttribute _ _ _
  have hel3 : AttributeString (SetAttribute ba "el" (.str (elName (r.count + 2)))) "el" =
      some (.str (elName (r.count + 2))) := AttributeString_SetAttribute _ _ _
  obtain ⟨pp, pa, pch⟩ := pnode
  simp only [Node.attrs] at hpar
  have e2 : r.count + 1 + 1 = r.count + 2 := by ring
  constructor <;>
  simp [walkHelper, walkChildren, walkExit, dispatch, renderList, renderListItem,
    renderTextBlock, renderTextChildren, exitAttach, Node.payload, Node.attrs, Node.setAttrs,
    Node.children, hel, hel2, hel3, hpar, e2, appendStmt, Payload.kindName]

/-- The output for the ordered list that starts at 1 and for the unordered
list: no `.start` assignment. -/
theorem walkHelper_list_without_start_example :
    (walkHelper plainExt sampleRenderer (some sampleDocument) none (sampleList 46 1)).out =
        ["let el3= document.createElement('ol');\n", "Object.assign(el3.style, mdStyle.ol);\n",
          "let el4= document.createElement('li');\n", "Object.assign(el4.style, mdStyle.li);\n",
          "el4.textContent=`item`;\n", "el3.appendChild(el4);\n", "mdDiv.appendChild(el3);\n"] ∧
      (walkHelper plainExt sampleRenderer (some sampleDocument) none (sampleList 45 5)).out =
        ["let el3= document.createElement('ul');\n", "Object.assign(el3.style, mdStyle.ul);\n",
          "let el4= document.createElement('li');\n", "Object.assign(el4.style, mdStyle.li);\n",
          "el4.textContent=`item`;\n", "el3.appendChild(el4);\n", "mdDiv.appendChild(el3);\n"] := by
  decide

/-! ### The counter and the identifiers declared -/

/-! ### Creation statements -/

theorem isCounterChar_fmtD (k : Int) : ∀ c ∈ (fmtD k).data, isCounterChar c = true := by
  obtain ⟨ds, h1, _, h3, _⟩ := fmtD_decimal k
  intro c hc
  rw [h1] at hc
  rcases List.mem_append.mp hc with hc | hc
  · split_ifs at hc
    · rw [List.mem_singleton.mp hc]; decide
    · simp at hc
  · simp [isCounterChar, h3 c hc]

theorem fmtD_data_ne_nil (k : Int) : (fmtD k).data ≠ [] := by
  obtain ⟨ds, h1, h2, _, _⟩ := fmtD_decimal k
  rw [h1]
  simp [h2]

/-- After an identifier of the counter, a text that does not go on with a
digit or a minus sign decides whether the whole is a creation statement. -/
theorem declaredAfterKw_elName (k : Int) (t : List Char)
    (ht : ∀ c ∈ t.head?, isCounterChar c = false) :
    declaredAfterKw ((elName k).data ++ t) =
      if isCreateTail t then some (elName k) else none := by
  have htw : ∀ l : List Char, (∀ c ∈ l, isCounterChar c = true) →
      List.takeWhile isCounterChar (l ++ t) = l ∧
      List.dropWhile isCounterChar (l ++ t) = t := by
    intro l
    induction l with
    | nil =>
      intro _
      cases t with
      | nil => simp
      | cons c t' =>
        have := ht c (by simp)
        simp [List.takeWhile, List.dropWhile, this]
    | cons a l ih =>
      intro hl
      have ha := hl a (List.mem_cons_self _ _)
      have := ih (fun c hc => hl c (List.mem_cons_of_mem _ hc))
      simp [List.takeWhile, List.dropWhile, ha, this]
  obtain ⟨h1, h2⟩ := htw (fmtD k).data (isCounterChar_fmtD k)
  rw [elName_data]
  simp only [List.cons_append, declaredAfterKw, h1, h2]
  have hne : (fmtD k).data.isEmpty = false := by
    cases h : (fmtD k).data with
    | nil => exact absurd h (fmtD_data_ne_nil k)
    | cons _ _ => rfl
  simp only [hne, Bool.not_false, Bool.true_and]
  have he : (⟨'e' :: 'l' :: (fmtD k).data⟩ : String) = elName k := rfl
  rw [he]

theorem declaredId_let (k : Int) (t : String)
    (ht : ∀ c ∈ t.data.head?, isCounterChar c = false) :
    declaredId ("let " ++ (elName k ++ t)) =
      if isCreateTail t.data then some (elName k) else none := by
  have := declaredAfterKw_elName k t.data ht
  simpa [declaredId, String.data_append] using this

theorem declaredId_const (k : Int) (t : String)
    (ht : ∀ c ∈ t.data.head?, isCounterChar c = false) :
    declaredId ("const " ++ (elName k ++ t)) =
      if isCreateTail t.data then some (elName k) else none := by
  have := declaredAfterKw_elName k t.data ht
  simpa [declaredId, String.data_append] using this

theorem declaredId_elName (k : Int) (t : String) : declaredId (elName k ++ t) = none := by
  simp [declaredId, String.data_append, elName_data]

theorem declaredId_goodName (P t : String) (hP : GoodName P) : declaredId (P ++ t) = none := by
  rcases hP with rfl | ⟨k, rfl⟩
  · simp [declaredId, String.data_append]
  · exact declaredId_elName k t

theorem declared_append (a b : List String) : declared (a ++ b) = declared a ++ declared b := by
  simp [declared, List.filterMap_append]

theorem declared_cons (s : String) (b : List String) :
    declared (s :: b) = (declaredId s).toList ++ declared b := by
  cases h : declaredId s <;> simp [declared, List.filterMap_cons, h]

theorem declared_nil : declared [] = [] := rfl

theorem declared_RenderElAttributes (attrs : List Attribute) (filter : Option BytesFilter)
    (k : Int) : declared (RenderElAttributes attrs filter (elName k)) = [] := by
  rw [declared, List.filterMap_eq_nil_iff]
  intro s hs
  obtain ⟨a, _, _, rfl⟩ := (mem_RenderElAttributes attrs filter (elName k) s).mp hs
  simp only [attrStmt, String.append_assoc]
  exact declaredId_elName k _

theorem idsFrom_zero (a : Int) : idsFrom a 0 = [] := rfl

theorem idsFrom_succ (a : Int) (n : Nat) :
    idsFrom a (n + 1) = elName (a + 1) :: idsFrom (a + 1) n := by
  simp only [idsFrom, List.range_succ_eq_map, List.map_cons, List.map_map]
  refine congrArg₂ List.cons (by simp) ?_
  apply List.map_congr_left
  intro i _
  simp only [Function.comp, Int.ofNat_eq_coe, Nat.cast_succ]
  congr 1
  ring

theorem idsFrom_add (a : Int) (n m : Nat) :
    idsFrom a (n + m) = idsFrom a n ++ idsFrom (a + n) m := by
  induction n generalizing a with
  | zero => simp [idsFrom_zero]
  | succ n ih =>
    rw [Nat.add_right_comm, idsFrom_succ, idsFrom_succ, ih]
    simp only [List.cons_append, Nat.cast_succ]
    congr 3
    ring

theorem Counted_refl (r : Renderer) : Counted r [] r := by
  simp [Counted, declared_nil, idsFrom_zero]

theorem Counted_of_eq (r r1 : Renderer) (out : List String) (n : Nat)
    (h1 : r1.count = r.count + n) (hU : r1.Unsafe = r.Unsafe)
    (h2 : declared out = idsFrom r.count n) : Counted r out r1 := by
  refine ⟨by omega, ?_, hU⟩
  rw [h2, h1]
  congr 1
  omega

theorem Counted_trans (r r1 r2 : Renderer) (o1 o2 : List String)
    (h1 : Counted r o1 r1) (h2 : Counted r1 o2 r2) : Counted r (o1 ++ o2) r2 := by
  obtain ⟨a1, b1, c1⟩ := h1
  obtain ⟨a2, b2, c2⟩ := h2
  refine ⟨le_trans a1 a2, ?_, c2.trans c1⟩
  rw [declared_append, b1, b2]
  have e : (r2.count - r.count).toNat =
      (r1.count - r.count).toNat + (r2.count - r1.count).toNat := by
    omega
  rw [e, idsFrom_add]
  congr 2
  omega

theorem Counted_same (r r1 : Renderer) (out : List String) (h1 : r1.count = r.count)
    (hU : r1.Unsafe = r.Unsafe) (h2 : declared out = []) : Counted r out r1 :=
  Counted_of_eq r r1 out 0 (by simp [h1]) hU (by simp [h2, idsFrom_zero])

theorem isCounterChar_eqSign : isCounterChar '=' = false := by decide
theorem isCounterChar_T : isCounterChar 'T' = false := by decide
theorem isCounterChar_t : isCounterChar 't' = false := by decide
theorem isCounterChar_S : isCounterChar 'S' = false := by decide

theorem exitAttach_counted (r : Renderer) (par : Option Node) (node : Node) (dbg : Bool)
    (status : WalkStatus) (hpar : ParentOK par) :
    (exitAttach r par node dbg status).r = r ∧
      declared (exitAttach r par node dbg status).out = [] := by
  cases par with
  | none => simp [exitAttach, declared_nil]
  | some pnode =>
    cases hel : AttributeString node.attrs "el" with
    | none => simp [exitAttach, hel, declared_nil]
    | some elv =>
      cases hp : AttributeString pnode.attrs "el" with
      | none => simp [exitAttach, hel, hp, declared_nil]
      | some parv =>
        cases elv <;> cases parv <;> simp [exitAttach, hel, hp, declared_nil]
        rename_i elNam parElNam
        have hg := hpar pnode rfl parElNam hp
        cases dbg <;>
          simp [declared_cons, declared_nil, declared_append, dbgLine, appendStmt,
            String.append_assoc, declaredId_goodName _ _ hg]
        simp [declaredId, String.data_append]

theorem renderHeading_counted (r : Renderer) (par : Option Node) (Level : Int)
    (attrs : List Attribute) (children : List Node) :
    Counted r (renderHeading r par (.mk (.Heading Level) attrs children) true).out
      (renderHeading r par (.mk (.Heading Level) attrs children) true).r := by
  refine Counted_of_eq _ _ _ 1 (by simp [renderHeading]) (by simp [renderHeading]) ?_
  simp [renderHeading, declared_cons, declared_nil, declared_append,
    declared_RenderElAttributes, String.append_assoc, declaredId_let, isCounterChar_eqSign,
    String.data_append, isCreateTail, idsFrom_succ, idsFrom_zero]
  simp [declaredId, String.data_append]

theorem declaredId_comment (t : String) : declaredId ("//" ++ t) = none := by
  simp [declaredId, String.data_append]

theorem attachNow_counted (r r1 : Renderer) (par : Option Node) (node : Node)
    (out : List String) (elNam : String) (dbgText : String → String → String)
    (hout : Counted r out r1) (hpar : ParentOK par)
    (hdbg : ∀ a b, declaredId (dbgText a b) = none) :
    (attachNow r1 par node out elNam dbgText).ret = .panic ∨
      Counted r (attachNow r1 par node out elNam dbgText).out
        (attachNow r1 par node out elNam dbgText).r := by
  cases par with
  | none => right; simpa [attachNow] using hout
  | some pnode =>
    cases hp : AttributeString pnode.attrs "el" with
    | none => right; simpa [attachNow, hp] using hout
    | some parv =>
      cases parv
      case str parElNam =>
        right
        have hg := hpar pnode rfl parElNam hp
        simp only [attachNow, hp, List.append_assoc]
        have h2 : Counted r1
            ((if r1.dbg then [dbgText parElNam pnode.payload.kindName] else []) ++
              [appendStmt parElNam elNam]) r1 := by
          refine Counted_same _ _ _ rfl rfl ?_
          cases r1.dbg <;>
            simp [declared_cons, declared_nil, declared_append, hdbg, appendStmt,
              String.append_assoc, declaredId_goodName _ _ hg]
        exact Counted_trans r r1 r1 _ _ hout h2
      all_goals (left; simp [attachNow, hp])

theorem renderBlockquote_counted (r : Renderer) (par : Option Node) (node : Node) :
    Counted r (renderBlockquote r par node true).out (renderBlockquote r par node true).r := by
  refine Counted_of_eq _ _ _ 1 (by simp [renderBlockquote]) (by simp [renderBlockquote]) ?_
  simp [renderBlockquote, declared_cons, declared_nil, declared_append,
    declared_RenderElAttributes, String.append_assoc, declaredId_let, isCounterChar_eqSign,
    String.data_append, isCreateTail, idsFrom_succ, idsFrom_zero]
  simp [declaredId, String.data_append]

theorem renderListItem_counted (r : Renderer) (par : Option Node) (node : Node) :
    Counted r (renderListItem r par node true).out (renderListItem r par node true).r := by
  refine Counted_of_eq _ _ _ 1 (by simp [renderListItem]) (by simp [renderListItem]) ?_
  simp [renderListItem, declared_cons, declared_nil, declared_append,
    declared_RenderElAttributes, String.append_assoc, declaredId_let, isCounterChar_eqSign,
    String.data_append, isCreateTail, idsFrom_succ, idsFrom_zero]
  simp [declaredId, String.data_append]

theorem renderThematicBreak_counted (r : Renderer) (par : Option Node) (node : Node) :
    Counted r (renderThematicBreak r par node true).out
      (renderThematicBreak r par node true).r := by
  refine Counted_of_eq _ _ _ 1 (by simp [renderThematicBreak]) (by simp [renderThematicBreak]) ?_
  simp [renderThematicBreak, declared_cons, declared_nil, declared_append,
    declared_RenderElAttributes, String.append_assoc, declaredId_let, isCounterChar_eqSign,
    String.data_append, isCreateTail, idsFrom_succ, idsFrom_zero]

theorem renderList_counted (r : Renderer) (par : Option Node) (Marker : Nat) (Start : Int)
    (attrs : List Attribute) (children : List Node) :
    Counted r (renderList r par (.mk (.ListNode Marker Start) attrs children) true).out
      (renderList r par (.mk (.ListNode Marker Start) attrs children) true).r := by
  refine Counted_of_eq _ _ _ 1 (by simp [renderList]) (by simp [renderList]) ?_
  cases ho : IsOrdered Marker <;> by_cases hs : Start = 1 <;>
    simp [renderList, declared_cons, declared_nil, declared_append,
      declared_RenderElAttributes, String.append_assoc, declaredId_let, isCounterChar_eqSign,
      String.data_append, isCreateTail, idsFrom_succ, idsFrom_zero, declaredId_elName, hs,
      ho] <;>
    simp [declaredId, String.data_append]

theorem renderCodeBlock_counted (r : Renderer) (par : Option Node) (lines : List String)
    (attrs : List Attribute) (children : List Node) :
    Counted r (renderCodeBlock r par (.mk (.CodeBlock lines) attrs children) true).out
      (renderCodeBlock r par (.mk (.CodeBlock lines) attrs children) true).r := by
  refine Counted_of_eq _ _ _ 3 (by simp [renderCodeBlock]) (by simp [renderCodeBlock]) ?_
  have e2 : r.count + 1 + 1 = r.count + 2 := by ring
  have e3 : r.count + 2 + 1 = r.count + 3 := by ring
  simp [renderCodeBlock, declared_cons, declared_nil, declared_append,
    String.append_assoc, declaredId_let, declaredId_const, isCounterChar_eqSign,
    String.data_append, isCreateTail, idsFrom_succ, idsFrom_zero, declaredId_elName, e2, e3]
  simp [declaredId, String.data_append, declaredAfterKw]

theorem renderFencedCodeBlock_counted (r : Renderer) (par : Option Node)
    (language : Option String) (lines : List String) (attrs : List Attribute)
    (children : List Node) :
    Counted r
      (renderFencedCodeBlock r par (.mk (.FencedCodeBlock language lines) attrs children)
        true).out
      (renderFencedCodeBlock r par (.mk (.FencedCodeBlock language lines) attrs children)
        true).r := by
  refine Counted_of_eq _ _ _ 3 (by simp [renderFencedCodeBlock]) (by simp [renderFencedCodeBlock]) ?_
  have e2 : r.count + 1 + 1 = r.count + 2 := by ring
  have e3 : r.count + 2 + 1 = r.count + 3 := by ring
  cases language <;>
    simp [renderFencedCodeBlock, declared_cons, declared_nil, declared_append,
      String.append_assoc, declaredId_let, declaredId_const, isCounterChar_eqSign,
      String.data_append, isCreateTail, idsFrom_succ, idsFrom_zero, declaredId_elName, e2,
      e3] <;>
    simp [declaredId, String.data_append, declaredAfterKw]

theorem renderAutoLink_counted (x : Ext) (r : Renderer) (par : Option Node)
    (typ : AutoLinkType) (url : Bytes) (attrs : List Attribute) (children : List Node)
    (hurl : declaredId (x.escapeURL url false) = none) :
    Counted r (renderAutoLink x r par (.mk (.AutoLink typ url) attrs children) true).out
      (renderAutoLink x r par (.mk (.AutoLink typ url) attrs children) true).r := by
  refine Counted_of_eq _ _ _ 1 (by simp [renderAutoLink]) (by simp [renderAutoLink]) ?_
  simp only [renderAutoLink, Bool.not_true, Bool.false_eq_true, if_false]
  split_ifs <;>
    simp [declared_cons, declared_nil, declared_append,
      declared_RenderElAttributes, String.append_assoc, declaredId_let, isCounterChar_eqSign,
      String.data_append, isCreateTail, idsFrom_succ, idsFrom_zero, declaredId_elName, hurl] <;>
    simp [declaredId, String.data_append]

theorem renderEmphasis_counted (r : Renderer) (par : Option Node) (Level : Int)
    (attrs : List Attribute) (children : List Node) :
    Counted r (renderEmphasis r par (.mk (.Emphasis Level) attrs children) true).out
      (renderEmphasis r par (.mk (.Emphasis Level) attrs children) true).r := by
  refine Counted_of_eq _ _ _ 1 (by simp [renderEmphasis]) (by simp [renderEmphasis]) ?_
  rcases children with _ | ⟨⟨cp, ca, cc⟩, rest⟩
  · simp [renderEmphasis, declared_append, declared_cons, declared_nil,
      declared_RenderElAttributes, String.append_assoc, declaredId_let, isCounterChar_eqSign,
      String.data_append, isCreateTail, idsFrom_succ, idsFrom_zero]
  · cases cp <;>
      simp [renderEmphasis, declared_append, declared_cons, declared_nil,
        declared_RenderElAttributes, String.append_assoc, declaredId_let,
        isCounterChar_eqSign, String.data_append, isCreateTail, idsFrom_succ, idsFrom_zero,
        declaredId_elName]

theorem renderText_counted (x : Ext) (r : Renderer) (par next : Option Node) (v : String)
    (raw soft hard : Bool) (attrs : List Attribute) (children : List Node) :
    Counted r (renderText x r par next (.mk (.Text v raw soft hard) attrs children) true).out
      (renderText x r par next (.mk (.Text v raw soft hard) attrs children) true).r := by
  refine Counted_of_eq _ _ _ 1 (by simp [renderText]) (by simp [renderText]) ?_
  simp [renderText, declared_cons, declared_nil, declared_append,
    String.append_assoc, declaredId_let, declaredId_const, isCounterChar_eqSign,
    isCounterChar_T, String.data_append, isCreateTail, idsFrom_succ, idsFrom_zero]

theorem renderString_counted (r : Renderer) (par : Option Node) (v : String)
    (raw code : Bool) (attrs : List Attribute) (children : List Node) :
    Counted r (renderString r par (.mk (.StringNode v raw code) attrs children) true).out
      (renderString r par (.mk (.StringNode v raw code) attrs children) true).r := by
  refine Counted_of_eq _ _ _ 1 (by simp [renderString]) (by simp [renderString]) ?_
  simp [renderString, declared_cons, declared_nil, declared_append,
    String.append_assoc, declaredId_let, declaredId_const, isCounterChar_eqSign,
    isCounterChar_t, String.data_append, isCreateTail, idsFrom_succ, idsFrom_zero]

theorem renderRawHTML_counted (r : Renderer) (par : Option Node) (segments : List String)
    (attrs : List Attribute) (children : List Node)
    (hseg : r.Unsafe = true → ∀ s ∈ segments, declaredId s = none) :
    Counted r (renderRawHTML r par (.mk (.RawHTML segments) attrs children) true).out
      (renderRawHTML r par (.mk (.RawHTML segments) attrs children) true).r := by
  have hs : r.Unsafe = true → declared segments = [] := by
    intro hu
    rw [declared, List.filterMap_eq_nil_iff]
    exact hseg hu
  refine Counted_of_eq _ _ _ 1 (by cases hu : r.Unsafe <;> simp [renderRawHTML, hu]) (by cases hu : r.Unsafe <;> simp [renderRawHTML, hu]) ?_
  cases hu : r.Unsafe
  · simp [renderRawHTML, hu, declared_cons, declared_nil, declared_append,
      String.append_assoc, declaredId_let, isCounterChar_eqSign,
      String.data_append, isCreateTail, idsFrom_succ, idsFrom_zero]
    simp [declaredId, String.data_append]
  · simp [renderRawHTML, hu, declared_cons, declared_nil, declared_append, hs hu,
      String.append_assoc, declaredId_let, isCounterChar_eqSign, declaredId_elName,
      String.data_append, isCreateTail, idsFrom_succ, idsFrom_zero]
    simp [declaredId, String.data_append]

theorem renderLink_counted (x : Ext) (r : Renderer) (par : Option Node) (Destination : Bytes)
    (Title : Option String) (attrs : List Attribute) (children : List Node)
    (hpar : ParentOK par) :
    (renderLink x r par (.mk (.Link Destination Title) attrs children) true).ret = .panic ∨
      Counted r (renderLink x r par (.mk (.Link Destination Title) attrs children) true).out
        (renderLink x r par (.mk (.Link Destination Title) attrs children) true).r := by
  simp only [renderLink, if_true]
  refine attachNow_counted r _ par _ _ _ _ ?_ hpar ?_
  · refine Counted_of_eq _ _ _ 1 (by simp) (by simp) ?_
    have key : ∀ txt : List String, declared txt = [] →
        declared ([("let " ++ elName (r.count + 1) ++ "=document.createElement(\"a\");\n")] ++
          (if r.Unsafe || !IsDangerousURL x.caseTable Destination then
            [elName (r.count + 1) ++ ".href='" ++ x.escapeURL Destination true ++ "';\n"]
          else []) ++
          (match Title with
            | some title => [elName (r.count + 1) ++ ".title='" ++ title ++ "';\n"]
            | none => []) ++
          RenderElAttributes (SetAttributeString attrs "el" (elName (r.count + 1)))
            (some LinkAttributeFilter) (elName (r.count + 1)) ++
          ["Object.assign(" ++ elName (r.count + 1) ++ ".style, mdStyle.a);\n"] ++ txt) =
        idsFrom r.count 1 := by
      intro txt htxt
      cases Title <;> cases (r.Unsafe || !IsDangerousURL x.caseTable Destination) <;>
        simp [declared_cons, declared_nil, declared_append, htxt,
          declared_RenderElAttributes, String.append_assoc, declaredId_let,
          isCounterChar_eqSign, String.data_append, isCreateTail, idsFrom_succ, idsFrom_zero,
          declaredId_elName] <;>
        simp [declaredId, String.data_append]
    apply key
    split <;> simp [declared_cons, declared_nil, String.append_assoc, declaredId_elName]
  · intro a b
    simp [dbgLine, declaredId, String.data_append]

theorem codeSpanChildren_declared (dbg : Bool) (k : Int) :
    ∀ (cs : List Node) (n : Nat) (spans : List String),
      codeSpanChildren dbg (elName k) n cs = some spans → declared spans = [] := by
  intro cs
  induction cs with
  | nil =>
    intro n spans h
    simp [codeSpanChildren] at h
    subst h; rfl
  | cons c rest ih =>
    intro n spans h
    obtain ⟨cp, ca, cc⟩ := c
    cases cp
    case Text v raw soft hard =>
      simp only [codeSpanChildren, Option.map_eq_some'] at h
      obtain ⟨more, hm, rfl⟩ := h
      have := ih (n + 1) more hm
      cases dbg <;>
        simp [declared_cons, declared_nil, declared_append, this, String.append_assoc,
          declaredId_const, declaredId_elName, isCounterChar_S, String.data_append,
          isCreateTail] <;>
        simp [declaredId, String.data_append]
    all_goals simp [codeSpanChildren] at h

theorem renderCodeSpan_counted (r : Renderer) (par : Option Node) (attrs : List Attribute)
    (children : List Node) (hpar : ParentOK par) :
    (renderCodeSpan r par (.mk .CodeSpan attrs children) true).ret = .panic ∨
      Counted r (renderCodeSpan r par (.mk .CodeSpan attrs children) true).out
        (renderCodeSpan r par (.mk .CodeSpan attrs children) true).r := by
  cases hsp : codeSpanChildren r.dbg (elName (r.count + 1)) 0 children with
  | none => left; simp [renderCodeSpan, Node.children, hsp]
  | some spans =>
    simp only [renderCodeSpan, if_true, Node.children, hsp]
    refine attachNow_counted r _ par _ _ _ _ ?_ hpar ?_
    · refine Counted_of_eq _ _ _ 1 (by simp) (by simp) ?_
      have hs := codeSpanChildren_declared r.dbg (r.count + 1) children 0 spans hsp
      cases r.dbg <;>
        simp [declared_cons, declared_nil, declared_append, hs, Node.attrs,
          declared_RenderElAttributes, String.append_assoc, declaredId_let,
          isCounterChar_eqSign, String.data_append, isCreateTail, idsFrom_succ,
          idsFrom_zero] <;>
        simp [declaredId, String.data_append]
    · intro a b
      simp [declaredId, String.data_append]

mutual
theorem renderTexts_counted (x : Ext) : ∀ (n : Node) (r : Renderer),
    Counted r (renderTexts x r n).2.2 (renderTexts x r n).1
  | .mk p a cs, r => by
    simp only [renderTexts]
    exact renderTextsLoop_counted x (.mk p a cs) cs r
theorem renderTextsLoop_counted (x : Ext) (pnode : Node) : ∀ (cs : List Node) (r : Renderer),
    Counted r (renderTextsLoop x r pnode cs).2.2 (renderTextsLoop x r pnode cs).1
  | [], r => by
    simp only [renderTextsLoop]
    exact Counted_refl r
  | .mk p a cs :: rest, r => by
    cases p
    case StringNode v raw code =>
      simp only [renderTextsLoop]
      exact Counted_trans _ _ _ _ _ (renderString_counted r (some pnode) v raw code a cs)
        (renderTextsLoop_counted x pnode rest _)
    case Text v raw soft hard =>
      simp only [renderTextsLoop]
      exact Counted_trans _ _ _ _ _ (renderText_counted x r (some pnode) _ v raw soft hard a cs)
        (renderTextsLoop_counted x pnode rest _)
    all_goals
      simp only [renderTextsLoop]
      exact Counted_trans _ _ _ _ _ (renderTexts_counted x (.mk _ a cs) r)
        (renderTextsLoop_counted x pnode rest _)
end

theorem renderImage_counted_aux (x : Ext) (r : Renderer) (Destination : Bytes)
    (Title : Option String) (attrs : List Attribute) (children : List Node)
    (titleOut : List String) (htitle : declared titleOut = []) :
    Counted r
      ([("let " ++ elName (r.count + 1) ++ "=document.createElement('img');\n")] ++
        (if r.Unsafe || !IsDangerousURL x.caseTable Destination then
          [elName (r.count + 1) ++ ".src=" ++ x.escapeURL Destination true] else []) ++
        [elName (r.count + 1) ++ ".alt=\""] ++
        (renderTexts x { r with count := r.count + 1 }
          (.mk (.Image Destination Title) (SetAttributeString attrs "el" (elName (r.count + 1)))
            children)).2.2 ++
        ["\"\n"] ++ titleOut ++
        RenderElAttributes (SetAttributeString attrs "el" (elName (r.count + 1)))
          (some ImageAttributeFilter) (elName (r.count + 1)))
      (renderTexts x { r with count := r.count + 1 }
        (.mk (.Image Destination Title) (SetAttributeString attrs "el" (elName (r.count + 1)))
          children)).1 := by
  have ht := renderTexts_counted x
    (.mk (.Image Destination Title) (SetAttributeString attrs "el" (elName (r.count + 1)))
      children) { r with count := r.count + 1 }
  have h1 : Counted r
      ([("let " ++ elName (r.count + 1) ++ "=document.createElement('img');\n")] ++
        (if r.Unsafe || !IsDangerousURL x.caseTable Destination then
          [elName (r.count + 1) ++ ".src=" ++ x.escapeURL Destination true] else []) ++
        [elName (r.count + 1) ++ ".alt=\""]) { r with count := r.count + 1 } := by
    refine Counted_of_eq _ _ _ 1 (by simp) (by simp) ?_
    cases (r.Unsafe || !IsDangerousURL x.caseTable Destination) <;>
      simp [declared_cons, declared_nil, declared_append, String.append_assoc,
        declaredId_let, isCounterChar_eqSign, String.data_append, isCreateTail, idsFrom_succ,
        idsFrom_zero, declaredId_elName]
  have h3 : ∀ r1 : Renderer, Counted r1
      (["\"\n"] ++ titleOut ++
        RenderElAttributes (SetAttributeString attrs "el" (elName (r.count + 1)))
          (some ImageAttributeFilter) (elName (r.count + 1))) r1 := by
    intro r1
    refine Counted_same _ _ _ rfl rfl ?_
    simp [declared_cons, declared_nil, declared_append, htitle, declared_RenderElAttributes]
    simp [declaredId, String.data_append]
  have := Counted_trans _ _ _ _ _ (Counted_trans _ _ _ _ _ h1 ht) (h3 _)
  simpa only [List.append_assoc] using this

theorem renderImage_counted (x : Ext) (r : Renderer) (par : Option Node) (Destination : Bytes)
    (Title : Option String) (attrs : List Attribute) (children : List Node) :
    Counted r (renderImage x r par (.mk (.Image Destination Title) attrs children) true).out
      (renderImage x r par (.mk (.Image Destination Title) attrs children) true).r := by
  simp only [renderImage, Bool.not_true, Bool.false_eq_true, if_false]
  apply renderImage_counted_aux
  cases Title <;> simp [declared_cons, declared_nil, String.append_assoc, declaredId_elName]

theorem plainNode_rawHTML (x : Ext) (u : Bool) (segments : List String) (a : List Attribute)
    (cs : List Node) (h : plainNode x u (.mk (.RawHTML segments) a cs) = true) :
    u = true → ∀ s ∈ segments, declaredId s = none := by
  intro hu s hs
  simp only [plainNode, plainPayload, Bool.and_eq_true, Bool.or_eq_true, List.all_eq_true] at h
  rcases h.1 with h1 | h1
  · simp [hu] at h1
  · simpa using h1 s hs

theorem flush_counted (s : Agg) (P : String) (hg : GoodName P) :
    ∃ o, (s.flush P).1.out = s.out ++ o ∧ Counted s.r o (s.flush P).1.r := by
  refine ⟨_, rfl, Counted_of_eq _ _ _ 1 (by simp [Agg.flush]) (by simp [Agg.flush]) ?_⟩
  simp [declared_cons, declared_nil, String.append_assoc, declaredId_const,
    isCounterChar_eqSign, String.data_append, isCreateTail, idsFrom_succ, idsFrom_zero,
    declaredId_goodName _ _ hg]

theorem flushIfText_counted (s : Agg) (P : String) (hg : GoodName P) :
    ∃ o, (s.flushIfText P).out = s.out ++ o ∧ Counted s.r o (s.flushIfText P).r := by
  by_cases hi : s.istate = 1
  · simpa [Agg.flushIfText, hi] using flush_counted s P hg
  · exact ⟨[], by simp [Agg.flushIfText, hi], by simpa [Agg.flushIfText, hi] using Counted_refl s.r⟩

theorem afterCall_counted (s s1 s2 : Agg) (h : HResult) (o : List String)
    (h1 : s1.out = s.out ++ o) (c1 : Counted s.r o s1.r)
    (hh : h.ret = .panic ∨ Counted s1.r h.out h.r) (he : s1.afterCall h = some s2) :
    ∃ o2, s2.out = s.out ++ o2 ∧ Counted s.r o2 s2.r := by
  by_cases hp : h.ret = .panic
  · simp [Agg.afterCall, hp] at he
  · rcases hh with hh | hh
    · exact absurd hh hp
    · simp only [Agg.afterCall, hp, if_false, Option.some.injEq] at he
      subst he
      exact ⟨o ++ h.out, by simp [h1], Counted_trans _ _ _ _ _ c1 hh⟩

/-- One turn of the loop of the aggregator accounts for the counter. -/
theorem aggStep_counted (x : Ext) (pnode : Node) (P : String)
    (hP : AttributeString pnode.attrs "el" = some (.str P)) (hg : GoodName P) (s s2 : Agg)
    (c : Node) (hc : plainNode x s.r.Unsafe c = true) (h : aggStep x pnode P s c = some s2) :
    ∃ o, s2.out = s.out ++ o ∧ Counted s.r o s2.r := by
  have hpar : ParentOK (some pnode) := by
    intro q hq Q hQ
    cases hq
    rw [hP] at hQ
    cases hQ
    exact hg
  obtain ⟨o1, ho1, c1⟩ := flushIfText_counted s P hg
  have hU1 : (s.flushIfText P).r.Unsafe = s.r.Unsafe := c1.2.2
  obtain ⟨cp, ca, cc⟩ := c
  cases cp
  case Text v raw soft hard =>
    refine ⟨[], ?_, ?_⟩
    · simp only [aggStep] at h
      split_ifs at h <;> (cases h; simp)
    · simp only [aggStep] at h
      split_ifs at h <;> (cases h; exact Counted_refl _)
  case Emphasis Level =>
    rcases cc with _ | ⟨⟨dp, da, dc⟩, rest⟩
    · simp [aggStep] at h
    · cases dp <;> simp only [aggStep] at h <;> try cases h
      rename_i v raw soft hard
      have hblock : ∀ r1 : Renderer, Counted r1
          ["let " ++ elName (r1.count + 1) ++ "=document.createElement('" ++
              (if Level = 2 then "strong" else "em") ++ "');\n",
            elName (r1.count + 1) ++ ".textContent=`" ++ v ++ "`;\n",
            P ++ ".appendChild(" ++ elName (r1.count + 1) ++ ");\n"]
          { r1 with count := r1.count + 1 } := by
        intro r1
        refine Counted_of_eq _ _ _ 1 (by simp) (by simp) ?_
        simp [declared_cons, declared_nil, String.append_assoc, declaredId_let,
          isCounterChar_eqSign, String.data_append, isCreateTail, idsFrom_succ, idsFrom_zero,
          declaredId_elName, declaredId_goodName _ _ hg]
      by_cases hi : s.istate = 1
      · obtain ⟨o, ho, co⟩ := flush_counted s P hg
        refine ⟨o ++ ["let " ++ elName ((s.flush P).1.r.count + 1) ++
              "=document.createElement('" ++ (if Level = 2 then "strong" else "em") ++ "');\n",
            elName ((s.flush P).1.r.count + 1) ++ ".textContent=`" ++ v ++ "`;\n",
            P ++ ".appendChild(" ++ elName ((s.flush P).1.r.count + 1) ++ ");\n"],
          by simp [hi, ho], ?_⟩
        have := Counted_trans _ _ _ _ _ co (hblock (s.flush P).1.r)
        simpa [hi] using this
      · refine ⟨["let " ++ elName (s.r.count + 1) ++
              "=document.createElement('" ++ (if Level = 2 then "strong" else "em") ++ "');\n",
            elName (s.r.count + 1) ++ ".textContent=`" ++ v ++ "`;\n",
            P ++ ".appendChild(" ++ elName (s.r.count + 1) ++ ");\n"], by simp [hi], ?_⟩
        simpa [hi] using hblock s.r
  case CodeSpan =>
    exact afterCall_counted s _ s2 _ o1 ho1 c1
      (renderCodeSpan_counted _ (some pnode) ca cc hpar) h
  case Link Destination Title =>
    exact afterCall_counted s _ s2 _ o1 ho1 c1
      (renderLink_counted x _ (some pnode) Destination Title ca cc hpar) h
  case RawHTML segments =>
    exact afterCall_counted s _ s2 _ o1 ho1 c1
      (Or.inr (renderRawHTML_counted _ (some pnode) segments ca cc
        (by rw [hU1]; exact plainNode_rawHTML x _ segments ca cc hc))) h
  case StringNode v raw code =>
    exact afterCall_counted s _ s2 _ o1 ho1 c1
      (Or.inr (renderString_counted _ (some pnode) v raw code ca cc)) h
  case Image d t => simp [aggStep] at h
  all_goals
    simp only [aggStep, Option.some.injEq] at h
    subst h
    refine ⟨_, rfl, Counted_same _ _ _ rfl rfl ?_⟩
    cases s.r.dbg <;> simp [declared_cons, declared_nil, declaredId, String.data_append]

theorem aggLoop_counted (x : Ext) (pnode : Node) (P : String)
    (hP : AttributeString pnode.attrs "el" = some (.str P)) (hg : GoodName P) :
    ∀ (cs : List Node) (s s2 : Agg), plainNodes x s.r.Unsafe cs = true →
      aggLoop x pnode P s cs = some s2 → ∃ o, s2.out = s.out ++ o ∧ Counted s.r o s2.r := by
  intro cs
  induction cs with
  | nil =>
    intro s s2 _ h
    simp only [aggLoop, Option.some.injEq] at h
    subst h
    exact ⟨[], by simp, Counted_refl _⟩
  | cons c rest ih =>
    intro s s2 hcs h
    simp only [plainNodes, Bool.and_eq_true] at hcs
    rw [aggLoop] at h
    cases hs : aggStep x pnode P s c with
    | none => rw [hs] at h; cases h
    | some s1 =>
      rw [hs] at h
      obtain ⟨o1, ho1, c1⟩ := aggStep_counted x pnode P hP hg s s1 c hcs.1 hs
      obtain ⟨o2, ho2, c2⟩ := ih s1 s2 (by rw [c1.2.2]; exact hcs.2) h
      exact ⟨o1 ++ o2, by rw [ho2, ho1, List.append_assoc], Counted_trans _ _ _ _ _ c1 c2⟩

/-- The general path of `renderTextChildren`: the children are not a single
`Text`. -/
theorem renderTextChildren_general (x : Ext) (r : Renderer) (p : Payload)
    (attrs : List Attribute) (children : List Node) (P : String)
    (hel : AttributeString attrs "el" = some (.str P))
    (hfast : ¬ ∃ v raw soft hard a ch, children = [.mk (.Text v raw soft hard) a ch]) :
    (aggLoop x (.mk p attrs children) P ⟨r, 0, none, aggDbgOut r P children, []⟩ children = none →
        renderTextChildren x r (.mk p attrs children) true =
          ⟨r, .mk p attrs children, [], .panic⟩) ∧
      (∀ s, aggLoop x (.mk p attrs children) P ⟨r, 0, none, aggDbgOut r P children, []⟩ children
            = some s → s.text = none →
        renderTextChildren x r (.mk p attrs children) true =
          ⟨s.r, .mk p attrs s.seen, s.out, .ok .WalkSkipChildren⟩) ∧
      (∀ s t, aggLoop x (.mk p attrs children) P ⟨r, 0, none, aggDbgOut r P children, []⟩ children
            = some s → s.text = some t →
        renderTextChildren x r (.mk p attrs children) true =
          ⟨(s.flush P).1.r, .mk p (SetAttributeString attrs "el" (s.flush P).2)
              (s.flush P).1.seen, (s.flush P).1.out, .ok .WalkSkipChildren⟩) := by
  rcases children with _ | ⟨c, _ | ⟨d, rest⟩⟩
  · refine ⟨fun h => ?_, fun s h ht => ?_, fun s t h ht => ?_⟩ <;>
      simp [aggDbgOut] at h <;>
      first
        | simp [renderTextChildren, Node.attrs, Node.children, Node.payload, hel, h, ht]
        | simp [renderTextChildren, Node.attrs, Node.children, Node.payload, hel, h]
  · obtain ⟨cp, ca, cch⟩ := c
    cases cp
    case Text value raw soft hard =>
      exact absurd ⟨value, raw, soft, hard, ca, cch, rfl⟩ hfast
    all_goals
      refine ⟨fun h => ?_, fun s h ht => ?_, fun s t h ht => ?_⟩ <;>
        simp [aggDbgOut] at h <;>
        first
          | simp [renderTextChildren, Node.attrs, Node.children, Node.payload, hel, h, ht]
          | simp [renderTextChildren, Node.attrs, Node.children, Node.payload, hel, h]
  · refine ⟨fun h => ?_, fun s h ht => ?_, fun s t h ht => ?_⟩ <;>
      simp [aggDbgOut] at h <;>
      first
        | simp [renderTextChildren, Node.attrs, Node.children, Node.payload, hel, h, ht]
        | simp [renderTextChildren, Node.attrs, Node.children, Node.payload, hel, h]

theorem renderTextChildren_counted (x : Ext) (r : Renderer) (node : Node)
    (hg : ∀ P, AttributeString node.attrs "el" = some (.str P) → GoodName P)
    (hcs : plainNodes x r.Unsafe node.children = true) :
    (renderTextChildren x r node true).ret = .panic ∨
      Counted r (renderTextChildren x r node true).out (renderTextChildren x r node true).r := by
  obtain ⟨p, attrs, children⟩ := node
  simp only [Node.attrs, Node.children] at hg hcs
  cases hel : AttributeString attrs "el" with
  | none =>
    right
    simpa [renderTextChildren, Node.attrs, hel] using Counted_refl r
  | some elv =>
    cases elv
    case str P =>
      have hgP := hg P hel
      have hdbg : declared (if r.dbg then
          ["// dbg -- pelNam: " ++ P ++ " children: " ++ fmtD (children.length : Nat) ++ "\n"]
          else []) = [] := by
        cases r.dbg <;> simp [declared_cons, declared_nil, declaredId, String.data_append]
      by_cases hfast : ∃ v raw soft hard a ch, children = [.mk (.Text v raw soft hard) a ch]
      · right
        obtain ⟨v, raw, soft, hard, a, ch, rfl⟩ := hfast
        simp only [renderTextChildren, Node.attrs, Node.children, hel, Bool.not_true,
          Bool.false_eq_true, if_false]
        refine Counted_same _ _ _ rfl rfl ?_
        cases r.dbg <;>
          simp [declared_append, declared_cons, declared_nil, String.append_assoc,
            declaredId_goodName _ _ hgP] <;>
          simp [declaredId, String.data_append]
      · obtain ⟨g1, g2, g3⟩ := renderTextChildren_general x r p attrs children P hel hfast
        cases hl : aggLoop x (.mk p attrs children) P ⟨r, 0, none, aggDbgOut r P children, []⟩
            children with
        | none => left; rw [g1 hl]
        | some s =>
          right
          obtain ⟨o, ho, co⟩ := aggLoop_counted x (.mk p attrs children) P hel hgP children
            ⟨r, 0, none, aggDbgOut r P children, []⟩ s hcs hl
          have c0 : Counted r (aggDbgOut r P children) r :=
            Counted_same _ _ _ rfl rfl (by simpa [aggDbgOut] using hdbg)
          have c1 : Counted r s.out s.r := by
            rw [ho]
            exact Counted_trans _ _ _ _ _ c0 co
          cases ht : s.text with
          | none => rw [g2 s hl ht]; exact c1
          | some t =>
            obtain ⟨o2, ho2, co2⟩ := flush_counted s P hgP
            rw [g3 s t hl ht]
            simp only []
            rw [ho2]
            exact Counted_trans _ _ _ _ _ c1 co2
    all_goals (left; simp [renderTextChildren, Node.attrs, hel])

theorem renderParagraph_counted (x : Ext) (r : Renderer) (par : Option Node) (node : Node)
    (hpar : ParentOK par) (hcs : plainNodes x r.Unsafe node.children = true) :
    (renderParagraph x r par node true).ret = .panic ∨
      Counted r (renderParagraph x r par node true).out (renderParagraph x r par node true).r := by
  obtain ⟨p, attrs, children⟩ := node
  simp only [Node.children] at hcs
  have h1 : Counted r
      (["let " ++ elName (r.count + 1) ++ "=document.createElement('p');\n",
          "Object.assign(" ++ elName (r.count + 1) ++ ".style, mdStyle.p);\n"] ++
        RenderElAttributes (SetAttributeString attrs "el" (elName (r.count + 1)))
          (some ParagraphAttributeFilter) (elName (r.count + 1)))
      { r with count := r.count + 1 } := by
    refine Counted_of_eq _ _ _ 1 (by simp) (by simp) ?_
    simp [declared_cons, declared_nil, declared_append, declared_RenderElAttributes,
      String.append_assoc, declaredId_let, isCounterChar_eqSign, String.data_append,
      isCreateTail, idsFrom_succ, idsFrom_zero]
    simp [declaredId, String.data_append]
  have h2 := renderTextChildren_counted x { r with count := r.count + 1 }
    (.mk p (SetAttributeString attrs "el" (elName (r.count + 1))) children)
    (by
      intro P hP
      have := AttributeString_SetAttribute attrs "el" (.str (elName (r.count + 1)))
      simp only [Node.attrs, SetAttributeString] at hP
      rw [this] at hP
      cases hP
      exact Or.inr ⟨_, rfl⟩)
    (by simpa [Node.children] using hcs)
  simp only [renderParagraph, if_true, Node.attrs, Node.setAttrs]
  rcases h2 with h2 | h2
  · left; simp [h2]
  · by_cases hp : (renderTextChildren x { r with count := r.count + 1 }
        (.mk p (SetAttributeString attrs "el" (elName (r.count + 1))) children) true).ret = .panic
    · left; simp [hp]
    · simp only [hp, if_false]
      refine attachNow_counted r _ par _ _ _ _ ?_ hpar ?_
      · exact Counted_trans _ _ _ _ _ h1 h2
      · intro a b
        simp [declaredId, String.data_append]

theorem renderTextBlock_counted (x : Ext) (r : Renderer) (par : Option Node) (node : Node)
    (hpar : ParentOK par) (hcs : plainNodes x r.Unsafe node.children = true) :
    (renderTextBlock x r par node true).ret = .panic ∨
      Counted r (renderTextBlock x r par node true).out (renderTextBlock x r par node true).r := by
  obtain ⟨p, attrs, children⟩ := node
  cases par with
  | none => left; simp [renderTextBlock]
  | some pnode =>
    have hpar1 := hpar pnode rfl
    obtain ⟨pp, pa, pch⟩ := pnode
    simp only [Node.attrs] at hpar1
    cases hp : AttributeString pa "el" with
    | none => right; simpa [renderTextBlock, hp, Node.attrs] using Counted_refl r
    | some parv =>
      have h2 := renderTextChildren_counted x r
        (.mk p (SetAttribute attrs "el" parv) children)
        (by
          intro P hP
          simp only [Node.attrs] at hP
          rw [AttributeString_SetAttribute] at hP
          cases hP
          exact hpar1 P hp)
        (by simpa [Node.children] using hcs)
      simp only [renderTextBlock, if_true, hp, Node.attrs, Node.setAttrs]
      by_cases hq : (renderTextChildren x r (.mk p (SetAttribute attrs "el" parv) children)
          true).ret = .panic
      · left; simp [hq]
      · rcases h2 with h2 | h2
        · exact absurd h2 hq
        · right; simpa [hq] using h2

/-- The entry phase of every handler of a plain kind accounts for the
counter, unless it panics. -/
theorem dispatch_entry_counted (x : Ext) (r : Renderer) (par next : Option Node) (node : Node)
    (hpl : plainNode x r.Unsafe node = true) (hpar : ParentOK par) :
    (dispatch x r par next node true).ret = .panic ∨
      Counted r (dispatch x r par next node true).out (dispatch x r par next node true).r := by
  obtain ⟨p, a, cs⟩ := node
  have hcs : plainNodes x r.Unsafe cs = true := by
    simp only [plainNode, Bool.and_eq_true] at hpl
    exact hpl.2
  cases p
  case Document => simp [plainNode, plainPayload] at hpl
  case HTMLBlock l c => simp [plainNode, plainPayload] at hpl
  case Other k => simp [plainNode, plainPayload] at hpl
  case Heading Level => exact Or.inr (renderHeading_counted r par Level a cs)
  case Blockquote => exact Or.inr (renderBlockquote_counted r par _)
  case CodeBlock lines => exact Or.inr (renderCodeBlock_counted r par lines a cs)
  case FencedCodeBlock language lines =>
    exact Or.inr (renderFencedCodeBlock_counted r par language lines a cs)
  case ListNode Marker Start => exact Or.inr (renderList_counted r par Marker Start a cs)
  case ListItem => exact Or.inr (renderListItem_counted r par _)
  case Paragraph => exact renderParagraph_counted x r par _ hpar hcs
  case TextBlock => exact renderTextBlock_counted x r par _ hpar hcs
  case ThematicBreak => exact Or.inr (renderThematicBreak_counted r par _)
  case AutoLink typ url =>
    refine Or.inr (renderAutoLink_counted x r par typ url a cs ?_)
    simp only [plainNode, plainPayload, Bool.and_eq_true] at hpl
    simpa using hpl.1
  case CodeSpan => exact renderCodeSpan_counted r par a cs hpar
  case Emphasis Level => exact Or.inr (renderEmphasis_counted r par Level a cs)
  case Image d t => exact Or.inr (renderImage_counted x r par d t a cs)
  case Link d t => exact renderLink_counted x r par d t a cs hpar
  case RawHTML segments =>
    exact Or.inr (renderRawHTML_counted r par segments a cs
      (plainNode_rawHTML x _ segments a cs hpl))
  case Text v raw soft hard => exact Or.inr (renderText_counted x r par next v raw soft hard a cs)
  case StringNode v raw code => exact Or.inr (renderString_counted r par v raw code a cs)

theorem attachNow_ret (r : Renderer) (par : Option Node) (node : Node) (out : List String)
    (elNam : String) (dbgText : String → String → String) :
    (attachNow r par node out elNam dbgText).ret ≠ .ok .WalkContinue := by
  cases par with
  | none => simp [attachNow]
  | some pnode =>
    cases hp : AttributeString pnode.attrs "el" with
    | none => simp [attachNow, hp]
    | some parv => cases parv <;> simp [attachNow, hp]

/-- When the entry phase of the handler of a plain kind returns
`WalkContinue`, the node carries an identifier of the counter. -/
theorem dispatch_entry_el (x : Ext) (r : Renderer) (par next : Option Node) (node : Node)
    (hpl : plainPayload x r.Unsafe node.payload = true)
    (hc : (dispatch x r par next node true).ret = .ok .WalkContinue) :
    ∃ k : Int, AttributeString (dispatch x r par next node true).node.attrs "el" =
      some (.str (elName k)) := by
  obtain ⟨p, a, cs⟩ := node
  cases p
  case Document => simp [plainPayload, Node.payload] at hpl
  case HTMLBlock l c => simp [plainPayload, Node.payload] at hpl
  case Other k => simp [plainPayload, Node.payload] at hpl
  case Paragraph =>
    exfalso
    simp only [dispatch, Node.payload, renderParagraph, if_true] at hc
    split_ifs at hc
    exact attachNow_ret _ _ _ _ _ _ hc
  case TextBlock =>
    exfalso
    simp only [dispatch, Node.payload, renderTextBlock, if_true] at hc
    cases par with
    | none => simp at hc
    | some pnode =>
      simp only [] at hc
      cases hp : AttributeString pnode.attrs "el" with
      | none => rw [hp] at hc; simp at hc
      | some parv =>
        rw [hp] at hc
        simp only [] at hc
        split_ifs at hc with hq
        · rw [hq] at hc; simp at hc
        · simp at hc
  case CodeSpan =>
    exfalso
    simp only [dispatch, Node.payload, renderCodeSpan, if_true] at hc
    cases hsp : codeSpanChildren r.dbg (elName (r.count + 1)) 0 (Node.mk Payload.CodeSpan a cs).children with
    | none => rw [hsp] at hc; simp at hc
    | some spans => rw [hsp] at hc; exact attachNow_ret _ _ _ _ _ _ hc
  case Link d t =>
    exfalso
    simp only [dispatch, Node.payload, renderLink, if_true] at hc
    exact attachNow_ret _ _ _ _ _ _ hc
  case Emphasis Level => simp [dispatch, Node.payload, renderEmphasis] at hc
  case Image d t => simp [dispatch, Node.payload, renderImage] at hc
  case RawHTML segments =>
    exfalso
    simp only [dispatch, Node.payload, renderRawHTML, Bool.not_true, Bool.false_eq_true,
      if_false] at hc
    split_ifs at hc <;> simp at hc
  case CodeBlock lines =>
    exact ⟨r.count + 1, by
      simp [dispatch, Node.payload, renderCodeBlock, Node.attrs, SetAttributeString,
        AttributeString_SetAttribute]⟩
  case FencedCodeBlock language lines =>
    exact ⟨r.count + 1, by
      simp [dispatch, Node.payload, renderFencedCodeBlock, Node.attrs, SetAttributeString,
        AttributeString_SetAttribute]⟩
  all_goals
    exact ⟨r.count + 1, by
      simp [dispatch, Node.payload, renderHeading, renderBlockquote, renderList,
        renderListItem, renderThematicBreak, renderAutoLink, renderText, renderString,
        Node.attrs, Node.setAttrs, SetAttributeString, AttributeString_SetAttribute]⟩

/-- The exit phase of every handler of a plain kind leaves the counter as it
is and declares no identifier. -/
theorem dispatch_exit_counted (x : Ext) (r : Renderer) (par next : Option Node) (node : Node)
    (hpl : plainPayload x r.Unsafe node.payload = true) (hpar : ParentOK par) :
    (dispatch x r par next node false).r = r ∧
      declared (dispatch x r par next node false).out = [] := by
  obtain ⟨p, a, cs⟩ := node
  cases p
  case Document => simp [plainPayload, Node.payload] at hpl
  case HTMLBlock l c => simp [plainPayload, Node.payload] at hpl
  case Other k => simp [plainPayload, Node.payload] at hpl
  case Paragraph => simp [dispatch, Node.payload, renderParagraph, declared_nil]
  case TextBlock => simp [dispatch, Node.payload, renderTextBlock, declared_nil]
  case CodeSpan => simp [dispatch, Node.payload, renderCodeSpan, declared_nil]
  case Link d t => simp [dispatch, Node.payload, renderLink, declared_nil]
  all_goals
    simp only [dispatch, Node.payload, renderHeading, renderBlockquote, renderList,
      renderListItem, renderThematicBreak, renderAutoLink, renderText, renderString,
      renderCodeBlock, renderFencedCodeBlock, renderEmphasis, renderImage, renderRawHTML,
      Bool.not_false, if_true, Bool.false_eq_true, if_false]
    exact exitAttach_counted r par _ _ _ hpar

theorem attachNow_node (r : Renderer) (par : Option Node) (node : Node) (out : List String)
    (elNam : String) (dbgText : String → String → String) :
    (attachNow r par node out elNam dbgText).node = node := by
  cases par with
  | none => simp [attachNow]
  | some pnode =>
    cases hp : AttributeString pnode.attrs "el" with
    | none => simp [attachNow, hp]
    | some parv => cases parv <;> simp [attachNow, hp]

theorem exitAttach_node (r : Renderer) (par : Option Node) (node : Node) (dbg : Bool)
    (status : WalkStatus) : (exitAttach r par node dbg status).node = node := by
  cases par with
  | none => simp [exitAttach]
  | some pnode =>
    cases hel : AttributeString node.attrs "el" with
    | none => simp [exitAttach, hel]
    | some elv =>
      cases hp : AttributeString pnode.attrs "el" with
      | none => simp [exitAttach, hel, hp]
      | some parv => cases elv <;> cases parv <;> simp [exitAttach, hel, hp]

theorem renderTextChildren_payload (x : Ext) (r : Renderer) (node : Node) (entering : Bool) :
    (renderTextChildren x r node entering).node.payload = node.payload := by
  obtain ⟨p, attrs, children⟩ := node
  cases entering
  · simp [renderTextChildren]
  · cases hel : AttributeString attrs "el" with
    | none => simp [renderTextChildren, Node.attrs, hel]
    | some elv =>
      cases elv
      case str P =>
        by_cases hfast : ∃ v raw soft hard a ch, children = [.mk (.Text v raw soft hard) a ch]
        · obtain ⟨v, raw, soft, hard, a, ch, rfl⟩ := hfast
          simp [renderTextChildren, Node.attrs, Node.children, hel]
        · obtain ⟨g1, g2, g3⟩ := renderTextChildren_general x r p attrs children P hel hfast
          cases hl : aggLoop x (.mk p attrs children) P ⟨r, 0, none, aggDbgOut r P children, []⟩
              children with
          | none => rw [g1 hl]
          | some s =>
            cases ht : s.text with
            | none => rw [g2 s hl ht]; rfl
            | some t => rw [g3 s t hl ht]; rfl
      all_goals simp [renderTextChildren, Node.attrs, hel]

theorem renderTexts_payload (x : Ext) (r : Renderer) (n : Node) :
    (renderTexts x r n).2.1.payload = n.payload := by
  cases n
  simp [renderTexts, Node.payload]

/-- A handler leaves the kind of the node and its own fields as they are. -/
theorem dispatch_payload (x : Ext) (r : Renderer) (par next : Option Node) (node : Node)
    (entering : Bool) :
    (dispatch x r par next node entering).node.payload = node.payload := by
  obtain ⟨p, a, cs⟩ := node
  cases entering
  · cases p
    case HTMLBlock l c =>
      cases c <;> simp [dispatch, Node.payload, renderHTMLBlock, exitAttach_node]
    all_goals
      simp [dispatch, Node.payload, renderHeading, renderBlockquote, renderList,
        renderListItem, renderThematicBreak, renderAutoLink, renderText, renderString,
        renderCodeBlock, renderFencedCodeBlock, renderEmphasis, renderImage, renderRawHTML,
        renderDocument, renderParagraph, renderTextBlock, renderCodeSpan, renderLink,
        exitAttach_node, Node.setAttrs]
  · cases p
    case Paragraph =>
      simp only [dispatch, Node.payload, renderParagraph, if_true]
      split_ifs
      · exact renderTextChildren_payload x _ _ true
      · rw [attachNow_node]; exact renderTextChildren_payload x _ _ true
    case TextBlock =>
      simp only [dispatch, Node.payload, renderTextBlock, if_true]
      cases par with
      | none => rfl
      | some pnode =>
        simp only []
        cases hp : AttributeString pnode.attrs "el" with
        | none => rfl
        | some parv =>
          simp only []
          split_ifs
          · exact renderTextChildren_payload x _ _ true
          · exact renderTextChildren_payload x _ _ true
    case CodeSpan =>
      show (renderCodeSpan r par (.mk .CodeSpan a cs) true).node.payload = .CodeSpan
      simp only [renderCodeSpan, if_true]
      cases codeSpanChildren r.dbg (elName (r.count + 1)) 0
          (Node.mk Payload.CodeSpan a cs).children with
      | none => rfl
      | some spans => simp only []; rw [attachNow_node]; rfl
    case Link d t =>
      simp only [dispatch, Node.payload, renderLink, if_true]
      rw [attachNow_node]
    case Image d t =>
      show (renderImage x r par (.mk (.Image d t) a cs) true).node.payload = .Image d t
      simp only [renderImage, Bool.not_true, Bool.false_eq_true, if_false]
      exact renderTexts_payload x _ _
    case HTMLBlock l c =>
      cases c <;> simp only [dispatch, Node.payload, renderHTMLBlock, if_true] <;>
        split_ifs <;> rfl
    case RawHTML segments =>
      simp only [dispatch, Node.payload, renderRawHTML, Bool.not_true, Bool.false_eq_true,
        if_false]
      split_ifs <;> rfl
    case ListNode m s =>
      simp [dispatch, Node.payload, renderList]
    all_goals
      simp [dispatch, Node.payload, renderHeading, renderBlockquote,
        renderListItem, renderThematicBreak, renderAutoLink, renderText, renderString,
        renderCodeBlock, renderFencedCodeBlock, renderEmphasis,
        renderDocument, Node.setAttrs]

/-- The exit step of the walk on a node of a plain kind. -/
theorem walkExit_counted (x : Ext) (r0 r : Renderer) (par next : Option Node) (node : Node)
    (out : List String) (hpl : plainPayload x r.Unsafe node.payload = true)
    (hpar : ParentOK par) (h0 : Counted r0 out r) :
    Counted r0 (walkExit x r par next node out).out (walkExit x r par next node out).r := by
  obtain ⟨h1, h2⟩ := dispatch_exit_counted x r par next node hpl hpar
  have hc : Counted r (dispatch x r par next node false).out
      (dispatch x r par next node false).r := by
    rw [h1]
    exact Counted_same _ _ _ rfl rfl h2
  have := Counted_trans _ _ _ _ _ h0 hc
  simp only [walkExit]
  split <;> exact this

mutual
/-- The walk of a tree of plain kinds accounts for the counter, unless a
handler panics. -/
theorem walkHelper_counted (x : Ext) : ∀ (node : Node) (r : Renderer) (par next : Option Node),
    plainNode x r.Unsafe node = true → ParentOK par →
    (walkHelper x r par next node).ret = .panic ∨
      Counted r (walkHelper x r par next node).out (walkHelper x r par next node).r
  | .mk p a cs, r, par, next, hpl, hpar => by
    have hp : plainPayload x r.Unsafe p = true ∧ plainNodes x r.Unsafe cs = true := by
      simpa [plainNode] using hpl
    have he := dispatch_entry_counted x r par next (.mk p a cs) hpl hpar
    have hel := dispatch_entry_el x r par next (.mk p a cs) hp.1
    have hpay : (dispatch x r par next (.mk p a cs) true).node.payload = p :=
      dispatch_payload x r par next (.mk p a cs) true
    rw [walkHelper]
    simp only []
    cases hr : (dispatch x r par next (.mk p a cs) true).ret with
    | panic => left; rfl
    | fail st e =>
      right
      rcases he with he | he
      · rw [hr] at he; cases he
      · exact he
    | ok st =>
      rcases he with he | he
      · rw [hr] at he; cases he
      · have hU := he.2.2
        cases st with
        | WalkStop => right; exact he
        | WalkSkipChildren =>
          right
          refine walkExit_counted x r _ par next _ _ ?_ hpar he
          rw [hpay, hU]; exact hp.1
        | WalkContinue =>
          obtain ⟨k, hk⟩ := hel hr
          have hpar2 : ParentOK (some (Node.mk
              (dispatch x r par next (.mk p a cs) true).node.payload
              (dispatch x r par next (.mk p a cs) true).node.attrs cs)) := by
            intro q hq Q hQ
            cases hq
            have hQ2 : AttributeString (dispatch x r par next (.mk p a cs) true).node.attrs
                "el" = some (.str Q) := hQ
            rw [hk] at hQ2
            cases hQ2
            exact Or.inr ⟨k, rfl⟩
          have hw := walkChildren_counted x cs (dispatch x r par next (.mk p a cs) true).r
            (Node.mk (dispatch x r par next (.mk p a cs) true).node.payload
              (dispatch x r par next (.mk p a cs) true).node.attrs cs)
            (by rw [hU]; exact hp.2) hpar2
          simp only []
          cases hwr : (walkChildren x (dispatch x r par next (.mk p a cs) true).r
            (Node.mk (dispatch x r par next (.mk p a cs) true).node.payload
              (dispatch x r par next (.mk p a cs) true).node.attrs cs) cs).ret with
          | panic => left; rfl
          | stop e =>
            right
            rcases hw with hw | hw
            · rw [hwr] at hw; cases hw
            · exact Counted_trans _ _ _ _ _ he hw
          | ok =>
            right
            rcases hw with hw | hw
            · rw [hwr] at hw; cases hw
            · refine walkExit_counted x r _ par next _ _ ?_ hpar
                (Counted_trans _ _ _ _ _ he hw)
              change plainPayload x _ (dispatch x r par next (.mk p a cs) true).node.payload
                = true
              rw [hw.2.2, hU, hpay]; exact hp.1
/-- The walk of a list of siblings of plain kinds accounts for the counter,
unless a handler panics. -/
theorem walkChildren_counted (x : Ext) : ∀ (cs : List Node) (r : Renderer) (pnode : Node),
    plainNodes x r.Unsafe cs = true → ParentOK (some pnode) →
    (walkChildren x r pnode cs).ret = .panic ∨
      Counted r (walkChildren x r pnode cs).out (walkChildren x r pnode cs).r
  | [], r, pnode, _, _ => by
    right
    simp only [walkChildren]
    exact Counted_refl r
  | c :: rest, r, pnode, hpl, hpar => by
    have hp : plainNode x r.Unsafe c = true ∧ plainNodes x r.Unsafe rest = true := by
      simpa [plainNodes] using hpl
    have hw := walkHelper_counted x c r (some pnode) rest.head? hp.1 hpar
    rw [walkChildren]
    simp only []
    cases hwr : (walkHelper x r (some pnode) rest.head? c).ret with
    | panic => left; rfl
    | stop e =>
      right
      rcases hw with hw | hw
      · rw [hwr] at hw; cases hw
      · exact hw
    | ok =>
      rcases hw with hw | hw
      · rw [hwr] at hw; cases hw
      · have hws := walkChildren_counted x rest (walkHelper x r (some pnode) rest.head? c).r
          pnode (by rw [hw.2.2]; exact hp.2) hpar
        simp only []
        rcases hws with hws | hws
        · left; exact hws
        · right; exact Counted_trans _ _ _ _ _ hw hws
end

theorem declared_docStr :
    declared ["let mdDivObj = \x7b\n\ttyp:'div',\n\tid: 'mdDiv',\n\tstyle: \x7b\n\t\tmargin: '10px',\n\t\tborder: '1px dashed blue',\n\t\tposition: 'relative',\n\t\tminHeight: '200px',\n\t\x7d,\n\x7d;\nlet mdDiv = azul.addElement(mdDivObj);\n"] = [] := by
  rfl

theorem declared_endDocStr : declared ["return mdDiv;\n\x7d;\n"] = [] := by
  rfl

/-- The conversion of a document whose descendants are of plain kinds
accounts for the counter from the seed 1 on, unless a handler panics. -/
theorem Render_counted (x : Ext) (r : Renderer) (a : List Attribute) (cs : List Node)
    (hcs : plainNodes x r.Unsafe cs = true) :
    (Render x r (.mk .Document a cs)).ret = .panic ∨
      (1 ≤ (Render x r (.mk .Document a cs)).r.count ∧
        declared (Render x r (.mk .Document a cs)).out =
          idsFrom 1 ((Render x r (.mk .Document a cs)).r.count - 1).toNat) := by
  have hpar : ParentOK (some (Node.mk .Document (SetAttributeString a "el" "mdDiv") cs)) := by
    intro q hq Q hQ
    cases hq
    simp only [Node.attrs, SetAttributeString] at hQ
    rw [AttributeString_SetAttribute] at hQ
    cases hQ
    exact Or.inl rfl
  have hw := walkChildren_counted x cs { r with count := 1 }
    (Node.mk .Document (SetAttributeString a "el" "mdDiv") cs) hcs hpar
  simp only [Render, walkHelper, dispatch, Node.payload, renderDocument, if_true, Node.setAttrs,
    Node.attrs]
  cases hwr : (walkChildren x { r with count := 1 }
      (Node.mk .Document (SetAttributeString a "el" "mdDiv") cs) cs).ret with
  | panic => left; rfl
  | stop e =>
    right
    rcases hw with hw | hw
    · rw [hwr] at hw; cases hw
    · simp only []
      refine ⟨hw.1, ?_⟩
      rw [declared_append, hw.2.1]
      rw [declared_docStr]
      rfl
  | ok =>
    right
    rcases hw with hw | hw
    · rw [hwr] at hw; cases hw
    · simp only [walkExit, dispatch, Node.payload, renderDocument, Bool.false_eq_true, if_false]
      refine ⟨hw.1, ?_⟩
      rw [declared_append, declared_append, hw.2.1, declared_docStr, declared_endDocStr]
      simp

theorem attachNow_r (r : Renderer) (par : Option Node) (node : Node) (out : List String)
    (elNam : String) (dbgText : String → String → String) :
    (attachNow r par node out elNam dbgText).r = r := by
  cases par with
  | none => simp [attachNow]
  | some pnode =>
    cases hp : AttributeString pnode.attrs "el" with
    | none => simp [attachNow, hp]
    | some parv => cases parv <;> simp [attachNow, hp]

theorem exitAttach_r (r : Renderer) (par : Option Node) (node : Node) (dbg : Bool)
    (status : WalkStatus) : (exitAttach r par node dbg status).r = r := by
  cases par with
  | none => simp [exitAttach]
  | some pnode =>
    cases hel : AttributeString node.attrs "el" with
    | none => simp [exitAttach, hel]
    | some elv =>
      cases hp : AttributeString pnode.attrs "el" with
      | none => simp [exitAttach, hel, hp]
      | some parv => cases elv <;> cases parv <;> simp [exitAttach, hel, hp]

theorem renderCodeSpan_count_le (r : Renderer) (par : Option Node) (node : Node)
    (entering : Bool) : r.count ≤ (renderCodeSpan r par node entering).r.count := by
  cases entering
  · simp [renderCodeSpan]
  · simp only [renderCodeSpan, if_true]
    cases codeSpanChildren r.dbg (elName (r.count + 1)) 0 node.children with
    | none => simp
    | some spans => simp only []; rw [attachNow_r]; simp

theorem renderLink_count_le (x : Ext) (r : Renderer) (par : Option Node) (node : Node)
    (entering : Bool) : r.count ≤ (renderLink x r par node entering).r.count := by
  obtain ⟨p, a, cs⟩ := node
  cases p <;> cases entering <;> simp [renderLink, attachNow_r]

theorem renderRawHTML_count_le (r : Renderer) (par : Option Node) (node : Node)
    (entering : Bool) : r.count ≤ (renderRawHTML r par node entering).r.count := by
  obtain ⟨p, a, cs⟩ := node
  cases entering
  · simp [renderRawHTML, exitAttach_r]
  · cases hu : r.Unsafe <;> cases p <;> simp [renderRawHTML, hu]

theorem renderString_count_le (r : Renderer) (par : Option Node) (node : Node)
    (entering : Bool) : r.count ≤ (renderString r par node entering).r.count := by
  obtain ⟨p, a, cs⟩ := node
  cases entering
  · simp [renderString, exitAttach_r]
  · cases p <;> simp [renderString]

theorem renderText_count_le (x : Ext) (r : Renderer) (par next : Option Node) (node : Node)
    (entering : Bool) : r.count ≤ (renderText x r par next node entering).r.count := by
  obtain ⟨p, a, cs⟩ := node
  cases entering
  · simp [renderText, exitAttach_r]
  · cases p <;> simp [renderText]

mutual
theorem renderTexts_count_le (x : Ext) : ∀ (n : Node) (r : Renderer),
    r.count ≤ (renderTexts x r n).1.count
  | .mk p a cs, r => by
    simp only [renderTexts]
    exact renderTextsLoop_count_le x (.mk p a cs) cs r
theorem renderTextsLoop_count_le (x : Ext) (pnode : Node) : ∀ (cs : List Node) (r : Renderer),
    r.count ≤ (renderTextsLoop x r pnode cs).1.count
  | [], r => by simp [renderTextsLoop]
  | .mk p a cs :: rest, r => by
    cases p
    case StringNode Value raw code =>
      simp only [renderTextsLoop]
      exact le_trans (renderString_count_le r (some pnode) _ true)
        (renderTextsLoop_count_le x pnode rest _)
    case Text value raw soft hard =>
      simp only [renderTextsLoop]
      exact le_trans (renderText_count_le x r (some pnode) _ _ true)
        (renderTextsLoop_count_le x pnode rest _)
    all_goals
      simp only [renderTextsLoop]
      exact le_trans (renderTexts_count_le x _ r) (renderTextsLoop_count_le x pnode rest _)
end

theorem flushIfText_count_le (s : Agg) (P : String) :
    s.r.count ≤ (s.flushIfText P).r.count := by
  by_cases hi : s.istate = 1 <;> simp [Agg.flushIfText, Agg.flush, hi]

theorem afterCall_count_le (s s1 s2 : Agg) (h : HResult) (h1 : s.r.count ≤ s1.r.count)
    (hh : s1.r.count ≤ h.r.count) (he : s1.afterCall h = some s2) :
    s.r.count ≤ s2.r.count := by
  by_cases hp : h.ret = .panic
  · simp [Agg.afterCall, hp] at he
  · simp only [Agg.afterCall, hp, if_false, Option.some.injEq] at he
    subst he
    exact le_trans h1 hh

/-- One turn of the loop of the aggregator does not lower the counter. -/
theorem aggStep_count_le (x : Ext) (pnode : Node) (P : String) (s s2 : Agg) (c : Node)
    (h : aggStep x pnode P s c = some s2) : s.r.count ≤ s2.r.count := by
  obtain ⟨cp, ca, cc⟩ := c
  cases cp
  case Text v raw soft hard =>
    simp only [aggStep] at h
    split_ifs at h <;> (cases h; simp)
  case Emphasis Level =>
    rcases cc with _ | ⟨⟨dp, da, dc⟩, rest⟩
    · simp [aggStep] at h
    · cases dp <;> simp only [aggStep] at h <;> try cases h
      by_cases hi : s.istate = 1 <;> simp [hi, Agg.flush] <;> omega
  case CodeSpan =>
    exact afterCall_count_le s _ s2 _ (flushIfText_count_le s P)
      (renderCodeSpan_count_le _ _ _ true) h
  case Link Destination Title =>
    exact afterCall_count_le s _ s2 _ (flushIfText_count_le s P)
      (renderLink_count_le x _ _ _ true) h
  case RawHTML segments =>
    exact afterCall_count_le s _ s2 _ (flushIfText_count_le s P)
      (renderRawHTML_count_le _ _ _ true) h
  case StringNode v raw code =>
    exact afterCall_count_le s _ s2 _ (flushIfText_count_le s P)
      (renderString_count_le _ _ _ true) h
  case Image d t => simp [aggStep] at h
  all_goals
    simp only [aggStep, Option.some.injEq] at h
    subst h
    simp

theorem aggLoop_count_le (x : Ext) (pnode : Node) (P : String) :
    ∀ (cs : List Node) (s s2 : Agg), aggLoop x pnode P s cs = some s2 →
      s.r.count ≤ s2.r.count := by
  intro cs
  induction cs with
  | nil =>
    intro s s2 h
    simp only [aggLoop, Option.some.injEq] at h
    subst h
    exact le_refl _
  | cons c rest ih =>
    intro s s2 h
    rw [aggLoop] at h
    cases hs : aggStep x pnode P s c with
    | none => rw [hs] at h; cases h
    | some s1 =>
      rw [hs] at h
      exact le_trans (aggStep_count_le x pnode P s s1 c hs) (ih s1 s2 h)

theorem renderTextChildren_count_le (x : Ext) (r : Renderer) (node : Node) (entering : Bool) :
    r.count ≤ (renderTextChildren x r node entering).r.count := by
  obtain ⟨p, attrs, children⟩ := node
  cases entering
  · simp [renderTextChildren]
  · cases hel : AttributeString attrs "el" with
    | none => simp [renderTextChildren, Node.attrs, hel]
    | some elv =>
      cases elv
      case str P =>
        by_cases hfast : ∃ v raw soft hard a ch, children = [.mk (.Text v raw soft hard) a ch]
        · obtain ⟨v, raw, soft, hard, a, ch, rfl⟩ := hfast
          simp [renderTextChildren, Node.attrs, Node.children, hel]
        · obtain ⟨g1, g2, g3⟩ := renderTextChildren_general x r p attrs children P hel hfast
          cases hl : aggLoop x (.mk p attrs children) P ⟨r, 0, none, aggDbgOut r P children, []⟩
              children with
          | none => rw [g1 hl]
          | some s =>
            have hle := aggLoop_count_le x (.mk p attrs children) P children _ s hl
            cases ht : s.text with
            | none => rw [g2 s hl ht]; exact hle
            | some t =>
              rw [g3 s t hl ht]
              simp only [Agg.flush]
              exact le_trans hle (by simp)
      all_goals simp [renderTextChildren, Node.attrs, hel]

/-- No handler call other than the entry of the document lowers the
counter. -/
theorem dispatch_count_le (x : Ext) (r : Renderer) (par next : Option Node) (node : Node)
    (entering : Bool) (hdoc : node.payload = .Document → entering = false) :
    r.count ≤ (dispatch x r par next node entering).r.count := by
  obtain ⟨p, a, cs⟩ := node
  cases p
  case Document =>
    have := hdoc rfl
    subst this
    simp [dispatch, Node.payload, renderDocument]
  case Paragraph =>
    cases entering
    · simp [dispatch, Node.payload, renderParagraph]
    · show r.count ≤ (renderParagraph x r par (.mk .Paragraph a cs) true).r.count
      simp only [renderParagraph, if_true]
      have := renderTextChildren_count_le x { r with count := r.count + 1 }
        ((Node.mk .Paragraph a cs).setAttrs
          (SetAttributeString (Node.mk .Paragraph a cs).attrs "el" (elName (r.count + 1)))) true
      simp only [] at this
      split_ifs
      · simp only []; omega
      · rw [attachNow_r]; omega
  case TextBlock =>
    cases entering
    · simp [dispatch, Node.payload, renderTextBlock]
    · show r.count ≤ (renderTextBlock x r par (.mk .TextBlock a cs) true).r.count
      simp only [renderTextBlock, if_true]
      cases par with
      | none => simp
      | some pnode =>
        simp only []
        cases hp : AttributeString pnode.attrs "el" with
        | none => simp
        | some parv =>
          simp only []
          split_ifs
          · exact renderTextChildren_count_le x r _ true
          · exact renderTextChildren_count_le x r _ true
  case CodeSpan => exact renderCodeSpan_count_le r par _ entering
  case Link d t => exact renderLink_count_le x r par _ entering
  case RawHTML s => exact renderRawHTML_count_le r par _ entering
  case StringNode v raw code => exact renderString_count_le r par _ entering
  case Text v raw soft hard => exact renderText_count_le x r par next _ entering
  case Image d t =>
    cases entering
    · simp [dispatch, Node.payload, renderImage, exitAttach_r]
    · show r.count ≤ (renderImage x r par (.mk (.Image d t) a cs) true).r.count
      simp only [renderImage, Bool.not_true, Bool.false_eq_true, if_false]
      exact le_trans (by simp) (renderTexts_count_le x _ _)
  case HTMLBlock l c =>
    cases entering
    · cases c <;> simp [dispatch, Node.payload, renderHTMLBlock, exitAttach_r]
    · show r.count ≤ (renderHTMLBlock r par (.mk (.HTMLBlock l c) a cs) true).r.count
      simp only [renderHTMLBlock, if_true]
      cases c <;> split_ifs <;> simp
  all_goals
    cases entering <;>
      simp [dispatch, Node.payload, renderHeading, renderBlockquote, renderList,
        renderListItem, renderThematicBreak, renderAutoLink, renderCodeBlock,
        renderFencedCodeBlock, renderEmphasis, exitAttach_r]

theorem hasSubstr_intro (pat pre u : List Char) : hasSubstr pat (pre ++ (pat ++ u)) = true := by
  simp only [hasSubstr, List.any_eq_true, List.mem_tails]
  exact ⟨pat ++ u, List.suffix_append _ _, List.isPrefixOf_iff_prefix.mpr (List.prefix_append _ _)⟩

theorem hasSubstr_of_suffix (pat t s : List Char) (hs : t <:+ s)
    (h : hasSubstr pat t = true) : hasSubstr pat s = true := by
  simp only [hasSubstr, List.any_eq_true, List.mem_tails] at h ⊢
  obtain ⟨u, hu, hp⟩ := h
  exact ⟨u, hu.trans hs, hp⟩

theorem isCreateTail_hasSubstr (t : List Char) (h : isCreateTail t = true) :
    (hasSubstr "document.createElement(".data t ||
      hasSubstr "document.createTextNode(".data t) = true := by
  simp only [isCreateTail, Bool.or_eq_true, List.isPrefixOf_iff_prefix] at h
  rcases h with ((⟨u, rfl⟩ | ⟨u, rfl⟩) | ⟨u, rfl⟩) | ⟨u, rfl⟩
  · rw [Bool.or_eq_true]; left
    exact hasSubstr_intro "document.createElement(".data ['='] u
  · rw [Bool.or_eq_true]; left
    exact hasSubstr_intro "document.createElement(".data ['=', ' '] u
  · rw [Bool.or_eq_true]; right
    exact hasSubstr_intro "document.createTextNode(".data ['='] u
  · rw [Bool.or_eq_true]; right
    exact hasSubstr_intro "document.createTextNode(".data ['=', ' '] u

theorem declaredAfterKw_isCreation (pre rest : List Char) (s : String)
    (hs : s.data = pre ++ rest) (h : (declaredAfterKw rest).isSome = true) :
    isCreationStmt s = true := by
  rcases rest with _ | ⟨c1, _ | ⟨c2, rest2⟩⟩
  · simp [declaredAfterKw] at h
  · simp [declaredAfterKw] at h
  · by_cases hc : c1 = 'e' ∧ c2 = 'l'
    · obtain ⟨rfl, rfl⟩ := hc
      simp only [declaredAfterKw] at h
      split_ifs at h with hq
      · simp only [Bool.and_eq_true] at hq
        have h1 := isCreateTail_hasSubstr _ hq.2
        have hsuf : rest2.dropWhile isCounterChar <:+ s.data := by
          rw [hs]
          refine (List.dropWhile_suffix _).trans ?_
          exact ⟨pre ++ ['e', 'l'], by simp⟩
        simp only [isCreationStmt, Bool.or_eq_true] at h1 ⊢
        rcases h1 with h1 | h1
        · exact Or.inl (hasSubstr_of_suffix _ _ _ hsuf h1)
        · exact Or.inr (hasSubstr_of_suffix _ _ _ hsuf h1)
      · simp at h
    · exfalso
      have : declaredAfterKw (c1 :: c2 :: rest2) = none := by
        unfold declaredAfterKw
        split
        · rename_i heq
          simp only [List.cons.injEq] at heq
          exact absurd ⟨heq.1, heq.2.1⟩ hc
        · rfl
      rw [this] at h
      simp at h

/-- A write that declares a counter identifier is a creation statement. -/
theorem declaredId_isCreation (s : String) (h : (declaredId s).isSome = true) :
    isCreationStmt s = true := by
  unfold declaredId at h
  split at h
  · rename_i rest heq
    exact declaredAfterKw_isCreation ['l', 'e', 't', ' '] rest s (by simpa using heq) h
  · rename_i rest heq
    exact declaredAfterKw_isCreation ['c', 'o', 'n', 's', 't', ' '] rest s (by simpa using heq) h
  · simp at h

theorem idsFrom_length (a : Int) (n : Nat) : (idsFrom a n).length = n := by
  simp [idsFrom]

theorem idsFrom_nodup (a : Int) (n : Nat) : (idsFrom a n).Nodup := by
  unfold idsFrom
  refine (List.nodup_range n).map ?_
  intro i j hij
  have := elName_injective hij
  simpa using this

theorem idsFrom_get (a : Int) (n i : Nat) (h : i < n) :
    (idsFrom a n)[i]? = some ("el" ++ fmtD (a + 1 + (i : Int))) := by
  simp [idsFrom, List.getElem?_map, List.getElem?_range h, elName]


/-! ### Attachment statements -/

theorem attachOf_of_head (s : String)
    (h : ∀ c, s.data.head? = some c → c ≠ 'm' ∧ c ≠ 'e') : attachOf s = none := by
  have hP : isParentName (s.data.takeWhile (fun c => c != '.')) = false := by
    rcases hs : s.data with _ | ⟨c, rest⟩
    · simp [isParentName]
    · obtain ⟨h1, h2⟩ := h c (by simp [hs])
      rw [List.takeWhile_cons]
      split_ifs
      · simp only [isParentName, Bool.or_eq_false_iff]
        refine ⟨?_, ?_⟩
        · simp [h1]
        · split
          · rename_i heq
            simp only [List.cons.injEq] at heq
            exact absurd heq.1 h2
          · rfl
      · simp [isParentName]
  simp [attachOf, hP]

theorem attachOf_let (t : String) : attachOf ("let " ++ t) = none :=
  attachOf_of_head _ (by simp [String.data_append])

theorem attachOf_const (t : String) : attachOf ("const " ++ t) = none :=
  attachOf_of_head _ (by simp [String.data_append])

theorem attachOf_comment (t : String) : attachOf ("//" ++ t) = none :=
  attachOf_of_head _ (by simp [String.data_append])

theorem attachOf_object (t : String) : attachOf ("Object.assign(" ++ t) = none :=
  attachOf_of_head _ (by simp [String.data_append])

theorem elName_no_dot (k : Int) : ∀ c ∈ (elName k).data, (c != '.') = true := by
  intro c hc
  rw [elName_data] at hc
  simp only [List.mem_cons] at hc
  rcases hc with rfl | rfl | hc
  · decide
  · decide
  · have := isCounterChar_fmtD k c hc
    simp only [isCounterChar, Bool.or_eq_true, beq_iff_eq] at this
    rcases this with h | h
    · simp only [bne_iff_ne, ne_eq]
      rintro rfl
      simp [Char.isDigit] at h
    · subst h; decide

theorem isParentName_elName (k : Int) : isParentName (elName k).data = true := by
  rw [elName_data]
  simp only [isParentName, Bool.or_eq_true]
  right
  simp only [Bool.and_eq_true, Bool.not_eq_true', List.isEmpty_eq_false, ne_eq,
    List.all_eq_true]
  exact ⟨fmtD_data_ne_nil k, isCounterChar_fmtD k⟩

theorem goodName_no_dot (P : String) (hP : GoodName P) : ∀ c ∈ P.data, (c != '.') = true := by
  rcases hP with rfl | ⟨k, rfl⟩
  · decide
  · exact elName_no_dot k

theorem isParentName_goodName (P : String) (hP : GoodName P) : isParentName P.data = true := by
  rcases hP with rfl | ⟨k, rfl⟩
  · decide
  · exact isParentName_elName k

theorem takeWhile_append_stop {α : Type} (p : α → Bool) (a b : List α)
    (ha : ∀ c ∈ a, p c = true) (hb : ∀ c ∈ b.head?, p c = false) :
    (a ++ b).takeWhile p = a ∧ (a ++ b).dropWhile p = b := by
  induction a with
  | nil =>
    rcases b with _ | ⟨c, rest⟩
    · simp
    · have := hb c (by simp)
      simp [List.takeWhile_cons, List.dropWhile_cons, this]
  | cons c rest ih =>
    have hc := ha c (by simp)
    have := ih (fun d hd => ha d (by simp [hd]))
    simp [List.takeWhile_cons, List.dropWhile_cons, hc, this]

/-- After the name of a parent element and a dot, what follows decides
whether the write is an attachment statement. -/
theorem attachOf_goodName (P t : String) (hP : GoodName P) (ht : t.data.head? = some '.') :
    attachOf (P ++ t) =
      if ".appendChild(".data.isPrefixOf t.data && "\n;)".data.isPrefixOf t.data.reverse then
        some (P, String.mk ((t.data.drop 13).reverse.drop 3).reverse)
      else none := by
  obtain ⟨h1, h2⟩ := takeWhile_append_stop (fun c => c != '.') P.data t.data
    (goodName_no_dot P hP) (by rw [ht]; simp)
  simp only [attachOf, String.data_append, h1, h2, isParentName_goodName P hP, Bool.true_and]

theorem attachOf_appendStmt (P E : String) (hP : GoodName P) :
    attachOf (P ++ (".appendChild(" ++ (E ++ ");\n"))) = some (P, E) := by
  rw [attachOf_goodName P _ hP (by simp [String.data_append])]
  have e1 : (".appendChild(" ++ (E ++ ");\n")).data = ".appendChild(".data ++ (E.data ++ ");\n".data) := by
    simp [String.data_append]
  have e2 : (".appendChild(".data ++ (E.data ++ ");\n".data)).drop 13 = E.data ++ ");\n".data := by
    rw [List.drop_append_of_le_length (by decide)]
    rfl
  have e3 : (".appendChild(".data ++ (E.data ++ ");\n".data)).reverse =
      "\n;)".data ++ (E.data.reverse ++ ".appendChild(".data.reverse) := by
    simp only [List.reverse_append]
    rfl
  have e4 : (E.data ++ ");\n".data).reverse = "\n;)".data ++ E.data.reverse := by
    simp only [List.reverse_append]
    rfl
  rw [e1, e2, e3, e4]
  have p1 : ".appendChild(".data.isPrefixOf (".appendChild(".data ++ (E.data ++ ");\n".data)) = true :=
    List.isPrefixOf_iff_prefix.mpr (List.prefix_append _ _)
  have p2 : "\n;)".data.isPrefixOf ("\n;)".data ++ (E.data.reverse ++ ".appendChild(".data.reverse))
      = true := List.isPrefixOf_iff_prefix.mpr (List.prefix_append _ _)
  rw [p1, p2]
  simp only [Bool.and_self, if_true, Option.some.injEq, Prod.mk.injEq, true_and]
  have e5 : ("\n;)".data ++ E.data.reverse).drop 3 = E.data.reverse := by
    rw [List.drop_append_of_le_length (by decide)]
    rfl
  rw [e5, List.reverse_reverse]

/-- After the name of a parent element, a dot and something other than
`appendChild(` make no attachment statement. -/
theorem attachOf_goodName_other (P t : String) (hP : GoodName P)
    (ht : t.data.head? = some '.') (hno : ".appendChild(".data.isPrefixOf t.data = false) :
    attachOf (P ++ t) = none := by
  rw [attachOf_goodName P t hP ht, hno]
  simp

theorem attachedIds_append (a b : List String) :
    attachedIds (a ++ b) = attachedIds a ++ attachedIds b := by
  simp [attachedIds, List.filterMap_append]

theorem attachedIds_cons (s : String) (b : List String) :
    attachedIds (s :: b) = ((attachOf s).map Prod.snd).toList ++ attachedIds b := by
  cases h : attachOf s <;> simp [attachedIds, List.filterMap_cons, h]

theorem attachedIds_nil : attachedIds [] = [] := rfl

theorem attachedIds_eq_nil (out : List String) (h : ∀ s ∈ out, attachOf s = none) :
    attachedIds out = [] := by
  rw [attachedIds, List.filterMap_eq_nil_iff]
  intro s hs
  simp [h s hs]

theorem elKey_elName_append (k : Int) (t : String)
    (ht : ∀ c ∈ t.data.head?, (c == 'e' || c == 'l' || isCounterChar c) = false) :
    elKey (elName k ++ t) = elName k := by
  have hall : ∀ c ∈ (elName k).data, (c == 'e' || c == 'l' || isCounterChar c) = true := by
    intro c hc
    rw [elName_data] at hc
    simp only [List.mem_cons] at hc
    rcases hc with rfl | rfl | hc
    · decide
    · decide
    · simp [isCounterChar_fmtD k c hc]
  obtain ⟨h1, _⟩ := takeWhile_append_stop (fun c => c == 'e' || c == 'l' || isCounterChar c)
    (elName k).data t.data hall ht
  simp only [elKey, String.data_append, h1]

theorem elKey_elName (k : Int) : elKey (elName k) = elName k := by
  have := elKey_elName_append k "" (by simp)
  simpa using this

theorem Att_of_nil (lo hi : Int) (out : List String) (h : attachedIds out = []) :
    Att lo hi out := by
  simp [Att, h]

theorem Att_nil (lo hi : Int) : Att lo hi [] := Att_of_nil lo hi [] rfl

theorem Att_mono (lo hi lo2 hi2 : Int) (out : List String) (h : Att lo hi out)
    (h1 : lo2 ≤ lo) (h2 : hi ≤ hi2) : Att lo2 hi2 out := by
  refine ⟨h.1, fun E hE => ?_⟩
  obtain ⟨k, k1, k2, k3⟩ := h.2 E hE
  exact ⟨k, by omega, by omega, k3⟩

theorem Att_append (a b c : Int) (o1 o2 : List String) (h1 : Att a b o1) (h2 : Att b c o2)
    (hab : a ≤ b) (hbc : b ≤ c) : Att a c (o1 ++ o2) := by
  refine ⟨?_, ?_⟩
  · rw [attachedIds_append, List.nodup_append]
    refine ⟨h1.1, h2.1, ?_⟩
    intro E hE1 hE2
    obtain ⟨k, _, k2, k3⟩ := h1.2 E hE1
    obtain ⟨j, j1, _, j3⟩ := h2.2 E hE2
    have := elName_injective (k3.symm.trans j3)
    omega
  · intro E hE
    rw [attachedIds_append, List.mem_append] at hE
    rcases hE with hE | hE
    · obtain ⟨k, k1, k2, k3⟩ := h1.2 E hE
      exact ⟨k, k1, by omega, k3⟩
    · obtain ⟨k, k1, k2, k3⟩ := h2.2 E hE
      exact ⟨k, by omega, k2, k3⟩

theorem Att_same (lo hi : Int) (o1 o2 : List String) (h1 : Att lo hi o1)
    (h2 : attachedIds o2 = []) : Att lo hi (o1 ++ o2) := by
  unfold Att
  rw [attachedIds_append, h2, List.append_nil]
  exact h1

theorem Att_same_left (lo hi : Int) (o1 o2 : List String) (h1 : attachedIds o1 = [])
    (h2 : Att lo hi o2) : Att lo hi (o1 ++ o2) := by
  unfold Att
  rw [attachedIds_append, h1, List.nil_append]
  exact h2

/-- The writes whose only attachment statement appends the identifier of the
counter value `k`. -/
theorem Att_single (lo hi k : Int) (out : List String) (h : attachedIds out = [elName k])
    (h1 : lo < k) (h2 : k ≤ hi) : Att lo hi out := by
  unfold Att
  rw [h]
  refine ⟨List.nodup_singleton _, ?_⟩
  intro E hE
  rw [List.mem_singleton] at hE
  subst hE
  exact ⟨k, h1, h2, elKey_elName k⟩

/-- The writes of an element followed by the statement that attaches the
element, whose identifier is older than those attached in the writes. -/
theorem Att_snoc (lo hi : Int) (o1 o2 : List String) (h1 : Att (lo + 1) hi o1)
    (h2 : attachedIds o2 = [elName (lo + 1)] ∨ attachedIds o2 = []) (hle : lo + 1 ≤ hi) :
    Att lo hi (o1 ++ o2) := by
  rcases h2 with h2 | h2
  · refine ⟨?_, ?_⟩
    · rw [attachedIds_append, h2, List.nodup_append]
      refine ⟨h1.1, List.nodup_singleton _, ?_⟩
      intro E hE1 hE2
      rw [List.mem_singleton] at hE2
      subst hE2
      obtain ⟨k, k1, _, k3⟩ := h1.2 _ hE1
      rw [elKey_elName] at k3
      have := elName_injective k3
      omega
    · intro E hE
      rw [attachedIds_append, h2, List.mem_append, List.mem_singleton] at hE
      rcases hE with hE | rfl
      · obtain ⟨k, k1, k2, k3⟩ := h1.2 E hE
        exact ⟨k, by omega, k2, k3⟩
      · exact ⟨lo + 1, by omega, hle, elKey_elName _⟩
  · exact Att_same lo hi o1 o2 (Att_mono _ _ _ _ _ h1 (by omega) (le_refl _)) h2

/-- An attachment statement occurs among the writes at most as often as the
identifier it appends occurs among the identifiers appended. -/
theorem count_appendStmt_le (P E : String) (hP : GoodName P) (out : List String) :
    out.count (appendStmt P E) ≤ (attachedIds out).count E := by
  induction out with
  | nil => simp
  | cons s rest ih =>
    rw [attachedIds_cons, List.count_append, List.count_cons]
    by_cases hs : s = appendStmt P E
    · subst hs
      have : attachOf (appendStmt P E) = some (P, E) := by
        have := attachOf_appendStmt P E hP
        simpa [appendStmt, String.append_assoc] using this
      simp [this]
      omega
    · have : (s == appendStmt P E) = false := by simpa using hs
      simp only [this, Bool.false_eq_true, if_false, add_zero]
      omega

/-- Among writes that append pairwise different identifiers, an attachment
statement occurs at most once. -/
theorem count_appendStmt_le_one (P E : String) (hP : GoodName P) (out : List String)
    (h : (attachedIds out).Nodup) : out.count (appendStmt P E) ≤ 1 :=
  le_trans (count_appendStmt_le P E hP out) (List.nodup_iff_count_le_one.mp h E)

theorem attachOf_elName_other (k : Int) (t : String)
    (ht : t.data.head? = some '.') (hno : ".appendChild(".data.isPrefixOf t.data = false) :
    attachOf (elName k ++ t) = none :=
  attachOf_goodName_other (elName k) t (Or.inr ⟨k, rfl⟩) ht hno

theorem attachOf_elName_append (k : Int) (E : String) :
    attachOf (elName k ++ (".appendChild(" ++ (E ++ ");\n"))) = some (elName k, E) :=
  attachOf_appendStmt (elName k) E (Or.inr ⟨k, rfl⟩)

theorem attachOf_attrStmt (k : Int) (a : Attribute) : attachOf (attrStmt (elName k) a) = none := by
  have e : attrStmt (elName k) a =
      elName k ++ ("." ++ (a.Name ++ ("='" ++ (attrValueText a.Value ++ "';\n")))) := by
    simp [attrStmt, String.append_assoc]
  rw [e, attachOf_goodName (elName k) _ (Or.inr ⟨k, rfl⟩) (by simp [String.data_append])]
  have hr : ("." ++ (a.Name ++ ("='" ++ (attrValueText a.Value ++ "';\n")))).data.reverse =
      '\n' :: ';' :: '\'' ::
        ((attrValueText a.Value).data.reverse ++ ("='".data.reverse ++
          (a.Name.data.reverse ++ ".".data.reverse))) := by
    simp only [String.data_append, List.reverse_append, List.append_assoc]
    rfl
  rw [hr]
  simp

theorem attachedIds_RenderElAttributes (attrs : List Attribute) (filter : Option BytesFilter)
    (k : Int) : attachedIds (RenderElAttributes attrs filter (elName k)) = [] := by
  apply attachedIds_eq_nil
  intro s hs
  obtain ⟨a, _, _, rfl⟩ := (mem_RenderElAttributes attrs filter (elName k) s).mp hs
  exact attachOf_attrStmt k a

theorem exitAttach_ids (r : Renderer) (par : Option Node) (node : Node) (dbg : Bool)
    (status : WalkStatus) (hpar : ParentOK par) :
    attachedIds (exitAttach r par node dbg status).out = [] ∨
      ∃ E, AttributeString node.attrs "el" = some (.str E) ∧
        attachedIds (exitAttach r par node dbg status).out = [E] := by
  cases par with
  | none => left; simp [exitAttach, attachedIds_nil]
  | some pnode =>
    cases hel : AttributeString node.attrs "el" with
    | none => left; simp [exitAttach, hel, attachedIds_nil]
    | some elv =>
      cases hp : AttributeString pnode.attrs "el" with
      | none => left; simp [exitAttach, hel, hp, attachedIds_nil]
      | some parv =>
        cases elv <;> cases parv <;> try (left; simp [exitAttach, hel, hp, attachedIds_nil]; done)
        rename_i elNam parElNam
        right
        have hg := hpar pnode rfl parElNam hp
        refine ⟨elNam, rfl, ?_⟩
        cases dbg <;>
          simp [exitAttach, hel, hp, attachedIds_cons, attachedIds_nil, attachedIds_append,
            dbgLine, appendStmt, String.append_assoc, attachOf_appendStmt _ _ hg,
            attachOf_of_head, String.data_append]

theorem attachNow_ids (r : Renderer) (par : Option Node) (node : Node) (out : List String)
    (elNam : String) (dbgText : String → String → String) (hpar : ParentOK par)
    (hdbg : ∀ a b, attachOf (dbgText a b) = none) :
    attachedIds (attachNow r par node out elNam dbgText).out = attachedIds out ++ [elNam] ∨
      attachedIds (attachNow r par node out elNam dbgText).out = attachedIds out ∨
      attachedIds (attachNow r par node out elNam dbgText).out = [] := by
  cases par with
  | none => right; left; simp [attachNow]
  | some pnode =>
    cases hp : AttributeString pnode.attrs "el" with
    | none => right; left; simp [attachNow, hp]
    | some parv =>
      cases parv
      case str parElNam =>
        left
        have hg := hpar pnode rfl parElNam hp
        cases hd : r.dbg <;>
          simp [attachNow, hp, hd, attachedIds_cons, attachedIds_nil, attachedIds_append,
            appendStmt, String.append_assoc, attachOf_appendStmt _ _ hg, hdbg]
      all_goals (right; right; simp [attachNow, hp, attachedIds_nil])

theorem renderHeading_ids (r : Renderer) (par : Option Node) (node : Node) :
    attachedIds (renderHeading r par node true).out = [] := by
  obtain ⟨p, a, cs⟩ := node
  cases p <;>
    simp [renderHeading, attachedIds_cons, attachedIds_nil, attachedIds_append,
      attachedIds_RenderElAttributes, String.append_assoc, attachOf_let, attachOf_object]

theorem renderBlockquote_ids (r : Renderer) (par : Option Node) (node : Node) :
    attachedIds (renderBlockquote r par node true).out = [] := by
  simp [renderBlockquote, attachedIds_cons, attachedIds_nil, attachedIds_append,
    attachedIds_RenderElAttributes, String.append_assoc, attachOf_let, attachOf_object]

theorem renderListItem_ids (r : Renderer) (par : Option Node) (node : Node) :
    attachedIds (renderListItem r par node true).out = [] := by
  simp [renderListItem, attachedIds_cons, attachedIds_nil, attachedIds_append,
    attachedIds_RenderElAttributes, String.append_assoc, attachOf_let, attachOf_object]

theorem renderThematicBreak_ids (r : Renderer) (par : Option Node) (node : Node) :
    attachedIds (renderThematicBreak r par node true).out = [] := by
  simp [renderThematicBreak, attachedIds_cons, attachedIds_nil, attachedIds_append,
    attachedIds_RenderElAttributes, String.append_assoc, attachOf_let, attachOf_object]

theorem renderList_ids (r : Renderer) (par : Option Node) (node : Node) :
    attachedIds (renderList r par node true).out = [] := by
  obtain ⟨p, a, cs⟩ := node
  cases p
  case ListNode Marker Start =>
    cases ho : IsOrdered Marker <;> by_cases hs : Start = 1 <;>
      simp [renderList, attachedIds_cons, attachedIds_nil, attachedIds_append,
        attachedIds_RenderElAttributes, String.append_assoc, attachOf_let, attachOf_object,
        ho, hs, attachOf_elName_other, String.data_append, List.isPrefixOf]
  all_goals simp [renderList, attachedIds_nil]

theorem renderCodeBlock_ids (r : Renderer) (par : Option Node) (node : Node) :
    attachedIds (renderCodeBlock r par node true).out = [] ∨
      attachedIds (renderCodeBlock r par node true).out =
        [elName (r.count + 3), elName (r.count + 2)] := by
  obtain ⟨p, a, cs⟩ := node
  cases p
  case CodeBlock lines =>
    right
    simp [renderCodeBlock, attachedIds_cons, attachedIds_nil, attachedIds_append,
      String.append_assoc, attachOf_let, attachOf_const, attachOf_elName_append,
      attachOf_of_head, String.data_append]
  all_goals (left; simp [renderCodeBlock, attachedIds_nil])

theorem renderFencedCodeBlock_ids (r : Renderer) (par : Option Node) (node : Node) :
    attachedIds (renderFencedCodeBlock r par node true).out = [] ∨
      attachedIds (renderFencedCodeBlock r par node true).out =
        [elName (r.count + 3), elName (r.count + 2)] := by
  obtain ⟨p, a, cs⟩ := node
  cases p
  case FencedCodeBlock language lines =>
    right
    cases language <;>
      simp [renderFencedCodeBlock, attachedIds_cons, attachedIds_nil, attachedIds_append,
        String.append_assoc, attachOf_let, attachOf_const, attachOf_elName_append,
        attachOf_elName_other, String.data_append, List.isPrefixOf, attachOf_of_head]
  all_goals (left; simp [renderFencedCodeBlock, attachedIds_nil])

theorem attachOf_mailto : attachOf "mailto:" = none := by decide

theorem renderAutoLink_ids (x : Ext) (r : Renderer) (par : Option Node) (node : Node)
    (hq : quietPayload x r.Unsafe node.payload = true) :
    attachedIds (renderAutoLink x r par node true).out = [] := by
  obtain ⟨p, a, cs⟩ := node
  cases p
  case AutoLink typ url =>
    have hurl : attachOf (x.escapeURL url false) = none := by
      simpa [quietPayload, Node.payload] using hq
    simp only [renderAutoLink, Bool.not_true, Bool.false_eq_true, if_false]
    split_ifs <;>
      simp [attachedIds_cons, attachedIds_nil, attachedIds_append,
        attachedIds_RenderElAttributes, String.append_assoc, attachOf_let, hurl,
        attachOf_elName_other, String.data_append, List.isPrefixOf, attachOf_of_head,
        attachOf_mailto]
  all_goals simp [renderAutoLink, attachedIds_nil]

theorem renderEmphasis_ids (r : Renderer) (par : Option Node) (node : Node) :
    attachedIds (renderEmphasis r par node true).out = [] := by
  obtain ⟨p, a, cs⟩ := node
  cases p
  case Emphasis Level =>
    rcases cs with _ | ⟨⟨cp, ca, cc⟩, rest⟩
    · simp [renderEmphasis, attachedIds_cons, attachedIds_nil, attachedIds_append,
        attachedIds_RenderElAttributes, String.append_assoc, attachOf_let]
    · cases cp <;>
        simp [renderEmphasis, attachedIds_cons, attachedIds_nil, attachedIds_append,
          attachedIds_RenderElAttributes, String.append_assoc, attachOf_let,
          attachOf_elName_other, String.data_append, List.isPrefixOf]
  all_goals simp [renderEmphasis, attachedIds_nil]

theorem renderText_ids (x : Ext) (r : Renderer) (par next : Option Node) (node : Node) :
    attachedIds (renderText x r par next node true).out = [] := by
  obtain ⟨p, a, cs⟩ := node
  cases p <;>
    simp [renderText, attachedIds_cons, attachedIds_nil, String.append_assoc, attachOf_const]

theorem renderString_ids (r : Renderer) (par : Option Node) (node : Node) :
    attachedIds (renderString r par node true).out = [] := by
  obtain ⟨p, a, cs⟩ := node
  cases p <;>
    simp [renderString, attachedIds_cons, attachedIds_nil, String.append_assoc, attachOf_const,
      attachOf_let]

theorem renderRawHTML_ids (x : Ext) (r : Renderer) (par : Option Node) (node : Node)
    (hq : quietPayload x r.Unsafe node.payload = true) :
    attachedIds (renderRawHTML r par node true).out = [] := by
  obtain ⟨p, a, cs⟩ := node
  cases hu : r.Unsafe
  · simp [renderRawHTML, hu, attachedIds_cons, attachedIds_nil, String.append_assoc,
      attachOf_let, attachOf_of_head]
  · cases p
    case RawHTML segments =>
      have hs : attachedIds segments = [] := by
        apply attachedIds_eq_nil
        intro s hs
        simp only [quietPayload, Node.payload, hu, Bool.not_true, Bool.false_or,
          List.all_eq_true] at hq
        simpa using hq s hs
      simp [renderRawHTML, hu, attachedIds_cons, attachedIds_nil, attachedIds_append, hs,
        String.append_assoc, attachOf_let, attachOf_of_head, attachOf_elName_other,
        String.data_append, List.isPrefixOf]
    all_goals simp [renderRawHTML, hu, attachedIds_nil]

theorem renderHTMLBlock_ids (r : Renderer) (par : Option Node) (node : Node) :
    attachedIds (renderHTMLBlock r par node true).out = [] := by
  obtain ⟨p, a, cs⟩ := node
  cases p
  case HTMLBlock lines closure =>
    cases hu : r.Unsafe <;> cases closure <;>
      simp [renderHTMLBlock, hu, attachedIds_cons, attachedIds_nil, String.append_assoc,
        attachOf_let, attachOf_of_head, attachOf_elName_other, String.data_append,
        List.isPrefixOf]
  all_goals simp [renderHTMLBlock, attachedIds_nil]

theorem renderTexts_ids (x : Ext) (r : Renderer) (n : Node) :
    attachedIds (renderTexts x r n).2.2 = [] := by
  apply attachedIds_eq_nil
  intro s hs
  apply attachOf_of_head
  intro c hc
  rcases renderTexts_head x n r s hs with h | h
  · rw [h] at hc; cases hc; decide
  · rw [h] at hc; cases hc; decide

theorem renderImage_ids (x : Ext) (r : Renderer) (par : Option Node) (node : Node) :
    attachedIds (renderImage x r par node true).out = [] := by
  obtain ⟨p, a, cs⟩ := node
  cases p
  case Image d t =>
    cases t <;> by_cases h : (r.Unsafe = true ∨ IsDangerousURL x.caseTable d = false) <;>
      simp [renderImage, h, attachedIds_cons, attachedIds_nil, attachedIds_append,
        attachedIds_RenderElAttributes, renderTexts_ids, String.append_assoc, attachOf_let,
        attachOf_of_head, attachOf_elName_other, String.data_append, List.isPrefixOf]
  all_goals simp [renderImage, attachedIds_nil]

theorem renderDocument_ids (r : Renderer) (node : Node) (entering : Bool) :
    attachedIds (renderDocument r node entering).out = [] := by
  cases entering
  · simp only [renderDocument, Bool.false_eq_true, if_false]
    rfl
  · simp only [renderDocument, if_true]
    rfl

theorem fmtD_injective : Function.Injective fmtD := by
  intro a b h
  apply elName_injective
  simp only [elName, h]

theorem Att_of_ids (lo hi : Int) (out o1 : List String) (h : attachedIds out = attachedIds o1)
    (h1 : Att lo hi o1) : Att lo hi out := by
  unfold Att at h1 ⊢
  rw [h]
  exact h1

theorem Att_ids_snoc (lo hi : Int) (out o1 : List String) (h1 : Att (lo + 1) hi o1)
    (h : attachedIds out = attachedIds o1 ++ [elName (lo + 1)] ∨
      attachedIds out = attachedIds o1 ∨ attachedIds out = [])
    (hle : lo + 1 ≤ hi) : Att lo hi out := by
  rcases h with h | h | h
  · have h2 : attachedIds [appendStmt "mdDiv" (elName (lo + 1))] = [elName (lo + 1)] := by
      have := attachOf_appendStmt "mdDiv" (elName (lo + 1)) (Or.inl rfl)
      simp only [attachedIds_cons, attachedIds_nil, appendStmt, String.append_assoc, this]
      rfl
    refine Att_of_ids lo hi out (o1 ++ [appendStmt "mdDiv" (elName (lo + 1))]) ?_
      (Att_snoc lo hi o1 _ h1 (Or.inl h2) hle)
    rw [h, attachedIds_append, h2]
  · exact Att_of_ids lo hi out o1 h (Att_mono _ _ _ _ _ h1 (by omega) (le_refl _))
  · exact Att_of_nil lo hi out h

/-- The identifiers that the writes for the children of a code span append:
pairwise different names `el<k>Span<m>` with `m` above `n`. -/
theorem codeSpanChildren_ids (dbg : Bool) (k : Int) :
    ∀ (cs : List Node) (n : Nat) (spans : List String),
      codeSpanChildren dbg (elName k) n cs = some spans →
      (attachedIds spans).Nodup ∧
        ∀ E ∈ attachedIds spans, ∃ m : Nat, n < m ∧ E = elName k ++ ("Span" ++ fmtD (m : Int)) := by
  intro cs
  induction cs with
  | nil =>
    intro n spans h
    simp [codeSpanChildren] at h
    subst h
    simp [attachedIds_nil]
  | cons c rest ih =>
    intro n spans h
    obtain ⟨cp, ca, cc⟩ := c
    cases cp
    case Text v raw soft hard =>
      simp only [codeSpanChildren, Option.map_eq_some'] at h
      obtain ⟨more, hm, rfl⟩ := h
      obtain ⟨ih1, ih2⟩ := ih (n + 1) more hm
      have hst : attachOf (elName k ++ ".appendChild(" ++
          (elName k ++ "Span" ++ fmtD ((n + 1 : Nat) : Int)) ++ ");\n") =
          some (elName k, elName k ++ ("Span" ++ fmtD ((n + 1 : Nat) : Int))) := by
        have := attachOf_elName_append k (elName k ++ ("Span" ++ fmtD ((n + 1 : Nat) : Int)))
        simpa [String.append_assoc] using this
      have hids : attachedIds
          ((if dbg then
              ["//dbg -- child[" ++ fmtD (v.utf8ByteSize : Nat) ++ "]: " ++ v ++ "\n"]
            else []) ++
            ["const " ++ (elName k ++ "Span" ++ fmtD ((n + 1 : Nat) : Int)) ++
                "=document.createTextNode('" ++ codeSpanText v ++ "');\n",
              elName k ++ ".appendChild(" ++
                (elName k ++ "Span" ++ fmtD ((n + 1 : Nat) : Int)) ++ ");\n"] ++ more) =
          (elName k ++ ("Span" ++ fmtD ((n + 1 : Nat) : Int))) :: attachedIds more := by
        rw [attachedIds_append, attachedIds_append, attachedIds_cons, attachedIds_cons,
          attachedIds_nil, hst]
        cases dbg <;>
          simp [attachedIds_cons, attachedIds_nil, attachOf_of_head, String.data_append,
            String.append_assoc]
      rw [hids]
      refine ⟨?_, ?_⟩
      · rw [List.nodup_cons]
        refine ⟨?_, ih1⟩
        intro hmem
        obtain ⟨m, hm1, hm2⟩ := ih2 _ hmem
        have h1 := congrArg String.data hm2
        simp only [String.data_append, List.append_cancel_left_eq] at h1
        have h2 : fmtD ((n + 1 : Nat) : Int) = fmtD (m : Int) := String.ext h1
        have := fmtD_injective h2
        omega
      · intro E hE
        rw [List.mem_cons] at hE
        rcases hE with rfl | hE
        · exact ⟨n + 1, by omega, rfl⟩
        · obtain ⟨m, hm1, hm2⟩ := ih2 E hE
          exact ⟨m, by omega, hm2⟩
    all_goals simp [codeSpanChildren] at h

theorem elName_ne_span (k : Int) (t : String) : elName k ≠ elName k ++ ("Span" ++ t) := by
  intro h
  have h1 := congrArg String.data h
  simp only [String.data_append] at h1
  simp at h1

/-- The entry phase of `renderCodeSpan` appends the text nodes to the code
span and the code span to its parent, each once. -/
theorem renderCodeSpan_att (r : Renderer) (par : Option Node) (node : Node)
    (hpar : ParentOK par) :
    Att r.count (r.count + 1) (renderCodeSpan r par node true).out := by
  cases hsp : codeSpanChildren r.dbg (elName (r.count + 1)) 0 node.children with
  | none => simp [renderCodeSpan, hsp, Att_nil]
  | some spans =>
    obtain ⟨s1, s2⟩ := codeSpanChildren_ids r.dbg (r.count + 1) node.children 0 spans hsp
    simp only [renderCodeSpan, if_true, hsp]
    have hpre : attachedIds
        (["let " ++ elName (r.count + 1) ++ "=document.createElement(\"code\");\n"] ++
          RenderElAttributes (SetAttributeString node.attrs "el" (elName (r.count + 1)))
            (some CodeAttributeFilter) (elName (r.count + 1)) ++
          (if r.dbg then
            ["//dbg -- codespan: children " ++ fmtD (node.children.length : Nat) ++ "\n"]
          else []) ++ spans) = attachedIds spans := by
      cases r.dbg <;>
        simp [attachedIds_cons, attachedIds_nil, attachedIds_append,
          attachedIds_RenderElAttributes, String.append_assoc, attachOf_let,
          attachOf_of_head, String.data_append]
    have hkey : ∀ E ∈ attachedIds spans, elKey E = elName (r.count + 1) := by
      intro E hE
      obtain ⟨m, _, rfl⟩ := s2 E hE
      exact elKey_elName_append _ _ (by simp [String.data_append, isCounterChar_S])
    have hrange : ∀ E ∈ attachedIds spans ++ [elName (r.count + 1)],
        ∃ k : Int, r.count < k ∧ k ≤ r.count + 1 ∧ elKey E = elName k := by
      intro E hE
      rw [List.mem_append, List.mem_singleton] at hE
      rcases hE with hE | rfl
      · exact ⟨r.count + 1, by omega, le_refl _, hkey E hE⟩
      · exact ⟨r.count + 1, by omega, le_refl _, elKey_elName _⟩
    rcases attachNow_ids { r with count := r.count + 1 } par
        (node.setAttrs (SetAttributeString node.attrs "el" (elName (r.count + 1))))
        (["let " ++ elName (r.count + 1) ++ "=document.createElement(\"code\");\n"] ++
          RenderElAttributes (SetAttributeString node.attrs "el" (elName (r.count + 1)))
            (some CodeAttributeFilter) (elName (r.count + 1)) ++
          (if r.dbg then
            ["//dbg -- codespan: children " ++ fmtD (node.children.length : Nat) ++ "\n"]
          else []) ++ spans)
        (elName (r.count + 1))
        (fun parElNam kind =>
          "// dbg -- codespan el: " ++ elName (r.count + 1) ++ " kind: " ++
            node.payload.kindName ++ " parent:" ++ parElNam ++ " kind:" ++ kind ++ "\n")
        hpar (by intro a b; exact attachOf_of_head _ (by simp [String.data_append]))
      with h | h | h
    · unfold Att
      rw [h, hpre]
      refine ⟨?_, hrange⟩
      rw [List.nodup_append]
      refine ⟨s1, List.nodup_singleton _, ?_⟩
      intro E hE1 hE2
      rw [List.mem_singleton] at hE2
      subst hE2
      obtain ⟨m, _, hm⟩ := s2 _ hE1
      exact elName_ne_span _ _ hm
    · unfold Att
      rw [h, hpre]
      exact ⟨s1, fun E hE => hrange E (List.mem_append_left _ hE)⟩
    · exact Att_of_nil _ _ _ h

/-- The end of an entry phase that attaches at once: the identifier of the
counter value `lo + 1` is appended after writes that append younger
identifiers. -/
theorem attachNow_att (r : Renderer) (par : Option Node) (node : Node) (out : List String)
    (lo hi : Int) (dbgText : String → String → String) (hpar : ParentOK par)
    (hdbg : ∀ a b, attachOf (dbgText a b) = none) (hout : Att (lo + 1) hi out)
    (hle : lo + 1 ≤ hi) :
    Att lo hi (attachNow r par node out (elName (lo + 1)) dbgText).out :=
  Att_ids_snoc lo hi _ out hout (attachNow_ids r par node out _ dbgText hpar hdbg) hle

theorem renderLink_att (x : Ext) (r : Renderer) (par : Option Node) (node : Node)
    (hpar : ParentOK par) :
    Att r.count (r.count + 1) (renderLink x r par node true).out := by
  obtain ⟨p, a, cs⟩ := node
  cases p
  case Link d t =>
    simp only [renderLink, if_true]
    refine attachNow_att _ par _ _ r.count (r.count + 1) _ hpar ?_ ?_ (le_refl _)
    · intro a b
      exact attachOf_of_head _ (by simp [dbgLine, String.data_append])
    · apply Att_of_nil
      have hpre : ∀ txt : List String, attachedIds txt = [] →
          attachedIds ([("let " ++ elName (r.count + 1) ++ "=document.createElement(\"a\");\n")] ++
            (if r.Unsafe || !IsDangerousURL x.caseTable d then
              [elName (r.count + 1) ++ ".href='" ++ x.escapeURL d true ++ "';\n"]
            else []) ++
            (match t with
              | some title => [elName (r.count + 1) ++ ".title='" ++ title ++ "';\n"]
              | none => []) ++
            RenderElAttributes (SetAttributeString a "el" (elName (r.count + 1)))
              (some LinkAttributeFilter) (elName (r.count + 1)) ++
            ["Object.assign(" ++ elName (r.count + 1) ++ ".style, mdStyle.a);\n"] ++ txt) = [] := by
        intro txt htxt
        cases t <;> cases (r.Unsafe || !IsDangerousURL x.caseTable d) <;>
          simp [attachedIds_cons, attachedIds_nil, attachedIds_append, htxt,
            attachedIds_RenderElAttributes, String.append_assoc, attachOf_let, attachOf_object,
            attachOf_elName_other, String.data_append, List.isPrefixOf, attachOf_of_head]
      apply hpre
      split <;>
        simp [attachedIds_cons, attachedIds_nil, String.append_assoc, attachOf_elName_other,
          String.data_append, List.isPrefixOf]
  all_goals simp [renderLink, Att_nil]

theorem flush_att (s : Agg) (P : String) (hg : GoodName P) :
    ∃ o, (s.flush P).1.out = s.out ++ o ∧ Att s.r.count (s.flush P).1.r.count o ∧
      s.r.count ≤ (s.flush P).1.r.count ∧ (s.flush P).1.r.Unsafe = s.r.Unsafe := by
  refine ⟨_, rfl, ?_, by simp [Agg.flush], by simp [Agg.flush]⟩
  refine Att_single _ _ (s.r.count + 1) _ ?_ (by omega) (by simp [Agg.flush])
  simp [attachedIds_cons, attachedIds_nil, String.append_assoc, attachOf_const,
    attachOf_appendStmt _ _ hg]

theorem flushIfText_att (s : Agg) (P : String) (hg : GoodName P) :
    ∃ o, (s.flushIfText P).out = s.out ++ o ∧ Att s.r.count (s.flushIfText P).r.count o ∧
      s.r.count ≤ (s.flushIfText P).r.count ∧ (s.flushIfText P).r.Unsafe = s.r.Unsafe := by
  by_cases hi : s.istate = 1
  · simpa [Agg.flushIfText, hi] using flush_att s P hg
  · exact ⟨[], by simp [Agg.flushIfText, hi], by simpa [Agg.flushIfText, hi] using Att_nil _ _,
      by simp [Agg.flushIfText, hi], by simp [Agg.flushIfText, hi]⟩

theorem afterCall_att (s s1 s2 : Agg) (h : HResult) (o : List String)
    (h1 : s1.out = s.out ++ o) (a1 : Att s.r.count s1.r.count o)
    (le1 : s.r.count ≤ s1.r.count) (u1 : s1.r.Unsafe = s.r.Unsafe)
    (hh : Att s1.r.count h.r.count h.out) (le2 : s1.r.count ≤ h.r.count)
    (u2 : h.r.Unsafe = s1.r.Unsafe) (he : s1.afterCall h = some s2) :
    ∃ o2, s2.out = s.out ++ o2 ∧ Att s.r.count s2.r.count o2 ∧
      s.r.count ≤ s2.r.count ∧ s2.r.Unsafe = s.r.Unsafe := by
  by_cases hp : h.ret = .panic
  · simp [Agg.afterCall, hp] at he
  · simp only [Agg.afterCall, hp, if_false, Option.some.injEq] at he
    subst he
    exact ⟨o ++ h.out, by simp [h1], Att_append _ _ _ _ _ a1 hh le1 le2, le_trans le1 le2,
      u2.trans u1⟩

theorem renderCodeSpan_r (r : Renderer) (par : Option Node) (node : Node) :
    (renderCodeSpan r par node true).r = { r with count := r.count + 1 } := by
  simp only [renderCodeSpan, if_true]
  cases codeSpanChildren r.dbg (elName (r.count + 1)) 0 node.children with
  | none => rfl
  | some spans => simp only []; rw [attachNow_r]

theorem renderLink_r (x : Ext) (r : Renderer) (par : Option Node) (d : Bytes)
    (t : Option String) (a : List Attribute) (cs : List Node) :
    (renderLink x r par (.mk (.Link d t) a cs) true).r = { r with count := r.count + 1 } := by
  simp only [renderLink, if_true]
  rw [attachNow_r]

theorem renderRawHTML_r (r : Renderer) (par : Option Node) (node : Node) :
    (renderRawHTML r par node true).r = { r with count := r.count + 1 } := by
  obtain ⟨p, a, cs⟩ := node
  cases hu : r.Unsafe <;> cases p <;> simp [renderRawHTML, hu]

theorem renderString_r (r : Renderer) (par : Option Node) (v : String) (raw code : Bool)
    (a : List Attribute) (cs : List Node) :
    (renderString r par (.mk (.StringNode v raw code) a cs) true).r =
      { r with count := r.count + 1 } := by
  simp [renderString]

/-- One turn of the loop of the aggregator appends identifiers of the
counter values it allocates, each once. -/
theorem aggStep_att (x : Ext) (pnode : Node) (P : String)
    (hP : AttributeString pnode.attrs "el" = some (.str P)) (hg : GoodName P) (s s2 : Agg)
    (c : Node) (hc : quietNode x s.r.Unsafe c = true) (h : aggStep x pnode P s c = some s2) :
    ∃ o, s2.out = s.out ++ o ∧ Att s.r.count s2.r.count o ∧
      s.r.count ≤ s2.r.count ∧ s2.r.Unsafe = s.r.Unsafe := by
  have hpar : ParentOK (some pnode) := by
    intro q hq Q hQ
    cases hq
    rw [hP] at hQ
    cases hQ
    exact hg
  obtain ⟨o1, ho1, a1, le1, u1⟩ := flushIfText_att s P hg
  obtain ⟨cp, ca, cc⟩ := c
  cases cp
  case Text v raw soft hard =>
    refine ⟨[], ?_, ?_, ?_, ?_⟩
    · simp only [aggStep] at h
      split_ifs at h <;> (cases h; simp)
    · simp only [aggStep] at h
      split_ifs at h <;> (cases h; exact Att_nil _ _)
    · simp only [aggStep] at h
      split_ifs at h <;> (cases h; simp)
    · simp only [aggStep] at h
      split_ifs at h <;> (cases h; simp)
  case Emphasis Level =>
    rcases cc with _ | ⟨⟨dp, da, dc⟩, rest⟩
    · simp [aggStep] at h
    · cases dp <;> simp only [aggStep] at h <;> try cases h
      rename_i v raw soft hard
      have hblock : ∀ k : Int, Att k (k + 1)
          ["let " ++ elName (k + 1) ++ "=document.createElement('" ++
              (if Level = 2 then "strong" else "em") ++ "');\n",
            elName (k + 1) ++ ".textContent=`" ++ v ++ "`;\n",
            P ++ ".appendChild(" ++ elName (k + 1) ++ ");\n"] := by
        intro k
        refine Att_single _ _ (k + 1) _ ?_ (by omega) (le_refl _)
        simp [attachedIds_cons, attachedIds_nil, String.append_assoc, attachOf_let,
          attachOf_elName_other, String.data_append, List.isPrefixOf,
          attachOf_appendStmt _ _ hg]
      by_cases hi : s.istate = 1
      · obtain ⟨o, ho, ao, leo, uo⟩ := flush_att s P hg
        have hcnt : (s.flush P).1.r.count = s.r.count + 1 := by simp [Agg.flush]
        refine ⟨o ++ ["let " ++ elName ((s.flush P).1.r.count + 1) ++
              "=document.createElement('" ++ (if Level = 2 then "strong" else "em") ++ "');\n",
            elName ((s.flush P).1.r.count + 1) ++ ".textContent=`" ++ v ++ "`;\n",
            P ++ ".appendChild(" ++ elName ((s.flush P).1.r.count + 1) ++ ");\n"],
          by simp [hi, ho], ?_, by simp [hi, Agg.flush]; omega, by simp [hi, Agg.flush]⟩
        have := Att_append _ _ _ _ _ ao (hblock (s.flush P).1.r.count) leo (by omega)
        simpa [hi] using this
      · refine ⟨["let " ++ elName (s.r.count + 1) ++
              "=document.createElement('" ++ (if Level = 2 then "strong" else "em") ++ "');\n",
            elName (s.r.count + 1) ++ ".textContent=`" ++ v ++ "`;\n",
            P ++ ".appendChild(" ++ elName (s.r.count + 1) ++ ");\n"], by simp [hi], ?_,
          by simp [hi], by simp [hi]⟩
        simpa [hi] using hblock s.r.count
  case CodeSpan =>
    refine afterCall_att s _ s2 _ o1 ho1 a1 le1 u1 ?_ ?_ ?_ h
    · rw [renderCodeSpan_r]
      exact renderCodeSpan_att _ (some pnode) _ hpar
    · rw [renderCodeSpan_r]; simp
    · rw [renderCodeSpan_r]
  case Link Destination Title =>
    refine afterCall_att s _ s2 _ o1 ho1 a1 le1 u1 ?_ ?_ ?_ h
    · rw [renderLink_r]
      exact renderLink_att x _ (some pnode) _ hpar
    · rw [renderLink_r]; simp
    · rw [renderLink_r]
  case RawHTML segments =>
    refine afterCall_att s _ s2 _ o1 ho1 a1 le1 u1 ?_ ?_ ?_ h
    · refine Att_of_nil _ _ _ (renderRawHTML_ids x _ (some pnode) _ ?_)
      rw [u1]
      simpa [quietNode, Node.payload] using
        (Bool.and_eq_true _ _ ▸ (by simpa [quietNode] using hc) :
          quietPayload x s.r.Unsafe (.RawHTML segments) = true ∧
            quietNodes x s.r.Unsafe cc = true).1
    · rw [renderRawHTML_r]; simp
    · rw [renderRawHTML_r]
  case StringNode v raw code =>
    refine afterCall_att s _ s2 _ o1 ho1 a1 le1 u1 ?_ ?_ ?_ h
    · exact Att_of_nil _ _ _ (renderString_ids _ (some pnode) _)
    · rw [renderString_r]; simp
    · rw [renderString_r]
  case Image d t => simp [aggStep] at h
  all_goals
    simp only [aggStep, Option.some.injEq] at h
    subst h
    refine ⟨_, rfl, Att_of_nil _ _ _ ?_, le_refl _, rfl⟩
    cases s.r.dbg <;>
      simp [attachedIds_cons, attachedIds_nil, attachOf_of_head, String.data_append]

theorem aggLoop_att (x : Ext) (pnode : Node) (P : String)
    (hP : AttributeString pnode.attrs "el" = some (.str P)) (hg : GoodName P) :
    ∀ (cs : List Node) (s s2 : Agg), quietNodes x s.r.Unsafe cs = true →
      aggLoop x pnode P s cs = some s2 →
      ∃ o, s2.out = s.out ++ o ∧ Att s.r.count s2.r.count o ∧
        s.r.count ≤ s2.r.count ∧ s2.r.Unsafe = s.r.Unsafe := by
  intro cs
  induction cs with
  | nil =>
    intro s s2 _ h
    simp only [aggLoop, Option.some.injEq] at h
    subst h
    exact ⟨[], by simp, Att_nil _ _, le_refl _, rfl⟩
  | cons c rest ih =>
    intro s s2 hcs h
    simp only [quietNodes, Bool.and_eq_true] at hcs
    rw [aggLoop] at h
    cases hs : aggStep x pnode P s c with
    | none => rw [hs] at h; cases h
    | some s1 =>
      rw [hs] at h
      obtain ⟨o1, ho1, a1, l1, u1⟩ := aggStep_att x pnode P hP hg s s1 c hcs.1 hs
      obtain ⟨o2, ho2, a2, l2, u2⟩ := ih s1 s2 (by rw [u1]; exact hcs.2) h
      exact ⟨o1 ++ o2, by rw [ho2, ho1, List.append_assoc],
        Att_append _ _ _ _ _ a1 a2 l1 l2, le_trans l1 l2, u2.trans u1⟩

/-- The aggregator appends identifiers of the counter values it allocates,
each once. -/
theorem renderTextChildren_att (x : Ext) (r : Renderer) (node : Node)
    (hg : ∀ P, AttributeString node.attrs "el" = some (.str P) → GoodName P)
    (hcs : quietNodes x r.Unsafe node.children = true) :
    Att r.count (renderTextChildren x r node true).r.count
      (renderTextChildren x r node true).out := by
  obtain ⟨p, attrs, children⟩ := node
  simp only [Node.attrs, Node.children] at hg hcs
  cases hel : AttributeString attrs "el" with
  | none => simpa [renderTextChildren, Node.attrs, hel] using Att_nil r.count r.count
  | some elv =>
    cases elv
    case str P =>
      have hgP := hg P hel
      have hdbg : attachedIds (aggDbgOut r P children) = [] := by
        unfold aggDbgOut
        cases r.dbg <;>
          simp [attachedIds_cons, attachedIds_nil, attachOf_of_head, String.data_append]
      by_cases hfast : ∃ v raw soft hard a ch, children = [.mk (.Text v raw soft hard) a ch]
      · obtain ⟨v, raw, soft, hard, a, ch, rfl⟩ := hfast
        simp only [renderTextChildren, Node.attrs, Node.children, hel, Bool.not_true,
          Bool.false_eq_true, if_false]
        apply Att_of_nil
        cases r.dbg <;>
          simp [attachedIds_cons, attachedIds_nil, attachedIds_append, attachOf_of_head,
            String.data_append, String.append_assoc, List.isPrefixOf,
            attachOf_goodName_other _ _ hgP]
      · obtain ⟨g1, g2, g3⟩ := renderTextChildren_general x r p attrs children P hel hfast
        cases hl : aggLoop x (.mk p attrs children) P ⟨r, 0, none, aggDbgOut r P children, []⟩
            children with
        | none => rw [g1 hl]; exact Att_nil _ _
        | some s =>
          obtain ⟨o, ho, ao, lo, uo⟩ := aggLoop_att x (.mk p attrs children) P hel hgP children
            ⟨r, 0, none, aggDbgOut r P children, []⟩ s hcs hl
          have c1 : Att r.count s.r.count s.out := by
            rw [ho]
            exact Att_same_left _ _ _ _ hdbg ao
          cases ht : s.text with
          | none => rw [g2 s hl ht]; exact c1
          | some t =>
            obtain ⟨o2, ho2, a2, l2, _⟩ := flush_att s P hgP
            rw [g3 s t hl ht]
            simp only []
            rw [ho2]
            exact Att_append _ _ _ _ _ c1 a2 lo l2
    all_goals simpa [renderTextChildren, Node.attrs, hel] using Att_nil r.count r.count

theorem renderParagraph_att (x : Ext) (r : Renderer) (par : Option Node) (node : Node)
    (hpar : ParentOK par) (hcs : quietNodes x r.Unsafe node.children = true) :
    Att r.count (renderParagraph x r par node true).r.count
      (renderParagraph x r par node true).out := by
  obtain ⟨p, attrs, children⟩ := node
  simp only [Node.children] at hcs
  have h2 := renderTextChildren_att x { r with count := r.count + 1 }
    (.mk p (SetAttributeString attrs "el" (elName (r.count + 1))) children)
    (by
      intro P hP
      have := AttributeString_SetAttribute attrs "el" (.str (elName (r.count + 1)))
      simp only [Node.attrs, SetAttributeString] at hP
      rw [this] at hP
      cases hP
      exact Or.inr ⟨_, rfl⟩)
    (by simpa [Node.children] using hcs)
  have hle := renderTextChildren_count_le x { r with count := r.count + 1 }
    (.mk p (SetAttributeString attrs "el" (elName (r.count + 1))) children) true
  simp only [] at h2 hle
  simp only [renderParagraph, if_true, Node.attrs, Node.setAttrs]
  by_cases hp : (renderTextChildren x { r with count := r.count + 1 }
      (.mk p (SetAttributeString attrs "el" (elName (r.count + 1))) children) true).ret = .panic
  · simp only [hp, if_true]
    exact Att_nil _ _
  · simp only [hp, if_false]
    rw [attachNow_r]
    refine attachNow_att _ par _ _ r.count _ _ hpar ?_ ?_ hle
    · intro a b
      exact attachOf_of_head _ (by simp [String.data_append])
    · refine Att_same_left _ _ _ _ ?_ h2
      simp [attachedIds_cons, attachedIds_nil, attachedIds_append,
        attachedIds_RenderElAttributes, String.append_assoc, attachOf_let, attachOf_object]

theorem renderTextBlock_att (x : Ext) (r : Renderer) (par : Option Node) (node : Node)
    (hpar : ParentOK par) (hcs : quietNodes x r.Unsafe node.children = true) :
    Att r.count (renderTextBlock x r par node true).r.count
      (renderTextBlock x r par node true).out := by
  obtain ⟨p, attrs, children⟩ := node
  cases par with
  | none => simpa [renderTextBlock] using Att_nil r.count r.count
  | some pnode =>
    have hpar1 := hpar pnode rfl
    obtain ⟨pp, pa, pch⟩ := pnode
    simp only [Node.attrs] at hpar1
    cases hp : AttributeString pa "el" with
    | none => simpa [renderTextBlock, hp, Node.attrs] using Att_nil r.count r.count
    | some parv =>
      have h2 := renderTextChildren_att x r
        (.mk p (SetAttribute attrs "el" parv) children)
        (by
          intro P hP
          simp only [Node.attrs] at hP
          rw [AttributeString_SetAttribute] at hP
          cases hP
          exact hpar1 P hp)
        (by simpa [Node.children] using hcs)
      simp only [renderTextBlock, if_true, hp, Node.attrs, Node.setAttrs]
      by_cases hq : (renderTextChildren x r (.mk p (SetAttribute attrs "el" parv) children)
          true).ret = .panic
      · simpa [hq] using h2
      · simpa [hq] using h2

/-- The exit phase of a handler writes no attachment statement, or the one
that appends the identifier stored on the node. -/
theorem dispatch_exit_ids (x : Ext) (r : Renderer) (par next : Option Node) (node : Node)
    (hpar : ParentOK par) :
    attachedIds (dispatch x r par next node false).out = [] ∨
      ∃ E, AttributeString node.attrs "el" = some (.str E) ∧
        attachedIds (dispatch x r par next node false).out = [E] := by
  obtain ⟨p, a, cs⟩ := node
  cases p
  case Document => left; exact renderDocument_ids r _ false
  case Other k => left; simp [dispatch, Node.payload, attachedIds_nil]
  case Paragraph => left; simp [dispatch, Node.payload, renderParagraph, attachedIds_nil]
  case TextBlock => left; simp [dispatch, Node.payload, renderTextBlock, attachedIds_nil]
  case CodeSpan => left; simp [dispatch, Node.payload, renderCodeSpan, attachedIds_nil]
  case Link d t => left; simp [dispatch, Node.payload, renderLink, attachedIds_nil]
  case HTMLBlock l c =>
    cases c
    · left; simp [dispatch, Node.payload, renderHTMLBlock, attachedIds_nil]
    · simp only [dispatch, Node.payload, renderHTMLBlock, Bool.false_eq_true, if_false,
        Option.isSome_some, if_true]
      exact exitAttach_ids r par _ _ _ hpar
  all_goals
    simp only [dispatch, Node.payload, renderHeading, renderBlockquote, renderList,
      renderListItem, renderThematicBreak, renderAutoLink, renderText, renderString,
      renderCodeBlock, renderFencedCodeBlock, renderEmphasis, renderImage, renderRawHTML,
      Bool.not_false, if_true, Bool.false_eq_true, if_false]
    exact exitAttach_ids r par _ _ _ hpar

/-- The entry phase of a handler that attaches on exit, or not at all,
writes no attachment statement, the code blocks apart. -/
theorem dispatch_entry_ids (x : Ext) (r : Renderer) (par next : Option Node) (node : Node)
    (hq : quietPayload x r.Unsafe node.payload = true)
    (h1 : node.payload ≠ .Paragraph) (h2 : node.payload ≠ .TextBlock)
    (h3 : node.payload ≠ .CodeSpan) (h4 : ∀ d t, node.payload ≠ .Link d t)
    (h5 : ∀ l, node.payload ≠ .CodeBlock l) (h6 : ∀ g l, node.payload ≠ .FencedCodeBlock g l) :
    attachedIds (dispatch x r par next node true).out = [] := by
  obtain ⟨p, a, cs⟩ := node
  cases p
  case Paragraph => exact absurd rfl h1
  case TextBlock => exact absurd rfl h2
  case CodeSpan => exact absurd rfl h3
  case Link d t => exact absurd rfl (h4 d t)
  case CodeBlock l => exact absurd rfl (h5 l)
  case FencedCodeBlock g l => exact absurd rfl (h6 g l)
  case Document => exact renderDocument_ids r _ true
  case Other k => simp [dispatch, Node.payload, attachedIds_nil]
  case Heading l => exact renderHeading_ids r par _
  case Blockquote => exact renderBlockquote_ids r par _
  case HTMLBlock l c => exact renderHTMLBlock_ids r par _
  case ListNode m s => exact renderList_ids r par _
  case ListItem => exact renderListItem_ids r par _
  case ThematicBreak => exact renderThematicBreak_ids r par _
  case AutoLink t u => exact renderAutoLink_ids x r par _ hq
  case Emphasis l => exact renderEmphasis_ids r par _
  case Image d t => exact renderImage_ids x r par _
  case RawHTML s => exact renderRawHTML_ids x r par _ hq
  case Text v raw soft hard => exact renderText_ids x r par next _
  case StringNode v raw code => exact renderString_ids r par _

theorem nodup_of_nil_or_single (l1 l2 : List String) (h1 : l1 = [])
    (h2 : l2 = [] ∨ ∃ E, l2 = [E]) : (l1 ++ l2).Nodup := by
  subst h1
  rcases h2 with rfl | ⟨E, rfl⟩ <;> simp

/-- The identifiers that the attachment statements of the entry phase and of
the exit phase of a node append are pairwise different. -/
theorem dispatch_ids_nodup (x : Ext) (r r2 : Renderer) (par next : Option Node)
    (node node2 : Node) (hq : quietNode x r.Unsafe node = true) (hpar : ParentOK par)
    (hn1 : node2.payload = (dispatch x r par next node true).node.payload)
    (hn2 : node2.attrs = (dispatch x r par next node true).node.attrs) :
    (attachedIds ((dispatch x r par next node true).out ++
      (dispatch x r2 par next node2 false).out)).Nodup := by
  rw [attachedIds_append]
  rw [dispatch_payload] at hn1
  have hex := dispatch_exit_ids x r2 par next node2 hpar
  obtain ⟨p, a, cs⟩ := node
  obtain ⟨p2, a2, cs2⟩ := node2
  simp only [Node.payload] at hn1
  subst hn1
  have hqq : quietPayload x r.Unsafe p2 = true ∧ quietNodes x r.Unsafe cs = true := by
    simpa [quietNode] using hq
  have hex2 : attachedIds (dispatch x r2 par next (.mk p2 a2 cs2) false).out = [] ∨
      ∃ E, attachedIds (dispatch x r2 par next (.mk p2 a2 cs2) false).out = [E] := by
    rcases hex with h | ⟨E, _, h⟩
    · exact Or.inl h
    · exact Or.inr ⟨E, h⟩
  by_cases c1 : p2 = .Paragraph
  · subst c1
    have hx : attachedIds (dispatch x r2 par next (.mk .Paragraph a2 cs2) false).out = [] := by
      simp [dispatch, Node.payload, renderParagraph, attachedIds_nil]
    rw [hx, List.append_nil]
    exact (renderParagraph_att x r par (.mk .Paragraph a cs) hpar hqq.2).1
  by_cases c2 : p2 = .TextBlock
  · subst c2
    have hx : attachedIds (dispatch x r2 par next (.mk .TextBlock a2 cs2) false).out = [] := by
      simp [dispatch, Node.payload, renderTextBlock, attachedIds_nil]
    rw [hx, List.append_nil]
    exact (renderTextBlock_att x r par (.mk .TextBlock a cs) hpar hqq.2).1
  by_cases c3 : p2 = .CodeSpan
  · subst c3
    have hx : attachedIds (dispatch x r2 par next (.mk .CodeSpan a2 cs2) false).out = [] := by
      simp [dispatch, Node.payload, renderCodeSpan, attachedIds_nil]
    rw [hx, List.append_nil]
    exact (renderCodeSpan_att r par (.mk .CodeSpan a cs) hpar).1
  by_cases c4 : ∃ d t, p2 = .Link d t
  · obtain ⟨d, t, rfl⟩ := c4
    have hx : attachedIds (dispatch x r2 par next (.mk (.Link d t) a2 cs2) false).out = [] := by
      simp [dispatch, Node.payload, renderLink, attachedIds_nil]
    rw [hx, List.append_nil]
    exact (renderLink_att x r par (.mk (.Link d t) a cs) hpar).1
  by_cases c5 : ∃ l, p2 = .CodeBlock l
  · obtain ⟨l, rfl⟩ := c5
    have hen : attachedIds (dispatch x r par next (.mk (.CodeBlock l) a cs) true).out =
        [elName (r.count + 3), elName (r.count + 2)] := by
      rcases renderCodeBlock_ids r par (.mk (.CodeBlock l) a cs) with h | h
      · simp [renderCodeBlock, attachedIds_cons, attachedIds_nil, attachedIds_append,
          String.append_assoc, attachOf_let, attachOf_const, attachOf_elName_append,
          attachOf_of_head, String.data_append] at h
      · exact h
    have hel : AttributeString a2 "el" = some (.str (elName (r.count + 1))) := by
      simp only [Node.attrs] at hn2
      rw [hn2]
      simp [dispatch, Node.payload, renderCodeBlock, Node.attrs, SetAttributeString,
        AttributeString_SetAttribute]
    rw [hen]
    rcases hex with h | ⟨E, hE, h⟩
    · rw [h]
      simp only [List.append_nil, List.nodup_cons, List.mem_singleton, List.not_mem_nil,
        not_false_eq_true, List.nodup_nil, and_true]
      intro h3
      have := elName_injective h3
      omega
    · simp only [Node.attrs] at hE
      rw [hel] at hE
      cases hE
      rw [h]
      simp only [List.cons_append, List.nil_append, List.nodup_cons, List.mem_cons,
        List.mem_singleton, List.not_mem_nil, not_false_eq_true, List.nodup_nil, and_true,
        not_or, or_false]
      refine ⟨⟨?_, ?_⟩, ?_⟩ <;>
      · intro h3
        have := elName_injective h3
        omega
  by_cases c6 : ∃ g l, p2 = .FencedCodeBlock g l
  · obtain ⟨g, l, rfl⟩ := c6
    have hen : attachedIds (dispatch x r par next (.mk (.FencedCodeBlock g l) a cs) true).out =
        [elName (r.count + 3), elName (r.count + 2)] := by
      rcases renderFencedCodeBlock_ids r par (.mk (.FencedCodeBlock g l) a cs) with h | h
      · cases g <;>
          simp [renderFencedCodeBlock, attachedIds_cons, attachedIds_nil, attachedIds_append,
            String.append_assoc, attachOf_let, attachOf_const, attachOf_elName_append,
            attachOf_elName_other, String.data_append, List.isPrefixOf,
            attachOf_of_head] at h
      · exact h
    have hel : AttributeString a2 "el" = some (.str (elName (r.count + 1))) := by
      simp only [Node.attrs] at hn2
      rw [hn2]
      simp [dispatch, Node.payload, renderFencedCodeBlock, Node.attrs, SetAttributeString,
        AttributeString_SetAttribute]
    rw [hen]
    rcases hex with h | ⟨E, hE, h⟩
    · rw [h]
      simp only [List.append_nil, List.nodup_cons, List.mem_singleton, List.not_mem_nil,
        not_false_eq_true, List.nodup_nil, and_true]
      intro h3
      have := elName_injective h3
      omega
    · simp only [Node.attrs] at hE
      rw [hel] at hE
      cases hE
      rw [h]
      simp only [List.cons_append, List.nil_append, List.nodup_cons, List.mem_cons,
        List.mem_singleton, List.not_mem_nil, not_false_eq_true, List.nodup_nil, and_true,
        not_or, or_false]
      refine ⟨⟨?_, ?_⟩, ?_⟩ <;>
      · intro h3
        have := elName_injective h3
        omega
  exact nodup_of_nil_or_single _ _
    (dispatch_entry_ids x r par next (.mk p2 a cs) hqq.1 c1 c2 c3
      (fun d t h => c4 ⟨d, t, h⟩) (fun l h => c5 ⟨l, h⟩) (fun g l h => c6 ⟨g, l, h⟩)) hex2


/-! ### Conversions of trees that agree up to the identifiers -/

theorem SetAttribute_SetAttribute (a : List Attribute) (name : String) (v w : AttrValue) :
    SetAttribute (SetAttribute a name w) name v = SetAttribute a name v := by
  induction a with
  | nil => simp [SetAttribute]
  | cons b rest ih =>
    by_cases h : b.Name = name
    · simp [SetAttribute, h]
    · simp [SetAttribute, h, ih]

theorem ElSame_refl (a : List Attribute) : ElSame a a := fun _ => rfl

theorem ElSame_symm {a b : List Attribute} (h : ElSame a b) : ElSame b a := fun v => (h v).symm

theorem ElSame_trans {a b c : List Attribute} (h1 : ElSame a b) (h2 : ElSame b c) :
    ElSame a c := fun v => (h1 v).trans (h2 v)

theorem ElSame_set (a : List Attribute) (w : AttrValue) : ElSame a (SetAttribute a "el" w) :=
  fun v => (SetAttribute_SetAttribute a "el" v w).symm

theorem AttrRel_refl (p : Payload) (a : List Attribute) : AttrRel p a a := by
  cases p <;> first | exact ElSame_refl a | rfl

theorem AttrRel_elSame {p : Payload} {a b : List Attribute} (h : AttrRel p a b) :
    ElSame a b := by
  cases p
  case Other k =>
    have : a = b := h
    subst this
    exact ElSame_refl a
  all_goals exact h

mutual
theorem Rel_refl : ∀ n : Node, Rel n n
  | .mk p a cs => by
    rw [Rel]
    exact ⟨rfl, AttrRel_refl p a, RelList_refl cs⟩
theorem RelList_refl : ∀ cs : List Node, RelList cs cs
  | [] => by rw [RelList]; trivial
  | c :: rest => by
    rw [RelList]
    exact ⟨Rel_refl c, RelList_refl rest⟩
end

theorem RelList_append : ∀ (a1 a2 b1 b2 : List Node), RelList a1 a2 → RelList b1 b2 →
    RelList (a1 ++ b1) (a2 ++ b2)
  | [], [], b1, b2, _, h => by simpa using h
  | c1 :: r1, c2 :: r2, b1, b2, h, hb => by
    rw [RelList] at h
    simp only [List.cons_append]
    rw [RelList]
    exact ⟨h.1, RelList_append r1 r2 b1 b2 h.2 hb⟩
  | [], _ :: _, _, _, h, _ => by rw [RelList] at h; exact absurd h id
  | _ :: _, [], _, _, h, _ => by rw [RelList] at h; exact absurd h id

theorem RelList_single (c1 c2 : Node) (h : Rel c1 c2) : RelList [c1] [c2] := by
  rw [RelList, RelList]
  exact ⟨h, trivial⟩

theorem RelList_head (cs1 cs2 : List Node) (h : RelList cs1 cs2) :
    NextRel cs1.head? cs2.head? := by
  rcases cs1 with _ | ⟨⟨p1, a1, d1⟩, r1⟩ <;> rcases cs2 with _ | ⟨⟨p2, a2, d2⟩, r2⟩
  · trivial
  · rw [RelList] at h; exact absurd h id
  · rw [RelList] at h; exact absurd h id
  · rw [RelList, Rel] at h
    exact h.1.1

theorem ParRel_refl (par : Option Node) : ParRel par par := by
  cases par with
  | none => trivial
  | some p => exact ⟨rfl, rfl⟩

theorem NextRel_refl (n : Option Node) : NextRel n n := by
  cases n with
  | none => trivial
  | some p => exact (rfl : p.payload = p.payload)

theorem exitAttach_par_congr (par1 par2 : Option Node) (hp : ParRel par1 par2) (r : Renderer)
    (node : Node) (dbg : Bool) (status : WalkStatus) :
    exitAttach r par1 node dbg status = exitAttach r par2 node dbg status := by
  cases par1 with
  | none =>
    cases par2 with
    | none => rfl
    | some p2 => exact absurd hp id
  | some p1 =>
    cases par2 with
    | none => exact absurd hp id
    | some p2 =>
      obtain ⟨h1, h2⟩ := hp
      simp only [exitAttach, h1, h2]

theorem attachNow_par_congr (par1 par2 : Option Node) (hp : ParRel par1 par2) (r : Renderer)
    (node : Node) (out : List String) (elNam : String) (dbgText : String → String → String) :
    attachNow r par1 node out elNam dbgText = attachNow r par2 node out elNam dbgText := by
  cases par1 with
  | none =>
    cases par2 with
    | none => rfl
    | some p2 => exact absurd hp id
  | some p1 =>
    cases par2 with
    | none => exact absurd hp id
    | some p2 =>
      obtain ⟨h1, h2⟩ := hp
      simp only [attachNow, h1, h2]

theorem textValue_next_congr (next1 next2 : Option Node) (hn : NextRel next1 next2) (x : Ext)
    (r : Renderer) (value : String) (raw soft hard : Bool) :
    textValue x r next1 value raw soft hard = textValue x r next2 value raw soft hard := by
  cases next1 with
  | none =>
    cases next2 with
    | none => rfl
    | some p2 => exact absurd hn id
  | some p1 =>
    cases next2 with
    | none => exact absurd hn id
    | some p2 =>
      obtain ⟨q1, a1, c1⟩ := p1
      obtain ⟨q2, a2, c2⟩ := p2
      have h : q1 = q2 := hn
      subst h
      cases q1 <;> simp only [textValue]

theorem renderTextBlock_par_congr (par1 par2 : Option Node) (hp : ParRel par1 par2) (x : Ext)
    (r : Renderer) (node : Node) (entering : Bool) :
    renderTextBlock x r par1 node entering = renderTextBlock x r par2 node entering := by
  cases par1 with
  | none =>
    cases par2 with
    | none => rfl
    | some p2 => exact absurd hp id
  | some p1 =>
    cases par2 with
    | none => exact absurd hp id
    | some p2 =>
      obtain ⟨h1, h2⟩ := hp
      simp only [renderTextBlock, h2]

/-- A handler tells two parents apart only by their kind and their `el`, and
two next siblings only by their fields. -/
theorem dispatch_par_congr (x : Ext) (r : Renderer) (par1 par2 next1 next2 : Option Node)
    (node : Node) (entering : Bool) (hp : ParRel par1 par2) (hn : NextRel next1 next2) :
    dispatch x r par1 next1 node entering = dispatch x r par2 next2 node entering := by
  obtain ⟨p, a, cs⟩ := node
  cases p
  case TextBlock => exact renderTextBlock_par_congr par1 par2 hp x r _ entering
  case Text v raw soft hard =>
    simp only [dispatch, Node.payload, renderText, exitAttach_par_congr par1 par2 hp,
      textValue_next_congr next1 next2 hn]
  all_goals
    simp only [dispatch, Node.payload, renderDocument, renderHeading, renderBlockquote,
      renderCodeBlock, renderFencedCodeBlock, renderHTMLBlock, renderList, renderListItem,
      renderParagraph, renderThematicBreak, renderAutoLink, renderCodeSpan, renderEmphasis,
      renderImage, renderLink, renderRawHTML, renderString,
      exitAttach_par_congr par1 par2 hp, attachNow_par_congr par1 par2 hp]

theorem exitAttach_node_congr (r : Renderer) (par : Option Node) (n1 n2 : Node) (dbg : Bool)
    (status : WalkStatus)
    (hel : AttributeString n1.attrs "el" = AttributeString n2.attrs "el") :
    (exitAttach r par n1 dbg status).out = (exitAttach r par n2 dbg status).out ∧
      (exitAttach r par n1 dbg status).ret = (exitAttach r par n2 dbg status).ret ∧
      (exitAttach r par n1 dbg status).r = (exitAttach r par n2 dbg status).r := by
  cases par with
  | none => simp [exitAttach]
  | some pnode =>
    simp only [exitAttach, hel]
    cases AttributeString n2.attrs "el" with
    | none => simp
    | some elv =>
      cases AttributeString pnode.attrs "el" with
      | none => simp
      | some parv => cases elv <;> cases parv <;> simp

/-- The exit phase of a handler reads the kind and the fields of the node and
its `el`, nothing else of it. -/
theorem dispatch_exit_congr (x : Ext) (r : Renderer) (par next : Option Node) (n1 n2 : Node)
    (hp : n1.payload = n2.payload)
    (hel : AttributeString n1.attrs "el" = AttributeString n2.attrs "el") :
    (dispatch x r par next n1 false).out = (dispatch x r par next n2 false).out ∧
      (dispatch x r par next n1 false).ret = (dispatch x r par next n2 false).ret ∧
      (dispatch x r par next n1 false).r = (dispatch x r par next n2 false).r := by
  obtain ⟨p1, a1, c1⟩ := n1
  obtain ⟨p2, a2, c2⟩ := n2
  simp only [Node.payload] at hp
  subst hp
  cases p1
  case Document => simp [dispatch, Node.payload, renderDocument]
  case Other k => simp [dispatch, Node.payload]
  case Paragraph => simp [dispatch, Node.payload, renderParagraph]
  case TextBlock => simp [dispatch, Node.payload, renderTextBlock]
  case CodeSpan => simp [dispatch, Node.payload, renderCodeSpan]
  case Link d t => simp [dispatch, Node.payload, renderLink]
  case HTMLBlock l c =>
    cases c
    · simp [dispatch, Node.payload, renderHTMLBlock]
    · simp only [dispatch, Node.payload, renderHTMLBlock, Bool.false_eq_true, if_false,
        Option.isSome_some, if_true]
      exact exitAttach_node_congr r par _ _ _ _ hel
  all_goals
    simp only [dispatch, Node.payload, renderHeading, renderBlockquote, renderList,
      renderListItem, renderThematicBreak, renderAutoLink, renderText, renderString,
      renderCodeBlock, renderFencedCodeBlock, renderEmphasis, renderImage, renderRawHTML,
      Bool.not_false, if_true, Bool.false_eq_true, if_false]
    exact exitAttach_node_congr r par _ _ _ _ hel

theorem codeSpanChildren_congr (dbg : Bool) (elNam : String) :
    ∀ (cs1 cs2 : List Node) (n : Nat), RelList cs1 cs2 →
      codeSpanChildren dbg elNam n cs1 = codeSpanChildren dbg elNam n cs2
  | [], [], _, _ => rfl
  | [], _ :: _, _, h => by rw [RelList] at h; exact absurd h id
  | _ :: _, [], _, h => by rw [RelList] at h; exact absurd h id
  | .mk p1 a1 d1 :: r1, .mk p2 a2 d2 :: r2, n, h => by
    rw [RelList, Rel] at h
    obtain ⟨⟨hp, _, _⟩, hr⟩ := h
    subst hp
    cases p1
    case Text v raw soft hard =>
      simp only [codeSpanChildren]
      rw [codeSpanChildren_congr dbg elNam r1 r2 (n + 1) hr]
    all_goals simp only [codeSpanChildren]

theorem RelList_length : ∀ (cs1 cs2 : List Node), RelList cs1 cs2 → cs1.length = cs2.length
  | [], [], _ => rfl
  | [], _ :: _, h => by rw [RelList] at h; exact absurd h id
  | _ :: _, [], h => by rw [RelList] at h; exact absurd h id
  | _ :: r1, _ :: r2, h => by
    rw [RelList] at h
    simp [RelList_length r1 r2 h.2]

/-- The value of the first child when it is a `Text`. -/
theorem firstText_congr (cs1 cs2 : List Node) (h : RelList cs1 cs2) (f : String → List String) :
    (match cs1 with
      | .mk (.Text value _ _ _) _ _ :: _ => f value
      | _ => []) =
    (match cs2 with
      | .mk (.Text value _ _ _) _ _ :: _ => f value
      | _ => []) := by
  rcases cs1 with _ | ⟨⟨p1, a1, d1⟩, r1⟩ <;> rcases cs2 with _ | ⟨⟨p2, a2, d2⟩, r2⟩
  · rfl
  · rw [RelList] at h; exact absurd h id
  · rw [RelList] at h; exact absurd h id
  · rw [RelList, Rel] at h
    obtain ⟨⟨hp, _, _⟩, _⟩ := h
    subst hp
    cases p1 <;> rfl

mutual
theorem renderTexts_rel (x : Ext) : ∀ (n1 n2 : Node) (r : Renderer), Rel n1 n2 →
    (renderTexts x r n1).1 = (renderTexts x r n2).1 ∧
      (renderTexts x r n1).2.2 = (renderTexts x r n2).2.2
  | .mk p1 a1 cs1, .mk p2 a2 cs2, r, h => by
    rw [Rel] at h
    simp only [renderTexts]
    rw [renderTextsLoop_congr x (.mk p1 a1 cs1) (.mk p2 a2 cs2) cs1 r]
    exact renderTextsLoop_rel x (.mk p2 a2 cs2) cs1 cs2 r h.2.2
theorem renderTextsLoop_rel (x : Ext) (pnode : Node) : ∀ (cs1 cs2 : List Node) (r : Renderer),
    RelList cs1 cs2 →
    (renderTextsLoop x r pnode cs1).1 = (renderTextsLoop x r pnode cs2).1 ∧
      (renderTextsLoop x r pnode cs1).2.2 = (renderTextsLoop x r pnode cs2).2.2
  | [], [], _, _ => ⟨rfl, rfl⟩
  | [], _ :: _, _, h => by rw [RelList] at h; exact absurd h id
  | _ :: _, [], _, h => by rw [RelList] at h; exact absurd h id
  | .mk p1 a1 d1 :: r1, .mk p2 a2 d2 :: r2, r, h => by
    rw [RelList] at h
    obtain ⟨hc, hr⟩ := h
    have hc2 := hc
    rw [Rel] at hc2
    obtain ⟨hp, hattr, hd⟩ := hc2
    subst hp
    have hnext := RelList_head r1 r2 hr
    cases p1
    case StringNode v raw code =>
      simp only [renderTextsLoop]
      have e1 : (renderString r (some pnode) (.mk (.StringNode v raw code) a1 d1) true).r =
          (renderString r (some pnode) (.mk (.StringNode v raw code) a2 d2) true).r := by
        simp [renderString]
      have e2 : (renderString r (some pnode) (.mk (.StringNode v raw code) a1 d1) true).out =
          (renderString r (some pnode) (.mk (.StringNode v raw code) a2 d2) true).out := by
        simp [renderString]
      rw [e1, e2]
      obtain ⟨i1, i2⟩ := renderTextsLoop_rel x pnode r1 r2
        (renderString r (some pnode) (.mk (.StringNode v raw code) a2 d2) true).r hr
      exact ⟨i1, by rw [i2]⟩
    case Text v raw soft hard =>
      simp only [renderTextsLoop]
      have e1 : (renderText x r (some pnode) r1.head? (.mk (.Text v raw soft hard) a1 d1)
          true).r =
          (renderText x r (some pnode) r2.head? (.mk (.Text v raw soft hard) a2 d2) true).r := by
        simp [renderText]
      have e2 : (renderText x r (some pnode) r1.head? (.mk (.Text v raw soft hard) a1 d1)
          true).out =
          (renderText x r (some pnode) r2.head? (.mk (.Text v raw soft hard) a2 d2)
            true).out := by
        simp [renderText, textValue_next_congr _ _ hnext]
      rw [e1, e2]
      obtain ⟨i1, i2⟩ := renderTextsLoop_rel x pnode r1 r2
        (renderText x r (some pnode) r2.head? (.mk (.Text v raw soft hard) a2 d2) true).r hr
      exact ⟨i1, by rw [i2]⟩
    all_goals
      simp only [renderTextsLoop]
      obtain ⟨e1, e2⟩ := renderTexts_rel x _ _ r hc
      rw [e1, e2]
      obtain ⟨i1, i2⟩ := renderTextsLoop_rel x pnode r1 r2 (renderTexts x r _).1 hr
      exact ⟨i1, by rw [i2]⟩
end

theorem attachNow_HSame (r : Renderer) (par : Option Node) (n1 n2 : Node) (out : List String)
    (elNam : String) (dbgText : String → String → String)
    (hel : AttributeString n1.attrs "el" = AttributeString n2.attrs "el") :
    HSame (attachNow r par n1 out elNam dbgText) (attachNow r par n2 out elNam dbgText) := by
  unfold HSame
  cases par with
  | none => simp [attachNow, hel]
  | some pnode =>
    cases hp : AttributeString pnode.attrs "el" with
    | none => simp [attachNow, hp, hel]
    | some parv => cases parv <;> simp [attachNow, hp, hel]

theorem renderCodeSpan_rel (r : Renderer) (par : Option Node) (a1 a2 : List Attribute)
    (cs1 cs2 : List Node) (hE : ElSame a1 a2) (hcs : RelList cs1 cs2) :
    HSame (renderCodeSpan r par (.mk .CodeSpan a1 cs1) true)
      (renderCodeSpan r par (.mk .CodeSpan a2 cs2) true) := by
  have hS : ∀ v, SetAttribute a1 "el" v = SetAttribute a2 "el" v := hE
  simp only [renderCodeSpan, if_true, Node.children, Node.attrs, Node.setAttrs,
    SetAttributeString, hS, codeSpanChildren_congr r.dbg _ cs1 cs2 0 hcs,
    RelList_length cs1 cs2 hcs, Node.payload]
  cases codeSpanChildren r.dbg (elName (r.count + 1)) 0 cs2 with
  | none => exact ⟨rfl, rfl, rfl, rfl⟩
  | some spans => exact attachNow_HSame _ _ _ _ _ _ _ rfl

theorem renderLink_rel (x : Ext) (r : Renderer) (par : Option Node) (d : Bytes)
    (t : Option String) (a1 a2 : List Attribute) (cs1 cs2 : List Node) (hE : ElSame a1 a2)
    (hcs : RelList cs1 cs2) :
    HSame (renderLink x r par (.mk (.Link d t) a1 cs1) true)
      (renderLink x r par (.mk (.Link d t) a2 cs2) true) := by
  have hS : ∀ v, SetAttribute a1 "el" v = SetAttribute a2 "el" v := hE
  rcases cs1 with _ | ⟨⟨p1, b1, d1⟩, r1⟩ <;> rcases cs2 with _ | ⟨⟨p2, b2, d2⟩, r2⟩
  · simp only [renderLink, if_true, SetAttributeString, hS]
    exact attachNow_HSame _ _ _ _ _ _ _ rfl
  · rw [RelList] at hcs; exact absurd hcs id
  · rw [RelList] at hcs; exact absurd hcs id
  · rw [RelList, Rel] at hcs
    obtain ⟨⟨hp, hq1, hq2⟩, hr⟩ := hcs
    subst hp
    cases p1 <;>
      (simp only [renderLink, if_true, SetAttributeString, hS]
       exact attachNow_HSame _ _ _ _ _ _ _ rfl)

theorem renderRawHTML_rel (r : Renderer) (par : Option Node) (s : List String)
    (a1 a2 : List Attribute) (cs1 cs2 : List Node) (hE : ElSame a1 a2) :
    HSame (renderRawHTML r par (.mk (.RawHTML s) a1 cs1) true)
      (renderRawHTML r par (.mk (.RawHTML s) a2 cs2) true) := by
  have hS : ∀ v, SetAttribute a1 "el" v = SetAttribute a2 "el" v := hE
  unfold HSame
  cases hu : r.Unsafe <;>
    simp [renderRawHTML, hu, Node.attrs, Node.setAttrs, SetAttributeString, hS]

theorem renderString_rel (r : Renderer) (par : Option Node) (v : String) (raw code : Bool)
    (a1 a2 : List Attribute) (cs1 cs2 : List Node) (hE : ElSame a1 a2) :
    HSame (renderString r par (.mk (.StringNode v raw code) a1 cs1) true)
      (renderString r par (.mk (.StringNode v raw code) a2 cs2) true) := by
  have hS : ∀ v, SetAttribute a1 "el" v = SetAttribute a2 "el" v := hE
  unfold HSame
  simp [renderString, Node.attrs, SetAttributeString, hS]

theorem renderEmphasis_rel (r : Renderer) (par : Option Node) (l : Int)
    (a1 a2 : List Attribute) (cs1 cs2 : List Node) (hE : ElSame a1 a2)
    (hcs : RelList cs1 cs2) :
    HSame (renderEmphasis r par (.mk (.Emphasis l) a1 cs1) true)
      (renderEmphasis r par (.mk (.Emphasis l) a2 cs2) true) := by
  have hS : ∀ v, SetAttribute a1 "el" v = SetAttribute a2 "el" v := hE
  unfold HSame
  rcases cs1 with _ | ⟨⟨p1, b1, d1⟩, r1⟩ <;> rcases cs2 with _ | ⟨⟨p2, b2, d2⟩, r2⟩
  · simp [renderEmphasis, SetAttributeString, hS, Node.attrs]
  · rw [RelList] at hcs; exact absurd hcs id
  · rw [RelList] at hcs; exact absurd hcs id
  · rw [RelList, Rel] at hcs
    obtain ⟨⟨hp, hq1, hq2⟩, hr⟩ := hcs
    subst hp
    cases p1 <;> simp [renderEmphasis, SetAttributeString, hS, Node.attrs]

theorem renderImage_rel (x : Ext) (r : Renderer) (par : Option Node) (d : Bytes)
    (t : Option String) (a1 a2 : List Attribute) (cs1 cs2 : List Node) (hE : ElSame a1 a2)
    (hcs : RelList cs1 cs2) :
    HSame (renderImage x r par (.mk (.Image d t) a1 cs1) true)
      (renderImage x r par (.mk (.Image d t) a2 cs2) true) := by
  have hS : ∀ v, SetAttribute a1 "el" v = SetAttribute a2 "el" v := hE
  unfold HSame
  have hrel : Rel (.mk (.Image d t) (SetAttribute a2 "el" (.str (elName (r.count + 1)))) cs1)
      (.mk (.Image d t) (SetAttribute a2 "el" (.str (elName (r.count + 1)))) cs2) := by
    rw [Rel]
    exact ⟨rfl, AttrRel_refl _ _, hcs⟩
  obtain ⟨e1, e2⟩ := renderTexts_rel x _ _ { r with count := r.count + 1 } hrel
  refine ⟨?_, ?_, ?_, ?_⟩ <;>
    simp only [renderImage, Bool.not_true, Bool.false_eq_true, if_false, SetAttributeString,
      hS, e1, e2, renderTexts_attrs]
  simp only [Node.attrs]

/-- The entry phases of the handlers that do not call the aggregator give
the same result on two nodes that agree up to `el`. -/
theorem dispatch_entry_rel_simple (x : Ext) (r : Renderer) (par next : Option Node)
    (p : Payload) (a1 a2 : List Attribute) (cs1 cs2 : List Node) (hE : ElSame a1 a2)
    (hcs : RelList cs1 cs2) (h1 : p ≠ .Paragraph) (h2 : p ≠ .TextBlock)
    (h3 : ∀ k, p ≠ .Other k) :
    HSame (dispatch x r par next (.mk p a1 cs1) true)
      (dispatch x r par next (.mk p a2 cs2) true) := by
  have hS : ∀ v, SetAttribute a1 "el" v = SetAttribute a2 "el" v := hE
  cases p
  case Paragraph => exact absurd rfl h1
  case TextBlock => exact absurd rfl h2
  case Other k => exact absurd rfl (h3 k)
  case CodeSpan => exact renderCodeSpan_rel r par a1 a2 cs1 cs2 hE hcs
  case Link d t => exact renderLink_rel x r par d t a1 a2 cs1 cs2 hE hcs
  case RawHTML s => exact renderRawHTML_rel r par s a1 a2 cs1 cs2 hE
  case StringNode v raw code => exact renderString_rel r par v raw code a1 a2 cs1 cs2 hE
  case Emphasis l => exact renderEmphasis_rel r par l a1 a2 cs1 cs2 hE hcs
  case Image d t => exact renderImage_rel x r par d t a1 a2 cs1 cs2 hE hcs
  case HTMLBlock l c =>
    unfold HSame
    cases hu : r.Unsafe <;> cases c <;>
      simp [dispatch, Node.payload, renderHTMLBlock, hu, SetAttributeString, hS, Node.attrs]
  case AutoLink t u =>
    unfold HSame
    simp [dispatch, Node.payload, renderAutoLink, SetAttributeString, hS, Node.attrs]
  all_goals
    unfold HSame
    simp [dispatch, Node.payload, renderDocument, renderHeading, renderBlockquote,
      renderCodeBlock, renderFencedCodeBlock, renderList, renderListItem,
      renderThematicBreak, renderText, Node.attrs, Node.setAttrs, SetAttributeString, hS,
      AttributeString_SetAttribute]

theorem flush_same (s1 s2 : Agg) (P : String) (h : AggSame s1 s2) :
    AggSame (s1.flush P).1 (s2.flush P).1 ∧ (s1.flush P).2 = (s2.flush P).2 := by
  obtain ⟨h1, h2, h3, h4⟩ := h
  simp [AggSame, Agg.flush, h1, h3, h4]

theorem flushIfText_same (s1 s2 : Agg) (P : String) (h : AggSame s1 s2) :
    AggSame (s1.flushIfText P) (s2.flushIfText P) := by
  have hf := (flush_same s1 s2 P h).1
  obtain ⟨h1, h2, h3, h4⟩ := h
  by_cases hi : s2.istate = 1
  · simpa [Agg.flushIfText, h2, hi] using hf
  · simp [Agg.flushIfText, h2, hi, AggSame, h1, h3, h4]

theorem afterCall_same (s1 s2 : Agg) (h1 h2 : HResult) (hs : AggSame s1 s2)
    (hh : HSame h1 h2) :
    (s1.afterCall h1 = none ∧ s2.afterCall h2 = none) ∨
      ∃ t1 t2, s1.afterCall h1 = some t1 ∧ s2.afterCall h2 = some t2 ∧ AggSame t1 t2 := by
  obtain ⟨e1, e2, e3, _⟩ := hh
  obtain ⟨g1, g2, g3, g4⟩ := hs
  by_cases hp : h2.ret = .panic
  · left
    simp [Agg.afterCall, e2, hp]
  · right
    exact ⟨⟨h1.r, s1.istate, s1.text, s1.out ++ h1.out, s1.seen ++ [h1.node]⟩,
      ⟨h2.r, s2.istate, s2.text, s2.out ++ h2.out, s2.seen ++ [h2.node]⟩,
      by simp [Agg.afterCall, e2, hp], by simp [Agg.afterCall, hp],
      by simp [AggSame, e1, e3, g2, g3, g4]⟩

/-- One turn of the loop of the aggregator does the same on two children
that agree up to `el`. -/
theorem aggStep_rel (x : Ext) (pn1 pn2 : Node) (P : String) (s1 s2 : Agg) (c1 c2 : Node)
    (hpn : ParRel (some pn1) (some pn2)) (hs : AggSame s1 s2) (hc : Rel c1 c2) :
    (aggStep x pn1 P s1 c1 = none ∧ aggStep x pn2 P s2 c2 = none) ∨
      ∃ t1 t2, aggStep x pn1 P s1 c1 = some t1 ∧ aggStep x pn2 P s2 c2 = some t2 ∧
        AggSame t1 t2 := by
  obtain ⟨p1, a1, d1⟩ := c1
  obtain ⟨p2, a2, d2⟩ := c2
  rw [Rel] at hc
  obtain ⟨hp, hattr, hd⟩ := hc
  subst hp
  have hE : ElSame a1 a2 := AttrRel_elSame hattr
  have hfl := flushIfText_same s1 s2 P hs
  have hr : (s1.flushIfText P).r = (s2.flushIfText P).r := hfl.1
  cases p1
  case Text v raw soft hard =>
    right
    obtain ⟨g1, g2, g3, g4⟩ := hs
    simp only [aggStep, g2, g3]
    split_ifs
    · exact ⟨_, _, rfl, rfl, by simp [AggSame, g1, g4]⟩
    · exact ⟨_, _, rfl, rfl, by simp [AggSame, g1, g4, g2]⟩
    · exact ⟨_, _, rfl, rfl, by simp [AggSame, g1, g4, g2, g3]⟩
  case Emphasis l =>
    rcases d1 with _ | ⟨⟨q1, b1, e1⟩, r1⟩ <;> rcases d2 with _ | ⟨⟨q2, b2, e2⟩, r2⟩
    · left; simp [aggStep]
    · rw [RelList] at hd; exact absurd hd id
    · rw [RelList] at hd; exact absurd hd id
    · rw [RelList, Rel] at hd
      obtain ⟨⟨hq, hq1, hq2⟩, hrest⟩ := hd
      subst hq
      cases q1
      case Text v raw soft hard =>
        right
        obtain ⟨f1, f2⟩ := flush_same s1 s2 P hs
        obtain ⟨g1, g2, g3, g4⟩ := hs
        obtain ⟨k1, k2, k3, k4⟩ := f1
        refine ⟨_, _, rfl, rfl, ?_⟩
        by_cases hi : s2.istate = 1
        · simp [AggSame, g2, hi, k1, k2, k3, k4]
        · simp [AggSame, g2, hi, g1, g3, g4]
      all_goals (left; simp [aggStep])
  case CodeSpan =>
    have e : renderCodeSpan (s1.flushIfText P).r (some pn1) (.mk .CodeSpan a1 d1) true =
        renderCodeSpan (s1.flushIfText P).r (some pn2) (.mk .CodeSpan a1 d1) true :=
      dispatch_par_congr x _ (some pn1) (some pn2) none none (.mk .CodeSpan a1 d1) true hpn
        trivial
    simp only [aggStep]
    rw [e, hr]
    exact afterCall_same _ _ _ _ hfl (renderCodeSpan_rel _ _ a1 a2 d1 d2 hE hd)
  case Link d t =>
    have e : renderLink x (s1.flushIfText P).r (some pn1) (.mk (.Link d t) a1 d1) true =
        renderLink x (s1.flushIfText P).r (some pn2) (.mk (.Link d t) a1 d1) true :=
      dispatch_par_congr x _ (some pn1) (some pn2) none none (.mk (.Link d t) a1 d1) true hpn
        trivial
    simp only [aggStep]
    rw [e, hr]
    exact afterCall_same _ _ _ _ hfl (renderLink_rel x _ _ d t a1 a2 d1 d2 hE hd)
  case RawHTML sg =>
    have e : renderRawHTML (s1.flushIfText P).r (some pn1) (.mk (.RawHTML sg) a1 d1) true =
        renderRawHTML (s1.flushIfText P).r (some pn2) (.mk (.RawHTML sg) a1 d1) true :=
      dispatch_par_congr x _ (some pn1) (some pn2) none none (.mk (.RawHTML sg) a1 d1) true hpn
        trivial
    simp only [aggStep]
    rw [e, hr]
    exact afterCall_same _ _ _ _ hfl (renderRawHTML_rel _ _ sg a1 a2 d1 d2 hE)
  case StringNode v raw code =>
    have e : renderString (s1.flushIfText P).r (some pn1) (.mk (.StringNode v raw code) a1 d1)
        true =
        renderString (s1.flushIfText P).r (some pn2) (.mk (.StringNode v raw code) a1 d1)
          true :=
      dispatch_par_congr x _ (some pn1) (some pn2) none none
        (.mk (.StringNode v raw code) a1 d1) true hpn trivial
    simp only [aggStep]
    rw [e, hr]
    exact afterCall_same _ _ _ _ hfl (renderString_rel _ _ v raw code a1 a2 d1 d2 hE)
  case Image d t => left; simp [aggStep]
  all_goals
    right
    obtain ⟨g1, g2, g3, g4⟩ := hs
    exact ⟨_, _, rfl, rfl, by simp [AggSame, g1, g2, g3, g4]⟩

theorem aggLoop_rel (x : Ext) (pn1 pn2 : Node) (P : String)
    (hpn : ParRel (some pn1) (some pn2)) :
    ∀ (cs1 cs2 : List Node) (s1 s2 : Agg), AggSame s1 s2 → RelList cs1 cs2 →
      (aggLoop x pn1 P s1 cs1 = none ∧ aggLoop x pn2 P s2 cs2 = none) ∨
        ∃ t1 t2, aggLoop x pn1 P s1 cs1 = some t1 ∧ aggLoop x pn2 P s2 cs2 = some t2 ∧
          AggSame t1 t2
  | [], [], s1, s2, hs, _ => Or.inr ⟨s1, s2, rfl, rfl, hs⟩
  | [], _ :: _, _, _, _, h => by rw [RelList] at h; exact absurd h id
  | _ :: _, [], _, _, _, h => by rw [RelList] at h; exact absurd h id
  | c1 :: r1, c2 :: r2, s1, s2, hs, h => by
    rw [RelList] at h
    rw [aggLoop, aggLoop]
    rcases aggStep_rel x pn1 pn2 P s1 s2 c1 c2 hpn hs h.1 with ⟨e1, e2⟩ | ⟨t1, t2, e1, e2, ht⟩
    · left; rw [e1, e2]; exact ⟨rfl, rfl⟩
    · rw [e1, e2]
      exact aggLoop_rel x pn1 pn2 P hpn r1 r2 t1 t2 ht h.2

theorem RelList_singleText (cs1 cs2 : List Node) (h : RelList cs1 cs2)
    (hf : ∃ v raw soft hard a ch, cs1 = [.mk (.Text v raw soft hard) a ch]) :
    ∃ v raw soft hard a ch a2 ch2, cs1 = [.mk (.Text v raw soft hard) a ch] ∧
      cs2 = [.mk (.Text v raw soft hard) a2 ch2] := by
  obtain ⟨v, raw, soft, hard, a, ch, rfl⟩ := hf
  rcases cs2 with _ | ⟨⟨p2, a2, d2⟩, _ | ⟨c3, r3⟩⟩
  · rw [RelList] at h; exact absurd h id
  · rw [RelList, Rel] at h
    obtain ⟨⟨hp, _, _⟩, _⟩ := h
    subst hp
    exact ⟨v, raw, soft, hard, a, ch, a2, d2, rfl, rfl⟩
  · rw [RelList, RelList] at h
    exact absurd h.2 id

mutual
theorem Rel_symm : ∀ n1 n2 : Node, Rel n1 n2 → Rel n2 n1
  | .mk p1 a1 cs1, .mk p2 a2 cs2, h => by
    rw [Rel] at h ⊢
    obtain ⟨hp, ha, hc⟩ := h
    subst hp
    refine ⟨rfl, ?_, RelList_symm cs1 cs2 hc⟩
    cases p1
    case Other k => exact (ha : a1 = a2).symm
    all_goals exact ElSame_symm ha
theorem RelList_symm : ∀ cs1 cs2 : List Node, RelList cs1 cs2 → RelList cs2 cs1
  | [], [], _ => by rw [RelList]; trivial
  | [], _ :: _, h => by rw [RelList] at h; exact absurd h id
  | _ :: _, [], h => by rw [RelList] at h; exact absurd h id
  | c1 :: r1, c2 :: r2, h => by
    rw [RelList] at h ⊢
    exact ⟨Rel_symm c1 c2 h.1, RelList_symm r1 r2 h.2⟩
end

/-- The aggregator does the same on two lists of children that agree up to
`el`. -/
theorem renderTextChildren_rel (x : Ext) (r : Renderer) (p : Payload) (attrs : List Attribute)
    (cs1 cs2 : List Node) (hcs : RelList cs1 cs2) :
    HSame (renderTextChildren x r (.mk p attrs cs1) true)
      (renderTextChildren x r (.mk p attrs cs2) true) := by
  cases hel : AttributeString attrs "el" with
  | none => simp [HSame, renderTextChildren, Node.attrs, hel]
  | some elv =>
    cases elv
    case str P =>
      by_cases hfast : ∃ v raw soft hard a ch, cs1 = [.mk (.Text v raw soft hard) a ch]
      · obtain ⟨v, raw, soft, hard, a, ch, a2, ch2, rfl, rfl⟩ :=
          RelList_singleText cs1 cs2 hcs hfast
        simp [HSame, renderTextChildren, Node.attrs, Node.children, hel]
      · have hfast2 : ¬ ∃ v raw soft hard a ch, cs2 = [.mk (.Text v raw soft hard) a ch] := by
          intro hf
          obtain ⟨v, raw, soft, hard, a, ch, a2, ch2, e1, e2⟩ :=
            RelList_singleText cs2 cs1 (RelList_symm cs1 cs2 hcs) hf
          exact hfast ⟨v, raw, soft, hard, a2, ch2, e2⟩
        obtain ⟨g1, g2, g3⟩ := renderTextChildren_general x r p attrs cs1 P hel hfast
        obtain ⟨k1, k2, k3⟩ := renderTextChildren_general x r p attrs cs2 P hel hfast2
        have hdbg : aggDbgOut r P cs1 = aggDbgOut r P cs2 := by
          simp [aggDbgOut, RelList_length cs1 cs2 hcs]
        rw [hdbg] at g1 g2 g3
        rcases aggLoop_rel x (.mk p attrs cs1) (.mk p attrs cs2) P ⟨rfl, rfl⟩ cs1 cs2
            ⟨r, 0, none, aggDbgOut r P cs2, []⟩ ⟨r, 0, none, aggDbgOut r P cs2, []⟩
            ⟨rfl, rfl, rfl, rfl⟩ hcs with ⟨e1, e2⟩ | ⟨t1, t2, e1, e2, ht⟩
        · rw [g1 e1, k1 e2]
          exact ⟨rfl, rfl, rfl, rfl⟩
        · obtain ⟨h1, h2, h3, h4⟩ := ht
          cases ht1 : t1.text with
          | none =>
            have ht2 : t2.text = none := by rw [← h3]; exact ht1
            rw [g2 t1 e1 ht1, k2 t2 e2 ht2]
            exact ⟨h4, rfl, h1, rfl⟩
          | some tx =>
            have ht2 : t2.text = some tx := by rw [← h3]; exact ht1
            rw [g3 t1 tx e1 ht1, k3 t2 tx e2 ht2]
            obtain ⟨⟨f1, _, _, f4⟩, f5⟩ := flush_same t1 t2 P ⟨h1, h2, h3, h4⟩
            refine ⟨f4, rfl, f1, ?_⟩
            simp only [Node.attrs, SetAttributeString, AttributeString_SetAttribute, f5]
    all_goals simp [HSame, renderTextChildren, Node.attrs, hel]

/-- The entry phase of a handler gives the same writes, return value and
renderer on two nodes that agree up to `el`, and when it returns without an
error, the same value of `el` on the node. -/
theorem dispatch_entry_rel (x : Ext) (r : Renderer) (par next : Option Node) (n1 n2 : Node)
    (h : Rel n1 n2) :
    (dispatch x r par next n1 true).out = (dispatch x r par next n2 true).out ∧
      (dispatch x r par next n1 true).ret = (dispatch x r par next n2 true).ret ∧
      (dispatch x r par next n1 true).r = (dispatch x r par next n2 true).r ∧
      (∀ st, (dispatch x r par next n1 true).ret = .ok st →
        AttributeString (dispatch x r par next n1 true).node.attrs "el" =
          AttributeString (dispatch x r par next n2 true).node.attrs "el") := by
  obtain ⟨p1, a1, cs1⟩ := n1
  obtain ⟨p2, a2, cs2⟩ := n2
  rw [Rel] at h
  obtain ⟨hp, hattr, hcs⟩ := h
  subst hp
  have hE : ElSame a1 a2 := AttrRel_elSame hattr
  have hS : ∀ v, SetAttribute a1 "el" v = SetAttribute a2 "el" v := hE
  by_cases c1 : p1 = .Paragraph
  · subst c1
    obtain ⟨e1, e2, e3, e4⟩ := renderTextChildren_rel x { r with count := r.count + 1 }
      .Paragraph (SetAttribute a2 "el" (.str (elName (r.count + 1)))) cs1 cs2 hcs
    simp only [dispatch, Node.payload, renderParagraph, if_true, Node.attrs, Node.setAttrs,
      SetAttributeString, hS, e1, e2, e3]
    by_cases hpn : (renderTextChildren x { r with count := r.count + 1 }
        (.mk .Paragraph (SetAttribute a2 "el" (.str (elName (r.count + 1)))) cs2) true).ret
        = .panic
    · simp [hpn]
    · simp only [hpn, if_false]
      obtain ⟨f1, f2, f3, f4⟩ := attachNow_HSame
        (renderTextChildren x { r with count := r.count + 1 }
          (.mk .Paragraph (SetAttribute a2 "el" (.str (elName (r.count + 1)))) cs2) true).r par
        (renderTextChildren x { r with count := r.count + 1 }
          (.mk .Paragraph (SetAttribute a2 "el" (.str (elName (r.count + 1)))) cs1) true).node
        (renderTextChildren x { r with count := r.count + 1 }
          (.mk .Paragraph (SetAttribute a2 "el" (.str (elName (r.count + 1)))) cs2) true).node
        (["let " ++ elName (r.count + 1) ++ "=document.createElement('p');\n",
            "Object.assign(" ++ elName (r.count + 1) ++ ".style, mdStyle.p);\n"] ++
          RenderElAttributes (SetAttribute a2 "el" (.str (elName (r.count + 1))))
            (some ParagraphAttributeFilter) (elName (r.count + 1)) ++
          (renderTextChildren x { r with count := r.count + 1 }
            (.mk .Paragraph (SetAttribute a2 "el" (.str (elName (r.count + 1)))) cs2) true).out)
        (elName (r.count + 1))
        (fun parElNam kind =>
          "// dbg -- par el: " ++ elName (r.count + 1) ++ " kind: " ++
            Payload.Paragraph.kindName ++ " parent:" ++ parElNam ++ " kind:" ++ kind ++ "\n")
        e4
      exact ⟨f1, f2, f3, fun _ _ => f4⟩
  by_cases c2 : p1 = .TextBlock
  · subst c2
    cases par with
    | none => simp [dispatch, Node.payload, renderTextBlock]
    | some pnode =>
      obtain ⟨pp, pa, pch⟩ := pnode
      cases hpe : AttributeString pa "el" with
      | none => simp [dispatch, Node.payload, renderTextBlock, hpe, Node.attrs]
      | some parv =>
        obtain ⟨e1, e2, e3, e4⟩ := renderTextChildren_rel x r .TextBlock
          (SetAttribute a2 "el" parv) cs1 cs2 hcs
        simp only [dispatch, Node.payload, renderTextBlock, if_true, hpe, Node.attrs,
          Node.setAttrs, hS, e2]
        by_cases hpn : (renderTextChildren x r (.mk .TextBlock (SetAttribute a2 "el" parv) cs2)
            true).ret = .panic
        · simp only [hpn, if_true]
          exact ⟨e1, e2.trans hpn, e3, fun _ _ => e4⟩
        · simp only [hpn, if_false]
          exact ⟨e1, trivial, e3, fun _ _ => e4⟩
  by_cases c3 : ∃ k, p1 = .Other k
  · obtain ⟨k, rfl⟩ := c3
    have : a1 = a2 := hattr
    subst this
    simp [dispatch, Node.payload, Node.attrs]
  · obtain ⟨e1, e2, e3, e4⟩ := dispatch_entry_rel_simple x r par next p1 a1 a2 cs1 cs2 hE hcs
      c1 c2 (fun k hk => c3 ⟨k, hk⟩)
    exact ⟨e1, e2, e3, fun _ _ => e4⟩

theorem walkExit_rel (x : Ext) (r : Renderer) (par1 par2 next1 next2 : Option Node)
    (n1 n2 : Node) (out : List String) (hp : ParRel par1 par2) (hn : NextRel next1 next2)
    (hpay : n1.payload = n2.payload)
    (hel : AttributeString n1.attrs "el" = AttributeString n2.attrs "el") :
    (walkExit x r par1 next1 n1 out).out = (walkExit x r par2 next2 n2 out).out ∧
      (walkExit x r par1 next1 n1 out).ret = (walkExit x r par2 next2 n2 out).ret ∧
      (walkExit x r par1 next1 n1 out).r = (walkExit x r par2 next2 n2 out).r := by
  obtain ⟨e1, e2, e3⟩ := dispatch_exit_congr x r par2 next2 n1 n2 hpay hel
  rw [← dispatch_par_congr x r par1 par2 next1 next2 n1 false hp hn] at e1 e2 e3
  simp only [walkExit]
  rw [e2]
  cases hr : (dispatch x r par2 next2 n2 false).ret with
  | panic => exact ⟨by simp [e1], rfl, e3⟩
  | fail st e => exact ⟨by simp [e1], rfl, e3⟩
  | ok st => cases st <;> exact ⟨by simp [e1], rfl, e3⟩

mutual
/-- The walk gives the same writes, return value and renderer on two trees
that agree up to `el`. -/
theorem walkHelper_rel (x : Ext) : ∀ (n1 n2 : Node) (r : Renderer)
    (par1 par2 next1 next2 : Option Node), Rel n1 n2 → ParRel par1 par2 → NextRel next1 next2 →
    (walkHelper x r par1 next1 n1).out = (walkHelper x r par2 next2 n2).out ∧
      (walkHelper x r par1 next1 n1).ret = (walkHelper x r par2 next2 n2).ret ∧
      (walkHelper x r par1 next1 n1).r = (walkHelper x r par2 next2 n2).r
  | .mk p1 a1 cs1, .mk p2 a2 cs2, r, par1, par2, next1, next2, h, hp, hn => by
    obtain ⟨e1, e2, e3, e4⟩ := dispatch_entry_rel x r par1 next1 _ _ h
    rw [dispatch_par_congr x r par1 par2 next1 next2 (.mk p2 a2 cs2) true hp hn] at e1 e2 e3 e4
    have hq1 := dispatch_payload x r par1 next1 (.mk p1 a1 cs1) true
    have hq2 := dispatch_payload x r par2 next2 (.mk p2 a2 cs2) true
    have hpp : p1 = p2 := by rw [Rel] at h; exact h.1
    have hcs : RelList cs1 cs2 := by rw [Rel] at h; exact h.2.2
    have hpay : (dispatch x r par1 next1 (.mk p1 a1 cs1) true).node.payload =
        (dispatch x r par2 next2 (.mk p2 a2 cs2) true).node.payload := by
      rw [hq1, hq2]; exact hpp
    rw [walkHelper, walkHelper]
    simp only []
    cases hr : (dispatch x r par1 next1 (.mk p1 a1 cs1) true).ret with
    | panic =>
      rw [← e2, hr]
      exact ⟨e1, rfl, e3⟩
    | fail st e =>
      rw [← e2, hr]
      exact ⟨e1, rfl, e3⟩
    | ok st =>
      have hel := e4 st hr
      rw [← e2, hr]
      cases st with
      | WalkStop => exact ⟨e1, rfl, e3⟩
      | WalkSkipChildren =>
        simp only []
        rw [e1, e3]
        exact walkExit_rel x _ par1 par2 next1 next2 _ _ _ hp hn hpay hel
      | WalkContinue =>
        simp only []
        have hw := walkChildren_rel x cs1 cs2
          (dispatch x r par2 next2 (.mk p2 a2 cs2) true).r
          (.mk (dispatch x r par1 next1 (.mk p1 a1 cs1) true).node.payload
            (dispatch x r par1 next1 (.mk p1 a1 cs1) true).node.attrs cs1)
          (.mk (dispatch x r par2 next2 (.mk p2 a2 cs2) true).node.payload
            (dispatch x r par2 next2 (.mk p2 a2 cs2) true).node.attrs cs2)
          hcs ⟨hpay, hel⟩
        rw [e3]
        obtain ⟨w1, w2, w3⟩ := hw
        cases hwr : (walkChildren x (dispatch x r par2 next2 (.mk p2 a2 cs2) true).r
            (.mk (dispatch x r par1 next1 (.mk p1 a1 cs1) true).node.payload
              (dispatch x r par1 next1 (.mk p1 a1 cs1) true).node.attrs cs1) cs1).ret with
        | ok =>
          rw [← w2, hwr]
          simp only []
          rw [e1, w1, w3]
          exact walkExit_rel x _ par1 par2 next1 next2 _ _ _ hp hn hpay hel
        | stop e =>
          rw [← w2, hwr]
          exact ⟨by rw [e1, w1], rfl, w3⟩
        | panic =>
          rw [← w2, hwr]
          exact ⟨by rw [e1, w1], rfl, w3⟩
/-- The walk over two lists of siblings that agree up to `el`. -/
theorem walkChildren_rel (x : Ext) : ∀ (cs1 cs2 : List Node) (r : Renderer) (pn1 pn2 : Node),
    RelList cs1 cs2 → ParRel (some pn1) (some pn2) →
    (walkChildren x r pn1 cs1).out = (walkChildren x r pn2 cs2).out ∧
      (walkChildren x r pn1 cs1).ret = (walkChildren x r pn2 cs2).ret ∧
      (walkChildren x r pn1 cs1).r = (walkChildren x r pn2 cs2).r
  | [], [], _, _, _, _, _ => ⟨rfl, rfl, rfl⟩
  | [], _ :: _, _, _, _, h, _ => by rw [RelList] at h; exact absurd h id
  | _ :: _, [], _, _, _, h, _ => by rw [RelList] at h; exact absurd h id
  | c1 :: r1, c2 :: r2, r, pn1, pn2, h, hp => by
    rw [RelList] at h
    obtain ⟨w1, w2, w3⟩ := walkHelper_rel x c1 c2 r (some pn1) (some pn2) r1.head? r2.head?
      h.1 hp (RelList_head r1 r2 h.2)
    rw [walkChildren, walkChildren]
    simp only []
    cases hwr : (walkHelper x r (some pn1) r1.head? c1).ret with
    | ok =>
      rw [← w2, hwr]
      simp only []
      rw [w3]
      obtain ⟨v1, v2, v3⟩ := walkChildren_rel x r1 r2
        (walkHelper x r (some pn2) r2.head? c2).r pn1 pn2 h.2 hp
      exact ⟨by rw [w1, v1], v2, v3⟩
    | stop e =>
      rw [← w2, hwr]
      exact ⟨w1, rfl, w3⟩
    | panic =>
      rw [← w2, hwr]
      exact ⟨w1, rfl, w3⟩
end

theorem Rel_of_set (p : Payload) (a : List Attribute) (cs cs2 : List Node) (n : Node)
    (hp : ∀ k, p ≠ .Other k) (hcs : RelList cs cs2)
    (h : n = .mk p a cs2 ∨ ∃ v, n = .mk p (SetAttribute a "el" v) cs2) :
    Rel (.mk p a cs) n := by
  have key : ∀ b, ElSame a b → Rel (.mk p a cs) (.mk p b cs2) := by
    intro b hb
    rw [Rel]
    refine ⟨rfl, ?_, hcs⟩
    cases p
    case Other k => exact absurd rfl (hp k)
    all_goals exact hb
  rcases h with rfl | ⟨v, rfl⟩
  · exact key a (ElSame_refl a)
  · exact key _ (ElSame_set a v)

/-- The entry phase of a handler that does not visit the children itself
leaves the node as it is, up to the value stored under `el`. -/
theorem dispatch_entry_node_simple (x : Ext) (r : Renderer) (par next : Option Node)
    (p : Payload) (a : List Attribute) (cs : List Node)
    (h1 : p ≠ .Paragraph) (h2 : p ≠ .TextBlock) (h3 : ∀ d t, p ≠ .Image d t) :
    (dispatch x r par next (.mk p a cs) true).node = .mk p a cs ∨
      ∃ v, (dispatch x r par next (.mk p a cs) true).node = .mk p (SetAttribute a "el" v) cs := by
  cases p
  case Paragraph => exact absurd rfl h1
  case TextBlock => exact absurd rfl h2
  case Image d t => exact absurd rfl (h3 d t)
  case Other k => left; rfl
  case CodeSpan =>
    right
    refine ⟨.str (elName (r.count + 1)), ?_⟩
    show (renderCodeSpan r par (.mk .CodeSpan a cs) true).node = _
    simp only [renderCodeSpan, if_true]
    cases codeSpanChildren r.dbg (elName (r.count + 1)) 0 (Node.mk Payload.CodeSpan a cs).children with
    | none => rfl
    | some spans => simp only []; rw [attachNow_node]; rfl
  case Link d t =>
    right
    refine ⟨.str (elName (r.count + 1)), ?_⟩
    show (renderLink x r par (.mk (.Link d t) a cs) true).node = _
    simp only [renderLink, if_true]
    rw [attachNow_node]
    rfl
  case RawHTML s =>
    right
    refine ⟨.str (elName (r.count + 1)), ?_⟩
    show (renderRawHTML r par (.mk (.RawHTML s) a cs) true).node = _
    cases hu : r.Unsafe <;> simp [renderRawHTML, hu, Node.setAttrs, SetAttributeString, Node.attrs]
  case HTMLBlock l c =>
    right
    refine ⟨.str (elName r.count), ?_⟩
    show (renderHTMLBlock r par (.mk (.HTMLBlock l c) a cs) true).node = _
    cases hu : r.Unsafe <;> cases c <;> simp [renderHTMLBlock, hu, SetAttributeString]
  case Document =>
    right
    exact ⟨.str "mdDiv", by simp [dispatch, Node.payload, renderDocument, Node.setAttrs,
      SetAttributeString, Node.attrs]⟩
  all_goals
    right
    refine ⟨.str (elName (r.count + 1)), ?_⟩
    simp [dispatch, Node.payload, renderHeading, renderBlockquote,
      renderCodeBlock, renderFencedCodeBlock, renderList, renderListItem,
      renderThematicBreak, renderAutoLink, renderEmphasis, renderText, renderString,
      Node.attrs, Node.setAttrs, SetAttributeString]

mutual
theorem renderTexts_node (x : Ext) : ∀ (n : Node) (r : Renderer), Rel n (renderTexts x r n).2.1
  | .mk p a cs, r => by
    simp only [renderTexts]
    rw [Rel]
    exact ⟨rfl, AttrRel_refl p a, renderTextsLoop_node x (.mk p a cs) cs r⟩
theorem renderTextsLoop_node (x : Ext) (pnode : Node) : ∀ (cs : List Node) (r : Renderer),
    RelList cs (renderTextsLoop x r pnode cs).2.1
  | [], r => by simp only [renderTextsLoop]; rw [RelList]; trivial
  | .mk p a cs :: rest, r => by
    cases p
    case StringNode v raw code =>
      simp only [renderTextsLoop]
      rw [RelList]
      refine ⟨?_, renderTextsLoop_node x pnode rest _⟩
      exact Rel_of_set _ a cs cs _ (fun k hk => by cases hk) (RelList_refl cs)
        (dispatch_entry_node_simple x r (some pnode) none (.StringNode v raw code) a cs
          (fun h => by cases h) (fun h => by cases h) (fun d t h => by cases h))
    case Text v raw soft hard =>
      simp only [renderTextsLoop]
      rw [RelList]
      refine ⟨?_, renderTextsLoop_node x pnode rest _⟩
      exact Rel_of_set _ a cs cs _ (fun k hk => by cases hk) (RelList_refl cs)
        (dispatch_entry_node_simple x r (some pnode) rest.head? (.Text v raw soft hard) a cs
          (fun h => by cases h) (fun h => by cases h) (fun d t h => by cases h))
    all_goals
      simp only [renderTextsLoop]
      rw [RelList]
      exact ⟨renderTexts_node x _ r, renderTextsLoop_node x pnode rest _⟩
end

theorem afterCall_seen (s1 s2 : Agg) (h : HResult) (he : s1.afterCall h = some s2) :
    s2.seen = s1.seen ++ [h.node] := by
  by_cases hp : h.ret = .panic
  · simp [Agg.afterCall, hp] at he
  · simp only [Agg.afterCall, hp, if_false, Option.some.injEq] at he
    subst he
    rfl

theorem flushIfText_seen (s : Agg) (P : String) : (s.flushIfText P).seen = s.seen := by
  by_cases hi : s.istate = 1 <;> simp [Agg.flushIfText, Agg.flush, hi]

/-- One turn of the loop of the aggregator records the child, changed at
most in its `el`. -/
theorem aggStep_seen (x : Ext) (pnode : Node) (P : String) (s s2 : Agg) (c : Node)
    (h : aggStep x pnode P s c = some s2) : ∃ c2, s2.seen = s.seen ++ [c2] ∧ Rel c c2 := by
  obtain ⟨cp, ca, cc⟩ := c
  have hsimple : ∀ (r : Renderer) (par next : Option Node),
      cp ≠ .Paragraph → cp ≠ .TextBlock → (∀ d t, cp ≠ .Image d t) → (∀ k, cp ≠ .Other k) →
      Rel (.mk cp ca cc) (dispatch x r par next (.mk cp ca cc) true).node := by
    intro r par next h1 h2 h3 h4
    exact Rel_of_set cp ca cc cc _ h4 (RelList_refl cc)
      (dispatch_entry_node_simple x r par next cp ca cc h1 h2 h3)
  cases cp
  case Text v raw soft hard =>
    simp only [aggStep] at h
    split_ifs at h <;> (cases h; exact ⟨_, rfl, Rel_refl _⟩)
  case Emphasis Level =>
    rcases cc with _ | ⟨⟨dp, da, dc⟩, rest⟩
    · simp [aggStep] at h
    · cases dp <;> simp only [aggStep] at h <;> try cases h
      rename_i v raw soft hard
      by_cases hi : s.istate = 1
      · refine ⟨.mk (.Emphasis Level) (SetAttributeString ca "el" (elName (s.r.count + 1)))
            (.mk (.Text v raw soft hard) da dc :: rest), by simp [hi, Agg.flush], ?_⟩
        exact Rel_of_set _ ca _ _ _ (fun k hk => by cases hk) (RelList_refl _)
          (Or.inr ⟨_, rfl⟩)
      · exact ⟨.mk (.Emphasis Level) ca (.mk (.Text v raw soft hard) da dc :: rest),
          by simp [hi], Rel_refl _⟩
  case CodeSpan =>
    simp only [aggStep] at h
    refine ⟨_, by rw [afterCall_seen _ _ _ h, flushIfText_seen], ?_⟩
    exact hsimple _ (some pnode) none (fun h => by cases h) (fun h => by cases h)
      (fun d t h => by cases h) (fun k h => by cases h)
  case Link Destination Title =>
    simp only [aggStep] at h
    refine ⟨_, by rw [afterCall_seen _ _ _ h, flushIfText_seen], ?_⟩
    exact hsimple _ (some pnode) none (fun h => by cases h) (fun h => by cases h)
      (fun d t h => by cases h) (fun k h => by cases h)
  case RawHTML segments =>
    simp only [aggStep] at h
    refine ⟨_, by rw [afterCall_seen _ _ _ h, flushIfText_seen], ?_⟩
    exact hsimple _ (some pnode) none (fun h => by cases h) (fun h => by cases h)
      (fun d t h => by cases h) (fun k h => by cases h)
  case StringNode v raw code =>
    simp only [aggStep] at h
    refine ⟨_, by rw [afterCall_seen _ _ _ h, flushIfText_seen], ?_⟩
    exact hsimple _ (some pnode) none (fun h => by cases h) (fun h => by cases h)
      (fun d t h => by cases h) (fun k h => by cases h)
  case Image d t => simp [aggStep] at h
  all_goals
    simp only [aggStep, Option.some.injEq] at h
    subst h
    exact ⟨_, rfl, Rel_refl _⟩

theorem aggLoop_seen (x : Ext) (pnode : Node) (P : String) :
    ∀ (cs : List Node) (s s2 : Agg), aggLoop x pnode P s cs = some s2 →
      ∃ cs2, s2.seen = s.seen ++ cs2 ∧ RelList cs cs2 := by
  intro cs
  induction cs with
  | nil =>
    intro s s2 h
    simp only [aggLoop, Option.some.injEq] at h
    subst h
    exact ⟨[], by simp, RelList_refl []⟩
  | cons c rest ih =>
    intro s s2 h
    rw [aggLoop] at h
    cases hs : aggStep x pnode P s c with
    | none => rw [hs] at h; cases h
    | some s1 =>
      rw [hs] at h
      obtain ⟨c2, e1, r1⟩ := aggStep_seen x pnode P s s1 c hs
      obtain ⟨cs2, e2, r2⟩ := ih s1 s2 h
      refine ⟨c2 :: cs2, by rw [e2, e1]; simp, ?_⟩
      rw [RelList]
      exact ⟨r1, r2⟩

/-- The aggregator leaves the node and its children as they are, up to
`el`. -/
theorem renderTextChildren_node (x : Ext) (r : Renderer) (p : Payload)
    (attrs : List Attribute) (cs : List Node) :
    ∃ b cs2, (renderTextChildren x r (.mk p attrs cs) true).node = .mk p b cs2 ∧
      ElSame attrs b ∧ RelList cs cs2 := by
  cases hel : AttributeString attrs "el" with
  | none =>
    exact ⟨attrs, cs, by simp [renderTextChildren, Node.attrs, hel], ElSame_refl _,
      RelList_refl _⟩
  | some elv =>
    cases elv
    case str P =>
      by_cases hfast : ∃ v raw soft hard a ch, cs = [.mk (.Text v raw soft hard) a ch]
      · obtain ⟨v, raw, soft, hard, a, ch, rfl⟩ := hfast
        exact ⟨attrs, _, by simp [renderTextChildren, Node.attrs, Node.children, hel],
          ElSame_refl _, RelList_refl _⟩
      · obtain ⟨g1, g2, g3⟩ := renderTextChildren_general x r p attrs cs P hel hfast
        cases hl : aggLoop x (.mk p attrs cs) P ⟨r, 0, none, aggDbgOut r P cs, []⟩ cs with
        | none => exact ⟨attrs, cs, by simp [g1 hl], ElSame_refl _, RelList_refl _⟩
        | some s =>
          obtain ⟨cs2, e2, r2⟩ := aggLoop_seen x (.mk p attrs cs) P cs _ s hl
          simp only [List.nil_append] at e2
          cases ht : s.text with
          | none => exact ⟨attrs, s.seen, by simp [g2 s hl ht], ElSame_refl _, by rw [e2]; exact r2⟩
          | some t =>
            refine ⟨SetAttribute attrs "el" (.str (s.flush P).2), (s.flush P).1.seen,
              by simp [g3 s t hl ht, SetAttributeString], ElSame_set _ _, ?_⟩
            have : (s.flush P).1.seen = s.seen := by simp [Agg.flush]
            rw [this, e2]
            exact r2
    all_goals
      exact ⟨attrs, cs, by simp [renderTextChildren, Node.attrs, hel], ElSame_refl _,
        RelList_refl _⟩

/-- The entry phase of a handler leaves the tree of the node as it is, up to
`el`. -/
theorem dispatch_entry_node (x : Ext) (r : Renderer) (par next : Option Node) (n : Node) :
    Rel n (dispatch x r par next n true).node := by
  obtain ⟨p, a, cs⟩ := n
  by_cases c1 : p = .Paragraph
  · subst c1
    obtain ⟨b, cs2, e, hb, hc⟩ := renderTextChildren_node x { r with count := r.count + 1 }
      .Paragraph (SetAttribute a "el" (.str (elName (r.count + 1)))) cs
    have hn : (dispatch x r par next (.mk .Paragraph a cs) true).node = .mk .Paragraph b cs2 := by
      show (renderParagraph x r par (.mk .Paragraph a cs) true).node = _
      simp only [renderParagraph, if_true, Node.attrs, Node.setAttrs, SetAttributeString]
      split_ifs
      · exact e
      · rw [attachNow_node]; exact e
    rw [hn, Rel]
    exact ⟨rfl, ElSame_trans (ElSame_set a _) hb, hc⟩
  by_cases c2 : p = .TextBlock
  · subst c2
    show Rel _ (renderTextBlock x r par (.mk .TextBlock a cs) true).node
    cases par with
    | none => simp only [renderTextBlock, if_true]; exact Rel_refl _
    | some pnode =>
      obtain ⟨pp, pa, pch⟩ := pnode
      cases hpe : AttributeString pa "el" with
      | none => simp only [renderTextBlock, if_true, Node.attrs, hpe]; exact Rel_refl _
      | some parv =>
        obtain ⟨b, cs2, e, hb, hc⟩ := renderTextChildren_node x r .TextBlock
          (SetAttribute a "el" parv) cs
        have hn : (renderTextBlock x r (some (.mk pp pa pch)) (.mk .TextBlock a cs) true).node =
            .mk .TextBlock b cs2 := by
          simp only [renderTextBlock, if_true, Node.attrs, hpe, Node.setAttrs]
          split_ifs
          · exact e
          · exact e
        rw [hn, Rel]
        exact ⟨rfl, ElSame_trans (ElSame_set a _) hb, hc⟩
  by_cases c3 : ∃ d t, p = .Image d t
  · obtain ⟨d, t, rfl⟩ := c3
    show Rel _ (renderImage x r par (.mk (.Image d t) a cs) true).node
    simp only [renderImage, Bool.not_true, Bool.false_eq_true, if_false, renderTexts]
    rw [Rel]
    exact ⟨rfl, ElSame_set a _, renderTextsLoop_node x _ cs _⟩
  by_cases c4 : ∃ k, p = .Other k
  · obtain ⟨k, rfl⟩ := c4
    exact Rel_refl _
  · exact Rel_of_set p a cs cs _ (fun k hk => c4 ⟨k, hk⟩) (RelList_refl cs)
      (dispatch_entry_node_simple x r par next p a cs c1 c2 (fun d t h => c3 ⟨d, t, h⟩))

/-- The exit phase of a handler leaves the node as it is, up to the value
stored under `el`. -/
theorem dispatch_exit_node (x : Ext) (r : Renderer) (par next : Option Node) (p : Payload)
    (a : List Attribute) (cs : List Node) :
    (dispatch x r par next (.mk p a cs) false).node = .mk p a cs ∨
      (p = .Document ∧ ∃ v, (dispatch x r par next (.mk p a cs) false).node =
        .mk p (SetAttribute a "el" v) cs) := by
  cases p
  case Document =>
    right
    exact ⟨rfl, .str "mdDiv", by simp [dispatch, Node.payload, renderDocument, Node.setAttrs,
      SetAttributeString, Node.attrs]⟩
  case HTMLBlock l c =>
    left
    cases c <;> simp [dispatch, Node.payload, renderHTMLBlock, exitAttach_node]
  all_goals
    left
    simp [dispatch, Node.payload, renderHeading, renderBlockquote, renderList,
      renderListItem, renderThematicBreak, renderAutoLink, renderText, renderString,
      renderCodeBlock, renderFencedCodeBlock, renderEmphasis, renderImage, renderRawHTML,
      renderParagraph, renderTextBlock, renderCodeSpan, renderLink, exitAttach_node]

theorem walkExit_node (x : Ext) (r : Renderer) (par next : Option Node) (node : Node)
    (out : List String) :
    (walkExit x r par next node out).node = (dispatch x r par next node false).node := by
  simp only [walkExit]
  split <;> rfl

/-- The exit step of the walk keeps a tree that agrees with `n` up to `el` in
agreement with `n`. -/
theorem Rel_walkExit (x : Ext) (r : Renderer) (par next : Option Node) (n : Node) (p : Payload)
    (a : List Attribute) (cs : List Node) (out : List String) (hR : Rel n (.mk p a cs)) :
    Rel n (walkExit x r par next (.mk p a cs) out).node := by
  rw [walkExit_node]
  rcases dispatch_exit_node x r par next p a cs with h | ⟨hp, v, h⟩
  · rw [h]; exact hR
  · rw [h]
    subst hp
    obtain ⟨p0, a0, cs0⟩ := n
    rw [Rel] at hR ⊢
    obtain ⟨h1, h2, h3⟩ := hR
    subst h1
    exact ⟨rfl, ElSame_trans (h2 : ElSame a0 a) (ElSame_set a v), h3⟩

mutual
/-- The walk leaves the tree as it is, up to the `el` attributes of the nodes
that have a handler. -/
theorem walkHelper_node (x : Ext) : ∀ (n : Node) (r : Renderer) (par next : Option Node),
    Rel n (walkHelper x r par next n).node
  | .mk p a cs, r, par, next => by
    have he := dispatch_entry_node x r par next (.mk p a cs)
    rw [walkHelper]
    simp only []
    rcases hn : (dispatch x r par next (.mk p a cs) true).node with ⟨p2, a2, cs2⟩
    rw [hn] at he
    cases hr : (dispatch x r par next (.mk p a cs) true).ret with
    | panic => simp only [hn]; exact he
    | fail st e => simp only [hn]; exact he
    | ok st =>
      cases st with
      | WalkStop => simp only [hn]; exact he
      | WalkSkipChildren =>
        simp only [hn]
        exact Rel_walkExit x _ par next _ p2 a2 cs2 _ he
      | WalkContinue =>
        simp only [hn, Node.payload, Node.attrs]
        have hw := walkChildren_nodes x cs (dispatch x r par next (.mk p a cs) true).r
          (.mk p2 a2 cs)
        have hrel : Rel (.mk p a cs) (.mk p2 a2
            (walkChildren x (dispatch x r par next (.mk p a cs) true).r (.mk p2 a2 cs)
              cs).nodes) := by
          rw [Rel] at he ⊢
          exact ⟨he.1, he.2.1, hw⟩
        cases hwr : (walkChildren x (dispatch x r par next (.mk p a cs) true).r (.mk p2 a2 cs)
            cs).ret with
        | ok =>
          simp only []
          exact Rel_walkExit x _ par next _ p2 a2 _ _ hrel
        | stop e => exact hrel
        | panic => exact hrel
/-- The walk over a list of siblings leaves the trees as they are, up to
`el`. -/
theorem walkChildren_nodes (x : Ext) : ∀ (cs : List Node) (r : Renderer) (pnode : Node),
    RelList cs (walkChildren x r pnode cs).nodes
  | [], _, _ => by rw [walkChildren, RelList]; trivial
  | c :: rest, r, pnode => by
    have hw := walkHelper_node x c r (some pnode) rest.head?
    rw [walkChildren]
    simp only []
    cases hwr : (walkHelper x r (some pnode) rest.head? c).ret with
    | ok =>
      simp only []
      rw [RelList]
      exact ⟨hw, walkChildren_nodes x rest _ pnode⟩
    | stop e =>
      simp only []
      rw [RelList]
      exact ⟨hw, RelList_refl rest⟩
    | panic =>
      simp only []
      rw [RelList]
      exact ⟨hw, RelList_refl rest⟩
end

/-- The conversion of the tree that a conversion leaves behind is the
conversion of the tree it started from. -/
theorem Render_again (x : Ext) (r : Renderer) (root : Node) :
    (Render x r (Render x r root).node).out = (Render x r root).out ∧
      (Render x r (Render x r root).node).ret = (Render x r root).ret ∧
      (Render x r (Render x r root).node).r = (Render x r root).r := by
  have h := walkHelper_rel x root (Render x r root).node r none none none none
    (walkHelper_node x root r none none) trivial trivial
  exact ⟨h.1.symm, h.2.1.symm, h.2.2.symm⟩

/-- The conversion of a document does not read the counter of the renderer
it is given. -/
theorem Render_document_count (x : Ext) (r : Renderer) (c : Int) (a : List Attribute)
    (cs : List Node) :
    Render x { r with count := c } (.mk .Document a cs) = Render x r (.mk .Document a cs) := by
  simp only [Render, walkHelper, dispatch, Node.payload, renderDocument, if_true]


/-! ### Exit phases that cannot attach -/

/-- The shared exit phase fails without writing when the node has no
parent, has no `el`, or its parent has no `el`; the three cases are tested in
this order. -/
theorem exitAttach_error (r : Renderer) (par : Option Node) (node : Node) (dbg : Bool)
    (status : WalkStatus)
    (hbad : par = none ∨ AttributeString node.attrs "el" = none ∨
      ∃ pnode, par = some pnode ∧ AttributeString pnode.attrs "el" = none) :
    (∃ e, (exitAttach r par node dbg status).ret = .fail .WalkStop e) ∧
      (exitAttach r par node dbg status).out = [] ∧
      (exitAttach r par node dbg status).r = r ∧
      (par = none → (exitAttach r par node dbg status).ret = .fail .WalkStop .noParent) ∧
      (par ≠ none → AttributeString node.attrs "el" = none →
        (exitAttach r par node dbg status).ret = .fail .WalkStop .noSelfBinding) ∧
      (par ≠ none → AttributeString node.attrs "el" ≠ none →
        (exitAttach r par node dbg status).ret = .fail .WalkStop .noParentBinding) := by
  cases par with
  | none => simp [exitAttach]
  | some pnode =>
    cases hel : AttributeString node.attrs "el" with
    | none => simp [exitAttach, hel]
    | some elv =>
      have hp : AttributeString pnode.attrs "el" = none := by
        rcases hbad with h | h | ⟨q, hq, h⟩
        · cases h
        · rw [hel] at h; cases h
        · cases hq; exact h
      simp [exitAttach, hel, hp]

/-- C21. For the handlers with an attaching exit phase (heading, blockquote,
code block, fenced code block, list, list item, thematic break, autolink,
emphasis, image, raw HTML, text, string): when the exit phase runs on a node
that has no parent, or has no `el`, or whose parent has no `el`, the handler
returns `WalkStop` with an error, writes nothing and leaves the counter as it
is. The error is the one of the first test that fails: no parent, then no own
identifier, then no identifier of the parent. -/
theorem exit_errors (x : Ext) (r : Renderer) (par next : Option Node) (p : Payload)
    (attrs : List Attribute) (children : List Node)
    (hk : (∃ l, p = .Heading l) ∨ p = .Blockquote ∨ (∃ ls, p = .CodeBlock ls) ∨
      (∃ lg ls, p = .FencedCodeBlock lg ls) ∨ (∃ m s, p = .ListNode m s) ∨ p = .ListItem ∨
      p = .ThematicBreak ∨ (∃ t u, p = .AutoLink t u) ∨ (∃ l, p = .Emphasis l) ∨
      (∃ d t, p = .Image d t) ∨ (∃ s, p = .RawHTML s) ∨ (∃ v a b c, p = .Text v a b c) ∨
      (∃ v a b, p = .StringNode v a b))
    (hbad : par = none ∨ AttributeString attrs "el" = none ∨
      ∃ pnode, par = some pnode ∧ AttributeString pnode.attrs "el" = none) :
    (∃ e, (dispatch x r par next (.mk p attrs children) false).ret = .fail .WalkStop e) ∧
      (dispatch x r par next (.mk p attrs children) false).out = [] ∧
      (dispatch x r par next (.mk p attrs children) false).r = r ∧
      (par = none →
        (dispatch x r par next (.mk p attrs children) false).ret =
          .fail .WalkStop .noParent) ∧
      (par ≠ none → AttributeString attrs "el" = none →
        (dispatch x r par next (.mk p attrs children) false).ret =
          .fail .WalkStop .noSelfBinding) ∧
      (par ≠ none → AttributeString attrs "el" ≠ none →
        (dispatch x r par next (.mk p attrs children) false).ret =
          .fail .WalkStop .noParentBinding) := by
  have hnode : (Node.mk p attrs children).attrs = attrs := rfl
  rcases hk with ⟨l, rfl⟩ | rfl | ⟨ls, rfl⟩ | ⟨lg, ls, rfl⟩ | ⟨m, s, rfl⟩ | rfl | rfl |
    ⟨t, u, rfl⟩ | ⟨l, rfl⟩ | ⟨d, t, rfl⟩ | ⟨s, rfl⟩ | ⟨v, a, b, c, rfl⟩ | ⟨v, a, b, rfl⟩
  all_goals
    first
    | (have h := exitAttach_error r par (.mk _ attrs children) r.dbg .WalkContinue
        (by rw [hnode]; exact hbad)
       rw [hnode] at h
       simpa [dispatch, Node.payload, renderHeading, renderBlockquote, renderCodeBlock,
         renderList, renderListItem, renderThematicBreak, renderAutoLink, renderEmphasis,
         renderImage, renderText, renderString] using h)
    | (have h := exitAttach_error r par (.mk _ attrs children) true .WalkContinue
        (by rw [hnode]; exact hbad)
       rw [hnode] at h
       simpa [dispatch, Node.payload, renderFencedCodeBlock] using h)
    | (have h := exitAttach_error r par (.mk _ attrs children) r.dbg .WalkSkipChildren
        (by rw [hnode]; exact hbad)
       rw [hnode] at h
       simpa [dispatch, Node.payload, renderRawHTML] using h)

/-- C21, at a heading without an identifier under the document root. -/
theorem exit_errors_witness :
    (∃ e, (dispatch plainExt sampleRenderer (some sampleDocument) none
        (.mk (.Heading 2) [] []) false).ret = .fail .WalkStop e) ∧
      (dispatch plainExt sampleRenderer (some sampleDocument) none
        (.mk (.Heading 2) [] []) false).out = [] ∧
      (dispatch plainExt sampleRenderer (some sampleDocument) none
        (.mk (.Heading 2) [] []) false).ret = .fail .WalkStop .noSelfBinding :=
  ⟨(exit_errors plainExt sampleRenderer (some sampleDocument) none (.Heading 2) [] []
      (Or.inl ⟨2, rfl⟩) (Or.inr (Or.inl (by decide)))).1,
    (exit_errors plainExt sampleRenderer (some sampleDocument) none (.Heading 2) [] []
      (Or.inl ⟨2, rfl⟩) (Or.inr (Or.inl (by decide)))).2.1,
    by decide⟩

/-! ### Children of an unexpected shape -/

/-- The aggregator panics on an emphasis without children or whose first
child is not a `Text`, in every state. -/
theorem aggStep_emphasis_bad_shape (x : Ext) (pnode : Node) (P : String) (s : Agg)
    (Level : Int) (attrs : List Attribute) (children : List Node)
    (h : ∀ c ∈ children.head?, c.isText = false) :
    aggStep x pnode P s (.mk (.Emphasis Level) attrs children) = none := by
  cases children with
  | nil => simp [aggStep]
  | cons c rest =>
    have hc := h c (by simp)
    obtain ⟨cp, ca, cch⟩ := c
    cases cp <;> simp [Node.isText] at hc <;> simp [aggStep]

theorem codeSpanChildren_none (dbg : Bool) (elNam : String) :
    ∀ (cs : List Node) (n : Nat), (∃ c ∈ cs, c.isText = false) →
      codeSpanChildren dbg elNam n cs = none := by
  intro cs
  induction cs with
  | nil => intro n h; simp at h
  | cons c rest ih =>
    intro n h
    obtain ⟨cp, ca, cch⟩ := c
    cases cp
    case Text v raw soft hard =>
      have hr : ∃ c ∈ rest, c.isText = false := by
        obtain ⟨d, hd, hdt⟩ := h
        rcases List.mem_cons.mp hd with rfl | hd
        · simp [Node.isText] at hdt
        · exact ⟨d, hd, hdt⟩
      simp [codeSpanChildren, ih (n + 1) hr]
    all_goals simp [codeSpanChildren]

/-- The entry phase of `renderCodeSpan` panics when a child of the code span
is not a `Text`. -/
theorem renderCodeSpan_bad_shape (r : Renderer) (par : Option Node) (attrs : List Attribute)
    (children : List Node) (h : ∃ c ∈ children, c.isText = false) :
    (renderCodeSpan r par (.mk .CodeSpan attrs children) true).ret = .panic := by
  simp [renderCodeSpan, Node.children, codeSpanChildren_none _ _ children 0 h]

/-- C22 fails on the code: the unexpected shapes are not reported as errors,
the handlers panic. The aggregator panics on the emphasis of `a ***b***`,
whose first child is an emphasis, and on an emphasis without children, and
the conversion of the document panics; `renderCodeSpan` panics on a code span
whose child is an emphasis. No call returns `WalkStop` with an error. -/
theorem unexpected_shape_panics :
    (renderTextChildren plainExt sampleRenderer sampleNestedEmphasisParagraph true).ret =
        .panic ∧
      (renderTextChildren plainExt sampleRenderer
        (.mk .Paragraph [⟨"el", .str "el2"⟩] [.mk (.Emphasis 1) [] []]) true).ret = .panic ∧
      (Render plainExt (NewRenderer "md" false)
        (.mk .Document [] [sampleNestedEmphasisParagraph])).ret = .panic ∧
      (renderCodeSpan sampleRenderer (some sampleParagraph) sampleBadCodeSpan true).ret =
        .panic := by
  decide

/-! ### The identifier of an HTML block -/

/-- C23 fails on the code: in the conversion of the document `---` followed
by an HTML block, the thematic break is created under `el2` and the HTML block
is created under `el2` again: `renderHTMLBlock` formats the counter as it
stands and does not increment it. The output is given after the preamble. -/
theorem htmlBlock_reuses_identifier :
    (Render plainExt (NewRenderer "md" false) sampleBreakThenHTML).ret = .ok ∧
      (Render plainExt (NewRenderer "md" false) sampleBreakThenHTML).out.tail =
        ["let el2=document.createElement('hr');\n", "mdDiv.appendChild(el2);\n",
          "let el2= document.createElement('div');\n", "//<!-- raw HTML omitted -->\n",
          "return mdDiv;\n\x7d;\n"] := by
  decide

/-- The entry phase of `renderHTMLBlock` declares the identifier of the
counter as it stands and leaves the counter unchanged, for every HTML block
rendered with `Unsafe` off. -/
theorem renderHTMLBlock_entry_count (r : Renderer) (par : Option Node) (lines : List String)
    (closure : Option String) (attrs : List Attribute) (children : List Node)
    (hU : r.Unsafe = false) :
    (renderHTMLBlock r par (.mk (.HTMLBlock lines closure) attrs children) true).r = r ∧
      (renderHTMLBlock r par (.mk (.HTMLBlock lines closure) attrs children) true).out =
        ["let " ++ elName r.count ++ "= document.createElement('div');\n",
          "//<!-- raw HTML omitted -->\n"] := by
  simp [renderHTMLBlock, hU]

/-- C24 fails on the code: in the conversion of a block quote that holds an
HTML comment of two lines, the block quote is `el2`, the HTML block is created
under `el2` again, and its exit phase writes `el2.appendChild(el2);`: the
element is appended to itself. The output is given after the preamble. -/
theorem htmlBlock_appended_to_itself :
    (Render plainExt (NewRenderer "md" false) sampleQuotedComment).ret = .ok ∧
      (Render plainExt (NewRenderer "md" false) sampleQuotedComment).out.tail =
        ["let el2= document.createElement('blockquote');\n",
          "Object.assign(el2.style, mdStyle.block);\n",
          "let el2= document.createElement('div');\n", "//<!-- raw HTML omitted -->\n",
          "el2.appendChild(el2);\n", "mdDiv.appendChild(el2);\n", "return mdDiv;\n\x7d;\n"] ∧
      appendStmt (elName 2) (elName 2) ∈
        (Render plainExt (NewRenderer "md" false) sampleQuotedComment).out := by
  decide

/-- C25, counterexample. In the conversion of the document that holds the
paragraph with the code span of `x`, which succeeds, the counter goes from
its seed 1 to 3, so two identifiers are allocated (`el2` and `el3`), and
three creation statements are written: the text node of the code span is
created under the derived name `el3Span1`. -/
theorem codeSpan_creations_exceed_allocations :
    (Render plainExt (NewRenderer "md" false) sampleCodeSpanDocument).ret = .ok ∧
      (dispatch plainExt (NewRenderer "md" false) none none sampleCodeSpanDocument true).r.count
        = 1 ∧
      (Render plainExt (NewRenderer "md" false) sampleCodeSpanDocument).r.count = 3 ∧
      ((Render plainExt (NewRenderer "md" false) sampleCodeSpanDocument).out.filter
        isCreationStmt) =
        ["let el2=document.createElement('p');\n",
          "let el3=document.createElement(\"code\");\n",
          "const el3Span1=document.createTextNode('x');\n"] ∧
      declared (Render plainExt (NewRenderer "md" false) sampleCodeSpanDocument).out =
        ["el2", "el3"] := by
  decide

/-- C25, amended. In a conversion of a document whose descendants are of
the kinds other than HTML block that does not panic, the number of
identifiers allocated from the counter, which is the final value of the
counter minus its seed 1, is the number of the writes that declare a
counter identifier `el<n>` with `let` or `const` in a creation statement;
these identifiers are pairwise different, and each of these writes is a
creation statement. -/
theorem allocations_eq_declarations (x : Ext) (r : Renderer) (a : List Attribute)
    (cs : List Node) (hcs : plainNodes x r.Unsafe cs = true)
    (hnp : (Render x r (.mk .Document a cs)).ret ≠ .panic) :
    (declared (Render x r (.mk .Document a cs)).out).length =
        ((Render x r (.mk .Document a cs)).r.count - 1).toNat ∧
      (declared (Render x r (.mk .Document a cs)).out).Nodup ∧
      ∀ s ∈ (Render x r (.mk .Document a cs)).out,
        (declaredId s).isSome = true → isCreationStmt s = true := by
  rcases Render_counted x r a cs hcs with h | h
  · exact absurd h hnp
  · refine ⟨?_, ?_, fun s _ hs => declaredId_isCreation s hs⟩
    · rw [h.2, idsFrom_length]
    · rw [h.2]
      exact idsFrom_nodup _ _

/-- C25, amended, at the document with the code span: two identifiers are
allocated and two writes declare a counter identifier. -/
theorem allocations_eq_declarations_witness :
    plainNodes plainExt (NewRenderer "md" false).Unsafe
        [.mk .Paragraph [] [.mk .CodeSpan [] [.mk (.Text "x" false false false) [] []]]] = true ∧
      (Render plainExt (NewRenderer "md" false) (.mk .Document []
        [.mk .Paragraph [] [.mk .CodeSpan [] [.mk (.Text "x" false false false) [] []]]])).ret
        ≠ .panic ∧
      (declared (Render plainExt (NewRenderer "md" false) (.mk .Document []
        [.mk .Paragraph [] [.mk .CodeSpan [] [.mk (.Text "x" false false false) [] []]]])).out
        ).length = 2 :=
  ⟨by decide, by decide,
    (allocations_eq_declarations plainExt (NewRenderer "md" false) []
      [.mk .Paragraph [] [.mk .CodeSpan [] [.mk (.Text "x" false false false) [] []]]]
      (by decide) (by decide)).1.trans (by decide)⟩

/-! ### Idempotence of the conversion -/

/-- C26. Idempotence. For every document tree whose conversion succeeds,
the conversion of the tree as the first conversion left it (with the `el`
values that the first run stored on the nodes), by a renderer with the same
options and any value of the counter, in particular a freshly constructed
one, succeeds and makes the same writes in the same order. -/
theorem render_idempotent (x : Ext) (r : Renderer) (c : Int) (a : List Attribute)
    (cs : List Node) (hok : (Render x r (.mk .Document a cs)).ret = .ok) :
    (Render x { r with count := c } (Render x r (.mk .Document a cs)).node).out =
        (Render x r (.mk .Document a cs)).out ∧
      (Render x { r with count := c } (Render x r (.mk .Document a cs)).node).ret = .ok := by
  have hrel := walkHelper_node x (.mk .Document a cs) r none none
  obtain ⟨h1, h2, _⟩ := Render_again x r (.mk .Document a cs)
  rw [hok] at h2
  have hn : ∃ a2 cs2, (Render x r (.mk .Document a cs)).node = .mk .Document a2 cs2 := by
    rcases hq : (walkHelper x r none none (.mk .Document a cs)).node with ⟨p2, a2, cs2⟩
    rw [hq, Rel] at hrel
    exact ⟨a2, cs2, by rw [Render, hq, ← hrel.1]⟩
  obtain ⟨a2, cs2, hn⟩ := hn
  rw [hn] at h1 h2 ⊢
  rw [Render_document_count]
  exact ⟨h1, h2⟩

/-- C26, at the document with a heading and the sample paragraph with a
text, an emphasis, two adjacent texts, a link and a code span, whose
conversion succeeds. -/
theorem render_idempotent_witness :
    (Render plainExt (NewRenderer "md" false) (.mk .Document []
        [.mk (.Heading 1) [] [.mk (.Text "t" false false false) [] []],
          sampleMixedParagraph])).ret = .ok ∧
      (Render plainExt { NewRenderer "md" false with count := 0 }
          (Render plainExt (NewRenderer "md" false) (.mk .Document []
            [.mk (.Heading 1) [] [.mk (.Text "t" false false false) [] []],
              sampleMixedParagraph])).node).out =
        (Render plainExt (NewRenderer "md" false) (.mk .Document []
          [.mk (.Heading 1) [] [.mk (.Text "t" false false false) [] []],
            sampleMixedParagraph])).out :=
  ⟨by decide,
    (render_idempotent plainExt (NewRenderer "md" false) 0 []
      [.mk (.Heading 1) [] [.mk (.Text "t" false false false) [] []], sampleMixedParagraph]
      (by decide)).1⟩

/-- C27. The identifier counter only grows within a conversion. The entry of
the document seeds it with 1. No other handler call, on any node and in
either phase, leaves it lower than it found it. The entry phase of the
handler of a node of a kind other than document and HTML block, when it does
not panic, declares the identifiers `el<c+1>`, ..., `el<c2>` in this order,
where `c` and `c2` are the counter before and after the call: every
allocation adds one and is formatted as `el` and the decimal value. So in a
conversion of a document whose descendants are of these kinds that does not
panic the `i`-th identifier declared, counting from 0, is `el` followed by
`i + 2`. -/
theorem counter_strictly_increasing (x : Ext) (r : Renderer) (a : List Attribute)
    (cs : List Node) (hcs : plainNodes x r.Unsafe cs = true)
    (hnp : (Render x r (.mk .Document a cs)).ret ≠ .panic) :
    (dispatch x r none none (.mk .Document a cs) true).r.count = 1 ∧
      (∀ (r1 : Renderer) (par next : Option Node) (node : Node) (entering : Bool),
        (node.payload = .Document → entering = false) →
        r1.count ≤ (dispatch x r1 par next node entering).r.count) ∧
      (∀ (r1 : Renderer) (par next : Option Node) (node : Node),
        plainNode x r1.Unsafe node = true → ParentOK par →
        (dispatch x r1 par next node true).ret ≠ .panic →
        declared (dispatch x r1 par next node true).out =
          (List.range ((dispatch x r1 par next node true).r.count - r1.count).toNat).map
            (fun (i : Nat) => "el" ++ fmtD (r1.count + 1 + Int.ofNat i))) ∧
      1 ≤ (Render x r (.mk .Document a cs)).r.count ∧
      (declared (Render x r (.mk .Document a cs)).out).length =
        ((Render x r (.mk .Document a cs)).r.count - 1).toNat ∧
      ∀ i : Nat, i < ((Render x r (.mk .Document a cs)).r.count - 1).toNat →
        (declared (Render x r (.mk .Document a cs)).out)[i]? =
          some ("el" ++ fmtD ((i : Int) + 2)) := by
  refine ⟨by simp [dispatch, Node.payload, renderDocument], ?_, ?_, ?_⟩
  · intro r1 par next node entering hdoc
    exact dispatch_count_le x r1 par next node entering hdoc
  · intro r1 par next node hpl hpar hnp1
    rcases dispatch_entry_counted x r1 par next node hpl hpar with h | h
    · exact absurd h hnp1
    · exact h.2.1
  · rcases Render_counted x r a cs hcs with h | h
    · exact absurd h hnp
    · refine ⟨h.1, by rw [h.2, idsFrom_length], ?_⟩
      intro i hi
      have e : (1 : Int) + 1 + (i : Int) = (i : Int) + 2 := by omega
      rw [h.2, idsFrom_get _ _ _ hi, e]

/-- C27, at the document with the code span, whose conversion declares `el2`
and then `el3`. -/
theorem counter_strictly_increasing_witness :
    plainNodes plainExt (NewRenderer "md" false).Unsafe
        [.mk .Paragraph [] [.mk .CodeSpan [] [.mk (.Text "x" false false false) [] []]]] = true ∧
      (Render plainExt (NewRenderer "md" false) (.mk .Document []
        [.mk .Paragraph [] [.mk .CodeSpan [] [.mk (.Text "x" false false false) [] []]]])).ret
        ≠ .panic ∧
      (declared (Render plainExt (NewRenderer "md" false) (.mk .Document []
        [.mk .Paragraph [] [.mk .CodeSpan [] [.mk (.Text "x" false false false) [] []]]])).out
        )[1]? = some "el3" :=
  ⟨by decide, by decide,
    ((counter_strictly_increasing plainExt (NewRenderer "md" false) []
      [.mk .Paragraph [] [.mk .CodeSpan [] [.mk (.Text "x" false false false) [] []]]]
      (by decide) (by decide)).2.2.2.2.2 1 (by decide)).trans (by decide)⟩

/-- C28. A node is attached to its parent at most once. For every node and
every state of the renderer, among the writes of the entry phase of the
handler of the node and of its exit phase (run on the node as the entry
phase left it), every attachment statement `P.appendChild(E);` with `P` the
name of an element (`mdDiv` or `el<k>`) occurs at most once, whatever `E`
is. The entry phase of a paragraph or of a text block holds the writes of
the inline-run aggregator for the children, so the statement covers the
nodes rendered inside the aggregator as well. It is assumed that the parent
is bound to the name of an element, and that the free text written as a
write of its own (the segments of raw HTML under `Unsafe`, the escaped URL of
an autolink) is not itself an attachment statement. -/
theorem attached_at_most_once (x : Ext) (r r2 : Renderer) (par next : Option Node)
    (node node2 : Node) (P E : String) (hq : quietNode x r.Unsafe node = true)
    (hpar : ParentOK par) (hP : GoodName P)
    (hn1 : node2.payload = (dispatch x r par next node true).node.payload)
    (hn2 : node2.attrs = (dispatch x r par next node true).node.attrs) :
    ((dispatch x r par next node true).out ++
      (dispatch x r2 par next node2 false).out).count (appendStmt P E) ≤ 1 :=
  count_appendStmt_le_one P E hP _
    (dispatch_ids_nodup x r r2 par next node node2 hq hpar hn1 hn2)

/-- C28, at the sample paragraph with a text, an emphasis, two adjacent
texts, a link and a code span under the document root: its element `el3`
is appended to `mdDiv` once. -/
theorem attached_at_most_once_witness :
    quietNode plainExt sampleRenderer.Unsafe sampleMixedParagraph = true ∧
      ParentOK (some sampleDocument) ∧ GoodName "mdDiv" ∧
      ((dispatch plainExt sampleRenderer (some sampleDocument) none sampleMixedParagraph
          true).out ++
        (dispatch plainExt sampleRenderer (some sampleDocument) none
          (dispatch plainExt sampleRenderer (some sampleDocument) none sampleMixedParagraph
            true).node false).out).count (appendStmt "mdDiv" "el3") = 1 ∧
      ((dispatch plainExt sampleRenderer (some sampleDocument) none sampleMixedParagraph
          true).out ++
        (dispatch plainExt sampleRenderer (some sampleDocument) none
          (dispatch plainExt sampleRenderer (some sampleDocument) none sampleMixedParagraph
            true).node false).out).count (appendStmt "mdDiv" "el3") ≤ 1 :=
  ⟨by decide,
    fun q hq Q hQ => by
      cases hq
      have h : Q = "mdDiv" := by
        simpa [sampleDocument, Node.attrs, AttributeString] using hQ.symm
      exact Or.inl h,
    Or.inl rfl, by decide,
    attached_at_most_once plainExt sampleRenderer sampleRenderer (some sampleDocument) none
      sampleMixedParagraph
      (dispatch plainExt sampleRenderer (some sampleDocument) none sampleMixedParagraph
        true).node "mdDiv" "el3" (by decide)
      (fun q hq Q hQ => by
        cases hq
        have h : Q = "mdDiv" := by
          simpa [sampleDocument, Node.attrs, AttributeString] using hQ.symm
        exact Or.inl h)
      (Or.inl rfl) rfl rfl⟩

/-! ### The `el` of a paragraph after the final flush -/

/-- After the aggregator has rendered two or more `Text` children, the `el`
of the parent is the identifier of the text node. -/
theorem renderTextChildren_texts_el (x : Ext) (r : Renderer) (p : Payload)
    (attrs : List Attribute) (c d : Node) (rest : List Node) (P : String)
    (hel : AttributeString attrs "el" = some (.str P))
    (hall : ∀ n ∈ c :: d :: rest, n.isText = true) :
    AttributeString (renderTextChildren x r (.mk p attrs (c :: d :: rest)) true).node.attrs "el" =
      some (.str (elName (r.count + 1))) := by
  rw [renderTextChildren_texts x r p attrs c d rest P hel hall]
  exact AttributeString_SetAttribute _ _ _

/-- C29 fails on the code: the paragraph with the `Text` children `a`, `b`,
`c` is created under `el3` and `el3` is stored in its `el` on entry; the final
flush of the aggregator stores the identifier of the text node, so that after
`renderParagraph` has returned the `el` of the paragraph is `el4`. In the
conversion of the document with this paragraph, the paragraph is created
under `el2` and its `el` is `el3` at the end. -/
theorem paragraph_el_overwritten :
    (renderParagraph plainExt sampleRenderer (some sampleDocument)
        (.mk .Paragraph [] sampleTexts) true).out =
      ["let el3=document.createElement('p');\n", "Object.assign(el3.style, mdStyle.p);\n",
        "const el4=document.createTextNode(`abc`);\n", "el3.appendChild(el4);\n",
        "mdDiv.appendChild(el3);\n"] ∧
    AttributeString (renderParagraph plainExt sampleRenderer (some sampleDocument)
        (.mk .Paragraph [] sampleTexts) true).node.attrs "el" = some (.str "el4") ∧
    (Render plainExt (NewRenderer "md" false)
        (.mk .Document [] [.mk .Paragraph [] sampleTexts])).ret = .ok ∧
    (Render plainExt (NewRenderer "md" false)
        (.mk .Document [] [.mk .Paragraph [] sampleTexts])).out.tail =
      ["let el2=document.createElement('p');\n", "Object.assign(el2.style, mdStyle.p);\n",
        "const el3=document.createTextNode(`abc`);\n", "el2.appendChild(el3);\n",
        "mdDiv.appendChild(el2);\n", "return mdDiv;\n\x7d;\n"] ∧
    (Render plainExt (NewRenderer "md" false)
        (.mk .Document [] [.mk .Paragraph [] sampleTexts])).node.children.map
        (fun c => AttributeString c.attrs "el") = [some (.str "el3")] := by
  decide

/-! ### An emphasis in the aggregator -/

/-- C30. For an emphasis child whose first child is a `Text` with the value
`v` (in particular an emphasis whose only child is this `Text`), met by the
aggregator in any state: after the flush of the buffer, which is made exactly
when the state is accumulating, the turn writes three statements under one
new identifier, the creation of one element with the tag `strong` when the
level is 2 and `em` otherwise, one text-content assignment with `v`, and the
append of the element to the parent `P`. No text node is created for `v`.
When the emphasis is the only child of the parent, these three statements are
the whole output of `renderTextChildren` with debug off. -/
theorem aggStep_emphasis_text (x : Ext) (pnode : Node) (P : String) (s : Agg) (Level : Int)
    (attrs ta : List Attribute) (v : String) (raw soft hard : Bool) (tc rest : List Node)
    (r : Renderer) (p : Payload) (pattrs : List Attribute)
    (hel : AttributeString pattrs "el" = some (.str P)) (hdbg : r.dbg = false) :
    (∃ s1, aggStep x pnode P s
        (.mk (.Emphasis Level) attrs (.mk (.Text v raw soft hard) ta tc :: rest)) = some s1 ∧
      s1.r.count = (if s.istate = 1 then s.r.count + 1 else s.r.count) + 1 ∧
      s1.out = s.out ++
        (if s.istate = 1 then
          ["const " ++ elName (s.r.count + 1) ++ "=document.createTextNode(`" ++
            s.text.getD "" ++ "`);\n",
            P ++ ".appendChild(" ++ elName (s.r.count + 1) ++ ");\n"]
        else []) ++
        ["let " ++ elName s1.r.count ++ "=document.createElement('" ++
            (if Level = 2 then "strong" else "em") ++ "');\n",
          elName s1.r.count ++ ".textContent=`" ++ v ++ "`;\n",
          P ++ ".appendChild(" ++ elName s1.r.count ++ ");\n"]) ∧
    (renderTextChildren x r
        (.mk p pattrs [.mk (.Emphasis Level) attrs (.mk (.Text v raw soft hard) ta tc :: rest)])
        true).out =
      ["let " ++ elName (r.count + 1) ++ "=document.createElement('" ++
          (if Level = 2 then "strong" else "em") ++ "');\n",
        elName (r.count + 1) ++ ".textContent=`" ++ v ++ "`;\n",
        P ++ ".appendChild(" ++ elName (r.count + 1) ++ ");\n"] ∧
    (renderTextChildren x r
        (.mk p pattrs [.mk (.Emphasis Level) attrs (.mk (.Text v raw soft hard) ta tc :: rest)])
        true).ret = .ok .WalkSkipChildren := by
  refine ⟨?_, ?_, ?_⟩
  · by_cases hi : s.istate = 1
    · simp [aggStep, hi, Agg.flush]
    · simp [aggStep, hi]
  · simp [renderTextChildren, Node.attrs, Node.children, hel, hdbg, aggLoop, aggStep]
  · simp [renderTextChildren, Node.attrs, Node.children, hel, hdbg, aggLoop, aggStep]

/-- C30, at the paragraph `el2` whose only child is the strong emphasis
`bold`. -/
theorem aggStep_emphasis_text_witness :
    AttributeString [⟨"el", .str "el2"⟩] "el" = some (.str "el2") ∧
      sampleRenderer.dbg = false ∧
      (renderTextChildren plainExt sampleRenderer
        (.mk .Paragraph [⟨"el", .str "el2"⟩]
          [.mk (.Emphasis 2) [] [.mk (.Text "bold" false false false) [] []]]) true).out =
        ["let el3=document.createElement('strong');\n", "el3.textContent=`bold`;\n",
          "el2.appendChild(el3);\n"] :=
  ⟨by decide, by decide,
    (aggStep_emphasis_text plainExt sampleParagraph "el2" ⟨sampleRenderer, 0, none, [], []⟩ 2
      [] [] "bold" false false false [] [] sampleRenderer .Paragraph [⟨"el", .str "el2"⟩]
      (by decide) (by decide)).2.1.trans (by decide)⟩

/-! ### The split of an input into sections -/

theorem isPrefixOf_iff (a b : Bytes) : a.isPrefixOf b = true ↔ a <+: b := by
  simp

theorem indexFrom_of_FirstAt (sep : Bytes) : ∀ (pre post : Bytes) (i : Nat),
    (∀ k, k < pre.length → ¬ sep <+: (pre ++ sep ++ post).drop k) →
      indexFrom sep (pre ++ sep ++ post) i = ((i + pre.length : Nat) : Int)
  | [], post, i, _ => by
    cases hs : sep ++ post with
    | nil =>
      obtain ⟨h1, h2⟩ := List.append_eq_nil.mp hs
      simp [indexFrom, h1, h2]
    | cons c rest =>
      have hp : sep.isPrefixOf (c :: rest) = true := by
        rw [← hs]; simp
      simp only [List.nil_append, hs, indexFrom, hp, if_true, List.length_nil, Nat.add_zero]
  | c :: pre, post, i, h => by
    have h0 : ¬ sep <+: (c :: pre ++ sep ++ post) := by simpa using h 0 (by simp)
    have hp : sep.isPrefixOf (c :: (pre ++ sep ++ post)) = false := by
      rw [Bool.eq_false_iff]
      intro hh
      exact h0 (by simpa using hh)
    have ih := indexFrom_of_FirstAt sep pre post (i + 1) (fun k hk => by
      have := h (k + 1) (by simpa using hk)
      simpa using this)
    show indexFrom sep (c :: (pre ++ sep ++ post)) i = _
    rw [indexFrom, hp, if_neg (by simp), ih]
    simp only [List.length_cons]
    push_cast
    omega

/-- The index `bytes.Index` returns at a first occurrence. -/
theorem Index_of_FirstAt (sep s pre post : Bytes) (h : FirstAt sep s pre post) :
    Index s sep = (pre.length : Int) := by
  obtain ⟨rfl, h2⟩ := h
  rw [Index, indexFrom_of_FirstAt sep pre post 0 h2]
  simp

theorem indexFrom_cases (sep : Bytes) : ∀ (s : Bytes) (i : Nat),
    (indexFrom sep s i = -1 ∧ ¬ sep <:+: s) ∨
      ∃ pre post, FirstAt sep s pre post ∧ indexFrom sep s i = ((i + pre.length : Nat) : Int)
  | [], i => by
    by_cases hs : sep = []
    · right
      exact ⟨[], [], ⟨by simp [hs], by simp⟩, by simp [indexFrom, hs]⟩
    · left
      exact ⟨by simp [indexFrom, hs], by simpa using hs⟩
  | c :: rest, i => by
    by_cases hp : sep <+: c :: rest
    · right
      obtain ⟨post, hpost⟩ := hp
      have hp2 : sep.isPrefixOf (c :: rest) = true := by rw [← hpost]; simp
      exact ⟨[], post, ⟨by simp [hpost], by simp⟩, by simp [indexFrom, hp2]⟩
    · have hp2 : sep.isPrefixOf (c :: rest) = false := by
        rw [Bool.eq_false_iff]
        intro hh
        exact hp (by simpa using hh)
      rcases indexFrom_cases sep rest (i + 1) with ⟨h1, h2⟩ | ⟨pre, post, ⟨h1, h2⟩, h3⟩
      · left
        refine ⟨by simp [indexFrom, hp2, h1], ?_⟩
        intro hin
        rw [List.infix_cons_iff] at hin
        rcases hin with hin | hin
        · exact hp hin
        · exact h2 hin
      · right
        refine ⟨c :: pre, post, ⟨by simp [h1], ?_⟩, ?_⟩
        · intro k hk
          cases k with
          | zero => simpa using hp
          | succ k =>
            have := h2 k (by simpa using hk)
            simpa using this
        · rw [indexFrom, hp2, if_neg (by simp), h3]
          simp only [List.length_cons]
          push_cast
          omega

/-- Go `bytes.Index` returns -1 exactly when `sep` does not occur in `s`;
otherwise it returns the offset of the first occurrence. -/
theorem Index_cases (s sep : Bytes) :
    (Index s sep = -1 ∧ ¬ sep <:+: s) ∨
      ∃ pre post, FirstAt sep s pre post ∧ Index s sep = (pre.length : Int) := by
  rcases indexFrom_cases sep s 0 with h | ⟨pre, post, h1, h2⟩
  · exact Or.inl h
  · exact Or.inr ⟨pre, post, h1, by simpa [Index] using h2⟩

theorem FirstAt_occurs (sep s pre post : Bytes) (h : FirstAt sep s pre post) : sep <:+: s :=
  ⟨pre, post, h.1.symm⟩

theorem Index_eq_neg_one_iff (s sep : Bytes) : Index s sep = -1 ↔ ¬ sep <:+: s := by
  rcases Index_cases s sep with ⟨h1, h2⟩ | ⟨pre, post, h1, h2⟩
  · exact ⟨fun _ => h2, fun _ => h1⟩
  · constructor
    · intro h; rw [h2] at h; omega
    · intro h; exact absurd (FirstAt_occurs _ _ _ _ h1) h

/-- The first occurrence is unique. -/
theorem FirstAt_unique (sep s p1 q1 p2 q2 : Bytes) (h1 : FirstAt sep s p1 q1)
    (h2 : FirstAt sep s p2 q2) : p1 = p2 ∧ q1 = q2 := by
  have e1 := Index_of_FirstAt _ _ _ _ h1
  have e2 := Index_of_FirstAt _ _ _ _ h2
  have hl : p1.length = p2.length := by omega
  have e : p1 ++ (sep ++ q1) = p2 ++ (sep ++ q2) := by
    rw [← List.append_assoc, ← List.append_assoc, ← h1.1, ← h2.1]
  have := List.append_inj e hl
  exact ⟨this.1, List.append_cancel_left this.2⟩

theorem slice_mid (pre mid post : Bytes) :
    slice (pre ++ mid ++ post) (pre.length : Int) ((pre.length + mid.length : Nat) : Int) =
      some mid := by
  have h : (0 : Int) ≤ pre.length ∧ (pre.length : Int) ≤ ((pre.length + mid.length : Nat) : Int) ∧
      ((pre.length + mid.length : Nat) : Int) ≤ ((pre ++ mid ++ post).length : Int) := by
    simp only [List.length_append]
    push_cast
    omega
  rw [slice, if_pos h]
  have e : (((pre.length + mid.length : Nat) : Int) - (pre.length : Int)).toNat = mid.length := by
    push_cast
    omega
  simp [e, List.append_assoc]

theorem sliceFrom_append (pre post : Bytes) :
    sliceFrom (pre ++ post) (pre.length : Int) = some post := by
  have := slice_mid pre post []
  simpa [sliceFrom] using this

theorem lit_delim_length : (lit "---\n").length = 4 := by decide

theorem lit_summary_length : (lit "# Summary").length = 9 := by decide

theorem lit_hash_length : (lit "#").length = 1 := by decide

/-- What the header block of `GetMetaSum` computes. -/
theorem metaPart_cases (inp : Bytes) :
    (¬ lit "---\n" <:+: inp ∧ metaPart inp = .ok (-2, none)) ∨
      (∃ pre rest, FirstAt (lit "---\n") inp pre rest ∧ ¬ lit "---\n" <:+: rest ∧
        metaPart inp = .err "no meta end!") ∨
      (∃ pre rest mid post, FirstAt (lit "---\n") inp pre rest ∧
        FirstAt (lit "---\n") rest mid post ∧
        metaPart inp = .ok (((pre.length + mid.length + 8 : Nat) : Int),
          some (lit "---\n" ++ mid ++ lit "---\n"))) := by
  rcases Index_cases inp (lit "---\n") with ⟨h1, h2⟩ | ⟨pre, rest, h1, h2⟩
  · left
    refine ⟨h2, ?_⟩
    simp [metaPart, h1]
  · right
    have hin : inp = (pre ++ lit "---\n") ++ rest := h1.1
    have hsl : sliceFrom inp ((pre.length : Int) + 4) = some rest := by
      have := sliceFrom_append (pre ++ lit "---\n") rest
      rw [← hin] at this
      rw [← this]
      congr 1
      simp [lit_delim_length]
    have hgt : (pre.length : Int) > -1 := by omega
    rcases Index_cases rest (lit "---\n") with ⟨g1, g2⟩ | ⟨mid, post, g1, g2⟩
    · left
      refine ⟨pre, rest, h1, g2, ?_⟩
      simp only [metaPart, h2, hgt, if_true, hsl, g1]
    · right
      refine ⟨pre, rest, mid, post, h1, g1, ?_⟩
      have hne : ¬ ((mid.length : Int) = -1) := by omega
      have hin2 : inp = pre ++ (lit "---\n" ++ mid ++ lit "---\n") ++ post := by
        rw [hin, g1.1]
        simp [List.append_assoc]
      have hs2 : slice inp (pre.length : Int) ((mid.length : Int) + (pre.length : Int) + 8) =
          some (lit "---\n" ++ mid ++ lit "---\n") := by
        have := slice_mid pre (lit "---\n" ++ mid ++ lit "---\n") post
        rw [← hin2] at this
        rw [← this]
        congr 1
        simp only [List.length_append, lit_delim_length]
        push_cast
        omega
      simp only [metaPart, h2, hgt, if_true, hsl, g2, hne, if_false, hs2]
      congr 3
      push_cast
      omega

/-- What the summary block of `GetMetaSum` computes. -/
theorem sumPart_cases (inp : Bytes) :
    (¬ lit "# Summary" <:+: inp ∧ sumPart inp = .ok (-2, none)) ∨
      (∃ pre rest, FirstAt (lit "# Summary") inp pre rest ∧ ¬ lit "#" <:+: rest ∧
        sumPart inp = .ok (-1, none)) ∨
      (∃ pre rest mid post, FirstAt (lit "# Summary") inp pre rest ∧
        FirstAt (lit "#") rest mid post ∧
        sumPart inp = .ok (((pre.length + mid.length + 9 : Nat) : Int),
          some (lit "# Summary" ++ mid))) := by
  rcases Index_cases inp (lit "# Summary") with ⟨h1, h2⟩ | ⟨pre, rest, h1, h2⟩
  · left
    refine ⟨h2, ?_⟩
    simp [sumPart, h1]
  · right
    have hin : inp = (pre ++ lit "# Summary") ++ rest := h1.1
    have hsl : sliceFrom inp ((pre.length : Int) + 9) = some rest := by
      have := sliceFrom_append (pre ++ lit "# Summary") rest
      rw [← hin] at this
      rw [← this]
      congr 1
      simp [lit_summary_length]
    have hgt : (pre.length : Int) > -1 := by omega
    rcases Index_cases rest (lit "#") with ⟨g1, g2⟩ | ⟨mid, post, g1, g2⟩
    · left
      refine ⟨pre, rest, h1, g2, ?_⟩
      simp [sumPart, h2, hgt, hsl, g1]
    · right
      refine ⟨pre, rest, mid, post, h1, g1, ?_⟩
      have hgt2 : (mid.length : Int) > -1 := by omega
      have hin2 : inp = pre ++ (lit "# Summary" ++ mid) ++ (lit "#" ++ post) := by
        rw [hin, g1.1]
        simp [List.append_assoc]
      have hs2 : slice inp (pre.length : Int) ((pre.length : Int) + (mid.length : Int) + 9) =
          some (lit "# Summary" ++ mid) := by
        have := slice_mid pre (lit "# Summary" ++ mid) (lit "#" ++ post)
        rw [← hin2] at this
        rw [← this]
        congr 1
      simp only [sumPart, h2, hgt, if_true, hsl, g2, hgt2, hs2]
      congr 3

theorem sliceFrom_drop (b : Bytes) (i : Int) (h0 : 0 ≤ i) (h1 : i ≤ (b.length : Int)) :
    sliceFrom b i = some (b.drop i.toNat) := by
  have h : 0 ≤ i ∧ i ≤ (b.length : Int) ∧ (b.length : Int) ≤ (b.length : Int) :=
    ⟨h0, h1, le_refl _⟩
  rw [sliceFrom, slice, if_pos h]
  congr 1
  apply List.take_of_length_le
  rw [List.length_drop]
  omega

/-- The end of `GetMetaSum` does not fail when the offsets it uses are in
range: `Main` is then a suffix of the input. -/
theorem mainPart_ok (b : Bytes) (Meta Summary : Option Bytes) (me se : Int)
    (hm : Meta.isSome = true → 0 ≤ me ∧ me ≤ (b.length : Int))
    (hs : Summary.isSome = true → 0 ≤ se ∧ se ≤ (b.length : Int)) :
    ∃ main, mainPart b me se Meta Summary = .ok ⟨Meta, Summary, some main⟩ ∧ main <:+ b := by
  by_cases h1 : Meta.isSome = true <;> by_cases h2 : Summary.isSome = true
  · refine ⟨b.drop se.toNat, ?_, List.drop_suffix _ _⟩
    simp only [mainPart, h1, h2, if_true, sliceFrom_drop b se (hs h2).1 (hs h2).2]
  · refine ⟨b.drop me.toNat, ?_, List.drop_suffix _ _⟩
    simp only [mainPart, h1, h2, if_true, sliceFrom_drop b me (hm h1).1 (hm h1).2]
    simp
  · refine ⟨b.drop se.toNat, ?_, List.drop_suffix _ _⟩
    simp only [mainPart, h1, h2, if_true, sliceFrom_drop b se (hs h2).1 (hs h2).2]
    simp
  · refine ⟨b, ?_, List.suffix_refl _⟩
    simp only [mainPart, h1, h2]
    simp

theorem FirstAt_length (sep s pre post : Bytes) (h : FirstAt sep s pre post) :
    s.length = pre.length + sep.length + post.length := by
  rw [h.1]
  simp only [List.length_append]

/-- `GetMetaSum` on an input that is not nil: an error when the first
`---\n` is followed by no other, and otherwise a result whose fields lie
in the input. -/
theorem GetMetaSum_cases (b : Bytes) :
    ((∃ pre rest, FirstAt (lit "---\n") b pre rest ∧ ¬ lit "---\n" <:+: rest) ∧
        GetMetaSum (some b) = .err "no meta end!") ∨
      ((¬ ∃ pre rest, FirstAt (lit "---\n") b pre rest ∧ ¬ lit "---\n" <:+: rest) ∧
        ∃ c main, GetMetaSum (some b) = .ok c ∧ c.Main = some main ∧ main <:+ b ∧
          c.Meta.getD [] <:+: b ∧ c.Summary.getD [] <:+: b) := by
  have hsum : ∃ se S, sumPart b = .ok (se, S) ∧
      (S.isSome = true → 0 ≤ se ∧ se ≤ (b.length : Int)) ∧ S.getD [] <:+: b := by
    rcases sumPart_cases b with ⟨_, h⟩ | ⟨pre, rest, _, _, h⟩ | ⟨pre, rest, mid, post, h1, h2, h⟩
    · exact ⟨_, _, h, by simp, by simp⟩
    · exact ⟨_, _, h, by simp, by simp⟩
    · refine ⟨_, _, h, fun _ => ?_, ?_⟩
      · have l1 := FirstAt_length _ _ _ _ h1
        have l2 := FirstAt_length _ _ _ _ h2
        rw [lit_summary_length] at l1
        rw [lit_hash_length] at l2
        constructor
        · omega
        · push_cast
          omega
      · refine ⟨pre, lit "#" ++ post, ?_⟩
        rw [h1.1, h2.1]
        simp [List.append_assoc]
  obtain ⟨se, S, hS, hSb, hSi⟩ := hsum
  rcases metaPart_cases b with ⟨h0, h⟩ | ⟨pre, rest, h1, h2, h⟩ |
      ⟨pre, rest, mid, post, h1, h2, h⟩
  · right
    refine ⟨?_, ?_⟩
    · rintro ⟨pre, rest, g1, _⟩
      exact h0 (FirstAt_occurs _ _ _ _ g1)
    · obtain ⟨main, hmain, hsuf⟩ := mainPart_ok b none S (-2) se (by simp) hSb
      exact ⟨⟨none, S, some main⟩, main, by simp only [GetMetaSum, h, hS, hmain], rfl, hsuf,
        by simp, hSi⟩
  · left
    exact ⟨⟨pre, rest, h1, h2⟩, by simp only [GetMetaSum, h]⟩
  · right
    refine ⟨?_, ?_⟩
    · rintro ⟨pre2, rest2, g1, g2⟩
      obtain ⟨_, e⟩ := FirstAt_unique _ _ _ _ _ _ h1 g1
      subst e
      exact g2 (FirstAt_occurs _ _ _ _ h2)
    · have l1 := FirstAt_length _ _ _ _ h1
      have l2 := FirstAt_length _ _ _ _ h2
      rw [lit_delim_length] at l1 l2
      obtain ⟨main, hmain, hsuf⟩ := mainPart_ok b (some (lit "---\n" ++ mid ++ lit "---\n")) S
        ((pre.length + mid.length + 8 : Nat) : Int) se
        (fun _ => ⟨by omega, by push_cast; omega⟩) hSb
      refine ⟨⟨some (lit "---\n" ++ mid ++ lit "---\n"), S, some main⟩, main,
        by simp only [GetMetaSum, h, hS, hmain], rfl, hsuf, ?_, hSi⟩
      refine ⟨pre, post, ?_⟩
      rw [h1.1, h2.1]
      simp [List.append_assoc]

/-! ### The `default` case of the aggregator -/

/-- With `dbg` off the `default` case of the aggregator leaves the state as
it is: the child is only recorded as visited. -/
theorem aggStep_default (x : Ext) (pnode : Node) (P : String) (s : Agg) (c : Node)
    (hc : aggDefaultCase c.payload = true) (hdbg : s.r.dbg = false) :
    aggStep x pnode P s c = some { s with seen := s.seen ++ [c] } := by
  obtain ⟨p, a, cs⟩ := c
  cases p <;> simp [aggDefaultCase, Node.payload] at hc <;> simp [aggStep, hdbg]

theorem flushIfText_dbg (s : Agg) (P : String) : (s.flushIfText P).r.dbg = s.r.dbg := by
  simp only [Agg.flushIfText, Agg.flush]
  split_ifs <;> rfl

theorem afterCall_dbg (s t : Agg) (h : HResult) (hh : h.r.dbg = s.r.dbg)
    (he : s.afterCall h = some t) : t.r.dbg = s.r.dbg := by
  by_cases hp : h.ret = .panic
  · simp [Agg.afterCall, hp] at he
  · simp only [Agg.afterCall, hp, if_false, Option.some.injEq] at he
    subst he
    exact hh

/-- One turn of the loop of the aggregator does not change the flag `dbg`. -/
theorem aggStep_dbg (x : Ext) (pnode : Node) (P : String) (s t : Agg) (c : Node)
    (h : aggStep x pnode P s c = some t) : t.r.dbg = s.r.dbg := by
  obtain ⟨p, a, cs⟩ := c
  cases p
  case Text v raw soft hard =>
    simp only [aggStep] at h
    split_ifs at h <;> simp only [Option.some.injEq] at h <;> subst h <;> rfl
  case Emphasis l =>
    rcases cs with _ | ⟨⟨q, b, e⟩, rest⟩
    · simp [aggStep] at h
    · cases q <;> simp [aggStep] at h
      case Text v raw soft hard =>
        subst h
        by_cases hi : s.istate = 1 <;> simp [hi, Agg.flush]
  case CodeSpan =>
    simp only [aggStep] at h
    refine (afterCall_dbg _ _ _ ?_ h).trans (flushIfText_dbg s P)
    rw [renderCodeSpan_r]
  case Link d ti =>
    simp only [aggStep] at h
    refine (afterCall_dbg _ _ _ ?_ h).trans (flushIfText_dbg s P)
    rw [renderLink_r]
  case RawHTML segs =>
    simp only [aggStep] at h
    refine (afterCall_dbg _ _ _ ?_ h).trans (flushIfText_dbg s P)
    rw [renderRawHTML_r]
  case StringNode v raw code =>
    simp only [aggStep] at h
    refine (afterCall_dbg _ _ _ ?_ h).trans (flushIfText_dbg s P)
    rw [renderString_r]
  case Image d ti => simp [aggStep] at h
  all_goals
    simp only [aggStep, Option.some.injEq] at h
    subst h
    rfl

/-- The loop of the aggregator does not change the flag `dbg`. -/
theorem aggLoop_dbg (x : Ext) (pnode : Node) (P : String) :
    ∀ (cs : List Node) (s t : Agg), aggLoop x pnode P s cs = some t → t.r.dbg = s.r.dbg
  | [], s, t, h => by
    simp only [aggLoop, Option.some.injEq] at h
    subst h
    rfl
  | c :: rest, s, t, h => by
    rw [aggLoop] at h
    cases hs : aggStep x pnode P s c with
    | none => simp [hs] at h
    | some s1 =>
      simp only [hs] at h
      exact (aggLoop_dbg x pnode P rest s1 t h).trans (aggStep_dbg x pnode P s s1 c hs)

/-- The loop of the aggregator over two lists of children, one after the
other. -/
theorem aggLoop_append (x : Ext) (pnode : Node) (P : String) :
    ∀ (a b : List Node) (s : Agg),
      aggLoop x pnode P s (a ++ b) =
        (aggLoop x pnode P s a).bind (fun s1 => aggLoop x pnode P s1 b)
  | [], b, s => by simp [aggLoop]
  | c :: rest, b, s => by
    rw [List.cons_append, aggLoop, aggLoop]
    cases hs : aggStep x pnode P s c with
    | none => simp
    | some s1 =>
      simp only []
      exact aggLoop_append x pnode P rest b s1

/-- The loop of the aggregator with `dbg` off: with a child of the `default`
case among the children and without it, both loops panic, or both end in
states that agree in all but the children visited. -/
theorem aggLoop_default_skip (x : Ext) (pn1 pn2 : Node) (P : String)
    (hpn : ParRel (some pn1) (some pn2)) (pre post : List Node) (c : Node) (s : Agg)
    (hc : aggDefaultCase c.payload = true) (hdbg : s.r.dbg = false) :
    (aggLoop x pn1 P s (pre ++ c :: post) = none ∧ aggLoop x pn2 P s (pre ++ post) = none) ∨
      ∃ t1 t2, aggLoop x pn1 P s (pre ++ c :: post) = some t1 ∧
        aggLoop x pn2 P s (pre ++ post) = some t2 ∧ AggSame t1 t2 := by
  rw [aggLoop_append, aggLoop_append]
  rcases aggLoop_rel x pn1 pn2 P hpn pre pre s s ⟨rfl, rfl, rfl, rfl⟩ (RelList_refl pre) with
    ⟨e1, e2⟩ | ⟨t1, t2, e1, e2, ht⟩
  · left
    rw [e1, e2]
    exact ⟨rfl, rfl⟩
  · rw [e1, e2]
    simp only [Option.some_bind]
    have hd : t1.r.dbg = false := (aggLoop_dbg x pn1 P pre s t1 e1).trans hdbg
    rw [aggLoop, aggStep_default x pn1 P t1 c hc hd]
    simp only []
    exact aggLoop_rel x pn1 pn2 P hpn post post _ t2
      ⟨ht.1, ht.2.1, ht.2.2.1, ht.2.2.2⟩ (RelList_refl post)

/-! ### The transformer of the image attributes -/

mutual
theorem cellsNode_remove (j : Nat) : ∀ t : INode,
    (cellsNode (removeNode j t)).Sublist (cellsNode t)
  | .mk i p a cs => by
    rw [removeNode, cellsNode, cellsNode]
    exact (cellsList_remove j cs).cons₂ _
theorem cellsList_remove (j : Nat) : ∀ cs : List INode,
    (cellsList (removeList j cs)).Sublist (cellsList cs)
  | [] => by rw [removeList]
  | c :: rest => by
    rw [removeList, cellsList]
    by_cases h : c.id = j
    · rw [if_pos h]
      exact (cellsList_remove j rest).trans (List.sublist_append_right _ _)
    · rw [if_neg h, cellsList]
      exact (cellsNode_remove j c).append (cellsList_remove j rest)
end

mutual
theorem cellsNode_setAttrs (i : Nat) (attrs : List Attribute) : ∀ t : INode,
    cellsNode (setAttrsNode i attrs t) = (cellsNode t).map (updCell i attrs)
  | .mk k p a cs => by
    rw [setAttrsNode, cellsNode, cellsNode, List.map_cons, cellsList_setAttrs i attrs cs]
    by_cases h : k = i <;> simp [updCell, h]
theorem cellsList_setAttrs (i : Nat) (attrs : List Attribute) : ∀ cs : List INode,
    cellsList (setAttrsList i attrs cs) = (cellsList cs).map (updCell i attrs)
  | [] => by simp [setAttrsList, cellsList]
  | c :: rest => by
    rw [setAttrsList, cellsList, cellsList, List.map_append, cellsNode_setAttrs i attrs c,
      cellsList_setAttrs i attrs rest]
end

theorem updCell_fst (i : Nat) (attrs : List Attribute) (c : Nat × Payload × List Attribute) :
    (updCell i attrs c).1 = c.1 := by
  unfold updCell
  split_ifs <;> rfl

theorem updCell_kind (i : Nat) (attrs : List Attribute) (c : Nat × Payload × List Attribute) :
    (updCell i attrs c).2.1 = c.2.1 := by
  unfold updCell
  split_ifs <;> rfl

theorem updCell_of_ne (i : Nat) (attrs : List Attribute) (c : Nat × Payload × List Attribute)
    (h : c.1 ≠ i) : updCell i attrs c = c := by
  simp [updCell, h]

theorem INode_id_setAttrs (i : Nat) (attrs : List Attribute) (t : INode) :
    (setAttrsNode i attrs t).id = t.id := by
  obtain ⟨k, p, a, cs⟩ := t
  rw [setAttrsNode]
  rfl

theorem INode_payload_setAttrs (i : Nat) (attrs : List Attribute) (t : INode) :
    (setAttrsNode i attrs t).payload = t.payload := by
  obtain ⟨k, p, a, cs⟩ := t
  rw [setAttrsNode]
  rfl

theorem INode_payload_remove (j : Nat) (t : INode) :
    (removeNode j t).payload = t.payload := by
  obtain ⟨k, p, a, cs⟩ := t
  rw [removeNode]
  rfl

/-- The node found before the node at `j` is still in the tree after its
attributes were set and the node at `j` was removed. -/
theorem locateList_survives (j : Nat) (attrs : List Attribute) (q attr : INode) :
    ∀ (cs : List INode) (acc : Option INode),
      locateList j acc cs = some (some q, attr) →
        acc = some q ∨
          (q.id, q.payload, attrs) ∈ cellsList (removeList j (setAttrsList q.id attrs cs))
  | [], acc, h => by simp [locateList] at h
  | .mk i p a ch :: rest, acc, h => by
    rw [locateList] at h
    have hid : (INode.mk i p a ch).id = i := rfl
    rw [hid] at h
    by_cases hi : i = j
    · rw [if_pos hi] at h
      simp only [Option.some.injEq, Prod.mk.injEq] at h
      exact Or.inl h.1
    · rw [if_neg hi] at h
      right
      rw [setAttrsList, removeList, INode_id_setAttrs, hid, if_neg hi, cellsList, setAttrsNode,
        removeNode, cellsNode]
      cases hl : locateNode j (.mk i p a ch) with
      | some res =>
        rw [hl] at h
        simp only [Option.some.injEq] at h
        subst h
        rw [locateNode] at hl
        rcases locateList_survives j attrs q attr ch none hl with h0 | h0
        · cases h0
        · exact List.mem_append_left _ (List.mem_cons_of_mem _ h0)
      | none =>
        rw [hl] at h
        simp only [] at h
        rcases locateList_survives j attrs q attr rest _ h with h0 | h0
        · simp only [Option.some.injEq] at h0
          subst h0
          apply List.mem_append_left
          rw [hid, if_pos rfl]
          exact List.mem_cons_self _ _
        · exact List.mem_append_right _ h0

theorem locateNode_survives (j : Nat) (attrs : List Attribute) (q attr t : INode)
    (h : locateNode j t = some (some q, attr)) :
    (q.id, q.payload, attrs) ∈ cellsNode (removeNode j (setAttrsNode q.id attrs t)) := by
  obtain ⟨i, p, a, cs⟩ := t
  rw [locateNode] at h
  rw [setAttrsNode, removeNode, cellsNode]
  rcases locateList_survives j attrs q attr cs none h with h0 | h0
  · cases h0
  · exact List.mem_cons_of_mem _ h0

/-- The step for the node at `j` whose previous sibling is an image. -/
theorem processAttr_image (t : INode) (j : Nat) (prev attr : INode)
    (h : locateNode j t = some (some prev, attr)) (hi : isKindImage prev.payload = true) :
    processAttr t j =
      removeNode j (setAttrsNode prev.id (mergeAttrs prev.attrs attr.attrs) t) := by
  simp [processAttr, h, hi]

/-- The step for a node at `j` whose previous sibling is not an image, or
that has none. -/
theorem processAttr_other (t : INode) (j : Nat)
    (h : ∀ prev attr, locateNode j t = some (some prev, attr) →
      isKindImage prev.payload = false) :
    processAttr t j = removeNode j t ∨ processAttr t j = t := by
  cases hl : locateNode j t with
  | none => right; simp [processAttr, hl]
  | some res =>
    left
    obtain ⟨prev, attr⟩ := res
    cases prev with
    | none => simp [processAttr, hl]
    | some prev =>
      have := h prev attr hl
      simp [processAttr, hl, this]

/-- The listing of the addresses is kept by a step up to removals. -/
theorem processAttr_ids (t : INode) (j : Nat) :
    ((cellsNode (processAttr t j)).map (fun c => c.1)).Sublist
      ((cellsNode t).map (fun c => c.1)) := by
  have hrem : ∀ u : INode, ((cellsNode (removeNode j u)).map (fun c => c.1)).Sublist
      ((cellsNode u).map (fun c => c.1)) := fun u => (cellsNode_remove j u).map _
  have hset : ∀ (i : Nat) (as : List Attribute),
      (cellsNode (setAttrsNode i as t)).map (fun c => c.1) = (cellsNode t).map (fun c => c.1) := by
    intro i as
    rw [cellsNode_setAttrs, List.map_map]
    apply List.map_congr_left
    intro c _
    exact updCell_fst i as c
  unfold processAttr
  cases hl : locateNode j t with
  | none => exact List.Sublist.refl _
  | some res =>
    obtain ⟨prev, attr⟩ := res
    cases prev with
    | none => exact hrem t
    | some prev =>
      by_cases hi : isKindImage prev.payload = true
      · simp only [hi, if_true]
        exact (hset _ _) ▸ hrem _
      · simp only [hi]
        exact hrem t

mutual
theorem collectNode_setAttrs (i : Nat) (attrs : List Attribute) : ∀ t : INode,
    collectNode (setAttrsNode i attrs t) = collectNode t
  | .mk k p a cs => by
    rw [setAttrsNode, collectNode, collectNode, collectList_setAttrs i attrs cs]
theorem collectList_setAttrs (i : Nat) (attrs : List Attribute) : ∀ cs : List INode,
    collectList (setAttrsList i attrs cs) = collectList cs
  | [] => by rw [setAttrsList]
  | c :: rest => by
    rw [setAttrsList, collectList, collectList, collectNode_setAttrs i attrs c,
      collectList_setAttrs i attrs rest]
end

/-- A node collected after the removal of the node at `j` was collected
before, and is not the node at `j`. -/
theorem collectList_remove (j : Nat) : ∀ (cs : List INode) (x : Nat),
    x ∈ collectList (removeList j cs) → x ∈ collectList cs ∧ x ≠ j
  | [], x, h => by simp [removeList, collectList] at h
  | .mk i p a ch :: rest, x, h => by
    rw [removeList] at h
    have hid : (INode.mk i p a ch).id = i := rfl
    rw [hid] at h
    rw [collectList]
    by_cases hi : i = j
    · rw [if_pos hi] at h
      obtain ⟨h1, h2⟩ := collectList_remove j rest x h
      exact ⟨List.mem_append_right _ h1, h2⟩
    · rw [if_neg hi, collectList, removeNode, collectNode] at h
      rw [collectNode]
      rcases List.mem_append.mp h with h | h
      · by_cases hk : isKindImgAttr p = true
        · rw [if_pos hk] at h ⊢
          simp only [List.mem_singleton] at h
          subst h
          exact ⟨List.mem_append_left _ (List.mem_singleton.mpr rfl), hi⟩
        · rw [if_neg hk] at h ⊢
          obtain ⟨h1, h2⟩ := collectList_remove j ch x h
          exact ⟨List.mem_append_left _ h1, h2⟩
      · obtain ⟨h1, h2⟩ := collectList_remove j rest x h
        exact ⟨List.mem_append_right _ h1, h2⟩

theorem collectNode_remove (j : Nat) (t : INode) (ht : isKindImgAttr t.payload = false)
    (x : Nat) (h : x ∈ collectNode (removeNode j t)) : x ∈ collectNode t ∧ x ≠ j := by
  obtain ⟨i, p, a, cs⟩ := t
  have hp : isKindImgAttr p = false := ht
  rw [removeNode, collectNode, hp] at h
  rw [collectNode, hp]
  exact collectList_remove j cs x h

theorem processAttr_payload (t : INode) (j : Nat) : (processAttr t j).payload = t.payload := by
  unfold processAttr
  cases hl : locateNode j t with
  | none => rfl
  | some res =>
    obtain ⟨prev, attr⟩ := res
    cases prev with
    | none => exact INode_payload_remove j t
    | some prev =>
      by_cases hi : isKindImage prev.payload = true
      · simp only [hi, if_true]
        rw [INode_payload_remove, INode_payload_setAttrs]
      · simp only [hi]
        exact INode_payload_remove j t

/-- A node collected after the step for the node at `j` was collected
before the step, and is not the node at `j`. -/
theorem processAttr_collect (t : INode) (j : Nat) (ht : isKindImgAttr t.payload = false)
    (x : Nat) (h : x ∈ collectNode (processAttr t j)) :
    x ∈ collectNode t ∧ (x ≠ j ∨ locateNode j t = none) := by
  unfold processAttr at h
  cases hl : locateNode j t with
  | none =>
    rw [hl] at h
    exact ⟨h, Or.inr rfl⟩
  | some res =>
    rw [hl] at h
    obtain ⟨prev, attr⟩ := res
    cases prev with
    | none =>
      obtain ⟨h1, h2⟩ := collectNode_remove j t ht x h
      exact ⟨h1, Or.inl h2⟩
    | some prev =>
      by_cases hi : isKindImage prev.payload = true
      · simp only [hi, if_true] at h
        obtain ⟨h1, h2⟩ := collectNode_remove j _
          (by rw [INode_payload_setAttrs]; exact ht) x h
        rw [collectNode_setAttrs] at h1
        exact ⟨h1, Or.inl h2⟩
      · simp only [hi] at h
        obtain ⟨h1, h2⟩ := collectNode_remove j t ht x h
        exact ⟨h1, Or.inl h2⟩

/-- A collected node is found by the search from the root. -/
theorem locateList_of_collect (x : Nat) : ∀ (cs : List INode) (acc : Option INode),
    x ∈ collectList cs → (locateList x acc cs).isSome = true
  | [], acc, h => by simp [collectList] at h
  | .mk i p a ch :: rest, acc, h => by
    rw [locateList]
    have hid : (INode.mk i p a ch).id = i := rfl
    rw [hid]
    by_cases hi : i = x
    · rw [if_pos hi]
      rfl
    · rw [if_neg hi]
      rw [collectList, collectNode] at h
      cases hl : locateNode x (.mk i p a ch) with
      | some res => rfl
      | none =>
        simp only []
        rcases List.mem_append.mp h with h | h
        · by_cases hk : isKindImgAttr p = true
          · rw [if_pos hk] at h
            simp only [List.mem_singleton] at h
            exact absurd h.symm hi
          · rw [if_neg hk] at h
            have := locateList_of_collect x ch none h
            rw [locateNode] at hl
            rw [hl] at this
            cases this
        · exact locateList_of_collect x rest _ h

theorem locateNode_of_collect (x : Nat) (t : INode) (ht : isKindImgAttr t.payload = false)
    (h : x ∈ collectNode t) : (locateNode x t).isSome = true := by
  obtain ⟨i, p, a, cs⟩ := t
  have hp : isKindImgAttr p = false := ht
  rw [collectNode, hp] at h
  rw [locateNode]
  exact locateList_of_collect x cs none h

theorem processAttr_collect_ne (t : INode) (j : Nat) (ht : isKindImgAttr t.payload = false)
    (x : Nat) (h : x ∈ collectNode (processAttr t j)) : x ∈ collectNode t ∧ x ≠ j := by
  obtain ⟨h1, h2⟩ := processAttr_collect t j ht x h
  refine ⟨h1, ?_⟩
  rcases h2 with h2 | h2
  · exact h2
  · intro e
    subst e
    have := locateNode_of_collect x t ht h1
    rw [h2] at this
    cases this

/-- After the steps for the nodes of a list that holds all the collected
nodes, no node is collected any more. -/
theorem foldl_processAttr_collect : ∀ (L : List Nat) (t : INode),
    isKindImgAttr t.payload = false → (∀ x ∈ collectNode t, x ∈ L) →
      collectNode (L.foldl processAttr t) = [] ∧
        isKindImgAttr (L.foldl processAttr t).payload = false
  | [], t, ht, h => by
    refine ⟨?_, ht⟩
    apply List.eq_nil_iff_forall_not_mem.mpr
    intro x hx
    exact absurd (h x hx) (List.not_mem_nil x)
  | j :: L, t, ht, h => by
    rw [List.foldl_cons]
    apply foldl_processAttr_collect L (processAttr t j)
    · rw [processAttr_payload]
      exact ht
    · intro x hx
      obtain ⟨h1, h2⟩ := processAttr_collect_ne t j ht x hx
      rcases List.mem_cons.mp (h x h1) with e | e
      · exact absurd e h2
      · exact e

mutual
/-- A tree in which the walk collects nothing holds no `ImgAttr` node. -/
theorem cellsNode_of_collect_nil : ∀ t : INode, collectNode t = [] →
    ∀ c ∈ cellsNode t, isKindImgAttr c.2.1 = false
  | .mk i p a cs, h, c, hc => by
    rw [collectNode] at h
    rw [cellsNode] at hc
    by_cases hk : isKindImgAttr p = true
    · rw [if_pos hk] at h
      cases h
    · rw [if_neg hk] at h
      rcases List.mem_cons.mp hc with e | e
      · subst e
        simpa using hk
      · exact cellsList_of_collect_nil cs h c e
theorem cellsList_of_collect_nil : ∀ cs : List INode, collectList cs = [] →
    ∀ c ∈ cellsList cs, isKindImgAttr c.2.1 = false
  | [], _, c, hc => by simp [cellsList] at hc
  | d :: rest, h, c, hc => by
    rw [collectList] at h
    rw [cellsList] at hc
    obtain ⟨h1, h2⟩ := List.append_eq_nil.mp h
    rcases List.mem_append.mp hc with e | e
    · exact cellsNode_of_collect_nil d h1 c e
    · exact cellsList_of_collect_nil rest h2 c e
end

mutual
theorem kindsNode_erase : ∀ t : INode,
    kindsNode (eraseNode t) = (cellsNode t).map (fun c => c.2.1)
  | .mk i p a cs => by
    rw [eraseNode, kindsNode, cellsNode, List.map_cons, kindsList_erase cs]
theorem kindsList_erase : ∀ cs : List INode,
    kindsList (eraseList cs) = (cellsList cs).map (fun c => c.2.1)
  | [] => by simp [eraseList, kindsList, cellsList]
  | c :: rest => by
    rw [eraseList, kindsList, cellsList, List.map_append, kindsNode_erase c,
      kindsList_erase rest]
end

mutual
/-- The numbering gives the nodes consecutive addresses. -/
theorem labelNode_ids : ∀ (t : Node) (n : Nat),
    ∃ m, (labelNode t n).2 = n + m ∧
      (cellsNode (labelNode t n).1).map (fun c => c.1) = List.range' n m
  | .mk p a cs, n => by
    obtain ⟨m, h1, h2⟩ := labelList_ids cs (n + 1)
    refine ⟨m + 1, ?_, ?_⟩
    · rw [labelNode]
      simp only []
      rw [h1]
      omega
    · rw [labelNode]
      simp only []
      rw [cellsNode, List.map_cons, h2]
      exact (List.range'_succ n m 1).symm
theorem labelList_ids : ∀ (cs : List Node) (n : Nat),
    ∃ m, (labelList cs n).2 = n + m ∧
      (cellsList (labelList cs n).1).map (fun c => c.1) = List.range' n m
  | [], n => ⟨0, by simp [labelList], by simp [labelList, cellsList]⟩
  | c :: rest, n => by
    obtain ⟨m1, h1, h2⟩ := labelNode_ids c n
    obtain ⟨m2, h3, h4⟩ := labelList_ids rest (labelNode c n).2
    refine ⟨m1 + m2, ?_, ?_⟩
    · rw [labelList]
      simp only []
      rw [h3, h1]
      omega
    · rw [labelList]
      simp only []
      rw [cellsList, List.map_append, h2, h4, h1]
      have := List.range'_append n m1 m2 1
      rw [Nat.one_mul] at this
      rw [Nat.add_comm m1 m2]
      exact this
end

theorem labelNode_nodup (t : Node) (n : Nat) :
    ((cellsNode (labelNode t n).1).map (fun c => c.1)).Nodup := by
  obtain ⟨m, _, h⟩ := labelNode_ids t n
  rw [h]
  exact List.nodup_range' n m

theorem foldl_processAttr_nodup : ∀ (L : List Nat) (t : INode),
    ((cellsNode t).map (fun c => c.1)).Nodup →
      ((cellsNode (L.foldl processAttr t)).map (fun c => c.1)).Nodup
  | [], _, h => h
  | j :: L, t, h => by
    rw [List.foldl_cons]
    exact foldl_processAttr_nodup L _ ((processAttr_ids t j).nodup h)

theorem labelNode_payload (t : Node) (n : Nat) : (labelNode t n).1.payload = t.payload := by
  obtain ⟨p, a, cs⟩ := t
  rw [labelNode]
  rfl

theorem stateAt_succ (t : INode) (k j : Nat) (h : (collectNode t)[k]? = some j) :
    stateAt t (k + 1) = processAttr (stateAt t k) j := by
  unfold stateAt
  have hk : k < (collectNode t).length := by
    by_contra hn
    rw [List.getElem?_eq_none (by omega)] at h
    cases h
  rw [List.take_succ, h, List.foldl_append]
  rfl

theorem AttributeString_SetAttribute_other (attrs : List Attribute) (name m : String)
    (v : AttrValue) (h : name ≠ m) :
    AttributeString (SetAttribute attrs name v) m = AttributeString attrs m := by
  induction attrs with
  | nil =>
    rw [SetAttribute, AttributeString, AttributeString]
    exact if_neg h
  | cons a rest ih =>
    rw [SetAttribute]
    by_cases h1 : a.Name = name
    · have h2 : a.Name ≠ m := fun e => h (h1.symm.trans e)
      rw [if_pos h1, AttributeString, AttributeString, if_neg h, if_neg h2]
    · rw [if_neg h1, AttributeString, AttributeString, ih]

theorem SetAttribute_absent (attrs : List Attribute) (name : String) (v : AttrValue)
    (h : AttributeString attrs name = none) :
    SetAttribute attrs name v = attrs ++ [⟨name, v⟩] := by
  induction attrs with
  | nil => rfl
  | cons a rest ih =>
    by_cases h1 : a.Name = name
    · simp [AttributeString, h1] at h
    · simp only [AttributeString, h1, if_false] at h
      simp [SetAttribute, h1, ih h]

/-- The merge keeps the values the previous sibling has, and adds under the
names it does not have the first value the `ImgAttr` node has. -/
theorem mergeAttrs_lookup (name : String) : ∀ (as prev : List Attribute),
    (∀ v, AttributeString prev name = some v →
        AttributeString (mergeAttrs prev as) name = some v) ∧
      (AttributeString prev name = none →
        AttributeString (mergeAttrs prev as) name = AttributeString as name)
  | [], prev => ⟨fun v h => by rw [mergeAttrs]; exact h,
      fun h => by rw [mergeAttrs, h]; rfl⟩
  | a :: rest, prev => by
    cases hp : AttributeString prev a.Name with
    | some w =>
      have hm : mergeAttrs prev (a :: rest) = mergeAttrs prev rest := by
        rw [mergeAttrs, hp]
      rw [hm]
      refine ⟨(mergeAttrs_lookup name rest prev).1, fun h => ?_⟩
      have hne : a.Name ≠ name := by
        intro e
        rw [e, h] at hp
        cases hp
      rw [(mergeAttrs_lookup name rest prev).2 h]
      simp [AttributeString, hne]
    | none =>
      have hm : mergeAttrs prev (a :: rest) =
          mergeAttrs (SetAttribute prev a.Name a.Value) rest := by
        rw [mergeAttrs, hp]
      rw [hm]
      refine ⟨fun v h => ?_, fun h => ?_⟩
      · have hne : a.Name ≠ name := by
          intro e
          rw [e, h] at hp
          cases hp
        apply (mergeAttrs_lookup name rest _).1
        rw [AttributeString_SetAttribute_other _ _ _ _ hne]
        exact h
      · by_cases hne : a.Name = name
        · have h1 : AttributeString (SetAttribute prev a.Name a.Value) name = some a.Value := by
            rw [← hne]
            exact AttributeString_SetAttribute _ _ _
          rw [(mergeAttrs_lookup name rest _).1 _ h1]
          simp [AttributeString, hne]
        · have h1 : AttributeString (SetAttribute prev a.Name a.Value) name = none := by
            rw [AttributeString_SetAttribute_other _ _ _ _ hne]
            exact h
          rw [(mergeAttrs_lookup name rest _).2 h1]
          simp [AttributeString, hne]

/-- The merge leaves the attributes of the previous sibling in place and
appends to them. -/
theorem mergeAttrs_extends : ∀ (as prev : List Attribute), prev <+: mergeAttrs prev as
  | [], prev => by rw [mergeAttrs]
  | a :: rest, prev => by
    cases hp : AttributeString prev a.Name with
    | some w =>
      rw [mergeAttrs, hp]
      exact mergeAttrs_extends rest prev
    | none =>
      rw [mergeAttrs, hp]
      simp only []
      refine List.IsPrefix.trans ?_ (mergeAttrs_extends rest _)
      rw [SetAttribute_absent _ _ _ hp]
      exact List.prefix_append _ _

/-- The nodes after a step, other than the node whose attributes were set,
are nodes before the step, with the same attributes. -/
theorem processAttr_frame (t : INode) (j i : Nat) (attrs : List Attribute)
    (c : Nat × Payload × List Attribute)
    (hc : c ∈ cellsNode (removeNode j (setAttrsNode i attrs t))) (hne : c.1 ≠ i) :
    c ∈ cellsNode t := by
  have h1 := (cellsNode_remove j (setAttrsNode i attrs t)).subset hc
  rw [cellsNode_setAttrs] at h1
  obtain ⟨d, hd, e⟩ := List.mem_map.mp h1
  by_cases hdi : d.1 = i
  · exfalso
    apply hne
    rw [← e, updCell_fst]
    exact hdi
  · rw [updCell_of_ne _ _ _ hdi] at e
    rw [← e]
    exact hd

/-! ### Writes that begin with an assignment to a property of an identifier -/

/-- A write that begins with an identifier of the counter and a dot, read
against another such text: the identifiers are the same and what follows
the dot begins alike. -/
theorem elName_dot_cases (n : Int) (A t u : List Char)
    (hA : ∀ c ∈ A, (c != '.') = true)
    (h : (elName n).data ++ '.' :: t <+: A ++ '.' :: u) :
    A = (elName n).data ∧ t <+: u := by
  obtain ⟨w, hw⟩ := h
  have e : (elName n).data ++ '.' :: (t ++ w) = A ++ '.' :: u := by
    rw [← hw]
    simp
  have h1 := takeWhile_append_stop (fun c => c != '.') (elName n).data ('.' :: (t ++ w))
    (elName_no_dot n) (by simp)
  have h2 := takeWhile_append_stop (fun c => c != '.') A ('.' :: u) hA (by simp)
  rw [e] at h1
  have hd : '.' :: u = '.' :: (t ++ w) := h2.2.symm.trans h1.2
  simp only [List.cons.injEq, true_and] at hd
  exact ⟨h2.1.symm.trans h1.1, ⟨w, hd.symm⟩⟩

theorem elName_dot_elName (n k : Int) (t u : List Char)
    (h : (elName n).data ++ '.' :: t <+: (elName k).data ++ '.' :: u) :
    k = n ∧ t <+: u := by
  obtain ⟨h1, h2⟩ := elName_dot_cases n (elName k).data t u (elName_no_dot k) h
  exact ⟨elName_injective (String.ext h1), h2⟩

/-- An append statement under a recorded parent does not begin with an
assignment to the property `p` of an identifier, when `p` does not begin
like `appendChild(`. -/
theorem appendStmt_not_assign (n : Int) (p : List Char) (P E : String) (hP : GoodName P)
    (hp : ∀ u, ¬ p <+: "appendChild(".data ++ u)
    (h : (elName n).data ++ '.' :: p <+: (appendStmt P E).data) : False := by
  have e : (appendStmt P E).data = P.data ++ '.' :: ("appendChild(".data ++ (E ++ ");\n").data) := by
    simp [appendStmt, String.data_append]
  rw [e] at h
  exact hp _ (elName_dot_cases n P.data p _ (goodName_no_dot P hP) h).2

theorem isPrefixOf_elName_dot (n k : Int) (t u : List Char) :
    ((elName n).data ++ '.' :: t).isPrefixOf ((elName k).data ++ '.' :: u) =
      (decide (k = n) && t.isPrefixOf u) := by
  rw [Bool.eq_iff_iff]
  simp only [List.isPrefixOf_iff_prefix, Bool.and_eq_true, decide_eq_true_eq]
  constructor
  · exact elName_dot_elName n k t u
  · rintro ⟨rfl, h⟩
    exact (List.prefix_append_right_inj _).2 ((List.prefix_cons_inj _).2 h)

theorem attrStmt_data (elNam : String) (a : Attribute) :
    (attrStmt elNam a).data =
      elNam.data ++ '.' :: (a.Name.data ++ '=' :: '\'' :: ((attrValueText a.Value).data ++
        ['\'', ';', '\n'])) := by
  simp [attrStmt, String.data_append]

/-- The attribute statements on one identifier do not begin with an
assignment to a property of another identifier. -/
theorem filter_attr_other_id (attrs : List Attribute) (filter : Option BytesFilter)
    (n k : Int) (pre : String) (t : List Char)
    (hpre : pre.data = (elName n).data ++ '.' :: t) (hk : k ≠ n) :
    (RenderElAttributes attrs filter (elName k)).filter (fun s => HasPrefix s pre) = [] := by
  rw [List.filter_eq_nil_iff]
  intro s hs
  obtain ⟨a, _, _, rfl⟩ := (mem_RenderElAttributes attrs filter (elName k) s).mp hs
  rw [HasPrefix, attrStmt_data, hpre, isPrefixOf_elName_dot]
  simp [hk]

/-- The attribute statements do not begin like a text whose first character
is not `e`. -/
theorem filter_attr_head (attrs : List Attribute) (filter : Option BytesFilter)
    (k : Int) (pre : String) (c : Char) (rest : List Char) (hpre : pre.data = c :: rest)
    (hc : c ≠ 'e') :
    (RenderElAttributes attrs filter (elName k)).filter (fun s => HasPrefix s pre) = [] := by
  rw [List.filter_eq_nil_iff]
  intro s hs
  obtain ⟨a, _, _, rfl⟩ := (mem_RenderElAttributes attrs filter (elName k) s).mp hs
  rw [HasPrefix, attrStmt_data, hpre, elName_data]
  simp [List.isPrefixOf, hc]

/-- No attribute statement is an `appendChild` statement. -/
theorem filter_attr_attach (attrs : List Attribute) (filter : Option BytesFilter) (k : Int) :
    (RenderElAttributes attrs filter (elName k)).filter (fun s => (attachOf s).isSome) = [] := by
  rw [List.filter_eq_nil_iff]
  intro s hs
  obtain ⟨a, _, _, rfl⟩ := (mem_RenderElAttributes attrs filter (elName k) s).mp hs
  rw [attachOf_attrStmt]
  simp

/-- An attribute statement begins with an assignment to the property `p` of
its identifier exactly when the attribute is named `p` or `p=…`. -/
theorem HasPrefix_attrStmt (k : Int) (p : String) (a : Attribute) (hp : '=' ∉ p.data) :
    HasPrefix (attrStmt (elName k) a) (elName k ++ ("." ++ (p ++ "="))) = true ↔
      (a.Name.data = p.data ∨ (p.data ++ ['=']) <+: a.Name.data) := by
  have e : (elName k ++ ("." ++ (p ++ "="))).data = (elName k).data ++ '.' :: (p.data ++ ['=']) := by
    simp [String.data_append]
  rw [HasPrefix, attrStmt_data, e, isPrefixOf_elName_dot]
  simp only [decide_True, Bool.true_and, List.isPrefixOf_iff_prefix]
  constructor
  · rintro ⟨t, ht⟩
    refine name_of_assign_prefix p.data hp a.Name.data
      ('\'' :: ((attrValueText a.Value).data ++ ['\'', ';', '\n'])) t ?_
    rw [← ht]
    simp
  · rintro (h | ⟨u, hu⟩)
    · rw [h]
      exact ⟨'\'' :: ((attrValueText a.Value).data ++ ['\'', ';', '\n']), by simp⟩
    · rw [← hu]
      exact ⟨u ++ '=' :: '\'' :: ((attrValueText a.Value).data ++ ['\'', ';', '\n']),
        by simp [List.append_assoc]⟩

/-- Among the attribute statements of a list, those that begin with an
assignment to `.start` are the statements of the attributes named
`start`. -/
theorem filter_attr_start (la : List Attribute) (k : Int) (v : String) :
    (RenderElAttributes (SetAttributeString la "el" v) (some ListAttributeFilter)
        (elName k)).filter (fun s => HasPrefix s (elName k ++ ".start=")) =
      (la.filter (fun a => decide (a.Name = "start"))).map (attrStmt (elName k)) := by
  rw [RenderElAttributes_set_el ListAttributeFilter el_not_in_filters.2.2.1, List.filter_map,
    List.filter_filter]
  congr 1
  apply List.filter_congr
  intro a _
  have e : (elName k ++ ".start=") = elName k ++ ("." ++ ("start" ++ "=")) := by
    simp [String.ext_iff, String.data_append]
  have key := HasPrefix_attrStmt k "start" a (by decide)
  rw [← e] at key
  rw [Bool.eq_iff_iff]
  simp only [Function.comp, Bool.and_eq_true, decide_eq_true_eq, key]
  constructor
  · rintro ⟨h1 | h1, h2⟩
    · exact String.ext h1
    · exfalso
      rcases h2 with hmem | ⟨t, ht⟩
      · have : ∀ n ∈ ListAttributeFilter.elems, ¬ ("start".data ++ ['=']) <+: n.data := by
          decide
        exact this _ hmem h1
      · obtain ⟨u, hu⟩ := h1
        rw [← hu] at ht
        simp at ht
  · intro h
    refine ⟨Or.inl (by rw [h]), Or.inl ?_⟩
    rw [h]
    decide

/-- No attribute that the filter of the list items keeps is named
`textContent` or `textContent=…`. -/
theorem item_filter_no_textContent (a : Attribute)
    (h : retained (some ListItemAttributeFilter) a) :
    ¬ (a.Name.data = "textContent".data ∨ ("textContent".data ++ ['=']) <+: a.Name.data) := by
  rcases h with hmem | ⟨t, ht⟩
  · have key : ∀ n ∈ ListItemAttributeFilter.elems,
        ¬ (n.data = "textContent".data ∨ ("textContent".data ++ ['=']) <+: n.data) := by decide
    exact key a.Name hmem
  · rw [← ht]
    rintro (h | ⟨u, hu⟩)
    · simp at h
    · simp at hu

theorem filter_attr_textContent (ia : List Attribute) (k : Int) :
    (RenderElAttributes ia (some ListItemAttributeFilter) (elName k)).filter
      (fun s => HasPrefix s (elName k ++ ".textContent=")) = [] := by
  rw [List.filter_eq_nil_iff]
  intro s hs
  obtain ⟨a, _, hret, rfl⟩ := (mem_RenderElAttributes ia _ (elName k) s).mp hs
  have e : (elName k ++ ".textContent=") = elName k ++ ("." ++ ("textContent" ++ "=")) := by
    simp [String.ext_iff, String.data_append]
  have key := HasPrefix_attrStmt k "textContent" a (by decide)
  rw [← e] at key
  rw [key]
  exact item_filter_no_textContent a hret

theorem isPrefixOf_fmtD_dot (n k : Int) (t u : List Char) :
    ((fmtD n).data ++ '.' :: t).isPrefixOf ((fmtD k).data ++ '.' :: u) =
      (decide (k = n) && t.isPrefixOf u) := by
  have := isPrefixOf_elName_dot n k t u
  simpa [elName_data, List.isPrefixOf_cons₂] using this

/-! ### The statements of scenario E, kind by kind -/

theorem listItemWrites_let (count : Int) (dbg : Bool) (P kind : String) (Marker : Nat)
    (Start : Int) (la ia : List Attribute) (v : String) (hP : GoodName P) :
    (listItemWrites count dbg P kind Marker Start la ia v).filter
        (fun s => HasPrefix s "let ") =
      ["let " ++ elName (count + 1) ++ "= document.createElement('" ++
          (if IsOrdered Marker then "ol" else "ul") ++ "');\n",
        "let " ++ elName (count + 2) ++ "= document.createElement('li');\n"] := by
  have hA1 := filter_attr_head la (some ListAttributeFilter) (count + 1) "let " 'l' "et ".data
    rfl (by decide)
  have hA2 := filter_attr_head ia (some ListItemAttributeFilter) (count + 2) "let " 'l'
    "et ".data rfl (by decide)
  simp only [listItemWrites, List.filter_append, hA1, hA2]
  rcases hP with rfl | ⟨k, rfl⟩ <;> cases dbg <;> cases IsOrdered Marker <;>
    by_cases hS : Start = 1 <;>
    simp [HasPrefix, String.data_append, elName_data, List.isPrefixOf_cons₂, dbgLine, hS,
      List.filter_cons]

theorem listItemWrites_const (count : Int) (dbg : Bool) (P kind : String) (Marker : Nat)
    (Start : Int) (la ia : List Attribute) (v : String) (hP : GoodName P) :
    (listItemWrites count dbg P kind Marker Start la ia v).filter
        (fun s => HasPrefix s "const ") = [] := by
  have hA1 := filter_attr_head la (some ListAttributeFilter) (count + 1) "const " 'c'
    "onst ".data rfl (by decide)
  have hA2 := filter_attr_head ia (some ListItemAttributeFilter) (count + 2) "const " 'c'
    "onst ".data rfl (by decide)
  simp only [listItemWrites, List.filter_append, hA1, hA2]
  rcases hP with rfl | ⟨k, rfl⟩ <;> cases dbg <;> cases IsOrdered Marker <;>
    by_cases hS : Start = 1 <;>
    simp [HasPrefix, String.data_append, elName_data, List.isPrefixOf_cons₂, dbgLine, hS,
      List.filter_cons]

theorem listItemWrites_start (count : Int) (dbg : Bool) (P kind : String) (Marker : Nat)
    (Start : Int) (la ia : List Attribute) (v w : String) (hP : GoodName P) :
    (listItemWrites count dbg P kind Marker Start (SetAttributeString la "el" w) ia v).filter
        (fun s => HasPrefix s (elName (count + 1) ++ ".start=")) =
      (if IsOrdered Marker && decide (Start ≠ 1) then
        [elName (count + 1) ++ (".start='" ++ fmtD Start ++ "';\n")] else []) ++
      (la.filter (fun a => decide (a.Name = "start"))).map (attrStmt (elName (count + 1))) := by
  have n12 : count + 2 ≠ count + 1 := by omega
  have hA1 := filter_attr_start la (count + 1) w
  have hA2 := filter_attr_other_id ia (some ListItemAttributeFilter) (count + 1) (count + 2)
    (elName (count + 1) ++ ".start=") "start=".data rfl n12
  simp only [listItemWrites, List.filter_append, hA1, hA2]
  rcases hP with rfl | ⟨k, rfl⟩ <;> cases dbg <;> cases IsOrdered Marker <;>
    by_cases hS : Start = 1 <;>
    simp [HasPrefix, String.data_append, elName_data, List.isPrefixOf_cons₂,
      isPrefixOf_fmtD_dot, dbgLine, hS, List.filter_cons]

theorem listItemWrites_textContent (count : Int) (dbg : Bool) (P kind : String) (Marker : Nat)
    (Start : Int) (la ia : List Attribute) (v : String) (hP : GoodName P) :
    (listItemWrites count dbg P kind Marker Start la ia v).filter
        (fun s => HasPrefix s (elName (count + 2) ++ ".textContent=")) =
      [elName (count + 2) ++ ".textContent=`" ++ v ++ "`;\n"] := by
  have n21 : count + 1 ≠ count + 2 := by omega
  have hA1 := filter_attr_other_id la (some ListAttributeFilter) (count + 2) (count + 1)
    (elName (count + 2) ++ ".textContent=") "textContent=".data rfl n21
  have hA2 := filter_attr_textContent ia (count + 2)
  simp only [listItemWrites, List.filter_append, hA1, hA2]
  rcases hP with rfl | ⟨k, rfl⟩ <;> cases dbg <;> cases IsOrdered Marker <;>
    by_cases hS : Start = 1 <;>
    simp [HasPrefix, String.data_append, elName_data, List.isPrefixOf_cons₂,
      isPrefixOf_fmtD_dot, dbgLine, hS, List.filter_cons]

theorem listItemWrites_attach (count : Int) (dbg : Bool) (P kind : String) (Marker : Nat)
    (Start : Int) (la ia : List Attribute) (v : String) (hP : GoodName P) :
    (listItemWrites count dbg P kind Marker Start la ia v).filter
        (fun s => (attachOf s).isSome) =
      [elName (count + 1) ++ ".appendChild(" ++ elName (count + 2) ++ ");\n",
        P ++ ".appendChild(" ++ elName (count + 1) ++ ");\n"] := by
  have hA1 := filter_attr_attach la (some ListAttributeFilter) (count + 1)
  have hA2 := filter_attr_attach ia (some ListItemAttributeFilter) (count + 2)
  have h2 : attachOf (elName (count + 1) ++ (".start='" ++ fmtD Start ++ "';\n")) = none :=
    attachOf_elName_other _ _ (by simp [String.data_append])
      (by simp [String.data_append, List.isPrefixOf_cons₂])
  have h7 : attachOf (elName (count + 2) ++ ".textContent=`" ++ v ++ "`;\n") = none := by
    rw [String.append_assoc, String.append_assoc]
    exact attachOf_elName_other _ _ (by simp [String.data_append])
      (by simp [String.data_append, List.isPrefixOf_cons₂])
  have h9 : attachOf (elName (count + 1) ++ ".appendChild(" ++ elName (count + 2) ++
      ");\n") = some (elName (count + 1), elName (count + 2)) := by
    rw [String.append_assoc, String.append_assoc]
    exact attachOf_elName_append _ _
  have h11 : attachOf (P ++ ".appendChild(" ++ elName (count + 1) ++ ");\n") =
      some (P, elName (count + 1)) := by
    rw [String.append_assoc, String.append_assoc]
    exact attachOf_appendStmt P _ hP
  have hlet1 : ∀ a b c : String, attachOf ("let " ++ a ++ b ++ c ++ "');\n") = none :=
    fun a b c => attachOf_of_head _ (by simp [String.data_append])
  have hlet2 : ∀ a b : String, attachOf ("let " ++ a ++ b) = none :=
    fun a b => attachOf_of_head _ (by simp [String.data_append])
  have hobj : ∀ a b : String, attachOf ("Object.assign(" ++ a ++ b) = none :=
    fun a b => attachOf_of_head _ (by simp [String.data_append])
  have hdbg1 : ∀ a b c d : String, attachOf ("// dbg -- pelNam: " ++ a ++ b ++ c ++ d) = none :=
    fun a b c d => attachOf_of_head _ (by simp [String.data_append])
  have hdbg2 : ∀ a b c : String, attachOf (dbgLine a b c) = none := fun a b c =>
    attachOf_of_head _ (by simp [dbgLine, String.data_append])
  simp only [listItemWrites, List.filter_append, hA1, hA2]
  cases dbg <;> cases IsOrdered Marker <;> by_cases hS : Start = 1 <;>
    simp [List.filter_cons, h2, h7, h9, h11, hlet1, hlet2, hobj, hdbg1, hdbg2, hS]

/-! ### Claims restated: the href of a link, the start of a list -/

/-- C1. On entry of a link whose parent has a recorded identifier, the
statement assigning `.href` to the link's identifier is written exactly when
`Unsafe` is set or the destination is not dangerous; in both cases the
`createElement("a")` statement and the statement appending the link to its
parent are written, and the identifier is recorded on the link. When
`Unsafe` is off and the destination is dangerous, no write of the call
begins an assignment to `.href` of the link's identifier, whatever its
right-hand side; the identifier of the parent is here `mdDiv` or an
identifier of the counter. -/
theorem renderLink_href_iff (x : Ext) (r : Renderer) (pnode : Node) (parElNam : String)
    (Destination : Bytes) (Title : Option String) (attrs : List Attribute)
    (children : List Node)
    (hpar : AttributeString pnode.attrs "el" = some (.str parElNam)) :
    (elName (r.count + 1) ++ ".href='" ++ x.escapeURL Destination true ++ "';\n" ∈
        (renderLink x r (some pnode) (.mk (.Link Destination Title) attrs children) true).out ↔
      (r.Unsafe = true ∨ IsDangerousURL x.caseTable Destination = false)) ∧
    "let " ++ elName (r.count + 1) ++ "=document.createElement(\"a\");\n" ∈
      (renderLink x r (some pnode) (.mk (.Link Destination Title) attrs children) true).out ∧
    parElNam ++ ".appendChild(" ++ elName (r.count + 1) ++ ");\n" ∈
      (renderLink x r (some pnode) (.mk (.Link Destination Title) attrs children) true).out ∧
    AttributeString
        (renderLink x r (some pnode) (.mk (.Link Destination Title) attrs children) true).node.attrs
        "el" = some (.str (elName (r.count + 1))) ∧
    (r.Unsafe = false → IsDangerousURL x.caseTable Destination = true → GoodName parElNam →
      ∀ s ∈ (renderLink x r (some pnode) (.mk (.Link Destination Title) attrs children)
          true).out,
        ¬ (elName (r.count + 1) ++ ".href=").data <+: s.data) := by
  refine ⟨⟨?_, ?_⟩, ?_, ?_, ?_, ?_⟩
  · intro hmem
    by_contra hc
    simp only [not_or, Bool.not_eq_true, Bool.not_eq_false] at hc
    have hif : (r.Unsafe || !IsDangerousURL x.caseTable Destination) = false := by
      simp [hc.1, hc.2]
    simp only [renderLink, attachNow, hpar, hif, if_true, Bool.false_eq_true, if_false,
      List.append_nil] at hmem
    exact href_not_among_rest _ _ parElNam Title _ children r.dbg pnode.payload.kindName
      ⟨_, rfl⟩ hmem
  · intro hc
    have hif : (r.Unsafe || !IsDangerousURL x.caseTable Destination) = true := by
      rcases hc with hc | hc <;> simp [hc]
    simp [renderLink, attachNow, hpar, hif]
  · simp [renderLink, attachNow, hpar]
  · simp [renderLink, attachNow, hpar, appendStmt]
  · simp only [renderLink, attachNow, hpar, if_true]
    simp [Node.attrs, SetAttributeString, AttributeString_SetAttribute]
  · intro hU hD hP s hs hpre
    have hif : (r.Unsafe || !IsDangerousURL x.caseTable Destination) = false := by
      simp [hU, hD]
    simp only [renderLink, attachNow, hpar, hif, if_true, Bool.false_eq_true, if_false,
      List.append_nil, List.mem_append, List.mem_singleton] at hs
    have hhead := prefix_of_elName_head _ _ _ hpre
    have hpre2 : (elName (r.count + 1)).data ++ '.' :: "href=".data <+: s.data := hpre
    rcases hs with (((((hs | hs) | hs) | hs) | hs) | hs) | hs
    · rw [hs] at hhead; simp at hhead
    · cases Title with
      | none => simp at hs
      | some title =>
        simp only [List.mem_singleton] at hs
        rw [hs] at hpre
        simp only [String.data_append, List.append_assoc] at hpre
        have := (List.prefix_append_right_inj _).1 hpre
        simp at this
    · obtain ⟨a, _, hret, ha⟩ := (mem_RenderElAttributes _ _ _ _).1 hs
      refine link_filter_no_href a hret
        (attrStmt_begins (elName (r.count + 1)) "href" a (by decide) ?_)
      rw [ha]
      simpa [String.data_append] using hpre
    · rw [hs] at hhead; simp at hhead
    · split at hs
      · simp only [List.mem_singleton] at hs
        rw [hs] at hpre
        simp only [String.data_append, List.append_assoc] at hpre
        have := (List.prefix_append_right_inj _).1 hpre
        simp at this
      · simp at hs
    · cases hd : r.dbg with
      | false => simp [hd] at hs
      | true =>
        simp only [hd, if_true, List.mem_singleton, dbgLine] at hs
        rw [hs] at hhead
        simp at hhead
    · rw [hs] at hpre2
      exact appendStmt_not_assign _ _ parElNam _ hP (fun u hu => by simp at hu) hpre2

/-- C1, at the link `[here](javascript:alert(1))` under the paragraph `el2`
with `Unsafe` off: no href statement, no write that begins `el3.href=`, the
element is created and appended. -/
theorem renderLink_href_iff_witness :
    AttributeString sampleParagraph.attrs "el" = some (.str "el2") ∧
      "el3.href='javascript:alert(1)';\n" ∉
        (renderLink plainExt sampleRenderer (some sampleParagraph) sampleDangerousLink true).out ∧
      "let el3=document.createElement(\"a\");\n" ∈
        (renderLink plainExt sampleRenderer (some sampleParagraph) sampleDangerousLink true).out ∧
      "el2.appendChild(el3);\n" ∈
        (renderLink plainExt sampleRenderer (some sampleParagraph) sampleDangerousLink true).out ∧
      (∀ s ∈ (renderLink plainExt sampleRenderer (some sampleParagraph) sampleDangerousLink
          true).out, ¬ (elName (2 + 1) ++ ".href=").data <+: s.data) :=
  ⟨by decide,
    fun h => absurd ((renderLink_href_iff plainExt sampleRenderer sampleParagraph "el2"
      (lit "javascript:alert(1)") none [⟨"rel", .bytes "nofollow"⟩]
      [.mk (.Text "here" false false false) [] []] (by decide)).1.1 h) (by decide),
    (renderLink_href_iff plainExt sampleRenderer sampleParagraph "el2"
      (lit "javascript:alert(1)") none [⟨"rel", .bytes "nofollow"⟩]
      [.mk (.Text "here" false false false) [] []] (by decide)).2.1,
    (renderLink_href_iff plainExt sampleRenderer sampleParagraph "el2"
      (lit "javascript:alert(1)") none [⟨"rel", .bytes "nofollow"⟩]
      [.mk (.Text "here" false false false) [] []] (by decide)).2.2.1,
    (renderLink_href_iff plainExt sampleRenderer sampleParagraph "el2"
      (lit "javascript:alert(1)") none [⟨"rel", .bytes "nofollow"⟩]
      [.mk (.Text "here" false false false) [] []] (by decide)).2.2.2.2 (by decide)
      (by decide) (Or.inr ⟨2, rfl⟩)⟩

/-- C18, counterexample. The ordered list with `Start` 1 that carries the
attribute `start` with the value 7, with one item whose only child is a text
block with the text `item`: the attribute is written as `el3.start='7';`,
where the claim has no `.start` assignment; with `Start` 5 the conversion
writes two `.start` assignments, `el3.start='5';` from `Start` and
`el3.start='7';` from the attribute. -/
theorem list_start_attribute_written :
    (walkHelper plainExt sampleRenderer (some sampleDocument) none
        (.mk (.ListNode 46 1) [⟨"start", .bytes "7"⟩]
          [.mk .ListItem []
            [.mk .TextBlock [] [.mk (.Text "item" false false false) [] []]]])).out =
      ["let el3= document.createElement('ol');\n", "el3.start='7';\n",
        "Object.assign(el3.style, mdStyle.ol);\n",
        "let el4= document.createElement('li');\n", "Object.assign(el4.style, mdStyle.li);\n",
        "el4.textContent=`item`;\n", "el3.appendChild(el4);\n", "mdDiv.appendChild(el3);\n"] ∧
    (walkHelper plainExt sampleRenderer (some sampleDocument) none
        (.mk (.ListNode 46 5) [⟨"start", .bytes "7"⟩]
          [.mk .ListItem []
            [.mk .TextBlock [] [.mk (.Text "item" false false false) [] []]]])).out =
      ["let el3= document.createElement('ol');\n", "el3.start='5';\n", "el3.start='7';\n",
        "Object.assign(el3.style, mdStyle.ol);\n",
        "let el4= document.createElement('li');\n", "Object.assign(el4.style, mdStyle.li);\n",
        "el4.textContent=`item`;\n", "el3.appendChild(el4);\n", "mdDiv.appendChild(el3);\n"] := by
  decide

/-- C18, amended. Scenario E. For a list with one item whose only child is a
text block with a single `Text` child, under a parent bound to `P`, the walk
ends without error and its writes are given in order. When `P` is `mdDiv` or
an identifier of the counter, then among the writes: those that begin with
`let ` are one `createElement` statement for the list, for `ol` when it is
ordered and for `ul` otherwise, and one `createElement('li')` statement;
none begins with `const `, so there is no `createTextNode` statement; those
that begin an assignment to `.start` of the list are the assignment of
`Start` in decimal, present exactly when the list is ordered and `Start` is
not 1, followed by one statement for each attribute of the list named
`start`, which the attribute filter of lists keeps: for a list without such
an attribute there is exactly one `.start` assignment when the list is
ordered and `Start` is not 1, and none otherwise; exactly one write begins
an assignment to `.textContent` of the item; and the `appendChild`
statements are two, the item to the list and then the list to `P`. -/
theorem list_item_text_statements (x : Ext) (r : Renderer) (pnode : Node)
    (next : Option Node) (P : String) (Marker : Nat) (Start : Int)
    (la ia ba ta : List Attribute) (tch : List Node) (v : String) (raw soft hard : Bool)
    (hpar : AttributeString pnode.attrs "el" = some (.str P)) :
    (walkHelper x r (some pnode) next
        (.mk (.ListNode Marker Start) la
          [.mk .ListItem ia [.mk .TextBlock ba [.mk (.Text v raw soft hard) ta tch]]])).ret =
      .ok ∧
    (walkHelper x r (some pnode) next
        (.mk (.ListNode Marker Start) la
          [.mk .ListItem ia [.mk .TextBlock ba [.mk (.Text v raw soft hard) ta tch]]])).out =
      ["let " ++ elName (r.count + 1) ++ "= document.createElement('" ++
          (if IsOrdered Marker then "ol" else "ul") ++ "');\n"] ++
      (if IsOrdered Marker && decide (Start ≠ 1) then
        [elName (r.count + 1) ++ (".start='" ++ fmtD Start ++ "';\n")] else []) ++
      RenderElAttributes (SetAttributeString la "el" (elName (r.count + 1)))
        (some ListAttributeFilter) (elName (r.count + 1)) ++
      [if IsOrdered Marker then "Object.assign(" ++ elName (r.count + 1) ++ ".style, mdStyle.ol);\n"
        else "Object.assign(" ++ elName (r.count + 1) ++ ".style, mdStyle.ul);\n",
        "let " ++ elName (r.count + 2) ++ "= document.createElement('li');\n",
        "Object.assign(" ++ elName (r.count + 2) ++ ".style, mdStyle.li);\n"] ++
      RenderElAttributes (SetAttributeString ia "el" (elName (r.count + 2)))
        (some ListItemAttributeFilter) (elName (r.count + 2)) ++
      (if r.dbg then
        ["// dbg -- pelNam: " ++ elName (r.count + 2) ++ " children: " ++ fmtD 1 ++ "\n"]
        else []) ++
      [elName (r.count + 2) ++ ".textContent=`" ++ v ++ "`;\n"] ++
      (if r.dbg then [dbgLine (elName (r.count + 2)) (elName (r.count + 1)) "List"] else []) ++
      [elName (r.count + 1) ++ ".appendChild(" ++ elName (r.count + 2) ++ ");\n"] ++
      (if r.dbg then [dbgLine (elName (r.count + 1)) P pnode.payload.kindName] else []) ++
      [P ++ ".appendChild(" ++ elName (r.count + 1) ++ ");\n"] ∧
    (GoodName P →
      (walkHelper x r (some pnode) next
          (.mk (.ListNode Marker Start) la
            [.mk .ListItem ia [.mk .TextBlock ba [.mk (.Text v raw soft hard) ta tch]]])).out.filter
          (fun s => HasPrefix s "let ") =
        ["let " ++ elName (r.count + 1) ++ "= document.createElement('" ++
            (if IsOrdered Marker then "ol" else "ul") ++ "');\n",
          "let " ++ elName (r.count + 2) ++ "= document.createElement('li');\n"] ∧
      (walkHelper x r (some pnode) next
          (.mk (.ListNode Marker Start) la
            [.mk .ListItem ia [.mk .TextBlock ba [.mk (.Text v raw soft hard) ta tch]]])).out.filter
          (fun s => HasPrefix s "const ") = [] ∧
      (walkHelper x r (some pnode) next
          (.mk (.ListNode Marker Start) la
            [.mk .ListItem ia [.mk .TextBlock ba [.mk (.Text v raw soft hard) ta tch]]])).out.filter
          (fun s => HasPrefix s (elName (r.count + 1) ++ ".start=")) =
        (if IsOrdered Marker && decide (Start ≠ 1) then
          [elName (r.count + 1) ++ (".start='" ++ fmtD Start ++ "';\n")] else []) ++
        (la.filter (fun a => decide (a.Name = "start"))).map (attrStmt (elName (r.count + 1))) ∧
      (walkHelper x r (some pnode) next
          (.mk (.ListNode Marker Start) la
            [.mk .ListItem ia [.mk .TextBlock ba [.mk (.Text v raw soft hard) ta tch]]])).out.filter
          (fun s => HasPrefix s (elName (r.count + 2) ++ ".textContent=")) =
        [elName (r.count + 2) ++ ".textContent=`" ++ v ++ "`;\n"] ∧
      (walkHelper x r (some pnode) next
          (.mk (.ListNode Marker Start) la
            [.mk .ListItem ia [.mk .TextBlock ba [.mk (.Text v raw soft hard) ta tch]]])).out.filter
          (fun s => (attachOf s).isSome) =
        [elName (r.count + 1) ++ ".appendChild(" ++ elName (r.count + 2) ++ ");\n",
          P ++ ".appendChild(" ++ elName (r.count + 1) ++ ");\n"]) := by
  obtain ⟨hret, hout⟩ := walkHelper_list_item_text_out x r pnode next P Marker Start la ia ba ta
    tch v raw soft hard hpar
  refine ⟨hret, hout, fun hP => ?_⟩
  have e : (walkHelper x r (some pnode) next
      (.mk (.ListNode Marker Start) la
        [.mk .ListItem ia [.mk .TextBlock ba [.mk (.Text v raw soft hard) ta tch]]])).out =
      listItemWrites r.count r.dbg P pnode.payload.kindName Marker Start
        (SetAttributeString la "el" (elName (r.count + 1)))
        (SetAttributeString ia "el" (elName (r.count + 2))) v := hout
  rw [e]
  exact ⟨listItemWrites_let _ _ _ _ _ _ _ _ _ hP, listItemWrites_const _ _ _ _ _ _ _ _ _ hP,
    listItemWrites_start _ _ _ _ _ _ _ _ _ _ hP,
    listItemWrites_textContent _ _ _ _ _ _ _ _ _ hP,
    listItemWrites_attach _ _ _ _ _ _ _ _ _ hP⟩

/-- C18, amended, at the ordered list that starts at 5 under the document
root: one `.start` assignment, carrying 5, one text-content assignment on
the item, and two `appendChild` statements. -/
theorem list_item_text_statements_witness :
    AttributeString sampleDocument.attrs "el" = some (.str "mdDiv") ∧
      (walkHelper plainExt sampleRenderer (some sampleDocument) none (sampleList 46 5)).ret =
        .ok ∧
      (walkHelper plainExt sampleRenderer (some sampleDocument) none
          (sampleList 46 5)).out.filter (fun s => HasPrefix s (elName (2 + 1) ++ ".start=")) =
        ["el3.start='5';\n"] ∧
      (walkHelper plainExt sampleRenderer (some sampleDocument) none
          (sampleList 46 5)).out.filter
            (fun s => HasPrefix s (elName (2 + 2) ++ ".textContent=")) =
        ["el4.textContent=`item`;\n"] ∧
      (walkHelper plainExt sampleRenderer (some sampleDocument) none
          (sampleList 46 5)).out.filter (fun s => (attachOf s).isSome) =
        ["el3.appendChild(el4);\n", "mdDiv.appendChild(el3);\n"] :=
  ⟨by decide,
    (list_item_text_statements plainExt sampleRenderer sampleDocument none "mdDiv" 46 5 [] [] []
      [] [] "item" false false false (by decide)).1,
    ((list_item_text_statements plainExt sampleRenderer sampleDocument none "mdDiv" 46 5 [] []
      [] [] [] "item" false false false (by decide)).2.2 (Or.inl rfl)).2.2.1.trans (by decide),
    ((list_item_text_statements plainExt sampleRenderer sampleDocument none "mdDiv" 46 5 [] []
      [] [] [] "item" false false false (by decide)).2.2 (Or.inl rfl)).2.2.2.1.trans
      (by decide),
    ((list_item_text_statements plainExt sampleRenderer sampleDocument none "mdDiv" 46 5 [] []
      [] [] [] "item" false false false (by decide)).2.2 (Or.inl rfl)).2.2.2.2.trans
      (by decide)⟩

/-! ### Claims on the final flush, the sections of an input, the debug lines, the code blocks and the image attributes -/

/-- C31, counterexample. A paragraph `el2` whose children are two `Text`
nodes with an empty value: after the loop the buffer is not nil and holds no
byte, and the final flush is written all the same, with an empty template
literal. -/
theorem empty_buffer_flushed :
    (aggLoop plainExt
        (.mk .Paragraph [⟨"el", .str "el2"⟩]
          [.mk (.Text "" false false false) [] [], .mk (.Text "" false false false) [] []])
        "el2" ⟨sampleRenderer, 0, none, [], []⟩
        [.mk (.Text "" false false false) [] [], .mk (.Text "" false false false) [] []]).map
          (fun s => (s.text, s.out)) = some (some "", []) ∧
      (renderTextChildren plainExt sampleRenderer
        (.mk .Paragraph [⟨"el", .str "el2"⟩]
          [.mk (.Text "" false false false) [] [], .mk (.Text "" false false false) [] []])
        true).out =
        ["const el3=document.createTextNode(``);\n", "el2.appendChild(el3);\n"] := by
  decide

/-- C31, amended. After the loop of the aggregator over the children, which
are not a single `Text`, has ended in the state `s`, the final creation of a
text node and its append to the parent are written if and only if the buffer
is not nil, that is when a run of `Text` children is pending, also when the
run holds no byte: what `renderTextChildren` writes is what the loop wrote,
followed by the two statements when `s.text` is not nil and by nothing when
it is nil. -/
theorem final_flush_iff_pending (x : Ext) (r : Renderer) (p : Payload)
    (attrs : List Attribute) (children : List Node) (P : String) (s : Agg)
    (hel : AttributeString attrs "el" = some (.str P))
    (hfast : ¬ ∃ v raw soft hard a ch, children = [.mk (.Text v raw soft hard) a ch])
    (hs : aggLoop x (.mk p attrs children) P ⟨r, 0, none, aggDbgOut r P children, []⟩ children
      = some s) :
    (renderTextChildren x r (.mk p attrs children) true).out =
      s.out ++
        (if s.text.isSome = true then
          ["const " ++ elName (s.r.count + 1) ++ "=document.createTextNode(`" ++
              s.text.getD "" ++ "`);\n",
            P ++ ".appendChild(" ++ elName (s.r.count + 1) ++ ");\n"]
        else []) := by
  obtain ⟨_, h2, h3⟩ := renderTextChildren_general x r p attrs children P hel hfast
  cases ht : s.text with
  | none =>
    rw [h2 s hs ht]
    simp
  | some t =>
    rw [h3 s t hs ht]
    simp [Agg.flush, ht]

/-- C31, amended, at the paragraph `el2` with the children `Text "a"`,
`Text ""`: the buffer holds `a` and the flush is written. -/
theorem final_flush_iff_pending_witness :
    (renderTextChildren plainExt sampleRenderer
        (.mk .Paragraph [⟨"el", .str "el2"⟩]
          [.mk (.Text "a" false false false) [] [], .mk (.Text "" false false false) [] []])
        true).out =
      ["const el3=document.createTextNode(`a`);\n", "el2.appendChild(el3);\n"] :=
  (final_flush_iff_pending plainExt sampleRenderer .Paragraph [⟨"el", .str "el2"⟩]
    [.mk (.Text "a" false false false) [] [], .mk (.Text "" false false false) [] []] "el2"
    ⟨sampleRenderer, 1, some "a", [],
      [.mk (.Text "a" false false false) [] [], .mk (.Text "" false false false) [] []]⟩
    (by decide) (by simp) rfl).trans (by decide)

/-- C32. `GetMetaSum` splits without loss an input made of a YAML header, a
summary and a body: when the input starts with `---\n`, the next `---\n`
closes the header `---\n ++ h ++ ---\n`, the first `# Summary` of the input
comes right after the header, and the first `#` after it starts the body
`# ++ m`, then `GetMetaSum` succeeds, `Meta` is the header with its two
delimiter lines, `Summary` is the summary up to that `#`, `Main` is the
rest, and the three parts in this order make up the input. -/
theorem getMetaSum_lossless (inp rest h rest2 rest3 s m : Bytes)
    (h1 : inp = lit "---\n" ++ rest)
    (h2 : FirstAt (lit "---\n") rest h rest2)
    (h3 : FirstAt (lit "# Summary") inp (lit "---\n" ++ h ++ lit "---\n") rest3)
    (h4 : FirstAt (lit "#") rest3 s m) :
    GetMetaSum (some inp) =
        .ok ⟨some (lit "---\n" ++ h ++ lit "---\n"), some (lit "# Summary" ++ s),
          some (lit "#" ++ m)⟩ ∧
      (lit "---\n" ++ h ++ lit "---\n") ++ (lit "# Summary" ++ s) ++ (lit "#" ++ m) = inp := by
  have h0 : FirstAt (lit "---\n") inp [] rest := ⟨by simp [h1], by simp⟩
  have hinp : inp = (lit "---\n" ++ h ++ lit "---\n" ++ (lit "# Summary" ++ s)) ++
      (lit "#" ++ m) := by
    rw [h3.1, h4.1]
    simp [List.append_assoc]
  have hmeta : metaPart inp = .ok (((h.length + 8 : Nat) : Int),
      some (lit "---\n" ++ h ++ lit "---\n")) := by
    rcases metaPart_cases inp with ⟨g0, _⟩ | ⟨pre, r2, g1, g2, _⟩ | ⟨pre, r2, mid, post, g1, g2, g⟩
    · exact absurd (FirstAt_occurs _ _ _ _ h0) g0
    · obtain ⟨_, e⟩ := FirstAt_unique _ _ _ _ _ _ h0 g1
      subst e
      exact absurd (FirstAt_occurs _ _ _ _ h2) g2
    · obtain ⟨e1, e2⟩ := FirstAt_unique _ _ _ _ _ _ h0 g1
      subst e1 e2
      obtain ⟨e3, e4⟩ := FirstAt_unique _ _ _ _ _ _ h2 g2
      subst e3 e4
      rw [g]
      simp
  have hsum : sumPart inp = .ok
      ((((lit "---\n" ++ h ++ lit "---\n").length + s.length + 9 : Nat) : Int),
        some (lit "# Summary" ++ s)) := by
    rcases sumPart_cases inp with ⟨g0, _⟩ | ⟨pre, r2, g1, g2, _⟩ | ⟨pre, r2, mid, post, g1, g2, g⟩
    · exact absurd (FirstAt_occurs _ _ _ _ h3) g0
    · obtain ⟨_, e⟩ := FirstAt_unique _ _ _ _ _ _ h3 g1
      subst e
      exact absurd (FirstAt_occurs _ _ _ _ h4) g2
    · obtain ⟨e1, e2⟩ := FirstAt_unique _ _ _ _ _ _ h3 g1
      subst e1 e2
      obtain ⟨e3, e4⟩ := FirstAt_unique _ _ _ _ _ _ h4 g2
      subst e3 e4
      rw [g]
  have hmain : sliceFrom inp
      ((((lit "---\n" ++ h ++ lit "---\n").length + s.length + 9 : Nat) : Int)) =
        some (lit "#" ++ m) := by
    have := sliceFrom_append (lit "---\n" ++ h ++ lit "---\n" ++ (lit "# Summary" ++ s))
      (lit "#" ++ m)
    rw [← hinp] at this
    rw [← this]
    congr 2
    simp only [List.length_append, lit_summary_length]
    omega
  refine ⟨?_, by rw [hinp]⟩
  simp only [GetMetaSum, hmeta, hsum, mainPart, Option.isSome_some, if_true, hmain]

/-- C32 at the input `---\na: 1\n---\n# Summary\ntext\n# Body\nx\n`. -/
theorem getMetaSum_lossless_witness :
    GetMetaSum (some (lit "---\na: 1\n---\n# Summary\ntext\n# Body\nx\n")) =
        .ok ⟨some (lit "---\na: 1\n---\n"), some (lit "# Summary\ntext\n"),
          some (lit "# Body\nx\n")⟩ ∧
      lit "---\na: 1\n---\n" ++ lit "# Summary\ntext\n" ++ lit "# Body\nx\n" =
        lit "---\na: 1\n---\n# Summary\ntext\n# Body\nx\n" :=
  getMetaSum_lossless (lit "---\na: 1\n---\n# Summary\ntext\n# Body\nx\n")
    (lit "a: 1\n---\n# Summary\ntext\n# Body\nx\n") (lit "a: 1\n")
    (lit "# Summary\ntext\n# Body\nx\n") (lit "\ntext\n# Body\nx\n") (lit "\ntext\n")
    (lit " Body\nx\n") (by decide) (by decide) (by decide) (by decide)

/-- An input in which neither `---\n` nor `# Summary` occurs is returned
whole as `Main`, with `Meta` and `Summary` nil. -/
theorem GetMetaSum_plain (b : Bytes) (h1 : ¬ lit "---\n" <:+: b)
    (h2 : ¬ lit "# Summary" <:+: b) :
    GetMetaSum (some b) = .ok ⟨none, none, some b⟩ := by
  have hm : metaPart b = .ok (-2, none) := by
    rcases metaPart_cases b with ⟨_, g⟩ | ⟨_, _, g1, _, _⟩ | ⟨_, _, _, _, g1, _, _⟩
    · exact g
    · exact absurd (FirstAt_occurs _ _ _ _ g1) h1
    · exact absurd (FirstAt_occurs _ _ _ _ g1) h1
  have hs : sumPart b = .ok (-2, none) := by
    rcases sumPart_cases b with ⟨_, g⟩ | ⟨_, _, g1, _, _⟩ | ⟨_, _, _, _, g1, _, _⟩
    · exact g
    · exact absurd (FirstAt_occurs _ _ _ _ g1) h2
    · exact absurd (FirstAt_occurs _ _ _ _ g1) h2
  simp [GetMetaSum, hm, hs, mainPart]

/-- C33, at the failing inputs. The input `a\n---\nb\n` does not start with
`---\n` and holds no `# Summary`, yet `GetMetaSum` returns the error
`no meta end!`: the thematic break is taken for the start of a header. On
`a\n---\nb\n---\nc\n`, which has no header at offset 0 either, `Meta` is
`---\nb\n---\n` and `Main` is `c\n`: the line `a` is in no part. -/
theorem thematic_break_taken_for_header :
    ¬ lit "---\n" <+: lit "a\n---\nb\n" ∧ ¬ lit "# Summary" <:+: lit "a\n---\nb\n" ∧
      GetMetaSum (some (lit "a\n---\nb\n")) = .err "no meta end!" ∧
      ¬ lit "---\n" <+: lit "a\n---\nb\n---\nc\n" ∧
      ¬ lit "# Summary" <:+: lit "a\n---\nb\n---\nc\n" ∧
      GetMetaSum (some (lit "a\n---\nb\n---\nc\n")) =
        .ok ⟨some (lit "---\nb\n---\n"), none, some (lit "c\n")⟩ := by
  decide

/-- C34. `GetMetaSum` returns an error exactly when the input is nil, or
`---\n` occurs in the input and does not occur again after the four bytes
of its first occurrence; in every other case it returns a result whose
`Main` is a suffix of the input. -/
theorem getMetaSum_error_iff (inp : Option Bytes) :
    ((∃ msg, GetMetaSum inp = .err msg) ↔
        (inp = none ∨ ∃ b pre rest, inp = some b ∧ FirstAt (lit "---\n") b pre rest ∧
          ¬ lit "---\n" <:+: rest)) ∧
      ((∃ msg, GetMetaSum inp = .err msg) ∨
        ∃ b c main, inp = some b ∧ GetMetaSum inp = .ok c ∧ c.Main = some main ∧
          main <:+ b) := by
  cases inp with
  | none => exact ⟨⟨fun _ => Or.inl rfl, fun _ => ⟨_, rfl⟩⟩, Or.inl ⟨_, rfl⟩⟩
  | some b =>
    rcases GetMetaSum_cases b with ⟨⟨pre, rest, h1, h2⟩, he⟩ | ⟨hn, c, main, hc, hm, hs, _⟩
    · exact ⟨⟨fun _ => Or.inr ⟨b, pre, rest, rfl, h1, h2⟩, fun _ => ⟨_, he⟩⟩, Or.inl ⟨_, he⟩⟩
    · refine ⟨⟨?_, ?_⟩, Or.inr ⟨b, c, main, rfl, hc, hm, hs⟩⟩
      · rintro ⟨msg, hmsg⟩
        rw [hc] at hmsg
        cases hmsg
      · rintro (h | ⟨b2, pre, rest, e, h1, h2⟩)
        · cases h
        · cases e
          exact absurd ⟨pre, rest, h1, h2⟩ hn

/-- C35. `GetMetaSum` returns on every input and no slice expression in it
is out of range: the result is an error or a value, never the panic of a
slice whose bounds do not satisfy `0 <= low <= high <= len(input)`, and the
fields of a value lie in the input, `Main` at its end. Among the inputs are
`# Summary\n---\na\n---\n# x` with the summary marker before the header,
`---\n# Summary\n---\n# b` with the marker inside it, `---\na\n---\n` whose
closing delimiter ends the input, and `# Summary\ntext` where no `#`
follows the marker. -/
theorem getMetaSum_in_range (inp : Option Bytes) :
    ((∃ msg, GetMetaSum inp = .err msg) ∨
        ∃ c main, GetMetaSum inp = .ok c ∧ c.Main = some main ∧ main <:+ inp.getD [] ∧
          c.Meta.getD [] <:+: inp.getD [] ∧ c.Summary.getD [] <:+: inp.getD []) ∧
      GetMetaSum (some (lit "# Summary\n---\na\n---\n# x")) =
        .ok ⟨some (lit "---\na\n---\n"), some (lit "# Summary\n---\na\n---\n"),
          some (lit "# x")⟩ ∧
      GetMetaSum (some (lit "---\n# Summary\n---\n# b")) =
        .ok ⟨some (lit "---\n# Summary\n---\n"), some (lit "# Summary\n---\n"),
          some (lit "# b")⟩ ∧
      GetMetaSum (some (lit "---\na\n---\n")) =
        .ok ⟨some (lit "---\na\n---\n"), none, some []⟩ ∧
      GetMetaSum (some (lit "# Summary\ntext")) =
        .ok ⟨none, none, some (lit "# Summary\ntext")⟩ := by
  refine ⟨?_, by decide, by decide, by decide, by decide⟩
  cases inp with
  | none => exact Or.inl ⟨_, rfl⟩
  | some b =>
    rcases GetMetaSum_cases b with ⟨_, he⟩ | ⟨_, c, main, hc, hm, hs, h1, h2⟩
    · exact Or.inl ⟨_, he⟩
    · exact Or.inr ⟨c, main, hc, hm, hs, h1, h2⟩

/-- C36, at the failing input. The conversion of a document that holds one
fenced code block, with `dbg` off, succeeds and writes the debug line
`// dbg -- el: el2 parent:mdDiv kind:Document`: the exit phase of
`renderFencedCodeBlock` writes it without the test of `dbg`. The same
document with a `CodeBlock` gives no such line. -/
theorem fenced_block_writes_debug_line :
    (NewRenderer "md" false).dbg = false ∧
      (Render plainExt (NewRenderer "md" false)
        (.mk .Document [] [.mk (.FencedCodeBlock none ["x := 1\n"]) [] []])).ret = .ok ∧
      (Render plainExt (NewRenderer "md" false)
        (.mk .Document [] [.mk (.FencedCodeBlock none ["x := 1\n"]) [] []])).out.drop 7 =
        ["// dbg -- el: el2 parent:mdDiv kind:Document\n", "mdDiv.appendChild(el2);\n",
          "return mdDiv;\n\x7d;\n"] ∧
      (Render plainExt (NewRenderer "md" false)
        (.mk .Document [] [.mk (.CodeBlock ["x := 1\n"]) [] []])).out.drop 7 =
        ["mdDiv.appendChild(el2);\n", "return mdDiv;\n\x7d;\n"] := by
  decide

/-- C37, counterexample. The paragraph `el2` with the children `Text "a "`
and an `AutoLink`, with `dbg` off: the loop is entered, so a text node `el3`
is created for `a ` and appended, and the counter goes to 3; the paragraph
with the child `Text "a "` alone is written through `textContent`, with no
text node, and the counter stays at 2. The autolink itself writes nothing:
the two statements are those of the final flush. -/
theorem default_child_turns_off_fast_path :
    sampleRenderer.dbg = false ∧
      aggDefaultCase (Payload.AutoLink .AutoLinkURL (lit "http://x.org")) = true ∧
      (renderTextChildren plainExt sampleRenderer
        (.mk .Paragraph [⟨"el", .str "el2"⟩]
          [.mk (.Text "a " false false false) [] [],
            .mk (.AutoLink .AutoLinkURL (lit "http://x.org")) [] []]) true).out =
        ["const el3=document.createTextNode(`a `);\n", "el2.appendChild(el3);\n"] ∧
      (renderTextChildren plainExt sampleRenderer
        (.mk .Paragraph [⟨"el", .str "el2"⟩]
          [.mk (.Text "a " false false false) [] [],
            .mk (.AutoLink .AutoLinkURL (lit "http://x.org")) [] []]) true).r.count = 3 ∧
      (renderTextChildren plainExt sampleRenderer
        (.mk .Paragraph [⟨"el", .str "el2"⟩]
          [.mk (.Text "a " false false false) [] []]) true).out =
        ["el2.textContent=`a `;\n"] ∧
      (renderTextChildren plainExt sampleRenderer
        (.mk .Paragraph [⟨"el", .str "el2"⟩]
          [.mk (.Text "a " false false false) [] []]) true).r.count = 2 := by
  decide

/-- C37, amended. In `renderTextChildren` with `dbg` off, a child `c` of a
kind that is none of `Text`, `Emphasis`, `CodeSpan`, `Image`, `Link`,
`RawHTML` and `String` leaves the state of the loop as it is, buffer and
writes included, and is only recorded as visited; so the loop over the
children with `c` among them and the loop over the children without `c`
both panic or end with the same renderer, state number, buffer and writes;
and when the children without `c` are not a single `Text` (which is
written through `textContent`, before the loop), `renderTextChildren` writes
the same statements, returns the same value and leaves the same renderer
with `c` as without it. -/
theorem default_child_ignored (x : Ext) (r : Renderer) (p : Payload)
    (attrs : List Attribute) (pre post : List Node) (c : Node) (P : String)
    (hdbg : r.dbg = false) (hc : aggDefaultCase c.payload = true)
    (hel : AttributeString attrs "el" = some (.str P))
    (hgen : ¬ ∃ v raw soft hard a ch, pre ++ post = [.mk (.Text v raw soft hard) a ch]) :
    (∀ (pn : Node) (s : Agg), s.r.dbg = false →
        aggStep x pn P s c = some { s with seen := s.seen ++ [c] }) ∧
      ((aggLoop x (.mk p attrs (pre ++ c :: post)) P ⟨r, 0, none, [], []⟩ (pre ++ c :: post)
            = none ∧
          aggLoop x (.mk p attrs (pre ++ post)) P ⟨r, 0, none, [], []⟩ (pre ++ post) = none) ∨
        ∃ t1 t2,
          aggLoop x (.mk p attrs (pre ++ c :: post)) P ⟨r, 0, none, [], []⟩ (pre ++ c :: post)
            = some t1 ∧
          aggLoop x (.mk p attrs (pre ++ post)) P ⟨r, 0, none, [], []⟩ (pre ++ post)
            = some t2 ∧
          t1.r = t2.r ∧ t1.istate = t2.istate ∧ t1.text = t2.text ∧ t1.out = t2.out) ∧
      (renderTextChildren x r (.mk p attrs (pre ++ c :: post)) true).out =
        (renderTextChildren x r (.mk p attrs (pre ++ post)) true).out ∧
      (renderTextChildren x r (.mk p attrs (pre ++ c :: post)) true).ret =
        (renderTextChildren x r (.mk p attrs (pre ++ post)) true).ret ∧
      (renderTextChildren x r (.mk p attrs (pre ++ c :: post)) true).r =
        (renderTextChildren x r (.mk p attrs (pre ++ post)) true).r := by
  have hloop := aggLoop_default_skip x (.mk p attrs (pre ++ c :: post))
    (.mk p attrs (pre ++ post)) P ⟨rfl, rfl⟩ pre post c ⟨r, 0, none, [], []⟩ hc hdbg
  have hfast1 : ¬ ∃ v raw soft hard a ch,
      pre ++ c :: post = [.mk (.Text v raw soft hard) a ch] := by
    rintro ⟨v, raw, soft, hard, a, ch, h⟩
    rcases pre with _ | ⟨d, pre⟩
    · simp only [List.nil_append, List.cons.injEq] at h
      rw [h.1] at hc
      simp [aggDefaultCase, Node.payload] at hc
    · simp at h
  have hd1 : aggDbgOut r P (pre ++ c :: post) = [] := by simp [aggDbgOut, hdbg]
  have hd2 : aggDbgOut r P (pre ++ post) = [] := by simp [aggDbgOut, hdbg]
  obtain ⟨a1, a2, a3⟩ := renderTextChildren_general x r p attrs (pre ++ c :: post) P hel hfast1
  obtain ⟨b1, b2, b3⟩ := renderTextChildren_general x r p attrs (pre ++ post) P hel hgen
  rw [hd1] at a1 a2 a3
  rw [hd2] at b1 b2 b3
  refine ⟨fun pn s hs => aggStep_default x pn P s c hc hs, hloop, ?_⟩
  rcases hloop with ⟨e1, e2⟩ | ⟨t1, t2, e1, e2, h1, h2, h3, h4⟩
  · rw [a1 e1, b1 e2]
    exact ⟨rfl, rfl, rfl⟩
  · cases ht : t1.text with
    | none =>
      rw [a2 t1 e1 ht, b2 t2 e2 (h3 ▸ ht)]
      exact ⟨h4, rfl, h1⟩
    | some t =>
      rw [a3 t1 t e1 ht, b3 t2 t e2 (h3 ▸ ht)]
      simp [Agg.flush, h1, h3, h4]

/-- C37, amended, at the paragraph `el2` with the children `Text "a"`, an `AutoLink`
and `Text "b"`: one text node holding `ab` is created. -/
theorem default_child_ignored_witness :
    (renderTextChildren plainExt sampleRenderer
        (.mk .Paragraph [⟨"el", .str "el2"⟩]
          [.mk (.Text "a" false false false) [] [],
            .mk (.AutoLink .AutoLinkURL (lit "http://x.org")) [] [],
            .mk (.Text "b" false false false) [] []]) true).out =
      ["const el3=document.createTextNode(`ab`);\n", "el2.appendChild(el3);\n"] :=
  (default_child_ignored plainExt sampleRenderer .Paragraph [⟨"el", .str "el2"⟩]
    [.mk (.Text "a" false false false) [] []] [.mk (.Text "b" false false false) [] []]
    (.mk (.AutoLink .AutoLinkURL (lit "http://x.org")) [] []) "el2"
    (by decide) (by decide) (by decide) (by simp)).2.2.1.trans (by decide)

/-- C38, at the failing input. On entry, a `FencedCodeBlock` without a
language with the lines `x := 1` and `y` puts `>x := 1\n>y\n` into the
template literal of `codeStr`, each line after a `>`, where a `CodeBlock`
with the same lines puts `x := 1\ny\n`; the other statements are the
same. -/
theorem fenced_lines_prefixed :
    (renderFencedCodeBlock sampleRenderer (some sampleDocument)
        (.mk (.FencedCodeBlock none ["x := 1\n", "y\n"]) [] []) true).out =
      ["let el3= document.createElement('pre');\n",
        "let el4= document.createElement('code');\n",
        "const codeStr=`>x := 1\n>y\n`\n;",
        "const el5= document.createTextNode(codeStr);\n",
        "el4.appendChild(el5);\n", "el3.appendChild(el4);\n"] ∧
      (renderCodeBlock sampleRenderer (some sampleDocument)
        (.mk (.CodeBlock ["x := 1\n", "y\n"]) [] []) true).out =
      ["let el3= document.createElement('pre');\n",
        "let el4= document.createElement('code');\n",
        "const codeStr=`x := 1\ny\n`\n;",
        "const el5= document.createTextNode(codeStr);\n",
        "el4.appendChild(el5);\n", "el3.appendChild(el4);\n"] := by
  decide

/-- A buffer that does not start with `---\n` is returned as `mdBuf`, with
a nil `yamlBuf`. -/
theorem GetYaml_no_header (buf : Option Bytes) (h : ¬ lit "---\n" <+: buf.getD []) :
    GetYaml buf = .ok (buf, none) := by
  have h0 : Index (buf.getD []) (lit "---\n") ≠ 0 := by
    intro h0
    rcases Index_cases (buf.getD []) (lit "---\n") with ⟨g, _⟩ | ⟨pre, post, g1, g2⟩
    · rw [g] at h0
      omega
    · rw [g2] at h0
      have hp : pre = [] := List.length_eq_zero.mp (by omega)
      subst hp
      exact h ⟨post, by rw [g1.1]; simp⟩
  simp [GetYaml, h0]

/-- C39, at the failing input. On `---\na: 1\n---\nbody\n`, which starts
with `---\n` and holds a later `---\n`, `GetYaml` returns the first ten
bytes `---\na: 1\n-` as `yamlBuf` and `--\nbody\n` as `mdBuf`: the cut is
after the first byte of the closing delimiter, not after its last. -/
theorem getYaml_cuts_inside_delimiter :
    GetYaml (some (lit "---\na: 1\n---\nbody\n")) =
        .ok (some (lit "--\nbody\n"), some (lit "---\na: 1\n-")) ∧
      lit "---\na: 1\n-" ≠ lit "---\na: 1\n---\n" := by
  decide

/-- C40. The transformer of the image attributes on a document: (1) after
`Transform` no node of the kind `ImgAttr` is left in the document; (2) the
nodes of the tree keep pairwise different addresses while the collected
nodes are processed; (3) when the `k`-th collected node, at the address `j`,
is processed and its previous sibling at that time is an `Image`, the image
is in the tree after the step with the attributes merged by `mergeAttrs`,
and every other node of the tree after the step is a node of the tree before
it with the same attributes; (4) the merged attributes give under every
name the value the image had, and under a name the image did not have the
first value the `ImgAttr` node has, and (5) they start with the attributes
the image had, so that a value once present is kept also when further
`ImgAttr` nodes follow; (6) when the previous sibling is not an `Image`, or
there is none, every node of the tree after the step is a node of the tree
before it with the same attributes. -/
theorem imgAttr_transform (doc : Node) (hdoc : doc.payload = .Document) :
    (∀ p ∈ kindsNode (Transform doc), isKindImgAttr p = false) ∧
      (∀ k, ((cellsNode (stateAt (labelNode doc 0).1 k)).map (fun c => c.1)).Nodup) ∧
      (∀ (k j : Nat) (prev attr : INode), (collectNode (labelNode doc 0).1)[k]? = some j →
        locateNode j (stateAt (labelNode doc 0).1 k) = some (some prev, attr) →
        isKindImage prev.payload = true →
          (prev.id, prev.payload, mergeAttrs prev.attrs attr.attrs) ∈
              cellsNode (stateAt (labelNode doc 0).1 (k + 1)) ∧
            ∀ c ∈ cellsNode (stateAt (labelNode doc 0).1 (k + 1)), c.1 ≠ prev.id →
              c ∈ cellsNode (stateAt (labelNode doc 0).1 k)) ∧
      (∀ (prev attrs : List Attribute) (name : String),
        (∀ v, AttributeString prev name = some v →
            AttributeString (mergeAttrs prev attrs) name = some v) ∧
          (AttributeString prev name = none →
            AttributeString (mergeAttrs prev attrs) name = AttributeString attrs name)) ∧
      (∀ prev attrs : List Attribute, prev <+: mergeAttrs prev attrs) ∧
      (∀ k j : Nat, (collectNode (labelNode doc 0).1)[k]? = some j →
        (∀ prev attr, locateNode j (stateAt (labelNode doc 0).1 k) = some (some prev, attr) →
          isKindImage prev.payload = false) →
        ∀ c ∈ cellsNode (stateAt (labelNode doc 0).1 (k + 1)),
          c ∈ cellsNode (stateAt (labelNode doc 0).1 k)) := by
  have hroot : isKindImgAttr (labelNode doc 0).1.payload = false := by
    rw [labelNode_payload, hdoc]
    rfl
  refine ⟨?_, ?_, ?_, fun prev attrs name => mergeAttrs_lookup name attrs prev,
    fun prev attrs => mergeAttrs_extends attrs prev, ?_⟩
  · intro p hp
    rw [Transform, kindsNode_erase] at hp
    obtain ⟨c, hc, e⟩ := List.mem_map.mp hp
    rw [← e]
    exact cellsNode_of_collect_nil _
      (foldl_processAttr_collect _ _ hroot (fun x hx => hx)).1 c hc
  · intro k
    exact foldl_processAttr_nodup _ _ (labelNode_nodup doc 0)
  · intro k j prev attr hj hl hi
    rw [stateAt_succ _ k j hj, processAttr_image _ j prev attr hl hi]
    exact ⟨locateNode_survives j _ prev attr _ hl,
      fun c hc hne => processAttr_frame _ j prev.id _ c hc hne⟩
  · intro k j hj hno c hc
    rw [stateAt_succ _ k j hj] at hc
    rcases processAttr_other _ j hno with e | e
    · rw [e] at hc
      exact (cellsNode_remove j _).subset hc
    · rw [e] at hc
      exact hc

/-- C40 at the sample document, a paragraph with an image that has `x=1`,
the `ImgAttr` nodes `x=2 y=3` and `y=4 z=5`, a text and the `ImgAttr` node
`w=6`: the image ends with `x=1 y=3 z=5`, the text is unchanged and no
`ImgAttr` node is left; after the first step the image has `x=1 y=3`. -/
theorem imgAttr_transform_witness :
    sampleImgDocument.payload = .Document ∧
      (∀ p ∈ kindsNode (Transform sampleImgDocument), isKindImgAttr p = false) ∧
      Transform sampleImgDocument =
        .mk .Document []
          [.mk .Paragraph []
            [.mk (.Image (lit "a.png") none)
                [⟨"x", .bytes "1"⟩, ⟨"y", .bytes "3"⟩, ⟨"z", .bytes "5"⟩] [],
              .mk (.Text "t" false false false) [] []]] ∧
      (2, Payload.Image (lit "a.png") none,
          mergeAttrs [⟨"x", .bytes "1"⟩] [⟨"x", .bytes "2"⟩, ⟨"y", .bytes "3"⟩]) ∈
        cellsNode (stateAt (labelNode sampleImgDocument 0).1 1) :=
  ⟨rfl, (imgAttr_transform sampleImgDocument rfl).1, rfl,
    ((imgAttr_transform sampleImgDocument rfl).2.2.1 0 3
      (.mk 2 (.Image (lit "a.png") none) [⟨"x", .bytes "1"⟩] [])
      (.mk 3 (.Other "ImgAttr") [⟨"x", .bytes "2"⟩, ⟨"y", .bytes "3"⟩] [])
      rfl rfl rfl).1⟩

end Md2Js
